import Mathlib

/-!
# Dense depth-map post-processing and fusion (`SceneDensify.cpp`)

A shallow embedding of the depth-map routines of `DepthMapsData`
(`EndDepthMapTmp`, `RemoveSmallSegments`, `GapInterpolation`, `FuseDepthMaps`)
together with machine-checked statements about them.

Conventions of the embedding:

* `float`/`Depth` values are exact rationals (`ℚ`); rounding is not modelled.
* An image `TImage α` is its size together with a total pixel function; a write
  `img(p) = v` is a point-wise update of that function.
* `ImageRef(x, y)` addresses column `x`, row `y`; the two-index access
  `img(row, col)` of the source is written `img.pix ⟨col, row⟩`.
* Loops that the source bounds by a buffer capacity are modelled with that
  capacity as explicit fuel, and the fuel is proved sufficient.
-/

set_option autoImplicit false

namespace MVS

/-! ## Data model -/

/-- Pixel address `ImageRef(x, y)` with signed coordinates, as in the source. -/
structure ImageRef where
  x : Int
  y : Int
deriving DecidableEq, Repr

/-- Depth value (`typedef float Depth`). -/
abbrev Depth := ℚ

/-- Three-component vector (`Point3`, `Point3f`, `Pixel32F`). -/
structure Point3 where
  x : ℚ
  y : ℚ
  z : ℚ
deriving DecidableEq, Repr

/-- Component-wise sum of two vectors. -/
def Point3.add (a b : Point3) : Point3 := ⟨a.x + b.x, a.y + b.y, a.z + b.z⟩

/-- Product of a vector with a scalar. -/
def Point3.smul (a : Point3) (c : ℚ) : Point3 := ⟨a.x * c, a.y * c, a.z * c⟩

/-- Scalar product of two vectors. -/
def Point3.dot (a b : Point3) : ℚ := a.x * b.x + a.y * b.y + a.z * b.z

/-- Surface normal (`Normal`, three floats). -/
abbrev Normal := Point3

/-- The constant `Normal::ZERO`. -/
def Normal.ZERO : Normal := ⟨0, 0, 0⟩

/-- Dense image `TImage<T>`: `cols` is the width, `rows` the height. -/
structure TImage (α : Type) where
  cols : Nat
  rows : Nat
  pix : ImageRef → α

/-- Test `img.empty()`: the image holds no pixel. -/
def TImage.empty {α : Type} (img : TImage α) : Bool :=
  img.cols == 0 || img.rows == 0

/-- Write `img(p) = v`. -/
def TImage.set {α : Type} (img : TImage α) (p : ImageRef) (v : α) : TImage α :=
  { img with pix := Function.update img.pix p v }

/-- Test `img.isInside(p)`. -/
def TImage.isInside {α : Type} (img : TImage α) (p : ImageRef) : Bool :=
  decide (0 ≤ p.x) && decide (0 ≤ p.y) && decide (p.x < (img.cols : Int)) &&
    decide (p.y < (img.rows : Int))

/-- The part of a `DepthData` used by the routines below: the three maps, the ids of the
ranked neighbour views (`neighbors[k].idx.ID`) and the number of views in `images`. -/
structure DepthData where
  depthMap : TImage Depth
  normalMap : TImage Normal
  confMap : TImage ℚ
  neighbors : List Nat := []
  nImages : Nat := 2

/-- Test `depthData.IsValid()`: the view list `images` is not empty. -/
def DepthData.IsValid (dd : DepthData) : Bool := dd.nImages != 0

/-- Test `depthData.IsEmpty()`: no depth map is resident. -/
def DepthData.IsEmpty (dd : DepthData) : Bool := dd.depthMap.empty

/-! ## `EndDepthMapTmp` (finalize phase of the PatchMatch estimator) -/

/-- Body of the `while` loop of `EndDepthMapTmp` for the pixel `x`
(`#if 1` branches of the source). -/
def endPixel (fNCCThresholdKeep : ℚ) (dd : DepthData) (x : ImageRef) : DepthData :=
  let depth := dd.depthMap.pix x
  let conf := dd.confMap.pix x
  if depth ≤ 0 ∨ conf ≥ fNCCThresholdKeep then
    { dd with
      confMap := dd.confMap.set x 0
      normalMap := dd.normalMap.set x Normal.ZERO
      depthMap := dd.depthMap.set x 0 }
  else
    { dd with confMap := dd.confMap.set x (if conf ≥ 1 then 0 else 1 - conf) }

/-- The routine `EndDepthMapTmp`: every index of the pixel partition `coords` is claimed
once (the shared counter `idxPixel`) and its pixel finalized. -/
def EndDepthMapTmp (fNCCThresholdKeep : ℚ) (coords : List ImageRef) (dd : DepthData) :
    DepthData :=
  coords.foldl (endPixel fNCCThresholdKeep) dd

/-! ## `RemoveSmallSegments` (speckle removal) -/

/-- Test `addr.x>=0 && addr.y>=0 && addr.x<size.x && addr.y<size.y` against the size of the
depth-map. -/
def inImage (depthMap : TImage Depth) (addr : ImageRef) : Prop :=
  0 ≤ addr.x ∧ 0 ≤ addr.y ∧ addr.x < (depthMap.cols : Int) ∧ addr.y < (depthMap.rows : Int)

instance (depthMap : TImage Depth) (addr : ImageRef) : Decidable (inImage depthMap addr) := by
  unfold inImage
  infer_instance

/-- State of the segment-growing `while` loop: the map `done_map`, the used part of the
buffer `seg_list` (its length is `seg_list_count`) and the cursor `seg_list_curr`. -/
structure SegState where
  done_map : TImage Bool
  seg_list : List ImageRef
  seg_list_curr : Nat

/-- The array `neighbor[4]` filled for the pixel `addr_curr`. -/
def neighbors4 (addr_curr : ImageRef) : List ImageRef :=
  [⟨addr_curr.x - 1, addr_curr.y⟩, ⟨addr_curr.x + 1, addr_curr.y⟩,
   ⟨addr_curr.x, addr_curr.y - 1⟩, ⟨addr_curr.x, addr_curr.y + 1⟩]

/-- Body of `for (int i=0; i<4; ++i)`: try to add the neighbour to the segment. The
argument `sim` is `IsDepthSimilar(·, ·, fDepthDiffThreshold)`. -/
def visitNeighbor (sim : Depth → Depth → Bool) (depthMap : TImage Depth) (depth_curr : Depth)
    (st : SegState) (addr_neighbor : ImageRef) : SegState :=
  if inImage depthMap addr_neighbor then
    if st.done_map.pix addr_neighbor = false then
      let depth_neighbor := depthMap.pix addr_neighbor
      if depth_neighbor > 0 ∧ sim depth_curr depth_neighbor = true then
        { st with
          seg_list := st.seg_list ++ [addr_neighbor]
          done_map := st.done_map.set addr_neighbor true }
      else st
    else st
  else st

/-- The loop `while (seg_list_curr < seg_list_count)`; `fuel` bounds the number of
iterations (the caller passes the capacity `size.x*size.y` of `seg_list`). -/
def growSegment (sim : Depth → Depth → Bool) (depthMap : TImage Depth) :
    Nat → SegState → SegState
  | 0, st => st
  | fuel + 1, st =>
    if st.seg_list_curr < st.seg_list.length then
      let addr_curr := st.seg_list.getD st.seg_list_curr ⟨0, 0⟩
      let depth_curr := depthMap.pix addr_curr
      let st1 :=
        if depth_curr > 0 then
          (neighbors4 addr_curr).foldl (visitNeighbor sim depthMap depth_curr) st
        else st
      growSegment sim depthMap fuel
        { st1 with
          seg_list_curr := st1.seg_list_curr + 1
          done_map := st1.done_map.set addr_curr true }
    else st

/-- Body of the invalidation loop for the pixel `p = seg_list[i]`. -/
def invalidatePixel (dd : DepthData) (p : ImageRef) : DepthData :=
  { dd with
    depthMap := dd.depthMap.set p 0
    normalMap := if !dd.normalMap.empty then dd.normalMap.set p Normal.ZERO else dd.normalMap
    confMap := if !dd.confMap.empty then dd.confMap.set p 0 else dd.confMap }

/-- The loop "for all pixels in current segment invalidate pixels". -/
def invalidateSegment (depthData : DepthData) (seg_list : List ImageRef) : DepthData :=
  seg_list.foldl invalidatePixel depthData

/-- State of the two outer loops of `RemoveSmallSegments`. -/
structure SpeckleState where
  depthData : DepthData
  done_map : TImage Bool

/-- Body of the loops `for u, for v` for the seed pixel `seed = ImageRef(u,v)`. -/
def removeSegmentAt (sim : Depth → Depth → Bool) (speckle_size : Nat) (st : SpeckleState)
    (seed : ImageRef) : SpeckleState :=
  if st.done_map.pix seed = true then st
  else
    let depthMap := st.depthData.depthMap
    let seg := growSegment sim depthMap (depthMap.cols * depthMap.rows)
      { done_map := st.done_map, seg_list := [seed], seg_list_curr := 0 }
    { depthData :=
        if seg.seg_list.length < speckle_size then invalidateSegment st.depthData seg.seg_list
        else st.depthData
      done_map := seg.done_map }

/-- Pixel addresses in the order of the loops `for u < size.x, for v < size.y`. -/
def colMajor (cols rows : Nat) : List ImageRef :=
  (List.range cols).flatMap
    (fun (u : Nat) => (List.range rows).map (fun (v : Nat) => ⟨(u : Int), (v : Int)⟩))

/-- The routine `DepthMapsData::RemoveSmallSegments(depthData)` for the options
`fDepthDiffThreshold` and `nSpeckleSize`; `IsDepthSimilar` is the similarity predicate of the
header (a parameter here). -/
def RemoveSmallSegments (IsDepthSimilar : Depth → Depth → ℚ → Bool) (fDepthDiffThreshold : ℚ)
    (nSpeckleSize : Nat) (depthData : DepthData) : DepthData :=
  let threshold := fDepthDiffThreshold * (7/10)
  let depthMap := depthData.depthMap
  ((colMajor depthMap.cols depthMap.rows).foldl
    (removeSegmentAt (fun d0 d1 => IsDepthSimilar d0 d1 threshold) nSpeckleSize)
    { depthData := depthData
      done_map := ⟨depthMap.cols, depthMap.rows, fun _ => false⟩ }).depthData

/-- Link followed by the flood fill from a pixel `a` to a pixel `b` when the pixels marked in
`done` are closed: `a` is valid, `b` is one of its four neighbours inside the image, not
marked, valid and depth-similar to `a`. -/
def SegEdge (sim : Depth → Depth → Bool) (depthMap : TImage Depth) (done : TImage Bool)
    (a b : ImageRef) : Prop :=
  0 < depthMap.pix a ∧ b ∈ neighbors4 a ∧ inImage depthMap b ∧ done.pix b = false ∧
    0 < depthMap.pix b ∧ sim (depthMap.pix a) (depthMap.pix b) = true

/-- Pixels reached by the flood fill from `s`. -/
def SegReach (sim : Depth → Depth → Bool) (depthMap : TImage Depth) (done : TImage Bool)
    (s q : ImageRef) : Prop :=
  Relation.ReflTransGen (SegEdge sim depthMap done) s q

/-- Two pixels of the image are joined: both valid, 4-adjacent and depth-similar. -/
def Joined (sim : Depth → Depth → Bool) (depthMap : TImage Depth) (a b : ImageRef) : Prop :=
  inImage depthMap a ∧ inImage depthMap b ∧ 0 < depthMap.pix a ∧ 0 < depthMap.pix b ∧
    b ∈ neighbors4 a ∧ sim (depthMap.pix a) (depthMap.pix b) = true

/-- Pixels `p` and `q` lie in the same 4-connected component of valid, pairwise adjacent
depth-similar pixels. -/
def Connected (sim : Depth → Depth → Bool) (depthMap : TImage Depth) (p q : ImageRef) : Prop :=
  Relation.ReflTransGen (Joined sim depthMap) p q

/-- Invariant of the flood fill from the seed `s` started with the marks `D0`. -/
structure SegInv (sim : Depth → Depth → Bool) (M : TImage Depth) (D0 : TImage Bool)
    (s : ImageRef) (st : SegState) : Prop where
  nodup : st.seg_list.Nodup
  head : st.seg_list.head? = some s
  inb : ∀ q ∈ st.seg_list, inImage M q ∧ D0.pix q = false
  reach : ∀ q ∈ st.seg_list, SegReach sim M D0 s q
  done : ∀ p, st.done_map.pix p = true ↔
    (D0.pix p = true ∨ (p ∈ st.seg_list ∧ (p ≠ s ∨ 0 < st.seg_list_curr)))
  curr_le : st.seg_list_curr ≤ st.seg_list.length
  shape : st.done_map.cols = D0.cols ∧ st.done_map.rows = D0.rows

/-- Every link out of an already processed element of `seg_list` stays inside it. -/
def SegClosed (sim : Depth → Depth → Bool) (M : TImage Depth) (D0 : TImage Bool)
    (st : SegState) : Prop :=
  ∀ a ∈ st.seg_list.take st.seg_list_curr, ∀ b, SegEdge sim M D0 a b → b ∈ st.seg_list

/-- The pixel `p` is invalidated in `dd`: depth 0, and normal and confidence 0 in the maps
that are allocated. -/
def Zeroed (dd : DepthData) (p : ImageRef) : Prop :=
  dd.depthMap.pix p = 0 ∧
  (dd.normalMap.empty = false → dd.normalMap.pix p = Normal.ZERO) ∧
  (dd.confMap.empty = false → dd.confMap.pix p = 0)

/-- The maps of `dd` and `dd'` hold the same depth, normal and confidence at `p`. -/
def AgreeAt (dd dd' : DepthData) (p : ImageRef) : Prop :=
  dd.depthMap.pix p = dd'.depthMap.pix p ∧ dd.normalMap.pix p = dd'.normalMap.pix p ∧
  dd.confMap.pix p = dd'.confMap.pix p

/-- The data `dd` and `dd'` differ at most in the pixel values of their three maps. -/
def SameShape (dd dd' : DepthData) : Prop :=
  dd.depthMap.cols = dd'.depthMap.cols ∧ dd.depthMap.rows = dd'.depthMap.rows ∧
  dd.normalMap.cols = dd'.normalMap.cols ∧ dd.normalMap.rows = dd'.normalMap.rows ∧
  dd.confMap.cols = dd'.confMap.cols ∧ dd.confMap.rows = dd'.confMap.rows ∧
  dd.neighbors = dd'.neighbors ∧ dd.nImages = dd'.nImages

/-- Invariant of the outer loops of `RemoveSmallSegments` on the input `dd0` for a symmetric
similarity: unmarked pixels are untouched, the marked pixels form whole components, and a
marked pixel is invalidated or untouched according to the size of its component. -/
structure CompInv (sim : Depth → Depth → Bool) (k : Nat) (dd0 : DepthData)
    (A : SpeckleState) : Prop where
  shape : SameShape A.depthData dd0
  fresh : ∀ p, A.done_map.pix p = false → AgreeAt A.depthData dd0 p
  whole : ∀ p q, Joined sim dd0.depthMap p q → A.done_map.pix p = true →
    A.done_map.pix q = true
  settled : ∀ p, A.done_map.pix p = true → inImage dd0.depthMap p →
    ∃ L : List ImageRef, L.Nodup ∧ (∀ q, q ∈ L ↔ Connected sim dd0.depthMap p q) ∧
      (L.length < k → Zeroed A.depthData p) ∧ (k ≤ L.length → AgreeAt A.depthData dd0 p)

/-- A `cols × rows` depth data whose three maps are given by functions of the pixel. -/
def mkDepthData (cols rows : Nat) (depth : ImageRef → Depth) (normal : ImageRef → Normal)
    (conf : ImageRef → ℚ) : DepthData :=
  { depthMap := ⟨cols, rows, depth⟩
    normalMap := ⟨cols, rows, normal⟩
    confMap := ⟨cols, rows, conf⟩ }

/-! ## `GapInterpolation` (small-gap filling) -/

/-- Two-component direction (`Point2f`). -/
structure Point2f where
  x : ℚ
  y : ℚ
deriving DecidableEq, Repr

/-- Component-wise sum of two directions. -/
def Point2f.add (a b : Point2f) : Point2f := ⟨a.x + b.x, a.y + b.y⟩

/-- Component-wise difference of two directions. -/
def Point2f.sub (a b : Point2f) : Point2f := ⟨a.x - b.x, a.y - b.y⟩

/-- Division of a direction by a scalar. -/
def Point2f.div (a : Point2f) (c : ℚ) : Point2f := ⟨a.x / c, a.y / c⟩

/-- Product of a direction with a scalar. -/
def Point2f.smul (a : Point2f) (c : ℚ) : Point2f := ⟨a.x * c, a.y * c⟩

/-- The loop `do { ... } while (++u_curr<u)` that writes the interpolated values: `n` is the
number of iterations `u - u_curr` (at least one where the loop is entered), `pixel` maps a
position of the scanned line to its address, `d` and `dir1` are the running depth and
direction. Both branches of the source (`normalMap.empty()` or not) are covered: the normal
is written only into an allocated normal map, the confidence only into an allocated
confidence map. -/
def gapFill (Dir2Normal : Point2f → Normal) (pixel : Nat → ImageRef) (diff : Depth) (c : ℚ)
    (dirDiff : Point2f) : Nat → Nat → Depth → Point2f → DepthData → DepthData
  | 0, _, _, _, dd => dd
  | n + 1, u_curr, d, dir1, dd =>
    gapFill Dir2Normal pixel diff c dirDiff n (u_curr + 1) (d + diff) (dir1.add dirDiff)
      { dd with
        depthMap := dd.depthMap.set (pixel u_curr) (d + diff)
        normalMap := if dd.normalMap.empty then dd.normalMap
          else dd.normalMap.set (pixel u_curr) (Dir2Normal (dir1.add dirDiff))
        confMap := if dd.confMap.empty then dd.confMap
          else dd.confMap.set (pixel u_curr) c }

/-- State of the scan of one line: the maps and the counter `count`. -/
structure GapState where
  depthData : DepthData
  count : Nat

/-- Body of the inner loop of `GapInterpolation` at the position `u` of a line (`u` is the
column in the row-wise pass and the row in the column-wise pass). `sim` is
`IsDepthSimilar(·, ·, fDepthDiffThreshold)`. -/
def gapStep (sim : Depth → Depth → Bool) (Normal2Dir : Normal → Point2f)
    (Dir2Normal : Point2f → Normal) (nIpolGapSize : Nat) (pixel : Nat → ImageRef)
    (st : GapState) (u : Nat) : GapState :=
  let dd := st.depthData
  let depth := dd.depthMap.pix (pixel u)
  if depth ≤ 0 then { st with count := st.count + 1 }
  else if st.count = 0 then st
  else if st.count ≤ nIpolGapSize ∧ u > st.count then
    let u_curr := u - st.count
    let u_first := u_curr - 1
    let depthFirst := dd.depthMap.pix (pixel u_first)
    if sim depthFirst depth = true then
      let diff := (depth - depthFirst) / ((st.count : ℚ) + 1)
      let c := if dd.confMap.empty then 0
        else min (dd.confMap.pix (pixel u_first)) (dd.confMap.pix (pixel u))
      let dir1 := Normal2Dir (dd.normalMap.pix (pixel u_first))
      let dir2 := Normal2Dir (dd.normalMap.pix (pixel u))
      let dirDiff := (dir2.sub dir1).div ((st.count : ℚ) + 1)
      { depthData := gapFill Dir2Normal pixel diff c dirDiff st.count u_curr depthFirst dir1 dd
        count := 0 }
    else { st with count := 0 }
  else { st with count := 0 }

/-- Scan of one line of `n` positions, starting with `count = 0`. -/
def gapLine (sim : Depth → Depth → Bool) (Normal2Dir : Normal → Point2f)
    (Dir2Normal : Point2f → Normal) (nIpolGapSize : Nat) (n : Nat) (pixel : Nat → ImageRef)
    (dd : DepthData) : DepthData :=
  ((List.range n).foldl (gapStep sim Normal2Dir Dir2Normal nIpolGapSize pixel) ⟨dd, 0⟩).depthData

/-- One pass of `GapInterpolation` over `m` lines of `n` positions each; `pixel l u` is the
address of the position `u` of the line `l`. -/
def gapPass (sim : Depth → Depth → Bool) (Normal2Dir : Normal → Point2f)
    (Dir2Normal : Point2f → Normal) (nIpolGapSize : Nat) (m n : Nat)
    (pixel : Nat → Nat → ImageRef) (dd : DepthData) : DepthData :=
  (List.range m).foldl
    (fun dd l => gapLine sim Normal2Dir Dir2Normal nIpolGapSize n (pixel l) dd) dd

/-- Address of the position `u` of the row `v`: `depthMap(v,u)`. -/
def rowPixel (v u : Nat) : ImageRef := ⟨(u : Int), (v : Int)⟩

/-- Address of the position `v` of the column `u`: `depthMap(v,u)`. -/
def colPixel (u v : Nat) : ImageRef := ⟨(u : Int), (v : Int)⟩

/-- The row-wise pass ("1. Row-wise") of `GapInterpolation`. -/
def gapRows (IsDepthSimilar : Depth → Depth → ℚ → Bool) (Normal2Dir : Normal → Point2f)
    (Dir2Normal : Point2f → Normal) (fDepthDiffThreshold : ℚ) (nIpolGapSize : Nat)
    (depthData : DepthData) : DepthData :=
  gapPass (fun d0 d1 => IsDepthSimilar d0 d1 (fDepthDiffThreshold * (5/2))) Normal2Dir
    Dir2Normal nIpolGapSize depthData.depthMap.rows depthData.depthMap.cols rowPixel depthData

/-- The column-wise pass ("2. Column-wise") of `GapInterpolation`. -/
def gapCols (IsDepthSimilar : Depth → Depth → ℚ → Bool) (Normal2Dir : Normal → Point2f)
    (Dir2Normal : Point2f → Normal) (fDepthDiffThreshold : ℚ) (nIpolGapSize : Nat)
    (depthData : DepthData) : DepthData :=
  gapPass (fun d0 d1 => IsDepthSimilar d0 d1 (fDepthDiffThreshold * (5/2))) Normal2Dir
    Dir2Normal nIpolGapSize depthData.depthMap.cols depthData.depthMap.rows colPixel depthData

/-- The routine `DepthMapsData::GapInterpolation(depthData)` for the options
`fDepthDiffThreshold` and `nIpolGapSize`: the row-wise pass followed by the column-wise pass.
`IsDepthSimilar`, `Normal2Dir` and `Dir2Normal` are the helpers of the headers (parameters
here). -/
def GapInterpolation (IsDepthSimilar : Depth → Depth → ℚ → Bool)
    (Normal2Dir : Normal → Point2f) (Dir2Normal : Point2f → Normal) (fDepthDiffThreshold : ℚ)
    (nIpolGapSize : Nat) (depthData : DepthData) : DepthData :=
  gapCols IsDepthSimilar Normal2Dir Dir2Normal fDepthDiffThreshold nIpolGapSize
    (gapRows IsDepthSimilar Normal2Dir Dir2Normal fDepthDiffThreshold nIpolGapSize depthData)

/-- The positions `s ≤ j < e` of a line of `n` positions form a gap that the scan fills: a
run of at most `gap` invalid pixels, bounded on the left by a valid pixel inside the line and
on the right by a valid pixel that the left one is depth-similar to. -/
def FillableRun (sim : Depth → Depth → Bool) (gap n : Nat) (pixel : Nat → ImageRef)
    (dd : DepthData) (s e : Nat) : Prop :=
  1 ≤ s ∧ s < e ∧ e < n ∧ e - s ≤ gap ∧
  0 < dd.depthMap.pix (pixel (s - 1)) ∧ 0 < dd.depthMap.pix (pixel e) ∧
  (∀ j, s ≤ j → j < e → dd.depthMap.pix (pixel j) ≤ 0) ∧
  sim (dd.depthMap.pix (pixel (s - 1))) (dd.depthMap.pix (pixel e)) = true

/-- The values that the scan writes at the position `i` of the gap `s ≤ i < e` of the input
`dd0`, found in `dd`: the depth is interpolated linearly between the bounding depths, the
normal between the bounding directions, the confidence is the smaller bounding confidence
(normal and confidence stay as they are in maps that are not allocated). -/
def FilledAt (Normal2Dir : Normal → Point2f) (Dir2Normal : Point2f → Normal)
    (pixel : Nat → ImageRef) (dd0 dd : DepthData) (s e i : Nat) : Prop :=
  dd.depthMap.pix (pixel i) =
    dd0.depthMap.pix (pixel (s - 1)) + ((i : ℚ) - s + 1) *
      ((dd0.depthMap.pix (pixel e) - dd0.depthMap.pix (pixel (s - 1))) / ((e : ℚ) - s + 1)) ∧
  dd.normalMap.pix (pixel i) =
    (if dd0.normalMap.empty then dd0.normalMap.pix (pixel i)
     else Dir2Normal ((Normal2Dir (dd0.normalMap.pix (pixel (s - 1)))).add
      ((((Normal2Dir (dd0.normalMap.pix (pixel e))).sub
        (Normal2Dir (dd0.normalMap.pix (pixel (s - 1))))).div ((e : ℚ) - s + 1)).smul
          ((i : ℚ) - s + 1)))) ∧
  dd.confMap.pix (pixel i) =
    (if dd0.confMap.empty then dd0.confMap.pix (pixel i)
     else min (dd0.confMap.pix (pixel (s - 1))) (dd0.confMap.pix (pixel e)))

/-- Invariant of the scan of a line of the input `dd0` before the position `u`: the counter
measures the run of invalid pixels that ends before `u`; every pixel is untouched or lies in a
gap that was filled; and every fillable gap that ends before `u` is filled. -/
structure GapInv (sim : Depth → Depth → Bool) (N2D : Normal → Point2f)
    (D2N : Point2f → Normal) (gap n : Nat) (pixel : Nat → ImageRef) (dd0 : DepthData)
    (u : Nat) (st : GapState) : Prop where
  shape : SameShape st.depthData dd0
  count_le : st.count ≤ u
  run : ∀ j, u - st.count ≤ j → j < u → dd0.depthMap.pix (pixel j) ≤ 0
  bound : st.count < u → 0 < dd0.depthMap.pix (pixel (u - st.count - 1))
  sound : ∀ p, AgreeAt st.depthData dd0 p ∨
    ∃ s e i, p = pixel i ∧ FillableRun sim gap n pixel dd0 s e ∧ s ≤ i ∧ i < e ∧ e < u ∧
      FilledAt N2D D2N pixel dd0 st.depthData s e i
  complete : ∀ s e, FillableRun sim gap n pixel dd0 s e → e < u → ∀ i, s ≤ i → i < e →
    FilledAt N2D D2N pixel dd0 st.depthData s e i

/-! ## `FuseDepthMaps` (visibility-aware fusion) -/

/-- Weight of a depth estimate, `Conf2Weight`:
`1.f/(MAXF(1.f-conf,0.03f)*depth*depth)`. -/
def Conf2Weight (conf : ℚ) (depth : Depth) : ℚ :=
  1 / (max (1 - conf) (3/100) * depth * depth)

/-- The sentinel `NO_ID` (`uint32_t(-1)`). -/
def NO_ID : Nat := 4294967295

/-- Entry of `scene.images`: the image size and the length of its neighbour list. -/
structure Image where
  width : Nat
  height : Nat
  nNeighbors : Nat

/-- The point cloud `PointCloud` with its parallel arrays. -/
structure PointCloud where
  points : List Point3 := []
  pointViews : List (List Nat) := []
  pointWeights : List (List ℚ) := []
  colors : List Point3 := []
  normals : List Normal := []

/-- Everything `FuseDepthMaps` takes from outside this file: the scene images, the fusion
options of `OPTDENSE`, and the camera, image and container operations whose code lives in
other files (taken as they are, without assumptions). -/
structure FuseEnv where
  images : List Image
  nMinViewsFuse : Nat
  fDepthDiffThreshold : ℚ
  normalError : ℚ
  TransformPointI2W : Nat → ImageRef → Depth → Point3
  ProjectPointP3 : Nat → Point3 → Point3
  ROUND2INT : ℚ → Int
  worldNormal : Nat → Normal → Normal
  color : Nat → ImageRef → Point3
  toPixel8U : Point3 → Point3
  normalized : Normal → Normal
  IsDepthSimilar : Depth → Depth → ℚ → Bool
  GetNormal : DepthData → ImageRef → Normal
  IncRef : Nat → Nat
  sortConnections : List (Nat × Nat) → List (Nat × Nat)

/-- Pixel coordinates packed as `Proj(const ImageRef&)`: two `uint16_t`. -/
structure Proj where
  x : Nat
  y : Nat
deriving DecidableEq, Repr

/-- Constructor `Proj(const ImageRef& ir)`: both coordinates are narrowed to 16 bits. -/
def Proj.ofImageRef (ir : ImageRef) : Proj :=
  ⟨(ir.x % 65536).toNat, (ir.y % 65536).toNat⟩

/-- Accessor `Proj::GetCoord`. -/
def Proj.GetCoord (p : Proj) : ImageRef := ⟨(p.x : Int), (p.y : Int)⟩

/-- Modelled from the spec: `cList::InsertSort` of the container library (not in this file)
returns the position that keeps an ascending list ascending, the number of leading elements
smaller than the new one ("`pointViews` (sorted list of image ids that see each point)"). -/
def insertSortIdx (views : List Nat) (v : Nat) : Nat :=
  (views.takeWhile (fun a => decide (a < v))).length

/-- Container operation `cList::InsertAt(idx, v)`. -/
def insertAt {α : Type} (l : List α) (idx : Nat) (v : α) : List α :=
  l.take idx ++ v :: l.drop idx

/-- Replace the last element of an array (a write through the reference returned by
`AddEmpty`). -/
def setLast {α : Type} (l : List α) (v : α) : List α :=
  l.dropLast ++ [v]

/-- Mutable state of the fusion loops. -/
structure FuseState where
  pointcloud : PointCloud
  arrDepthData : Nat → DepthData
  arrDepthIdx : Nat → TImage Nat
  projs : List (List Proj)
  nDepths : Nat

/-- Locals of the neighbour loop for the point under construction. -/
structure PointAcc where
  views : List Nat
  weights : List ℚ
  pointProjs : List Proj
  X : Point3
  C : Point3
  N : Normal
  confidence : ℚ
  invalidDepths : List (Nat × ImageRef)
  arrDepthIdx : Nat → TImage Nat

/-- Body of `FOREACHPTR(pNeighbor, depthData.neighbors)` for the neighbour image
`idxImageB`: test the projection of `point` in that depth-map. -/
def fuseNeighbor (env : FuseEnv) (bEstimateColor bEstimateNormal bNormalMap : Bool)
    (arrDepthData : Nat → DepthData) (point : Point3) (normal : Normal) (idxPoint : Nat)
    (acc : PointAcc) (idxImageB : Nat) : PointAcc :=
  let depthDataB := arrDepthData idxImageB
  if depthDataB.IsEmpty then acc else
  let pt := env.ProjectPointP3 idxImageB point
  if pt.z ≤ 0 then acc else
  let xB : ImageRef := ⟨env.ROUND2INT (pt.x / pt.z), env.ROUND2INT (pt.y / pt.z)⟩
  if !depthDataB.depthMap.isInside xB then acc else
  let depthB := depthDataB.depthMap.pix xB
  if depthB = 0 then acc else
  if (acc.arrDepthIdx idxImageB).pix xB ≠ NO_ID then acc else
  let normalB : Normal :=
    if bNormalMap then env.worldNormal idxImageB (depthDataB.normalMap.pix xB) else ⟨0, 0, -1⟩
  if env.IsDepthSimilar pt.z depthB env.fDepthDiffThreshold = true ∧
      normal.dot normalB > env.normalError then
    let confidenceB := Conf2Weight (depthDataB.confMap.pix xB) depthB
    let idx := insertSortIdx acc.views idxImageB
    { acc with
      views := insertAt acc.views idx idxImageB
      weights := insertAt acc.weights idx confidenceB
      pointProjs := insertAt acc.pointProjs idx (Proj.ofImageRef xB)
      arrDepthIdx := Function.update acc.arrDepthIdx idxImageB
        ((acc.arrDepthIdx idxImageB).set xB idxPoint)
      X := acc.X.add ((env.TransformPointI2W idxImageB xB depthB).smul confidenceB)
      C := if bEstimateColor then acc.C.add ((env.color idxImageB xB).smul confidenceB)
        else acc.C
      N := if bEstimateNormal then acc.N.add (normalB.smul confidenceB) else acc.N
      confidence := acc.confidence + confidenceB }
  else if pt.z < depthB then
    { acc with invalidDepths := acc.invalidDepths ++ [(idxImageB, xB)] }
  else acc

/-- Loop `FOREACH(v, views)` of the discard branch: release the claim of every observer. -/
def releaseClaims (arrDepthIdx : Nat → TImage Nat) (views : List Nat)
    (pointProjs : List Proj) : Nat → TImage Nat :=
  (List.zip views pointProjs).foldl
    (fun idxs vp => Function.update idxs vp.1 ((idxs vp.1).set vp.2.GetCoord NO_ID))
    arrDepthIdx

/-- Loop `for (Depth* pDepth: invalidDepths) *pDepth = 0`. -/
def invalidateDepths (arrDepthData : Nat → DepthData) (invalidDepths : List (Nat × ImageRef)) :
    Nat → DepthData :=
  invalidDepths.foldl
    (fun arr ip => Function.update arr ip.1
      { arr ip.1 with depthMap := (arr ip.1).depthMap.set ip.2 0 })
    arrDepthData

/-- Body of the two pixel loops of `FuseDepthMaps` for the pixel `x` of the reference
image `idxImage`. -/
def fusePixel (env : FuseEnv) (bEstimateColor bEstimateNormal bNormalMap : Bool)
    (idxImage : Nat) (st : FuseState) (x : ImageRef) : FuseState :=
  let depthData := st.arrDepthData idxImage
  let depth := depthData.depthMap.pix x
  if depth = 0 then st else
  let nDepths := st.nDepths + 1
  if (st.arrDepthIdx idxImage).pix x ≠ NO_ID then { st with nDepths := nDepths } else
  let nMinViewsFuse := min env.nMinViewsFuse env.images.length
  -- create the corresponding 3D point
  let idxPoint := st.pointcloud.points.length % 4294967296
  let arrDepthIdx := Function.update st.arrDepthIdx idxImage
    ((st.arrDepthIdx idxImage).set x idxPoint)
  let point := env.TransformPointI2W idxImage x depth
  let confidence := Conf2Weight (depthData.confMap.pix x) depth
  let points := st.pointcloud.points ++ [point]
  let pointViews := st.pointcloud.pointViews ++ [[idxImage]]
  let pointWeights := st.pointcloud.pointWeights ++ [[confidence]]
  let projs := st.projs ++ [[Proj.ofImageRef x]]
  let normal : Normal :=
    if bNormalMap then env.worldNormal idxImage (depthData.normalMap.pix x) else ⟨0, 0, -1⟩
  -- check the projection in the neighbor depth-maps
  let acc := depthData.neighbors.foldl
    (fuseNeighbor env bEstimateColor bEstimateNormal bNormalMap st.arrDepthData point normal
      idxPoint)
    { views := [idxImage]
      weights := [confidence]
      pointProjs := [Proj.ofImageRef x]
      X := point.smul confidence
      C := (env.color idxImage x).smul confidence
      N := normal.smul confidence
      confidence := confidence
      invalidDepths := []
      arrDepthIdx := arrDepthIdx }
  if acc.views.length < nMinViewsFuse then
    -- remove point
    { st with
      nDepths := nDepths
      arrDepthIdx := releaseClaims acc.arrDepthIdx acc.views acc.pointProjs
      projs := projs.dropLast
      pointcloud :=
        { st.pointcloud with
          pointWeights := pointWeights.dropLast
          pointViews := pointViews.dropLast
          points := points.dropLast } }
  else
    -- this point is valid, store it
    let nrm := 1 / acc.confidence
    { nDepths := nDepths
      arrDepthIdx := acc.arrDepthIdx
      projs := setLast projs acc.pointProjs
      arrDepthData := invalidateDepths st.arrDepthData acc.invalidDepths
      pointcloud :=
        { points := setLast points (acc.X.smul nrm)
          pointViews := setLast pointViews acc.views
          pointWeights := setLast pointWeights acc.weights
          colors := if bEstimateColor then
              st.pointcloud.colors ++ [env.toPixel8U (acc.C.smul nrm)]
            else st.pointcloud.colors
          normals := if bEstimateNormal then
              st.pointcloud.normals ++ [env.normalized (acc.N.smul nrm)]
            else st.pointcloud.normals } }

/-- Pixel addresses of a `rows × cols` map in the order of the loops
`for i < rows, for j < cols` with `x = ImageRef(j, i)`. -/
def rowMajor (rows cols : Nat) : List ImageRef :=
  (List.range rows).flatMap
    (fun (i : Nat) => (List.range cols).map (fun (j : Nat) => ⟨(j : Int), (i : Int)⟩))

/-- A freshly created claim grid: `create(size)` followed by `memset((uint8_t)NO_ID)`. -/
def newDepthIndex (cols rows : Nat) : TImage Nat := ⟨cols, rows, fun _ => NO_ID⟩

/-- Loop over `depthData.neighbors` that allocates the claim grid of every neighbour whose
depth-map is resident. -/
def allocNeighborIdx (arrDepthData : Nat → DepthData) (arrDepthIdx : Nat → TImage Nat)
    (neighbors : List Nat) : Nat → TImage Nat :=
  neighbors.foldl
    (fun idxs nb =>
      if !(idxs nb).empty then idxs
      else if (arrDepthData nb).IsEmpty then idxs
      else Function.update idxs nb
        (newDepthIndex (arrDepthData nb).depthMap.cols (arrDepthData nb).depthMap.rows))
    arrDepthIdx

/-- Body of `FOREACHPTR(pConnection, connections)`: fuse the depth-map of `idxImage`. -/
def fuseImage (env : FuseEnv) (bEstimateColor bEstimateNormal bNormalMap : Bool)
    (st : FuseState) (idxImage : Nat) : FuseState :=
  let depthData := st.arrDepthData idxImage
  let idxs1 := allocNeighborIdx st.arrDepthData st.arrDepthIdx depthData.neighbors
  let imageData := env.images.getD idxImage ⟨0, 0, 0⟩
  let idxs2 :=
    if (idxs1 idxImage).empty then
      Function.update idxs1 idxImage (newDepthIndex imageData.width imageData.height)
    else idxs1
  (rowMajor depthData.depthMap.rows depthData.depthMap.cols).foldl
    (fusePixel env bEstimateColor bEstimateNormal bNormalMap idxImage)
    { st with arrDepthIdx := idxs2 }

/-- The first loop of `FuseDepthMaps` ("find best connected images"): collects the
connections `(idx, score)` of the valid images and whether all of them carry a normal map;
`none` when a depth-map cannot be loaded (`IncRef(...) == 0`, the routine returns). -/
def findConnections (env : FuseEnv) (arrDepthData : Nat → DepthData) :
    Option (List (Nat × Nat) × Bool) :=
  (List.range env.images.length).foldl
    (fun r i =>
      match r with
      | none => none
      | some (connections, bNormalMap) =>
        let depthData := arrDepthData i
        if !depthData.IsValid then some (connections, bNormalMap)
        else if env.IncRef i = 0 then none
        else some (connections ++ [(i, (env.images.getD i ⟨0, 0, 0⟩).nNeighbors)],
          if depthData.normalMap.empty then false else bNormalMap))
    (some ([], true))

/-- Index of the largest weight, first among equals (the loop over `weights` of the final
normal estimation). -/
def bestWeightIdx (weights : List ℚ) : Nat :=
  ((weights.drop 1).foldl
    (fun (acc : Nat × ℚ × Nat) weight =>
      if acc.2.1 < weight then (acc.1 + 1, weight, acc.1) else (acc.1 + 1, acc.2.1, acc.2.2))
    (1, weights.headD 0, 0)).2.2

/-- The block "estimate normal also if requested" at the end of `FuseDepthMaps`. -/
def estimateNormals (env : FuseEnv) (bEstimateNormal : Bool) (st : FuseState) : PointCloud :=
  if bEstimateNormal ∧ st.pointcloud.points ≠ [] ∧ st.pointcloud.normals = [] then
    { st.pointcloud with
      normals := (List.range st.pointcloud.points.length).map (fun i =>
        let idxView := bestWeightIdx (st.pointcloud.pointWeights.getD i [])
        env.GetNormal (st.arrDepthData ((st.pointcloud.pointViews.getD i []).getD idxView 0))
          (((st.projs.getD i []).getD idxView ⟨0, 0⟩).GetCoord)) }
  else st.pointcloud

/-- State of the fusion after the loop over the sorted connections, before the final normal
estimation. -/
def fuseLoop (env : FuseEnv) (arrDepthData : Nat → DepthData) (pointcloud : PointCloud)
    (bEstimateColor bEstimateNormal bNormalMap : Bool) (connections : List (Nat × Nat)) :
    FuseState :=
  ((env.sortConnections connections).map Prod.fst).foldl
    (fuseImage env bEstimateColor (bEstimateNormal && bNormalMap) bNormalMap)
    { pointcloud := pointcloud
      arrDepthData := arrDepthData
      arrDepthIdx := fun _ => ⟨0, 0, fun _ => NO_ID⟩
      projs := []
      nDepths := 0 }

/-- The routine `DepthMapsData::FuseDepthMaps(pointcloud, bEstimateColor, bEstimateNormal)`.
Returns the point cloud and the depth data (whose depth-maps the fusion may have edited). -/
def FuseDepthMaps (env : FuseEnv) (arrDepthData : Nat → DepthData) (pointcloud : PointCloud)
    (bEstimateColor bEstimateNormal : Bool) : PointCloud × (Nat → DepthData) :=
  match findConnections env arrDepthData with
  | none => (pointcloud, arrDepthData)
  | some (connections, bNormalMap) =>
    let st := fuseLoop env arrDepthData pointcloud bEstimateColor bEstimateNormal bNormalMap
      connections
    (estimateNormals env (bEstimateNormal && bNormalMap) st, st.arrDepthData)

/-- The pixel of image `idxImageB` onto which `fuseNeighbor` projects the 3D point `point`:
`xB(ROUND2INT(pt.x/pt.z), ROUND2INT(pt.y/pt.z))` with `pt = ProjectPointP3(point)`. -/
def projPixel (env : FuseEnv) (idxImageB : Nat) (point : Point3) : ImageRef :=
  ⟨env.ROUND2INT ((env.ProjectPointP3 idxImageB point).x / (env.ProjectPointP3 idxImageB point).z),
   env.ROUND2INT ((env.ProjectPointP3 idxImageB point).y / (env.ProjectPointP3 idxImageB point).z)⟩

/-- The locals of `fusePixel` after its neighbour loop, for a pixel of non-zero depth that
no point has claimed: the observers gathered by the candidate point of this pixel. -/
def fuseAcc (env : FuseEnv) (bEstimateColor bEstimateNormal bNormalMap : Bool)
    (idxImage : Nat) (st : FuseState) (x : ImageRef) : PointAcc :=
  let depthData := st.arrDepthData idxImage
  let depth := depthData.depthMap.pix x
  let idxPoint := st.pointcloud.points.length % 4294967296
  let point := env.TransformPointI2W idxImage x depth
  let confidence := Conf2Weight (depthData.confMap.pix x) depth
  let normal : Normal :=
    if bNormalMap then env.worldNormal idxImage (depthData.normalMap.pix x) else ⟨0, 0, -1⟩
  depthData.neighbors.foldl
    (fuseNeighbor env bEstimateColor bEstimateNormal bNormalMap st.arrDepthData point normal
      idxPoint)
    { views := [idxImage]
      weights := [confidence]
      pointProjs := [Proj.ofImageRef x]
      X := point.smul confidence
      C := (env.color idxImage x).smul confidence
      N := normal.smul confidence
      confidence := confidence
      invalidDepths := []
      arrDepthIdx := Function.update st.arrDepthIdx idxImage
        ((st.arrDepthIdx idxImage).set x (st.pointcloud.points.length % 4294967296)) }

/-- The weight `w` is the `Conf2Weight` of a pixel of image `idxImageB` that has a non-zero
depth in the depth data `arrDepthData`. -/
def WeightOf (arrDepthData : Nat → DepthData) (idxImageB : Nat) (w : ℚ) : Prop :=
  ∃ p, (arrDepthData idxImageB).depthMap.pix p ≠ 0 ∧
    w = Conf2Weight ((arrDepthData idxImageB).confMap.pix p)
      ((arrDepthData idxImageB).depthMap.pix p)

/-- The weight `w` is the `Conf2Weight` of the pixel through which image `idxImageB` observes
the candidate point of the pixel `x` of the reference image `idxImage`: the pixel `x` itself
for the reference image, the pixel `projPixel` the point projects to for a neighbour. -/
def ObservedWeight (env : FuseEnv) (arrDepthData : Nat → DepthData) (idxImage : Nat)
    (x : ImageRef) (idxImageB : Nat) (w : ℚ) : Prop :=
  (idxImageB = idxImage ∧
    w = Conf2Weight ((arrDepthData idxImage).confMap.pix x)
      ((arrDepthData idxImage).depthMap.pix x)) ∨
  w = Conf2Weight
    ((arrDepthData idxImageB).confMap.pix (projPixel env idxImageB
      (env.TransformPointI2W idxImage x ((arrDepthData idxImage).depthMap.pix x))))
    ((arrDepthData idxImageB).depthMap.pix (projPixel env idxImageB
      (env.TransformPointI2W idxImage x ((arrDepthData idxImage).depthMap.pix x))))

/-! ## `MergeDepthMaps` (fusion by plain projection) -/

/-- State of the image loop of `MergeDepthMaps`: the point cloud, and whether the routine
has already returned (a depth-map could not be loaded). -/
structure MergeState where
  pointcloud : PointCloud
  returned : Bool

/-- Body of the two pixel loops of `MergeDepthMaps` for the pixel `x` of image
`idxImage`. -/
def mergePixel (env : FuseEnv) (bEstimateColor bEstimateNormal : Bool) (idxImage : Nat)
    (depthData : DepthData) (pointcloud : PointCloud) (x : ImageRef) : PointCloud :=
  let depth := depthData.depthMap.pix x
  -- ignore invalid depth
  if depth = 0 then pointcloud else
  -- create the corresponding 3D point
  { pointcloud with
    points := pointcloud.points ++ [env.TransformPointI2W idxImage x depth]
    pointViews := pointcloud.pointViews ++ [[idxImage]]
    colors := if bEstimateColor then pointcloud.colors ++ [env.color idxImage x]
      else pointcloud.colors
    normals := if bEstimateNormal then pointcloud.normals ++ [env.GetNormal depthData x]
      else pointcloud.normals }

/-- Body of `FOREACH(idxImage, arrDepthData)` in `MergeDepthMaps`. -/
def mergeImage (env : FuseEnv) (arrDepthData : Nat → DepthData)
    (bEstimateColor bEstimateNormal : Bool) (st : MergeState) (idxImage : Nat) : MergeState :=
  if st.returned then st else
  let depthData := arrDepthData idxImage
  if !depthData.IsValid then st
  else if env.IncRef idxImage = 0 then { st with returned := true }
  else
    { st with
      pointcloud := (rowMajor depthData.depthMap.rows depthData.depthMap.cols).foldl
        (mergePixel env bEstimateColor bEstimateNormal idxImage depthData) st.pointcloud }

/-- The routine `DepthMapsData::MergeDepthMaps(pointcloud, bEstimateColor, bEstimateNormal)`;
`arrDepthData` has one entry per scene image. -/
def MergeDepthMaps (env : FuseEnv) (arrDepthData : Nat → DepthData) (pointcloud : PointCloud)
    (bEstimateColor bEstimateNormal : Bool) : PointCloud :=
  ((List.range env.images.length).foldl
    (mergeImage env arrDepthData bEstimateColor bEstimateNormal)
    { pointcloud := pointcloud, returned := false }).pointcloud

/-- The points that the specification of `MergeDepthMaps` lists for image `idxImage`: one
per pixel of non-zero depth, pixels in row-major order, each with its one-element view
list. -/
def mergedOfImage (env : FuseEnv) (arrDepthData : Nat → DepthData) (idxImage : Nat) :
    List (Point3 × List Nat) :=
  if (arrDepthData idxImage).IsValid then
    ((rowMajor (arrDepthData idxImage).depthMap.rows
        (arrDepthData idxImage).depthMap.cols).filter
      (fun x => decide ((arrDepthData idxImage).depthMap.pix x ≠ 0))).map
      (fun x => (env.TransformPointI2W idxImage x ((arrDepthData idxImage).depthMap.pix x),
        [idxImage]))
  else []

/-- The points that the specification of `MergeDepthMaps` lists for the whole scene: the
images in increasing index order. -/
def mergedOfScene (env : FuseEnv) (arrDepthData : Nat → DepthData) :
    List (Point3 × List Nat) :=
  (List.range env.images.length).flatMap (mergedOfImage env arrDepthData)

/-! ## `FilterDepthMap`, strict mode (`bAdjust == false`) -/

/-- The bound `nMinViews(MINF(OPTDENSE::nMinViewsFilter, scene.nCalibratedImages-1))`
(the routine asserts `scene.nCalibratedImages > 1`). -/
def filterMinViews (nMinViewsFilter nCalibratedImages : Nat) : Nat :=
  min nMinViewsFilter (nCalibratedImages - 1)

/-- The counters `(nGoodViews, nViews)` after the loop
`n = N; do { d = depthMaps[--n](x); if (d > 0) { ++nViews; if (IsDepthSimilar(depth, d, th))
++nGoodViews; } } while (n);` started with the counters `c`. The routine enters the loop
with `N ≥ 1` projected maps (entry check `N < nMinViews` and `nMinViewsFilter > 0`). -/
def countViews (sim : Depth → Depth → ℚ → Bool) (th : ℚ) (depthMaps : List (TImage Depth))
    (depth : Depth) (x : ImageRef) (c : Nat × Nat) : Nat × Nat :=
  depthMaps.reverse.foldl
    (fun (c : Nat × Nat) dm =>
      if dm.pix x > 0 then ((if sim depth (dm.pix x) th = true then c.1 + 1 else c.1), c.2 + 1)
      else c)
    c

/-- The offsets `xDs` of the second test. -/
def xDs : List ImageRef := [⟨-1, 0⟩, ⟨1, 0⟩, ⟨0, -1⟩, ⟨0, 1⟩]

/-- The first agreement test of the strict mode ("check if very similar with the neighbors
projected to this pixel"): `true` when the pixel is NOT discarded by
`nGoodViews < nMinViews || nGoodViews < nViews*nMinGoodViewsProc/100`. -/
def strictFirstTest (sim : Depth → Depth → ℚ → Bool) (fDepthDiffThreshold : ℚ) (nMinViews : Nat)
    (depthMaps : List (TImage Depth)) (depth : Depth) (xRef : ImageRef) : Bool :=
  let c := countViews sim (fDepthDiffThreshold * (8/10)) depthMaps depth xRef (0, 0)
  !(decide (c.1 < nMinViews) || decide (c.1 < c.2 * 75 / 100))

/-- The second agreement test of the strict mode ("check if similar with the neighbors
projected around this pixel"): `true` when the pixel is NOT discarded. -/
def strictSecondTest (sim : Depth → Depth → ℚ → Bool) (fDepthDiffThreshold : ℚ)
    (nMinViews : Nat) (depthMaps : List (TImage Depth)) (depth : Depth) (xRef : ImageRef) :
    Bool :=
  let c := xDs.foldl
    (fun c xD => countViews sim (fDepthDiffThreshold * (12/10)) depthMaps depth
      ⟨xRef.x + xD.x, xRef.y + xD.y⟩ c)
    (0, 0)
  !(decide (c.1 < nMinViews * (4 - 2)) || decide (c.1 < c.2 * 65 / 100))

/-- Body of the pixel loops of the strict mode of `FilterDepthMap`: the values written to
`newDepthMap(xRef)` and `newConfMap(xRef)`, given the neighbour depth-maps projected into
the reference image. -/
def filterPixelStrict (sim : Depth → Depth → ℚ → Bool) (fDepthDiffThreshold : ℚ)
    (nMinViews : Nat) (depthMaps : List (TImage Depth)) (depthDataRef : DepthData)
    (xRef : ImageRef) : Depth × ℚ :=
  let depth := depthDataRef.depthMap.pix xRef
  if depth = 0 then (0, 0)
  else if !strictFirstTest sim fDepthDiffThreshold nMinViews depthMaps depth xRef then (0, 0)
  else if !strictSecondTest sim fDepthDiffThreshold nMinViews depthMaps depth xRef then (0, 0)
  else (depth, depthDataRef.confMap.pix xRef)

/-- The number `validNeighbors` of the specification: the projected neighbour maps with a
positive depth at the pixel `x`. -/
def validNeighbors (depthMaps : List (TImage Depth)) (x : ImageRef) : Nat :=
  (depthMaps.filter (fun dm => decide (0 < dm.pix x))).length

/-- The number `good` of the specification: the projected neighbour maps with a positive
depth at the pixel `x` that is similar to `depth` within the threshold `th`. -/
def goodNeighbors (sim : Depth → Depth → ℚ → Bool) (th : ℚ) (depthMaps : List (TImage Depth))
    (depth : Depth) (x : ImageRef) : Nat :=
  (depthMaps.filter (fun dm => decide (0 < dm.pix x) && sim depth (dm.pix x) th)).length

/-- The first agreement test as the specification words it: `good ≥ nMinViewsFilter` and
`good / validNeighbors ≥ 75%`. -/
def specFirstTest (nMinViewsFilter good valid : Nat) : Prop :=
  nMinViewsFilter ≤ good ∧ (75 : ℚ) / 100 ≤ (good : ℚ) / (valid : ℚ)

/-- Modelled from the spec: the depth-similarity predicate `IsDepthSimilar` is declared in a
header that is not part of this file; the specification defines it as
`|d₁−d₂| ≤ τ·min(d₁,d₂)`. -/
def IsDepthSimilar (d1 d2 : Depth) (threshold : ℚ) : Bool :=
  decide (|d1 - d2| ≤ threshold * min d1 d2)

/-- A 3×3 depth data whose only valid pixels are the 2×2 block at the origin (depth 1). -/
def blockImage : DepthData :=
  mkDepthData 3 3
    (fun p => if p ∈ [(⟨0, 0⟩ : ImageRef), ⟨1, 0⟩, ⟨0, 1⟩, ⟨1, 1⟩] then 1 else 0)
    (fun p => if p ∈ [(⟨0, 0⟩ : ImageRef), ⟨1, 0⟩, ⟨0, 1⟩, ⟨1, 1⟩] then ⟨0, 0, -1⟩
      else Normal.ZERO)
    (fun p => if p ∈ [(⟨0, 0⟩ : ImageRef), ⟨1, 0⟩, ⟨0, 1⟩, ⟨1, 1⟩] then 1/2 else 0)

/-- A depth data given by the rows of its depth-map; the normal is `(0,0,-1)` and the
confidence 1/2 at valid pixels, and both are 0 at invalid pixels. -/
def ofRows (rows : List (List ℚ)) : DepthData :=
  mkDepthData ((rows.headD []).length) rows.length
    (fun p => (rows.getD p.y.toNat []).getD p.x.toNat 0)
    (fun p => if 0 < (rows.getD p.y.toNat []).getD p.x.toNat 0 then ⟨0, 0, -1⟩ else Normal.ZERO)
    (fun p => if 0 < (rows.getD p.y.toNat []).getD p.x.toNat 0 then 1/2 else 0)

/-- A stand-in for the header function `Normal2Dir` in the examples. -/
def exNormal2Dir (n : Normal) : Point2f := ⟨n.x, n.y⟩

/-- A stand-in for the header function `Dir2Normal` in the examples. -/
def exDir2Normal (d : Point2f) : Normal := ⟨d.x, d.y, -1⟩

/-- The depth-map of the counterexample to the idempotence of `GapInterpolation`. -/
def crossImage : DepthData := ofRows [[1, 0, 0], [0, 0, 1], [1, 0, 0]]

/-- A one-pixel depth data with the given depth and score (normal facing the camera). -/
def onePixel (depth conf : ℚ) : DepthData :=
  { depthMap := ⟨1, 1, fun _ => depth⟩
    normalMap := ⟨1, 1, fun _ => ⟨0, 0, -1⟩⟩
    confMap := ⟨1, 1, fun _ => conf⟩ }

/-- A two-image scene used in the examples: both cameras are the identity, every image is
one pixel wide and high. -/
def twoViewEnv : FuseEnv :=
  { images := [⟨1, 1, 1⟩, ⟨1, 1, 1⟩]
    nMinViewsFuse := 2
    fDepthDiffThreshold := 1/100
    normalError := 1/2
    TransformPointI2W := fun _ x d => ⟨x.x, x.y, d⟩
    ProjectPointP3 := fun _ p => ⟨p.x * p.z, p.y * p.z, p.z⟩
    ROUND2INT := fun q => Int.floor (q + 1/2)
    worldNormal := fun _ n => n
    color := fun _ _ => ⟨0, 0, 0⟩
    toPixel8U := fun c => c
    normalized := fun n => n
    IsDepthSimilar := IsDepthSimilar
    GetNormal := fun dd x => dd.normalMap.pix x
    IncRef := fun _ => 1
    sortConnections := fun l => l }

/-- Depth data of the two-view examples: every image has the one-pixel map of depth 1 and
a neighbour list that names the image itself and names image 1 twice. -/
def twoViewData : Nat → DepthData :=
  fun _ => { onePixel 1 (1/2) with neighbors := [0, 1, 1] }

/-- A scene of two images 65537 pixels wide and one pixel high (cameras as in
`twoViewEnv`). -/
def wideEnv : FuseEnv :=
  { twoViewEnv with images := [⟨65537, 1, 0⟩, ⟨65537, 1, 0⟩] }

/-- Depth data of the wide scene: depth 1 everywhere, no neighbours. -/
def wideData : Nat → DepthData :=
  fun _ =>
    { depthMap := ⟨65537, 1, fun _ => 1⟩
      normalMap := ⟨65537, 1, fun _ => ⟨0, 0, -1⟩⟩
      confMap := ⟨65537, 1, fun _ => 1/2⟩ }

/-- State of the fusion of the wide scene when the pixel loop of image 0 reaches the pixel
`(65536, 0)`: the 65536 pixels before it have been tried and discarded, the cloud is empty
and the claim grids hold no claim. -/
def wideState : FuseState :=
  { pointcloud := {}
    arrDepthData := wideData
    arrDepthIdx := fun _ => newDepthIndex 65537 1
    projs := []
    nDepths := 65536 }

/-- Depth data of the two-view examples without per-pixel normal maps. -/
def twoViewNoNormals : Nat → DepthData :=
  fun _ =>
    { onePixel 1 (1/2) with
      normalMap := ⟨0, 0, fun _ => Normal.ZERO⟩
      neighbors := [0, 1, 1] }

/-- Three projected neighbour maps of one pixel with the depths 1, 1 and 2. -/
def threeMaps : List (TImage Depth) :=
  [⟨1, 1, fun _ => 1⟩, ⟨1, 1, fun _ => 1⟩, ⟨1, 1, fun _ => 2⟩]

/-! ## `FilterDepthMap`: projection of the neighbour maps and adjusting mode -/

/-- Everything `FilterDepthMap` takes from outside this file: the options of `OPTDENSE`, the
number of calibrated images, and the camera and rounding operations and predicates of the
headers (taken as they are, without assumptions). The camera operations carry the index of
the image whose camera they belong to. -/
structure FilterEnv where
  nMinViewsFilter : Nat
  nMinViewsFilterAdjust : Nat
  nCalibratedImages : Nat
  fDepthDiffThreshold : ℚ
  IsDepthSimilar : Depth → Depth → ℚ → Bool
  ISINSIDE : ℚ → ℚ → ℚ → Bool
  TransformPointI2W : Nat → ImageRef → Depth → Point3
  TransformPointW2C : Nat → Point3 → Point3
  TransformPointC2I : Nat → Point3 → Point2f
  TransformPointW2I : Nat → Point3 → Point2f
  FLOOR2INT : ℚ → Int
  CEIL2INT : ℚ → Int
  ROUND2INT : ℚ → Int

/-- A neighbour depth-map projected into the reference image: `depthMaps[n]`,
`confMaps[n]`, and the image `idxView` it comes from. -/
structure ProjView where
  depthMap : TImage Depth
  confMap : TImage ℚ
  idxView : Nat

/-- The camera-space point `camX` of the pixel `x` of the neighbour `idxView` in the camera
of the reference image `idxRef`:
`cameraRef.TransformPointW2C(camera.TransformPointI2W(Point3(x.x,x.y,depth)))`. -/
def camXOf (env : FilterEnv) (idxRef idxView : Nat) (depthData : DepthData) (x : ImageRef) :
    Point3 :=
  env.TransformPointW2C idxRef (env.TransformPointI2W idxView x (depthData.depthMap.pix x))

/-- The array `xRefs[4]`: the four pixels around the image projection `imgX`. -/
def xRefsOf (env : FilterEnv) (imgX : Point2f) : List ImageRef :=
  [⟨env.FLOOR2INT imgX.x, env.FLOOR2INT imgX.y⟩, ⟨env.FLOOR2INT imgX.x, env.CEIL2INT imgX.y⟩,
   ⟨env.CEIL2INT imgX.x, env.FLOOR2INT imgX.y⟩, ⟨env.CEIL2INT imgX.x, env.CEIL2INT imgX.y⟩]

/-- Body of `for (int p=0; p<4; ++p)`: write the depth `z` (and, when adjusting, the
confidence `c`) at the pixel `xRef` unless a nearer depth is already there. -/
def splatPixel (bAdjust : Bool) (z : Depth) (c : ℚ) (st : ProjView) (xRef : ImageRef) :
    ProjView :=
  if !st.depthMap.isInside xRef then st
  else if st.depthMap.pix xRef ≠ 0 ∧ st.depthMap.pix xRef < z then st
  else
    { st with
      depthMap := st.depthMap.set xRef z
      confMap := if bAdjust then st.confMap.set xRef c else st.confMap }

/-- Body of the two pixel loops of the projection for the pixel `x` of the neighbour. -/
def projectPixel (env : FilterEnv) (bAdjust : Bool) (idxRef : Nat) (depthData : DepthData)
    (st : ProjView) (x : ImageRef) : ProjView :=
  if depthData.depthMap.pix x = 0 then st
  else if (camXOf env idxRef st.idxView depthData x).z ≤ 0 then st
  else
    (xRefsOf env (env.TransformPointC2I idxRef (camXOf env idxRef st.idxView depthData x))).foldl
      (splatPixel bAdjust (camXOf env idxRef st.idxView depthData x).z
        (depthData.confMap.pix x)) st

/-- The projection of the pixels `xs` of the neighbour `idxView` into maps of the size
`cols × rows` of the reference image, started from maps filled with zeros (the confidence
map is created only when adjusting). -/
def projectOver (env : FilterEnv) (bAdjust : Bool) (idxRef idxView : Nat) (cols rows : Nat)
    (depthData : DepthData) (xs : List ImageRef) : ProjView :=
  xs.foldl (projectPixel env bAdjust idxRef depthData)
    { depthMap := ⟨cols, rows, fun _ => 0⟩
      confMap := if bAdjust then ⟨cols, rows, fun _ => 0⟩ else ⟨0, 0, fun _ => 0⟩
      idxView := idxView }

/-- Body of `FOREACH(n, depthMaps)`: the neighbour `idxView` projected into the reference
image, its pixels visited in row-major order. -/
def projectDepthMap (env : FilterEnv) (bAdjust : Bool) (idxRef idxView : Nat) (cols rows : Nat)
    (depthData : DepthData) : ProjView :=
  projectOver env bAdjust idxRef idxView cols rows depthData
    (rowMajor depthData.depthMap.rows depthData.depthMap.cols)

/-- The neighbour pixel `x` writes at the pixel `q` of the projected map: it has a non-zero
depth, a positive depth `camX.z` in the reference camera, and `q` is one of the four pixels
around its projection. -/
def Contributes (env : FilterEnv) (idxRef idxView : Nat) (depthData : DepthData)
    (x q : ImageRef) : Prop :=
  depthData.depthMap.pix x ≠ 0 ∧ 0 < (camXOf env idxRef idxView depthData x).z ∧
  q ∈ xRefsOf env (env.TransformPointC2I idxRef (camXOf env idxRef idxView depthData x))

/-- The value `v` is what the specification asks of the pixel `q` of the projected map of
the neighbour pixels `xs`: the smallest `camX.z` of the pixels of `xs` that write at `q`, and
0 when there is none. -/
def IsNearestZ (env : FilterEnv) (idxRef idxView : Nat) (depthData : DepthData)
    (xs : List ImageRef) (q : ImageRef) (v : Depth) : Prop :=
  ((∀ x ∈ xs, ¬ Contributes env idxRef idxView depthData x q) ∧ v = 0) ∨
  (∃ x ∈ xs, Contributes env idxRef idxView depthData x q ∧
    v = (camXOf env idxRef idxView depthData x).z ∧
    ∀ x' ∈ xs, Contributes env idxRef idxView depthData x' q →
      v ≤ (camXOf env idxRef idxView depthData x').z)

/-- Locals of the neighbour loop of the adjusting mode. -/
structure AdjustAcc where
  posConf : ℚ
  negConf : ℚ
  avgDepth : Depth
  nPosViews : Nat
  nNegViews : Nat

/-- Body of the loop of the adjusting mode for a neighbour map with the non-zero depth `d`
at the pixel `xRef`: average a similar depth, or penalize the confidence (occlusion, or
free-space violation with the confidence of the neighbour at the re-projection of the
reference pixel). -/
def adjustView (env : FilterEnv) (arrDepthData : Nat → DepthData) (idxRef : Nat)
    (depth : Depth) (xRef : ImageRef) (acc : AdjustAcc) (v : ProjView) (d : Depth) :
    AdjustAcc :=
  if env.IsDepthSimilar depth d (env.fDepthDiffThreshold * (12/10)) = true then
    { acc with
      avgDepth := acc.avgDepth + d * v.confMap.pix xRef
      posConf := acc.posConf + v.confMap.pix xRef
      nPosViews := acc.nPosViews + 1 }
  else if depth > d then
    { acc with
      negConf := acc.negConf + v.confMap.pix xRef
      nNegViews := acc.nNegViews + 1 }
  else
    let depthData := arrDepthData v.idxView
    let X := env.TransformPointI2W idxRef xRef depth
    let x : ImageRef :=
      ⟨env.ROUND2INT (env.TransformPointW2I v.idxView X).x,
       env.ROUND2INT (env.TransformPointW2I v.idxView X).y⟩
    { acc with
      negConf := acc.negConf +
        (if depthData.confMap.isInside x then
          (if depthData.confMap.pix x > 0 then depthData.confMap.pix x else v.confMap.pix xRef)
        else v.confMap.pix xRef)
      nNegViews := acc.nNegViews + 1 }

/-- The loop `n = N; do { d = depthMaps[--n](xRef); ... } while (n);` of the adjusting mode
over the maps still to visit, in visiting order (the map of index `n` comes first and `n`
maps follow it); `none` is the jump `goto DiscardDepth`. The routine enters the loop with
`N ≥ 1` maps. -/
def adjustLoop (env : FilterEnv) (arrDepthData : Nat → DepthData) (idxRef : Nat)
    (nMinViews : Nat) (depth : Depth) (xRef : ImageRef) :
    List ProjView → AdjustAcc → Option AdjustAcc
  | [], acc => some acc
  | v :: rest, acc =>
    if v.depthMap.pix xRef = 0 then
      if acc.nPosViews + acc.nNegViews + rest.length < nMinViews then none
      else adjustLoop env arrDepthData idxRef nMinViews depth xRef rest acc
    else
      adjustLoop env arrDepthData idxRef nMinViews depth xRef rest
        (adjustView env arrDepthData idxRef depth xRef acc v (v.depthMap.pix xRef))

/-- Body of the pixel loops of the adjusting mode of `FilterDepthMap`: the values written to
`newDepthMap(xRef)` and `newConfMap(xRef)`; `dMin` and `dMax` are the fields of that name of
`depthDataRef`. -/
def filterPixelAdjust (env : FilterEnv) (arrDepthData : Nat → DepthData) (idxRef : Nat)
    (dMin dMax : Depth) (views : List ProjView) (depthDataRef : DepthData) (xRef : ImageRef) :
    Depth × ℚ :=
  let depth := depthDataRef.depthMap.pix xRef
  if depth = 0 then (0, 0) else
  let posConf := depthDataRef.confMap.pix xRef
  match adjustLoop env arrDepthData idxRef
      (filterMinViews env.nMinViewsFilter env.nCalibratedImages) depth xRef views.reverse
      { posConf := posConf, negConf := 0, avgDepth := depth * posConf, nPosViews := 0,
        nNegViews := 0 } with
  | none => (0, 0)
  | some acc =>
    if filterMinViews env.nMinViewsFilterAdjust env.nCalibratedImages ≤ acc.nPosViews ∧
        acc.posConf > acc.negConf ∧
        env.ISINSIDE (acc.avgDepth / acc.posConf) dMin dMax = true then
      (acc.avgDepth / acc.posConf, acc.posConf - acc.negConf)
    else (0, 0)

/-- The routine `DepthMapsData::FilterDepthMap(depthDataRef, idxNeighbors, bAdjust)` for the
reference image `idxRef`: `none` when the routine returns `false` at its entry check, else
the maps `newDepthMap` and `newConfMap` that it saves. -/
def FilterDepthMap (env : FilterEnv) (arrDepthData : Nat → DepthData) (idxRef : Nat)
    (depthDataRef : DepthData) (dMin dMax : Depth) (idxNeighbors : List Nat) (bAdjust : Bool) :
    Option (TImage Depth × TImage ℚ) :=
  let nMinViews := filterMinViews env.nMinViewsFilter env.nCalibratedImages
  let nMinViewsAdjust := filterMinViews env.nMinViewsFilterAdjust env.nCalibratedImages
  if idxNeighbors.length < nMinViews ∨ idxNeighbors.length < nMinViewsAdjust then none
  else
    let views := idxNeighbors.map (fun n =>
      projectDepthMap env bAdjust idxRef (depthDataRef.neighbors.getD n 0)
        depthDataRef.depthMap.cols depthDataRef.depthMap.rows
        (arrDepthData (depthDataRef.neighbors.getD n 0)))
    let out : ImageRef → Depth × ℚ := fun xRef =>
      if bAdjust then
        filterPixelAdjust env arrDepthData idxRef dMin dMax views depthDataRef xRef
      else
        filterPixelStrict env.IsDepthSimilar env.fDepthDiffThreshold nMinViews
          (views.map (fun v => v.depthMap)) depthDataRef xRef
    some
      (⟨depthDataRef.depthMap.cols, depthDataRef.depthMap.rows,
          fun x => if depthDataRef.depthMap.isInside x then (out x).1 else 0⟩,
        ⟨depthDataRef.depthMap.cols, depthDataRef.depthMap.rows,
          fun x => if depthDataRef.depthMap.isInside x then (out x).2 else 0⟩)

/-- The number of projected neighbour maps with a non-zero depth at the pixel `xRef` (the
valid neighbours of the adjusting mode). -/
def adjustValid (views : List ProjView) (xRef : ImageRef) : Nat :=
  (views.filter (fun v => decide (v.depthMap.pix xRef ≠ 0))).length

/-- The sums of the adjusting mode over all maps, without the early exit: the values of the
locals `posConf`, `negConf`, `avgDepth`, `nPosViews`, `nNegViews` of the specification. -/
def adjustTotals (env : FilterEnv) (arrDepthData : Nat → DepthData) (idxRef : Nat)
    (views : List ProjView) (depthDataRef : DepthData) (xRef : ImageRef) : AdjustAcc :=
  views.reverse.foldl
    (fun acc v =>
      if v.depthMap.pix xRef = 0 then acc
      else adjustView env arrDepthData idxRef (depthDataRef.depthMap.pix xRef) xRef acc v
        (v.depthMap.pix xRef))
    { posConf := depthDataRef.confMap.pix xRef
      negConf := 0
      avgDepth := depthDataRef.depthMap.pix xRef * depthDataRef.confMap.pix xRef
      nPosViews := 0
      nNegViews := 0 }

/-- The acceptance test of the adjusting mode as the specification words it:
`nPos ≥ nMinViewsFilterAdjust`, `posConf > negConf` and `avgDepth/posConf` in the range
`[dMin, dMax]` (the range test is the one of the header, `ISINSIDE`). -/
def specAdjustAccept (env : FilterEnv) (dMin dMax : Depth) (acc : AdjustAcc) : Prop :=
  env.nMinViewsFilterAdjust ≤ acc.nPosViews ∧ acc.posConf > acc.negConf ∧
  env.ISINSIDE (acc.avgDepth / acc.posConf) dMin dMax = true

/-- A scene for the examples of `FilterDepthMap`: all cameras are the identity, the range
test is the half-open one, and the three bounds are given. -/
def filterScene (nMinViewsFilter nMinViewsFilterAdjust nCalibratedImages : Nat) : FilterEnv :=
  { nMinViewsFilter := nMinViewsFilter
    nMinViewsFilterAdjust := nMinViewsFilterAdjust
    nCalibratedImages := nCalibratedImages
    fDepthDiffThreshold := 1/100
    IsDepthSimilar := IsDepthSimilar
    ISINSIDE := fun v l0 l1 => decide (l0 ≤ v ∧ v < l1)
    TransformPointI2W := fun _ x d => ⟨x.x, x.y, d⟩
    TransformPointW2C := fun _ p => p
    TransformPointC2I := fun _ p => ⟨p.x, p.y⟩
    TransformPointW2I := fun _ p => ⟨p.x, p.y⟩
    FLOOR2INT := fun q => Int.floor q
    CEIL2INT := fun q => Int.ceil q
    ROUND2INT := fun q => Int.floor (q + 1/2) }

/-- A projected one-pixel neighbour map with the given depth and confidence. -/
def oneView (depth conf : ℚ) : ProjView :=
  { depthMap := ⟨1, 1, fun _ => depth⟩, confMap := ⟨1, 1, fun _ => conf⟩, idxView := 1 }

/-- The coordinates `xDRef = xRef + xDs[d]` at which the second test of the strict mode
reads every projected neighbour map. -/
def secondTestCoords (xRef : ImageRef) : List ImageRef :=
  xDs.map (fun xD => ⟨xRef.x + xD.x, xRef.y + xD.y⟩)

/-! ## `InitViews`: selection of the target views -/

/-- A ranked neighbour view `ViewScore`: the image `idx.ID` and its `score`. -/
structure ViewScore where
  ID : Nat
  score : ℚ
deriving DecidableEq, Repr

/-- The loop `FOREACH(idx, depthData.neighbors)` of `InitViews` over the neighbours still to
visit; `targets` are the slots `1..` of `depthData.images` filled so far (slot 0 is the
reference image, so `images.GetSize() = targets.length + 1`). -/
def initTargets (fMinScore : ℚ) (numNeighbors : Nat) :
    List ViewScore → List ViewScore → List ViewScore
  | [], targets => targets
  | neighbor :: rest, targets =>
    if (numNeighbors ≠ 0 ∧ targets.length + 1 > numNeighbors) ∨ neighbor.score < fMinScore then
      targets
    else initTargets fMinScore numNeighbors rest (targets ++ [neighbor])

/-- The bound `fMinScore` of `InitViews`:
`MAXF(neighbors.First().score*(OPTDENSE::fViewMinScoreRatio*0.1f), OPTDENSE::fViewMinScore)`
(the routine asserts that `neighbors` is not empty). -/
def initMinScore (fViewMinScoreRatio fViewMinScore : ℚ) (neighbors : List ViewScore) : ℚ :=
  max ((neighbors.headD ⟨0, 0⟩).score * (fViewMinScoreRatio * (1/10))) fViewMinScore

/-- The target views of `InitViews(depthData, idxNeighbor, numNeighbors, ...)`, slots `1..`
of `depthData.images` after the selection: the given neighbour when `idxNeighbor` is not
`NO_ID` (an index into `neighbors`), else the neighbours taken by the loop. -/
def selectTargets (fViewMinScoreRatio fViewMinScore : ℚ) (neighbors : List ViewScore)
    (idxNeighbor numNeighbors : Nat) : List ViewScore :=
  if idxNeighbor ≠ NO_ID then [neighbors.getD idxNeighbor ⟨0, 0⟩]
  else
    initTargets (initMinScore fViewMinScoreRatio fViewMinScore neighbors) numNeighbors
      neighbors []

/-- The first part of `InitViews`, up to the test `depthData.images.GetSize() < 2`: `none`
when the routine releases `images` and returns `false`, else the target views. -/
def InitViews (fViewMinScoreRatio fViewMinScore : ℚ) (neighbors : List ViewScore)
    (idxNeighbor numNeighbors : Nat) : Option (List ViewScore) :=
  if (selectTargets fViewMinScoreRatio fViewMinScore neighbors idxNeighbor
      numNeighbors).length + 1 < 2 then none
  else some (selectTargets fViewMinScoreRatio fViewMinScore neighbors idxNeighbor numNeighbors)

/-- The bound of the specification: `max(neighbors[0].score * fViewMinScoreRatio,
fViewMinScore)`. -/
def specMinScore (fViewMinScoreRatio fViewMinScore : ℚ) (neighbors : List ViewScore) : ℚ :=
  max ((neighbors.headD ⟨0, 0⟩).score * fViewMinScoreRatio) fViewMinScore

/-! ## `PointCloudFilter` (visibility filter of the fused cloud) -/

/-- Everything `Scene::PointCloudFilter` takes from outside this file, for the collector of
the view `idxView` initialized by `Init` on the point `X`: the norm `distance` of
`X - cone.ray.m_pOrig`, the outcome of `coneIntersect.Classify(p, dist)` (`some dist` when
the result is `VISIBLE`), the predicate `IsDepthSimilar`, and the indices that
`octree.Collect` hands to the collector. -/
structure CloudEnv where
  distance : Nat → Point3 → ℚ
  Classify : Nat → Point3 → Point3 → Option ℚ
  IsDepthSimilar : ℚ → ℚ → ℚ → Bool
  Collect : Nat → Point3 → List Nat

/-- Body of the loop of `Collector::operator()` for the index `idx`, for the collector of
the view `idxView` initialized on the point `X` with the given `weight`. -/
def collectPoint (env : CloudEnv) (pointcloud : PointCloud) (idxView : Nat) (X : Point3)
    (weight : Int) (visibility : Nat → Int) (idx : Nat) : Nat → Int :=
  match env.Classify idxView X (pointcloud.points.getD idx ⟨0, 0, 0⟩) with
  | some dist =>
    if !env.IsDepthSimilar (env.distance idxView X) dist (1/100) then
      if dist > env.distance idxView X then
        Function.update visibility idx
          (visibility idx + ((pointcloud.pointViews.getD idx []).length : Int))
      else Function.update visibility idx (visibility idx - weight)
    else visibility
  | none => visibility

/-- The array `visibility` of `PointCloudFilter` after all camera-point visibility
intersections (points in index order, each with the collectors of its views). -/
def pointVisibility (env : CloudEnv) (pointcloud : PointCloud) : Nat → Int :=
  (List.range pointcloud.points.length).foldl
    (fun visibility idxPoint =>
      (pointcloud.pointViews.getD idxPoint []).foldl
        (fun visibility idxView =>
          (env.Collect idxView (pointcloud.points.getD idxPoint ⟨0, 0, 0⟩)).foldl
            (collectPoint env pointcloud idxView (pointcloud.points.getD idxPoint ⟨0, 0, 0⟩)
              ((pointcloud.pointViews.getD idxPoint []).length : Int))
            visibility)
        visibility)
    (fun _ => 0)

/-- The routine `Scene::PointCloudFilter(thRemove)`: the indices of the points that it does
not remove (a point is removed when `visibility[idxPoint] <= thRemove`). -/
def PointCloudFilter (env : CloudEnv) (pointcloud : PointCloud) (thRemove : Int) : List Nat :=
  (List.range pointcloud.points.length).filter
    (fun idxPoint => decide (¬ pointVisibility env pointcloud idxPoint ≤ thRemove))

/-- A camera at the origin that looks along the z axis, for points on that axis: the
distance of a point is its `z`, every point of the axis in front of the camera is visible in
every cone, and the octree hands over the two points of the cloud. -/
def axisCloudEnv : CloudEnv :=
  { distance := fun _ X => X.z
    Classify := fun _ _ p => if p.x = 0 ∧ p.y = 0 ∧ 0 < p.z then some p.z else none
    IsDepthSimilar := IsDepthSimilar
    Collect := fun _ _ => [0, 1] }

/-- The cloud of the two points `(0,0,1)` and `(0,0,2)`, both seen by the camera 0. -/
def axisCloud : PointCloud :=
  { points := [⟨0, 0, 1⟩, ⟨0, 0, 2⟩], pointViews := [[0], [0]] }

/-! ## `DenseReconstructionEstimate` (event loop of the estimate phase) -/

/-- The events of the estimate phase (`EVTProcessImage`, `EVTEstimateDepthMap`,
`EVTOptimizeDepthMap`, `EVTSaveDepthMap`, `EVTClose`). -/
inductive Event where
  | ProcessImage (idxImage : Nat)
  | EstimateDepthMap (idxImage : Nat)
  | OptimizeDepthMap (idxImage : Nat)
  | SaveDepthMap (idxImage : Nat)
  | Close
deriving DecidableEq, Repr

/-- Modelled from the spec: `DepthData::Save` and `DepthData::Load` are in another file. A
saved file holds the maps of the depth data and loading it gives them back
("`InitViews(...,loadDepthMaps=1)` followed immediately by save reproduces the loaded
file"); `none` is a file that `Load` rejects. -/
abbrev DMapFile := Option DepthData

/-- Call `depthData.Load(file)`: `none` when the file is rejected, else the depth data with
the three maps of the file. -/
def loadDepthData (file : DMapFile) (depthData : DepthData) : Option DepthData :=
  file.map (fun f =>
    { depthData with depthMap := f.depthMap, normalMap := f.normalMap, confMap := f.confMap })

/-- Everything `Scene::DenseReconstructionEstimate` takes from outside: the list
`data.images`, the thread count, the fusion mode, the geometric iteration, the three bits of
`OPTDENSE::nOptimize`, the options and helpers of the two filters, the outcome and effect of
`InitViews` on the depth data of an image (for the arguments `loadImages` and
`loadDepthMaps`), the depth data produced by the estimator for an image, and
`DepthData::Release`. -/
structure EstimateEnv where
  images : List Nat
  nMaxThreads : Nat
  nFusionMode : Int
  nEstimationGeometricIter : Int
  OPTIMIZE : Bool
  REMOVE_SPECKLES : Bool
  FILL_GAPS : Bool
  fDepthDiffThreshold : ℚ
  nSpeckleSize : Nat
  nIpolGapSize : Nat
  IsDepthSimilar : Depth → Depth → ℚ → Bool
  Normal2Dir : Normal → Point2f
  Dir2Normal : Point2f → Normal
  InitViews : Nat → Bool → Int → DepthData → Bool × DepthData
  Estimate : Nat → (Nat → DepthData) → DepthData
  Release : DepthData → DepthData

/-- State of the estimate phase: the event queue `data.events`, the counter `data.idxImage`,
the depth data of the images, the files `dmap` and `geo.dmap` of the images on disk, and the
log of the events handled so far (the log is not in the program; it records the order of
the handlers). -/
structure EstimateState where
  events : List Event
  idxImage : Nat
  arrDepthData : Nat → DepthData
  dmap : Nat → Option DMapFile
  geo : Nat → Option DMapFile
  handled : List Event

/-- How the routine ends: `return`, or `exit(EXIT_FAILURE)`. -/
inductive Outcome where
  | returned (st : EstimateState)
  | exited (st : EstimateState)

/-- The test `depthmapComputed` for the image `idx`: PatchMatch mode, no geometric
iteration, and the file `dmap` of the image exists. -/
def depthmapComputed (env : EstimateEnv) (st : EstimateState) (idx : Nat) : Bool :=
  decide (env.nFusionMode ≥ 0) && decide (env.nEstimationGeometricIter < 0) &&
    (st.dmap idx).isSome

/-- The filters of the handler of `EVT_OPTIMIZEDEPTHMAP`: `RemoveSmallSegments` when the bit
`REMOVE_SPECKLES` is set, then `GapInterpolation` when the bit `FILL_GAPS` is set. -/
def optimizeDepthMap (env : EstimateEnv) (depthData : DepthData) : DepthData :=
  let d1 :=
    if env.REMOVE_SPECKLES then
      RemoveSmallSegments env.IsDepthSimilar env.fDepthDiffThreshold env.nSpeckleSize depthData
    else depthData
  if env.FILL_GAPS then
    GapInterpolation env.IsDepthSimilar env.Normal2Dir env.Dir2Normal env.fDepthDiffThreshold
      env.nIpolGapSize d1
  else d1

/-- One iteration of the `switch` of `DenseReconstructionEstimate` for the event `evt` just
taken from the queue: the next state, or the end of the routine. `AddEvent` appends to the
queue, `AddEventFirst` puts in front, and `Thread::safeInc` returns the incremented counter
(helpers of other files); the semaphore `data.sem` starts at 1 and is free for a single
worker. -/
def handleEvent (env : EstimateEnv) (st : EstimateState) : Event → EstimateState ⊕ Outcome
  | Event.ProcessImage idxImage =>
    if idxImage ≥ env.images.length then
      Sum.inr (Outcome.returned
        (if env.nMaxThreads > 1 then { st with events := st.events ++ [Event.Close] } else st))
    else
      let idx := env.images.getD idxImage 0
      let computed := depthmapComputed env st idx
      let r := env.InitViews idx (!computed)
        (if computed then -1 else if env.nEstimationGeometricIter ≥ 0 then 1 else 0)
        (st.arrDepthData idx)
      if !r.1 then
        Sum.inl
          { st with
            arrDepthData := Function.update st.arrDepthData idx r.2
            events := st.events ++ [Event.ProcessImage (st.idxImage + 1)]
            idxImage := st.idxImage + 1 }
      else if computed then
        if env.OPTIMIZE then
          match loadDepthData ((st.dmap idx).getD none) r.2 with
          | none => Sum.inr (Outcome.exited
              { st with arrDepthData := Function.update st.arrDepthData idx r.2 })
          | some depthData =>
            Sum.inl
              { st with
                arrDepthData := Function.update st.arrDepthData idx depthData
                events := (Event.OptimizeDepthMap idxImage :: st.events) ++
                  [Event.ProcessImage (st.idxImage + 1)]
                idxImage := st.idxImage + 1 }
        else
          Sum.inl
            { st with
              arrDepthData := Function.update st.arrDepthData idx r.2
              events := st.events ++ [Event.ProcessImage (st.idxImage + 1)]
              idxImage := st.idxImage + 1 }
      else
        Sum.inl
          { st with
            arrDepthData := Function.update st.arrDepthData idx r.2
            events := Event.EstimateDepthMap idxImage :: st.events }
  | Event.EstimateDepthMap idxImage =>
    let idx := env.images.getD idxImage 0
    Sum.inl
      { st with
        arrDepthData := Function.update st.arrDepthData idx (env.Estimate idx st.arrDepthData)
        events :=
          (if env.OPTIMIZE then Event.OptimizeDepthMap idxImage
            else Event.SaveDepthMap idxImage) ::
            (st.events ++ [Event.ProcessImage (st.idxImage + 1)])
        idxImage := st.idxImage + 1 }
  | Event.OptimizeDepthMap idxImage =>
    let idx := env.images.getD idxImage 0
    Sum.inl
      { st with
        arrDepthData :=
          Function.update st.arrDepthData idx (optimizeDepthMap env (st.arrDepthData idx))
        events := Event.SaveDepthMap idxImage :: st.events }
  | Event.SaveDepthMap idxImage =>
    let idx := env.images.getD idxImage 0
    let depthData := st.arrDepthData idx
    Sum.inl
      { st with
        dmap :=
          if !depthData.depthMap.empty && decide (env.nEstimationGeometricIter < 0) then
            Function.update st.dmap idx (some (some depthData))
          else st.dmap
        geo :=
          if !depthData.depthMap.empty && !decide (env.nEstimationGeometricIter < 0) then
            Function.update st.geo idx (some (some depthData))
          else st.geo
        arrDepthData := Function.update st.arrDepthData idx (env.Release depthData) }
  | Event.Close => Sum.inr (Outcome.returned st)

/-- The routine `Scene::DenseReconstructionEstimate` run by a single worker for at most
`fuel` iterations of its loop: `none` when the fuel runs out or when `GetEvent` finds the
queue empty (the worker then waits for ever). -/
def DenseReconstructionEstimate (env : EstimateEnv) : Nat → EstimateState → Option Outcome
  | 0, _ => none
  | fuel + 1, st =>
    match st.events with
    | [] => none
    | evt :: rest =>
      match handleEvent env { st with events := rest, handled := st.handled ++ [evt] } evt with
      | Sum.inl st' => DenseReconstructionEstimate env fuel st'
      | Sum.inr out => some out

/-- The events that the handling of the image `i` can log: the image is skipped, or its
existing depth-map is optimized and saved, or its depth-map is estimated, optimized when the
bit `OPTIMIZE` is set, and saved. -/
def blockEvents (OPTIMIZE : Bool) (i : Nat) : List (List Event) :=
  [[Event.ProcessImage i],
   [Event.ProcessImage i, Event.OptimizeDepthMap i, Event.SaveDepthMap i],
   [Event.ProcessImage i, Event.EstimateDepthMap i] ++
     (if OPTIMIZE then [Event.OptimizeDepthMap i] else []) ++ [Event.SaveDepthMap i]]

/-- The file `dmap` of the image `i` after the handling of the image when that file exists
already (`depthmapComputed`): the file before when `InitViews` fails, when the bit `OPTIMIZE`
is clear or when the loaded depth-map is empty, else the loaded maps after the filters. -/
def restartFile (env : EstimateEnv) (st : EstimateState) (i : Nat) : Option DMapFile :=
  let idx := env.images.getD i 0
  let r := env.InitViews idx false (-1) (st.arrDepthData idx)
  if r.1 && env.OPTIMIZE then
    match loadDepthData ((st.dmap idx).getD none) r.2 with
    | none => st.dmap idx
    | some depthData =>
      if (optimizeDepthMap env depthData).depthMap.empty then st.dmap idx
      else some (some (optimizeDepthMap env depthData))
  else st.dmap idx

/-- The state `st'` is reached from the state `st` by the handling of the image `i`: the
queue holds `ProcessImage(i+1)`, the log has grown by one of the blocks of `blockEvents`,
every file loads, only the data and files of the image have changed, and an existing file
`dmap` of the image has become `restartFile`. -/
def BlockStep (env : EstimateEnv) (i : Nat) (st st' : EstimateState) : Prop :=
  st'.events = [Event.ProcessImage (i + 1)] ∧ st'.idxImage = i + 1 ∧
  (∃ b ∈ blockEvents env.OPTIMIZE i, st'.handled = st.handled ++ b) ∧
  (∀ idx, st'.dmap idx ≠ some none) ∧
  (∀ idx, idx ≠ env.images.getD i 0 →
    st'.dmap idx = st.dmap idx ∧ st'.arrDepthData idx = st.arrDepthData idx) ∧
  (depthmapComputed env st (env.images.getD i 0) = true →
    st'.dmap (env.images.getD i 0) = restartFile env st i)

/-- The state `st'` is reached from `st` by the handling of the `n` images `i`, ...,
`i + n - 1` one after the other. -/
def BlockSteps (env : EstimateEnv) : Nat → Nat → EstimateState → EstimateState → Prop
  | _, 0, st, st' => st' = st
  | i, n + 1, st, st' => ∃ mid, BlockStep env i st mid ∧ BlockSteps env (i + 1) n mid st'

/-- Test that an event is a `ProcessImage` event. -/
def Event.isProcessImage : Event → Bool
  | Event.ProcessImage _ => true
  | _ => false

/-- The list `l` is the log of the handling of the `n` images `i`, ..., `i + n - 1` one
after the other: a sequence of blocks of `blockEvents`. -/
def TraceBlocks (OPTIMIZE : Bool) : Nat → Nat → List Event → Prop
  | _, 0, l => l = []
  | i, n + 1, l =>
    ∃ b rest, b ∈ blockEvents OPTIMIZE i ∧ l = b ++ rest ∧ TraceBlocks OPTIMIZE (i + 1) n rest

/-- A one-image scene for the examples of the estimate phase: PatchMatch mode, no geometric
iteration, `InitViews` succeeds and leaves the depth data as it is, and the three bits of
`nOptimize` are given. -/
def restartEnv (OPTIMIZE REMOVE_SPECKLES FILL_GAPS : Bool) : EstimateEnv :=
  { images := [0]
    nMaxThreads := 1
    nFusionMode := 0
    nEstimationGeometricIter := -1
    OPTIMIZE := OPTIMIZE
    REMOVE_SPECKLES := REMOVE_SPECKLES
    FILL_GAPS := FILL_GAPS
    fDepthDiffThreshold := 100
    nSpeckleSize := 0
    nIpolGapSize := 1
    IsDepthSimilar := IsDepthSimilar
    Normal2Dir := exNormal2Dir
    Dir2Normal := exDir2Normal
    InitViews := fun _ _ _ depthData => (true, depthData)
    Estimate := fun idx arrDepthData => arrDepthData idx
    Release := fun depthData => depthData }

/-- The initial state of the estimate phase, queue `[ProcessImage(0)]`, with the given file
`dmap` for every image and the given depth data in memory. -/
def restartState (file : Option DMapFile) (depthData : DepthData) : EstimateState :=
  { events := [Event.ProcessImage 0]
    idxImage := 0
    arrDepthData := fun _ => depthData
    dmap := fun _ => file
    geo := fun _ => none
    handled := [] }

/-- The depth data that `GapInterpolation` makes of `crossImage`. -/
def crossFilled : DepthData :=
  GapInterpolation IsDepthSimilar exNormal2Dir exDir2Normal 100 1 crossImage

/-- The initial state of the fusion loops on an empty point cloud. -/
def fuseInit (arrDepthData : Nat → DepthData) : FuseState :=
  { pointcloud := {}
    arrDepthData := arrDepthData
    arrDepthIdx := fun _ => ⟨0, 0, fun _ => NO_ID⟩
    projs := []
    nDepths := 0 }

/-! ## Basic facts about images -/

theorem TImage.set_pix_same {α : Type} (img : TImage α) (p : ImageRef) (v : α) :
    (img.set p v).pix p = v := by
  simp [TImage.set]

theorem TImage.set_pix_of_ne {α : Type} (img : TImage α) {p q : ImageRef} (v : α)
    (h : q ≠ p) : (img.set p v).pix q = img.pix q := by
  simp [TImage.set, Function.update_noteq h]

/-! ## `EndDepthMapTmp` -/

/-- Finalizing the pixel `x` leaves every other pixel alone. -/
theorem endPixel_of_ne (t : ℚ) (dd : DepthData) {x q : ImageRef} (h : q ≠ x) :
    (endPixel t dd x).depthMap.pix q = dd.depthMap.pix q ∧
    (endPixel t dd x).normalMap.pix q = dd.normalMap.pix q ∧
    (endPixel t dd x).confMap.pix q = dd.confMap.pix q := by
  simp only [endPixel]
  split_ifs <;> simp [TImage.set_pix_of_ne _ _ h]

/-- What `endPixel` writes at the pixel it finalizes. -/
theorem endPixel_same (t : ℚ) (dd : DepthData) (x : ImageRef) :
    (endPixel t dd x).depthMap.pix x =
      (if dd.depthMap.pix x ≤ 0 ∨ dd.confMap.pix x ≥ t then 0 else dd.depthMap.pix x) ∧
    (endPixel t dd x).normalMap.pix x =
      (if dd.depthMap.pix x ≤ 0 ∨ dd.confMap.pix x ≥ t then Normal.ZERO
        else dd.normalMap.pix x) ∧
    (endPixel t dd x).confMap.pix x =
      (if dd.depthMap.pix x ≤ 0 ∨ dd.confMap.pix x ≥ t then 0
        else if dd.confMap.pix x ≥ 1 then 0 else 1 - dd.confMap.pix x) := by
  simp only [endPixel]
  split_ifs <;> simp [TImage.set_pix_same]

/-- Pixels outside the partition are not touched by `EndDepthMapTmp`. -/
theorem EndDepthMapTmp_of_not_mem (t : ℚ) (coords : List ImageRef) (dd : DepthData)
    {q : ImageRef} (h : q ∉ coords) :
    (EndDepthMapTmp t coords dd).depthMap.pix q = dd.depthMap.pix q ∧
    (EndDepthMapTmp t coords dd).normalMap.pix q = dd.normalMap.pix q ∧
    (EndDepthMapTmp t coords dd).confMap.pix q = dd.confMap.pix q := by
  induction coords generalizing dd with
  | nil => simp [EndDepthMapTmp]
  | cons c cs ih =>
    have hc : q ≠ c := fun e => h (e ▸ List.mem_cons_self _ _)
    have hcs : q ∉ cs := fun e => h (List.mem_cons_of_mem _ e)
    have h1 := ih (endPixel t dd c) hcs
    have h2 := endPixel_of_ne t dd hc
    simp only [EndDepthMapTmp, List.foldl_cons] at h1 ⊢
    exact ⟨h1.1.trans h2.1, h1.2.1.trans h2.2.1, h1.2.2.trans h2.2.2⟩

/-- A pixel of a duplicate-free partition is finalized exactly once: its final depth,
normal and confidence are those written by `endPixel` on the input maps. -/
theorem EndDepthMapTmp_of_mem (t : ℚ) (coords : List ImageRef) (dd : DepthData)
    {x : ImageRef} (hx : x ∈ coords) (hnd : coords.Nodup) :
    (EndDepthMapTmp t coords dd).depthMap.pix x = (endPixel t dd x).depthMap.pix x ∧
    (EndDepthMapTmp t coords dd).normalMap.pix x = (endPixel t dd x).normalMap.pix x ∧
    (EndDepthMapTmp t coords dd).confMap.pix x = (endPixel t dd x).confMap.pix x := by
  induction coords generalizing dd with
  | nil => cases hx
  | cons c cs ih =>
    rw [List.nodup_cons] at hnd
    by_cases hxc : x = c
    · subst hxc
      have h1 := EndDepthMapTmp_of_not_mem t cs (endPixel t dd x) hnd.1
      simpa only [EndDepthMapTmp, List.foldl_cons] using h1
    · have hxs : x ∈ cs := by
        rcases List.mem_cons.1 hx with h | h
        · exact absurd h hxc
        · exact h
      have h1 := ih (endPixel t dd c) hxs hnd.2
      have h2 := endPixel_of_ne t dd hxc
      simp only [EndDepthMapTmp, List.foldl_cons] at h1 ⊢
      have e1 := endPixel_same t (endPixel t dd c) x
      have e2 := endPixel_same t dd x
      rw [h2.1, h2.2.1, h2.2.2] at e1
      exact ⟨h1.1.trans (e1.1.trans e2.1.symm), h1.2.1.trans (e1.2.1.trans e2.2.1.symm),
        h1.2.2.trans (e1.2.2.trans e2.2.2.symm)⟩

/-- C7, as stated, fails: a kept pixel (depth 1, score 3/2, threshold 2) is neither cleared
nor given the confidence `1 - 3/2`; the code clamps its confidence to 0. -/
theorem EndDepthMapTmp_not_one_minus_conf :
    ¬ ((onePixel 1 (3/2)).depthMap.pix ⟨0, 0⟩ ≤ 0 ∨ (onePixel 1 (3/2)).confMap.pix ⟨0, 0⟩ ≥ 2) ∧
    (EndDepthMapTmp 2 [⟨0, 0⟩] (onePixel 1 (3/2))).depthMap.pix ⟨0, 0⟩ = 1 ∧
    (EndDepthMapTmp 2 [⟨0, 0⟩] (onePixel 1 (3/2))).confMap.pix ⟨0, 0⟩ = 0 ∧
    (EndDepthMapTmp 2 [⟨0, 0⟩] (onePixel 1 (3/2))).confMap.pix ⟨0, 0⟩ ≠
      1 - (onePixel 1 (3/2)).confMap.pix ⟨0, 0⟩ := by
  simp only [EndDepthMapTmp, List.foldl, endPixel, onePixel, TImage.set]
  norm_num

/-- C7 (amended): for every pixel `x` of the partition and every threshold, `EndDepthMapTmp`
clears depth, normal and confidence when `depth ≤ 0` or `conf ≥ fNCCThresholdKeep`; otherwise it
keeps depth and normal and sets the confidence to `1 - conf` when `conf < 1` and to `0` when
`conf ≥ 1`. -/
theorem EndDepthMapTmp_finalize (fNCCThresholdKeep : ℚ) (coords : List ImageRef)
    (dd : DepthData) (x : ImageRef) (hx : x ∈ coords) (hnd : coords.Nodup) :
    ((dd.depthMap.pix x ≤ 0 ∨ dd.confMap.pix x ≥ fNCCThresholdKeep) →
      (EndDepthMapTmp fNCCThresholdKeep coords dd).depthMap.pix x = 0 ∧
      (EndDepthMapTmp fNCCThresholdKeep coords dd).normalMap.pix x = Normal.ZERO ∧
      (EndDepthMapTmp fNCCThresholdKeep coords dd).confMap.pix x = 0) ∧
    (¬ (dd.depthMap.pix x ≤ 0 ∨ dd.confMap.pix x ≥ fNCCThresholdKeep) →
      (EndDepthMapTmp fNCCThresholdKeep coords dd).depthMap.pix x = dd.depthMap.pix x ∧
      (EndDepthMapTmp fNCCThresholdKeep coords dd).normalMap.pix x = dd.normalMap.pix x ∧
      (EndDepthMapTmp fNCCThresholdKeep coords dd).confMap.pix x =
        (if dd.confMap.pix x ≥ 1 then 0 else 1 - dd.confMap.pix x)) := by
  obtain ⟨h1, h2, h3⟩ := EndDepthMapTmp_of_mem fNCCThresholdKeep coords dd hx hnd
  obtain ⟨e1, e2, e3⟩ := endPixel_same fNCCThresholdKeep dd x
  rw [h1, h2, h3, e1, e2, e3]
  constructor
  · intro h
    simp only [if_pos h, and_self]
  · intro h
    simp only [if_neg h, and_self]

/-- Instance of `EndDepthMapTmp_finalize`: a pixel with depth 1 and score 1/4 under the
threshold 1/2 keeps its depth and gets confidence 3/4. -/
theorem EndDepthMapTmp_finalize_witness :
    (EndDepthMapTmp (1/2) [⟨0, 0⟩] (onePixel 1 (1/4))).depthMap.pix ⟨0, 0⟩ = 1 ∧
    (EndDepthMapTmp (1/2) [⟨0, 0⟩] (onePixel 1 (1/4))).confMap.pix ⟨0, 0⟩ = 3/4 := by
  have h := (EndDepthMapTmp_finalize (1/2) [⟨0, 0⟩] (onePixel 1 (1/4)) ⟨0, 0⟩
    (List.mem_singleton.2 rfl) (List.nodup_singleton _)).2
    (by simp only [onePixel]; norm_num)
  refine ⟨h.1, h.2.2.trans ?_⟩
  simp only [onePixel]
  norm_num

/-- C8, as stated, fails: a pixel with depth 1 and score exactly 1 (inside `[0,2]`) under the
threshold 2 keeps its depth but ends with confidence 0. -/
theorem EndDepthMapTmp_depth_without_conf :
    (0 ≤ (onePixel 1 1).confMap.pix ⟨0, 0⟩ ∧ (onePixel 1 1).confMap.pix ⟨0, 0⟩ ≤ 2) ∧
    ¬ (0 < (EndDepthMapTmp 2 [⟨0, 0⟩] (onePixel 1 1)).depthMap.pix ⟨0, 0⟩ ↔
       0 < (EndDepthMapTmp 2 [⟨0, 0⟩] (onePixel 1 1)).confMap.pix ⟨0, 0⟩) := by
  simp only [EndDepthMapTmp, List.foldl, endPixel, onePixel, TImage.set]
  norm_num

/-- C8 (amended): after `EndDepthMapTmp`, for every pixel of the partition and every threshold,
confidence > 0 implies depth > 0; and when `fNCCThresholdKeep ≤ 1`, depth > 0 holds if and
only if confidence > 0. -/
theorem EndDepthMapTmp_depth_iff_conf (fNCCThresholdKeep : ℚ) (coords : List ImageRef)
    (dd : DepthData) (x : ImageRef) (hx : x ∈ coords) (hnd : coords.Nodup) :
    (0 < (EndDepthMapTmp fNCCThresholdKeep coords dd).confMap.pix x →
      0 < (EndDepthMapTmp fNCCThresholdKeep coords dd).depthMap.pix x) ∧
    (fNCCThresholdKeep ≤ 1 →
      (0 < (EndDepthMapTmp fNCCThresholdKeep coords dd).depthMap.pix x ↔
       0 < (EndDepthMapTmp fNCCThresholdKeep coords dd).confMap.pix x)) := by
  obtain ⟨h1, -, h3⟩ := EndDepthMapTmp_of_mem fNCCThresholdKeep coords dd hx hnd
  obtain ⟨e1, -, e3⟩ := endPixel_same fNCCThresholdKeep dd x
  rw [h1, h3, e1, e3]
  by_cases hc : dd.depthMap.pix x ≤ 0 ∨ dd.confMap.pix x ≥ fNCCThresholdKeep
  · simp only [if_pos hc, lt_self_iff_false, imp_self, implies_true, and_self]
  · simp only [if_neg hc]
    have hd : 0 < dd.depthMap.pix x := by
      by_contra hn
      exact hc (Or.inl (not_lt.1 hn))
    have hlt : dd.confMap.pix x < fNCCThresholdKeep := by
      by_contra hn
      exact hc (Or.inr (not_lt.1 hn))
    refine ⟨fun _ => hd, fun ht => ⟨fun _ => ?_, fun _ => hd⟩⟩
    have h1 : ¬ dd.confMap.pix x ≥ 1 := by
      intro h
      linarith
    rw [if_neg h1]
    linarith [not_le.1 h1]

/-- Instance of `EndDepthMapTmp_depth_iff_conf` at threshold 1/2 on a pixel with depth 1 and
score 1/4. -/
theorem EndDepthMapTmp_depth_iff_conf_witness :
    (1/2 : ℚ) ≤ 1 ∧
    (0 < (EndDepthMapTmp (1/2) [⟨0, 0⟩] (onePixel 1 (1/4))).depthMap.pix ⟨0, 0⟩ ↔
     0 < (EndDepthMapTmp (1/2) [⟨0, 0⟩] (onePixel 1 (1/4))).confMap.pix ⟨0, 0⟩) :=
  ⟨by norm_num, (EndDepthMapTmp_depth_iff_conf (1/2) [⟨0, 0⟩] (onePixel 1 (1/4)) ⟨0, 0⟩
    (List.mem_singleton.2 rfl) (List.nodup_singleton _)).2 (by norm_num)⟩

/-- C9: after `EndDepthMapTmp`, every pixel of the partition whose score before finalization
lies in `[0,2]` has a confidence `c` with `0 ≤ c ≤ 1`, for every threshold. -/
theorem EndDepthMapTmp_conf_range (fNCCThresholdKeep : ℚ) (coords : List ImageRef)
    (dd : DepthData) (x : ImageRef) (hx : x ∈ coords) (hnd : coords.Nodup)
    (h0 : 0 ≤ dd.confMap.pix x ∧ dd.confMap.pix x ≤ 2) :
    0 ≤ (EndDepthMapTmp fNCCThresholdKeep coords dd).confMap.pix x ∧
    (EndDepthMapTmp fNCCThresholdKeep coords dd).confMap.pix x ≤ 1 := by
  obtain ⟨-, -, h3⟩ := EndDepthMapTmp_of_mem fNCCThresholdKeep coords dd hx hnd
  obtain ⟨-, -, e3⟩ := endPixel_same fNCCThresholdKeep dd x
  rw [h3, e3]
  split_ifs with ha hb
  · exact ⟨le_refl _, zero_le_one⟩
  · exact ⟨le_refl _, zero_le_one⟩
  · constructor <;> linarith [not_le.1 hb, h0.1]

/-- Instance of `EndDepthMapTmp_conf_range`: score 3/2 under the threshold 2. -/
theorem EndDepthMapTmp_conf_range_witness :
    0 ≤ (EndDepthMapTmp 2 [⟨0, 0⟩] (onePixel 1 (3/2))).confMap.pix ⟨0, 0⟩ ∧
    (EndDepthMapTmp 2 [⟨0, 0⟩] (onePixel 1 (3/2))).confMap.pix ⟨0, 0⟩ ≤ 1 :=
  EndDepthMapTmp_conf_range 2 [⟨0, 0⟩] (onePixel 1 (3/2)) ⟨0, 0⟩
    (List.mem_singleton.2 rfl) (List.nodup_singleton _)
    (by simp only [onePixel]; norm_num)

/-! ## `RemoveSmallSegments`: the flood fill -/


theorem ne_of_mem_neighbors4 {a b : ImageRef} (h : b ∈ neighbors4 a) : b ≠ a := by
  intro e
  subst e
  simp only [neighbors4, List.mem_cons, List.mem_singleton, List.not_mem_nil, or_false] at h
  rcases h with h | h | h | h
  all_goals
    have hx := congrArg ImageRef.x h
    have hy := congrArg ImageRef.y h
    simp only at hx hy
    omega

theorem getD_mem {α : Type} (l : List α) (i : Nat) (d : α) (h : i < l.length) :
    l.getD i d ∈ l := by
  rw [List.getD_eq_getElem l d h]
  exact List.getElem_mem h

theorem getD_zero_of_head {α : Type} (l : List α) (d s : α) (h : l.head? = some s) :
    l.getD 0 d = s := by
  cases l with
  | nil => simp at h
  | cons x xs =>
    simp only [List.head?_cons, Option.some.injEq] at h
    simp [h]

theorem visitNeighbor_spec (sim : Depth → Depth → Bool) (M : TImage Depth) (D0 : TImage Bool)
    (s a b : ImageRef) (st : SegState) (hinv : SegInv sim M D0 s st)
    (hlt : st.seg_list_curr < st.seg_list.length)
    (ha : st.seg_list.getD st.seg_list_curr ⟨0, 0⟩ = a) (hva : 0 < M.pix a)
    (hb : b ∈ neighbors4 a) :
    SegInv sim M D0 s (visitNeighbor sim M (M.pix a) st b) ∧
    (visitNeighbor sim M (M.pix a) st b).seg_list_curr = st.seg_list_curr ∧
    (∃ l, (visitNeighbor sim M (M.pix a) st b).seg_list = st.seg_list ++ l) ∧
    (SegEdge sim M D0 a b → b ∈ (visitNeighbor sim M (M.pix a) st b).seg_list) := by
  have hamem : a ∈ st.seg_list := ha ▸ getD_mem _ _ _ hlt
  have hne : b ≠ a := ne_of_mem_neighbors4 hb
  have hcurr0 : st.seg_list_curr = 0 → a = s := by
    intro h0
    rw [h0] at ha
    rw [← ha]
    exact getD_zero_of_head _ _ _ hinv.head
  unfold visitNeighbor
  by_cases h1 : inImage M b
  · rw [if_pos h1]
    by_cases h2 : st.done_map.pix b = false
    · rw [if_pos h2]
      by_cases h3 : M.pix b > 0 ∧ sim (M.pix a) (M.pix b) = true
      · dsimp only
        rw [if_pos h3]
        have hnd : ¬ (st.done_map.pix b = true) := by simp [h2]
        rw [hinv.done b] at hnd
        have hD0 : D0.pix b = false := by
          by_contra h
          exact hnd (Or.inl (by simpa using h))
        have hbs : b ≠ s ∨ 0 < st.seg_list_curr := by
          by_cases hc : st.seg_list_curr = 0
          · exact Or.inl (hcurr0 hc ▸ hne)
          · exact Or.inr (Nat.pos_of_ne_zero hc)
        have hnotin : b ∉ st.seg_list := fun hm => hnd (Or.inr ⟨hm, hbs⟩)
        have hedge : SegEdge sim M D0 a b := ⟨hva, hb, h1, hD0, h3.1, h3.2⟩
        refine ⟨⟨?_, ?_, ?_, ?_, ?_, ?_, ?_⟩, rfl, ⟨[b], rfl⟩, fun _ => by simp⟩
        · exact List.Nodup.append hinv.nodup (List.nodup_singleton b)
            (by simpa using hnotin)
        · have := hinv.head
          cases hl : st.seg_list with
          | nil => rw [hl] at this; simp at this
          | cons x xs => rw [hl] at this; simpa using this
        · intro q hq
          rcases List.mem_append.1 hq with hq | hq
          · exact hinv.inb q hq
          · rw [List.mem_singleton.1 hq]; exact ⟨h1, hD0⟩
        · intro q hq
          rcases List.mem_append.1 hq with hq | hq
          · exact hinv.reach q hq
          · rw [List.mem_singleton.1 hq]
            exact Relation.ReflTransGen.tail (hinv.reach a hamem) hedge
        · intro p
          by_cases hpb : p = b
          · subst hpb
            simp only [TImage.set_pix_same, List.mem_append, List.mem_singleton, or_true,
              true_and, true_iff]
            exact Or.inr hbs
          · rw [TImage.set_pix_of_ne _ _ hpb, hinv.done p]
            simp only [List.mem_append, List.mem_singleton, hpb, or_false]
        · simp only [List.length_append, List.length_singleton]
          exact Nat.le_succ_of_le hinv.curr_le
        · exact hinv.shape
      · dsimp only
        rw [if_neg h3]
        refine ⟨hinv, rfl, ⟨[], by simp⟩, fun he => absurd ⟨he.2.2.2.2.1, he.2.2.2.2.2⟩ h3⟩
    · rw [if_neg h2]
      refine ⟨hinv, rfl, ⟨[], by simp⟩, fun he => ?_⟩
      have hd : st.done_map.pix b = true := by simpa using h2
      rcases (hinv.done b).1 hd with h | h
      · rw [he.2.2.2.1] at h; cases h
      · exact h.1
  · rw [if_neg h1]
    exact ⟨hinv, rfl, ⟨[], by simp⟩, fun he => absurd he.2.2.1 h1⟩

theorem visitNeighbors_spec (sim : Depth → Depth → Bool) (M : TImage Depth) (D0 : TImage Bool)
    (s a : ImageRef) (ns : List ImageRef) (hns : ∀ b ∈ ns, b ∈ neighbors4 a) (st : SegState)
    (hinv : SegInv sim M D0 s st) (hlt : st.seg_list_curr < st.seg_list.length)
    (ha : st.seg_list.getD st.seg_list_curr ⟨0, 0⟩ = a) (hva : 0 < M.pix a) :
    SegInv sim M D0 s (ns.foldl (visitNeighbor sim M (M.pix a)) st) ∧
    (ns.foldl (visitNeighbor sim M (M.pix a)) st).seg_list_curr = st.seg_list_curr ∧
    (∃ l, (ns.foldl (visitNeighbor sim M (M.pix a)) st).seg_list = st.seg_list ++ l) ∧
    (∀ b ∈ ns, SegEdge sim M D0 a b →
      b ∈ (ns.foldl (visitNeighbor sim M (M.pix a)) st).seg_list) := by
  induction ns generalizing st with
  | nil => exact ⟨hinv, rfl, ⟨[], by simp⟩, fun b hb => by cases hb⟩
  | cons c cs ih =>
    obtain ⟨h1, h2, ⟨l1, h3⟩, h4⟩ := visitNeighbor_spec sim M D0 s a c st hinv hlt ha hva
      (hns c (List.mem_cons_self _ _))
    have hlt1 : (visitNeighbor sim M (M.pix a) st c).seg_list_curr <
        (visitNeighbor sim M (M.pix a) st c).seg_list.length := by
      rw [h2, h3, List.length_append]
      omega
    have ha1 : (visitNeighbor sim M (M.pix a) st c).seg_list.getD
        (visitNeighbor sim M (M.pix a) st c).seg_list_curr ⟨0, 0⟩ = a := by
      rw [h2, h3, List.getD_append _ _ _ _ hlt]
      exact ha
    obtain ⟨g1, g2, ⟨l2, g3⟩, g4⟩ := ih (fun b hb => hns b (List.mem_cons_of_mem _ hb))
      (visitNeighbor sim M (M.pix a) st c) h1 hlt1 ha1
    simp only [List.foldl_cons]
    refine ⟨g1, g2.trans h2, ⟨l1 ++ l2, by rw [g3, h3, List.append_assoc]⟩, ?_⟩
    intro b hb he
    rcases List.mem_cons.1 hb with hbc | hbc
    · rw [g3]
      exact List.mem_append_left _ (hbc ▸ h4 (hbc ▸ he))
    · exact g4 b hbc he

theorem growSegment_inv (sim : Depth → Depth → Bool) (M : TImage Depth) (D0 : TImage Bool)
    (s : ImageRef) (fuel : Nat) (st : SegState) (hinv : SegInv sim M D0 s st)
    (hcl : SegClosed sim M D0 st) :
    SegInv sim M D0 s (growSegment sim M fuel st) ∧
    SegClosed sim M D0 (growSegment sim M fuel st) ∧
    ((growSegment sim M fuel st).seg_list_curr = (growSegment sim M fuel st).seg_list.length ∨
      (growSegment sim M fuel st).seg_list_curr = st.seg_list_curr + fuel) := by
  induction fuel generalizing st with
  | zero => exact ⟨hinv, hcl, Or.inr rfl⟩
  | succ fuel ih =>
    unfold growSegment
    by_cases hlt : st.seg_list_curr < st.seg_list.length
    · rw [if_pos hlt]
      dsimp only
      generalize ha : st.seg_list.getD st.seg_list_curr ⟨0, 0⟩ = a
      have hamem : a ∈ st.seg_list := ha ▸ getD_mem _ _ _ hlt
      -- the state after the four neighbours
      have key : ∃ st1 : SegState,
          st1 = (if M.pix a > 0 then
            (neighbors4 a).foldl (visitNeighbor sim M (M.pix a)) st else st) ∧
          SegInv sim M D0 s st1 ∧ st1.seg_list_curr = st.seg_list_curr ∧
          (∃ l, st1.seg_list = st.seg_list ++ l) ∧
          (∀ b, SegEdge sim M D0 a b → b ∈ st1.seg_list) := by
        refine ⟨_, rfl, ?_⟩
        by_cases hva : M.pix a > 0
        · rw [if_pos hva]
          obtain ⟨h1, h2, h3, h4⟩ := visitNeighbors_spec sim M D0 s a (neighbors4 a)
            (fun b hb => hb) st hinv hlt ha hva
          exact ⟨h1, h2, h3, fun b he => h4 b he.2.1 he⟩
        · rw [if_neg hva]
          exact ⟨hinv, rfl, ⟨[], by simp⟩, fun b he => absurd he.1 hva⟩
      obtain ⟨st1, hst1, h1, h2, ⟨l, h3⟩, h4⟩ := key
      rw [← hst1]
      have hcurr0 : st.seg_list_curr = 0 → a = s := by
        intro h0
        rw [h0] at ha
        rw [← ha]
        exact getD_zero_of_head _ _ _ hinv.head
      have hamem1 : a ∈ st1.seg_list := by
        rw [h3]
        exact List.mem_append_left _ hamem
      have hinv2 : SegInv sim M D0 s
          { st1 with seg_list_curr := st1.seg_list_curr + 1,
                     done_map := st1.done_map.set a true } := by
        refine ⟨h1.nodup, h1.head, h1.inb, h1.reach, ?_, ?_, h1.shape⟩
        · intro p
          by_cases hpa : p = a
          · subst hpa
            simp only [TImage.set_pix_same, true_iff]
            exact Or.inr ⟨hamem1, Or.inr (Nat.succ_pos _)⟩
          · simp only [TImage.set_pix_of_ne _ _ hpa]
            rw [h1.done p]
            constructor
            · rintro (h | ⟨hm, _⟩)
              · exact Or.inl h
              · exact Or.inr ⟨hm, Or.inr (Nat.succ_pos _)⟩
            · rintro (h | ⟨hm, _⟩)
              · exact Or.inl h
              · refine Or.inr ⟨hm, ?_⟩
                by_cases hps : p = s
                · right
                  rw [h2]
                  apply Nat.pos_of_ne_zero
                  intro h0
                  exact hpa (hps.trans (hcurr0 h0).symm)
                · exact Or.inl hps
        · show st1.seg_list_curr + 1 ≤ st1.seg_list.length
          rw [h2, h3, List.length_append]
          omega
      have hcl2 : SegClosed sim M D0
          { st1 with seg_list_curr := st1.seg_list_curr + 1,
                     done_map := st1.done_map.set a true } := by
        intro x hx b he
        show b ∈ st1.seg_list
        have hx' : x ∈ st1.seg_list.take (st.seg_list_curr + 1) := by
          have : st1.seg_list_curr + 1 = st.seg_list_curr + 1 := by rw [h2]
          simpa only [this] using hx
        rw [h3, List.take_append_of_le_length (Nat.succ_le_of_lt hlt), List.take_succ,
          List.mem_append] at hx'
        rcases hx' with hx' | hx'
        · rw [h3]
          exact List.mem_append_left _ (hcl x hx' b he)
        · have hget : st.seg_list[st.seg_list_curr]? = some a := by
            rw [List.getElem?_eq_getElem hlt, ← ha, List.getD_eq_getElem _ _ hlt]
          rw [hget] at hx'
          simp only [Option.toList_some, List.mem_singleton] at hx'
          rw [hx'] at he
          exact h4 b he
      obtain ⟨r1, r2, r3⟩ := ih _ hinv2 hcl2
      refine ⟨r1, r2, ?_⟩
      rcases r3 with r3 | r3
      · exact Or.inl r3
      · right
        rw [r3]
        show st1.seg_list_curr + 1 + fuel = st.seg_list_curr + (fuel + 1)
        rw [h2]
        omega
    · rw [if_neg hlt]
      exact ⟨hinv, hcl, Or.inl (le_antisymm hinv.curr_le (not_lt.1 hlt))⟩

theorem mem_colMajor (cols rows : Nat) (q : ImageRef) :
    q ∈ colMajor cols rows ↔
      0 ≤ q.x ∧ 0 ≤ q.y ∧ q.x < (cols : Int) ∧ q.y < (rows : Int) := by
  simp only [colMajor, List.mem_flatMap, List.mem_map, List.mem_range]
  constructor
  · rintro ⟨u, hu, v, hv, rfl⟩
    simp only
    omega
  · rintro ⟨h1, h2, h3, h4⟩
    refine ⟨q.x.toNat, by omega, q.y.toNat, by omega, ?_⟩
    cases q with
    | mk x y =>
      simp only at h1 h2 h3 h4 ⊢
      rw [Int.toNat_of_nonneg h1, Int.toNat_of_nonneg h2]

theorem length_colMajor (cols rows : Nat) : (colMajor cols rows).length = cols * rows := by
  simp [colMajor, List.length_flatMap, Function.comp_def, List.map_const']

theorem length_le_of_nodup_inImage (M : TImage Depth) (l : List ImageRef) (hnd : l.Nodup)
    (hin : ∀ q ∈ l, inImage M q) : l.length ≤ M.cols * M.rows := by
  have hsub : l ⊆ colMajor M.cols M.rows := fun q hq => (mem_colMajor _ _ q).2 (hin q hq)
  have := (List.subperm_of_subset hnd hsub).length_le
  rwa [length_colMajor] at this

/-- Result of the flood fill started at an unmarked seed `s` inside the image: the segment
list has no repetition, holds exactly the pixels reached from `s`, and the new marks are the
old ones plus the segment. -/
theorem growSegment_seed (sim : Depth → Depth → Bool) (M : TImage Depth) (D : TImage Bool)
    (s : ImageRef) (hs : inImage M s) (hD : D.pix s = false) :
    (growSegment sim M (M.cols * M.rows) ⟨D, [s], 0⟩).seg_list.Nodup ∧
    (∀ q, q ∈ (growSegment sim M (M.cols * M.rows) ⟨D, [s], 0⟩).seg_list ↔
      SegReach sim M D s q) ∧
    (∀ q ∈ (growSegment sim M (M.cols * M.rows) ⟨D, [s], 0⟩).seg_list,
      inImage M q ∧ D.pix q = false) ∧
    (∀ p, (growSegment sim M (M.cols * M.rows) ⟨D, [s], 0⟩).done_map.pix p = true ↔
      (D.pix p = true ∨ p ∈ (growSegment sim M (M.cols * M.rows) ⟨D, [s], 0⟩).seg_list)) ∧
    (growSegment sim M (M.cols * M.rows) ⟨D, [s], 0⟩).done_map.cols = D.cols ∧
    (growSegment sim M (M.cols * M.rows) ⟨D, [s], 0⟩).done_map.rows = D.rows := by
  have hinv0 : SegInv sim M D s ⟨D, [s], 0⟩ := by
    refine ⟨List.nodup_singleton s, rfl, ?_, ?_, ?_, Nat.zero_le _, rfl, rfl⟩
    · intro q hq
      rw [List.mem_singleton.1 hq]
      exact ⟨hs, hD⟩
    · intro q hq
      rw [List.mem_singleton.1 hq]
      exact Relation.ReflTransGen.refl
    · intro p
      simp only [List.mem_singleton, lt_self_iff_false, or_false]
      constructor
      · exact fun h => Or.inl h
      · rintro (h | ⟨h1, h2⟩)
        · exact h
        · exact absurd h1 h2
  have hcl0 : SegClosed sim M D ⟨D, [s], 0⟩ := by
    intro a ha
    simp at ha
  obtain ⟨r1, r2, r3⟩ := growSegment_inv sim M D s (M.cols * M.rows) _ hinv0 hcl0
  generalize growSegment sim M (M.cols * M.rows) ⟨D, [s], 0⟩ = r at r1 r2 r3
  have hlen : r.seg_list.length ≤ M.cols * M.rows :=
    length_le_of_nodup_inImage M _ r1.nodup (fun q hq => (r1.inb q hq).1)
  have hcurr : r.seg_list_curr = r.seg_list.length := by
    rcases r3 with h | h
    · exact h
    · have := r1.curr_le
      simp only [zero_add] at h
      omega
  have hsmem : s ∈ r.seg_list := by
    have := r1.head
    cases hl : r.seg_list with
    | nil => rw [hl] at this; simp at this
    | cons x xs =>
      rw [hl] at this
      simp only [List.head?_cons, Option.some.injEq] at this
      rw [this]
      exact List.mem_cons_self _ _
  have hpos : 0 < r.seg_list_curr := by
    rw [hcurr]
    exact List.length_pos_of_mem hsmem
  have hclosed : ∀ a ∈ r.seg_list, ∀ b, SegEdge sim M D a b → b ∈ r.seg_list := by
    intro a ha b he
    refine r2 a ?_ b he
    rw [hcurr, List.take_length]
    exact ha
  refine ⟨r1.nodup, ?_, r1.inb, ?_, r1.shape.1, r1.shape.2⟩
  · intro q
    constructor
    · exact r1.reach q
    · intro h
      induction h with
      | refl => exact hsmem
      | tail _ hbc ih => exact hclosed _ ih _ hbc
  · intro p
    rw [r1.done p]
    constructor
    · rintro (h | ⟨h, _⟩)
      · exact Or.inl h
      · exact Or.inr h
    · rintro (h | h)
      · exact Or.inl h
      · exact Or.inr ⟨h, Or.inr hpos⟩

/-- The fuel `size.x*size.y` suffices: started at an unmarked seed inside the image, the loop
of `growSegment` stops because its condition `seg_list_curr < seg_list_count` fails, with the
whole segment list processed. -/
theorem growSegment_fuel_suffices (sim : Depth → Depth → Bool) (M : TImage Depth)
    (D : TImage Bool) (s : ImageRef) (hs : inImage M s) (hD : D.pix s = false) :
    (growSegment sim M (M.cols * M.rows) ⟨D, [s], 0⟩).seg_list_curr =
      (growSegment sim M (M.cols * M.rows) ⟨D, [s], 0⟩).seg_list.length := by
  have hinv0 : SegInv sim M D s ⟨D, [s], 0⟩ := by
    refine ⟨List.nodup_singleton s, rfl, ?_, ?_, ?_, Nat.zero_le _, rfl, rfl⟩
    · intro q hq
      rw [List.mem_singleton.1 hq]
      exact ⟨hs, hD⟩
    · intro q hq
      rw [List.mem_singleton.1 hq]
      exact Relation.ReflTransGen.refl
    · intro p
      simp only [List.mem_singleton, lt_self_iff_false, or_false]
      constructor
      · exact fun h => Or.inl h
      · rintro (h | ⟨h1, h2⟩)
        · exact h
        · exact absurd h1 h2
  have hcl0 : SegClosed sim M D ⟨D, [s], 0⟩ := by
    intro a ha
    simp at ha
  obtain ⟨r1, -, r3⟩ := growSegment_inv sim M D s (M.cols * M.rows) _ hinv0 hcl0
  have hlen := length_le_of_nodup_inImage M _ r1.nodup (fun q hq => (r1.inb q hq).1)
  rcases r3 with h | h
  · exact h
  · have := r1.curr_le
    simp only [zero_add] at h
    omega

/-! ## `RemoveSmallSegments`: the outer loops -/


theorem TImage.ext_pix {α : Type} (a b : TImage α) (hc : a.cols = b.cols) (hr : a.rows = b.rows)
    (hp : ∀ p, a.pix p = b.pix p) : a = b := by
  cases a
  cases b
  simp only at hc hr hp
  subst hc
  subst hr
  congr
  exact funext hp

theorem TImage.set_self {α : Type} (a : TImage α) (p : ImageRef) : a.set p (a.pix p) = a := by
  cases a
  simp [TImage.set]

theorem DepthData.ext_of_agree (dd dd' : DepthData) (hs : SameShape dd dd')
    (ha : ∀ p, AgreeAt dd dd' p) : dd = dd' := by
  obtain ⟨h1, h2, h3, h4, h5, h6, h7, h8⟩ := hs
  cases dd
  cases dd'
  simp only at h1 h2 h3 h4 h5 h6 h7 h8
  simp only [AgreeAt] at ha
  subst h7
  subst h8
  congr
  · exact TImage.ext_pix _ _ h1 h2 (fun p => (ha p).1)
  · exact TImage.ext_pix _ _ h3 h4 (fun p => (ha p).2.1)
  · exact TImage.ext_pix _ _ h5 h6 (fun p => (ha p).2.2)

theorem SameShape.shape_refl (dd : DepthData) : SameShape dd dd :=
  ⟨rfl, rfl, rfl, rfl, rfl, rfl, rfl, rfl⟩

theorem SameShape.shape_trans {a b c : DepthData} (h1 : SameShape a b) (h2 : SameShape b c) :
    SameShape a c :=
  ⟨h1.1.trans h2.1, h1.2.1.trans h2.2.1, h1.2.2.1.trans h2.2.2.1,
    h1.2.2.2.1.trans h2.2.2.2.1, h1.2.2.2.2.1.trans h2.2.2.2.2.1,
    h1.2.2.2.2.2.1.trans h2.2.2.2.2.2.1, h1.2.2.2.2.2.2.1.trans h2.2.2.2.2.2.2.1,
    h1.2.2.2.2.2.2.2.trans h2.2.2.2.2.2.2.2⟩

theorem SameShape.shape_symm {a b : DepthData} (h : SameShape a b) : SameShape b a :=
  ⟨h.1.symm, h.2.1.symm, h.2.2.1.symm, h.2.2.2.1.symm, h.2.2.2.2.1.symm,
    h.2.2.2.2.2.1.symm, h.2.2.2.2.2.2.1.symm, h.2.2.2.2.2.2.2.symm⟩

theorem AgreeAt.agree_refl (dd : DepthData) (p : ImageRef) : AgreeAt dd dd p := ⟨rfl, rfl, rfl⟩

theorem AgreeAt.agree_trans {a b c : DepthData} {p : ImageRef} (h1 : AgreeAt a b p)
    (h2 : AgreeAt b c p) : AgreeAt a c p :=
  ⟨h1.1.trans h2.1, h1.2.1.trans h2.2.1, h1.2.2.trans h2.2.2⟩

theorem AgreeAt.agree_symm {a b : DepthData} {p : ImageRef} (h : AgreeAt a b p) : AgreeAt b a p :=
  ⟨h.1.symm, h.2.1.symm, h.2.2.symm⟩

theorem SameShape.normal_empty {a b : DepthData} (h : SameShape a b) :
    a.normalMap.empty = b.normalMap.empty := by
  simp only [TImage.empty, h.2.2.1, h.2.2.2.1]

theorem SameShape.conf_empty {a b : DepthData} (h : SameShape a b) :
    a.confMap.empty = b.confMap.empty := by
  simp only [TImage.empty, h.2.2.2.2.1, h.2.2.2.2.2.1]

/-- Invalidation is carried along maps that agree at the pixel. -/
theorem Zeroed.zeroed_of_agree {a b : DepthData} {p : ImageRef} (hz : Zeroed b p) (hs : SameShape a b)
    (ha : AgreeAt a b p) : Zeroed a p := by
  refine ⟨ha.1.trans hz.1, fun h => ha.2.1.trans (hz.2.1 ?_), fun h => ha.2.2.trans (hz.2.2 ?_)⟩
  · rw [← hs.normal_empty]; exact h
  · rw [← hs.conf_empty]; exact h

theorem inImage_congr {M M' : TImage Depth} (hc : M.cols = M'.cols) (hr : M.rows = M'.rows)
    (p : ImageRef) : inImage M p ↔ inImage M' p := by
  simp only [inImage, hc, hr]

theorem invalidatePixel_shape (dd : DepthData) (p : ImageRef) :
    SameShape (invalidatePixel dd p) dd := by
  unfold invalidatePixel SameShape
  refine ⟨rfl, rfl, ?_, ?_, ?_, ?_, rfl, rfl⟩
  all_goals
    dsimp only
    split_ifs <;> rfl

theorem invalidatePixel_same (dd : DepthData) (p : ImageRef) :
    Zeroed (invalidatePixel dd p) p := by
  have hs := invalidatePixel_shape dd p
  refine ⟨?_, fun h => ?_, fun h => ?_⟩
  · simp [invalidatePixel, TImage.set_pix_same]
  · rw [hs.normal_empty] at h
    simp [invalidatePixel, h, TImage.set_pix_same]
  · rw [hs.conf_empty] at h
    simp [invalidatePixel, h, TImage.set_pix_same]

theorem invalidatePixel_of_ne (dd : DepthData) {p q : ImageRef} (h : q ≠ p) :
    AgreeAt (invalidatePixel dd p) dd q := by
  unfold invalidatePixel AgreeAt
  dsimp only
  refine ⟨TImage.set_pix_of_ne _ _ h, ?_, ?_⟩
  · split_ifs
    · exact TImage.set_pix_of_ne _ _ h
    · rfl
  · split_ifs
    · exact TImage.set_pix_of_ne _ _ h
    · rfl

/-- Invalidating a pixel that is already invalidated changes nothing. -/
theorem invalidatePixel_of_zeroed (dd : DepthData) (p : ImageRef) (h : Zeroed dd p) :
    invalidatePixel dd p = dd := by
  apply DepthData.ext_of_agree _ _ (invalidatePixel_shape dd p)
  intro q
  by_cases hq : q = p
  · subst hq
    have hz := invalidatePixel_same dd q
    have hs := invalidatePixel_shape dd q
    refine ⟨hz.1.trans h.1.symm, ?_, ?_⟩
    · by_cases he : dd.normalMap.empty = false
      · exact (hz.2.1 (hs.normal_empty.trans he)).trans (h.2.1 he).symm
      · simp only [invalidatePixel]
        simp only [Bool.not_eq_false] at he
        simp [he]
    · by_cases he : dd.confMap.empty = false
      · exact (hz.2.2 (hs.conf_empty.trans he)).trans (h.2.2 he).symm
      · simp only [invalidatePixel]
        simp only [Bool.not_eq_false] at he
        simp [he]
  · exact invalidatePixel_of_ne dd hq

theorem invalidateSegment_spec (L : List ImageRef) (dd : DepthData) :
    SameShape (invalidateSegment dd L) dd ∧
    (∀ p, p ∈ L → Zeroed (invalidateSegment dd L) p) ∧
    (∀ p, p ∉ L → AgreeAt (invalidateSegment dd L) dd p) := by
  induction L generalizing dd with
  | nil =>
    exact ⟨SameShape.shape_refl dd, fun p hp => absurd hp (List.not_mem_nil p),
      fun p _ => AgreeAt.agree_refl dd p⟩
  | cons c cs ih =>
    obtain ⟨h1, h2, h3⟩ := ih (invalidatePixel dd c)
    simp only [invalidateSegment, List.foldl_cons] at h1 h2 h3 ⊢
    refine ⟨h1.shape_trans (invalidatePixel_shape dd c), ?_, ?_⟩
    · intro p hp
      by_cases hpc : p ∈ cs
      · exact h2 p hpc
      · have hpe : p = c := by
          rcases List.mem_cons.1 hp with h | h
          · exact h
          · exact absurd h hpc
        subst hpe
        exact (invalidatePixel_same dd p).zeroed_of_agree h1 (h3 p hpc)
    · intro p hp
      have hpc : p ≠ c := fun e => hp (e ▸ List.mem_cons_self _ _)
      have hpcs : p ∉ cs := fun e => hp (List.mem_cons_of_mem _ e)
      exact (h3 p hpcs).agree_trans (invalidatePixel_of_ne dd hpc)

theorem invalidateSegment_of_zeroed (L : List ImageRef) (dd : DepthData)
    (h : ∀ p ∈ L, Zeroed dd p) : invalidateSegment dd L = dd := by
  induction L generalizing dd with
  | nil => rfl
  | cons c cs ih =>
    simp only [invalidateSegment, List.foldl_cons]
    rw [invalidatePixel_of_zeroed dd c (h c (List.mem_cons_self _ _))]
    exact ih dd (fun p hp => h p (List.mem_cons_of_mem _ hp))

theorem removeSegmentAt_of_done (sim : Depth → Depth → Bool) (k : Nat) (A : SpeckleState)
    (s : ImageRef) (h : A.done_map.pix s = true) : removeSegmentAt sim k A s = A := by
  simp only [removeSegmentAt, if_pos h]

/-- One step of the outer loops at an unmarked seed: the segment `L` is the set of pixels the
flood fill reaches; it is marked, and invalidated when shorter than `speckle_size`. -/
theorem removeSegmentAt_spec (sim : Depth → Depth → Bool) (k : Nat) (A : SpeckleState)
    (s : ImageRef) (hs : inImage A.depthData.depthMap s) (h : A.done_map.pix s = false) :
    ∃ L : List ImageRef, L.Nodup ∧
      (∀ q, q ∈ L ↔ SegReach sim A.depthData.depthMap A.done_map s q) ∧
      (∀ q ∈ L, inImage A.depthData.depthMap q ∧ A.done_map.pix q = false) ∧
      (∀ p, (removeSegmentAt sim k A s).done_map.pix p = true ↔
        (A.done_map.pix p = true ∨ p ∈ L)) ∧
      (removeSegmentAt sim k A s).depthData =
        (if L.length < k then invalidateSegment A.depthData L else A.depthData) := by
  obtain ⟨h1, h2, h3, h4, -, -⟩ :=
    growSegment_seed sim A.depthData.depthMap A.done_map s hs h
  have hn : ¬ (A.done_map.pix s = true) := by simp [h]
  refine ⟨_, h1, h2, h3, ?_, ?_⟩
  · intro p
    simp only [removeSegmentAt, if_neg hn]
    exact h4 p
  · simp only [removeSegmentAt, if_neg hn]

theorem removeSegmentAt_frame (sim : Depth → Depth → Bool) (k : Nat) (A : SpeckleState)
    (s : ImageRef) (hs : inImage A.depthData.depthMap s) :
    SameShape (removeSegmentAt sim k A s).depthData A.depthData ∧
    (removeSegmentAt sim k A s).done_map.pix s = true ∧
    (∀ p, A.done_map.pix p = true → (removeSegmentAt sim k A s).done_map.pix p = true ∧
      AgreeAt (removeSegmentAt sim k A s).depthData A.depthData p) ∧
    (∀ p, AgreeAt (removeSegmentAt sim k A s).depthData A.depthData p ∨
      Zeroed (removeSegmentAt sim k A s).depthData p) := by
  by_cases h : A.done_map.pix s = true
  · rw [removeSegmentAt_of_done sim k A s h]
    exact ⟨SameShape.shape_refl _, h, fun p hp => ⟨hp, AgreeAt.agree_refl _ p⟩,
      fun p => Or.inl (AgreeAt.agree_refl _ p)⟩
  · have hf : A.done_map.pix s = false := by simpa using h
    obtain ⟨L, -, h2, h3, h4, h5⟩ := removeSegmentAt_spec sim k A s hs hf
    have hsL : s ∈ L := (h2 s).2 Relation.ReflTransGen.refl
    obtain ⟨i1, i2, i3⟩ := invalidateSegment_spec L A.depthData
    rw [h5]
    refine ⟨?_, (h4 s).2 (Or.inr hsL), ?_, ?_⟩
    · split_ifs
      · exact i1
      · exact SameShape.shape_refl _
    · intro p hp
      refine ⟨(h4 p).2 (Or.inl hp), ?_⟩
      split_ifs
      · refine i3 p (fun hm => ?_)
        have := (h3 p hm).2
        rw [hp] at this
        cases this
      · exact AgreeAt.agree_refl _ p
    · intro p
      split_ifs
      · by_cases hm : p ∈ L
        · exact Or.inr (i2 p hm)
        · exact Or.inl (i3 p hm)
      · exact Or.inl (AgreeAt.agree_refl _ p)

theorem foldl_removeSegmentAt_frame (sim : Depth → Depth → Bool) (k : Nat)
    (seeds : List ImageRef) (A : SpeckleState)
    (hseeds : ∀ s ∈ seeds, inImage A.depthData.depthMap s) :
    SameShape (seeds.foldl (removeSegmentAt sim k) A).depthData A.depthData ∧
    (∀ s ∈ seeds, (seeds.foldl (removeSegmentAt sim k) A).done_map.pix s = true) ∧
    (∀ p, A.done_map.pix p = true →
      (seeds.foldl (removeSegmentAt sim k) A).done_map.pix p = true ∧
      AgreeAt (seeds.foldl (removeSegmentAt sim k) A).depthData A.depthData p) ∧
    (∀ p, AgreeAt (seeds.foldl (removeSegmentAt sim k) A).depthData A.depthData p ∨
      Zeroed (seeds.foldl (removeSegmentAt sim k) A).depthData p) := by
  induction seeds generalizing A with
  | nil =>
    exact ⟨SameShape.shape_refl _, fun s hs => absurd hs (List.not_mem_nil s),
      fun p hp => ⟨hp, AgreeAt.agree_refl _ p⟩, fun p => Or.inl (AgreeAt.agree_refl _ p)⟩
  | cons c cs ih =>
    obtain ⟨f1, f2, f3, f4⟩ := removeSegmentAt_frame sim k A c
      (hseeds c (List.mem_cons_self _ _))
    have hcs : ∀ s ∈ cs, inImage (removeSegmentAt sim k A c).depthData.depthMap s :=
      fun s hs => (inImage_congr f1.1 f1.2.1 s).2 (hseeds s (List.mem_cons_of_mem _ hs))
    obtain ⟨g1, g2, g3, g4⟩ := ih (removeSegmentAt sim k A c) hcs
    simp only [List.foldl_cons]
    refine ⟨g1.shape_trans f1, ?_, ?_, ?_⟩
    · intro s hs
      rcases List.mem_cons.1 hs with h | h
      · rw [h]
        exact (g3 c f2).1
      · exact g2 s h
    · intro p hp
      obtain ⟨a1, a2⟩ := f3 p hp
      obtain ⟨b1, b2⟩ := g3 p a1
      exact ⟨b1, b2.agree_trans a2⟩
    · intro p
      rcases g4 p with h | h
      · rcases f4 p with h' | h'
        · exact Or.inl (h.agree_trans h')
        · exact Or.inr (h'.zeroed_of_agree g1 h)
      · exact Or.inr h

/-- From an invalid pixel the flood fill reaches nothing but the pixel itself. -/
theorem SegReach.eq_of_invalid {sim : Depth → Depth → Bool} {M : TImage Depth}
    {D : TImage Bool} {s q : ImageRef} (h : SegReach sim M D s q) (hs : ¬ 0 < M.pix s) :
    q = s := by
  induction h with
  | refl => rfl
  | tail _ hbc ih =>
    rw [ih] at hbc
    exact absurd hbc.1 hs

theorem Zeroed.not_pos {dd : DepthData} {p : ImageRef} (h : Zeroed dd p) :
    ¬ 0 < dd.depthMap.pix p := by
  rw [h.1]
  exact lt_irrefl 0

/-- The flood fill of the second pass reaches from `c` what the first pass reached, when the
second map `MF` equals the first map `M1` on the first segment and elsewhere equals it or is
invalid, and the pixels marked only in the first pass are invalid in `MF`. -/
theorem segReach_transfer (sim : Depth → Depth → Bool) (M1 MF : TImage Depth)
    (D1 D2 : TImage Bool) (c : ImageRef) (hcols : MF.cols = M1.cols) (hrows : MF.rows = M1.rows)
    (h2 : ∀ p, D2.pix p = true → D1.pix p = true)
    (h3 : ∀ p, D1.pix p = true → D2.pix p = false → ¬ 0 < MF.pix p)
    (hg : ∀ p, MF.pix p = M1.pix p ∨ ¬ 0 < MF.pix p)
    (hagree : ∀ q, SegReach sim M1 D1 c q → MF.pix q = M1.pix q) (q : ImageRef) :
    SegReach sim M1 D1 c q ↔ SegReach sim MF D2 c q := by
  constructor
  · intro h
    induction h with
    | refl => exact Relation.ReflTransGen.refl
    | tail hab hbc ih =>
      rename_i a b
      have ea := hagree a hab
      have eb := hagree b (Relation.ReflTransGen.tail hab hbc)
      obtain ⟨c1, c2, c3, c4, c5, c6⟩ := hbc
      refine Relation.ReflTransGen.tail ih ⟨?_, c2, (inImage_congr hcols hrows b).2 c3, ?_, ?_, ?_⟩
      · rw [ea]; exact c1
      · by_contra hn
        have := h2 b (by simpa using hn)
        rw [c4] at this
        cases this
      · rw [eb]; exact c5
      · rw [ea, eb]; exact c6
  · intro h
    induction h with
    | refl => exact Relation.ReflTransGen.refl
    | tail hab hbc ih =>
      rename_i a b
      have ea := hagree a ih
      obtain ⟨c1, c2, c3, c4, c5, c6⟩ := hbc
      have eb : MF.pix b = M1.pix b := by
        rcases hg b with h | h
        · exact h
        · exact absurd c5 h
      refine Relation.ReflTransGen.tail ih ⟨?_, c2, (inImage_congr hcols hrows b).1 c3, ?_, ?_, ?_⟩
      · rw [← ea]; exact c1
      · by_contra hn
        exact h3 b (by simpa using hn) c4 c5
      · rw [← eb]; exact c5
      · rw [← ea, ← eb]; exact c6

/-- One seed of the second pass, simulated by the same seed of the first pass. `F` holds the
final maps of the first pass. -/
theorem removeSegmentAt_sim (sim : Depth → Depth → Bool) (k : Nat) (A B : SpeckleState)
    (c : ImageRef) (F : DepthData) (hc : inImage A.depthData.depthMap c)
    (H1 : B.depthData = F)
    (H2 : ∀ p, B.done_map.pix p = true → A.done_map.pix p = true)
    (H3 : ∀ p, A.done_map.pix p = true → B.done_map.pix p = false → Zeroed F p)
    (g1 : SameShape F (removeSegmentAt sim k A c).depthData)
    (g3 : ∀ p, (removeSegmentAt sim k A c).done_map.pix p = true →
      AgreeAt F (removeSegmentAt sim k A c).depthData p)
    (g4 : ∀ p, AgreeAt F (removeSegmentAt sim k A c).depthData p ∨ Zeroed F p) :
    (removeSegmentAt sim k B c).depthData = F ∧
    (∀ p, (removeSegmentAt sim k B c).done_map.pix p = true →
      (removeSegmentAt sim k A c).done_map.pix p = true) ∧
    (∀ p, (removeSegmentAt sim k A c).done_map.pix p = true →
      (removeSegmentAt sim k B c).done_map.pix p = false → Zeroed F p) := by
  obtain ⟨f1, f2, f3, -⟩ := removeSegmentAt_frame sim k A c hc
  have hshape : SameShape B.depthData A.depthData := by
    rw [H1]
    exact g1.shape_trans f1
  have hcB : inImage B.depthData.depthMap c := (inImage_congr hshape.1 hshape.2.1 c).2 hc
  by_cases hB : B.done_map.pix c = true
  · have hAc : A.done_map.pix c = true := H2 c hB
    rw [removeSegmentAt_of_done sim k B c hB, removeSegmentAt_of_done sim k A c hAc]
    exact ⟨H1, H2, H3⟩
  have hBf : B.done_map.pix c = false := by simpa using hB
  obtain ⟨L2, n2, r2, b2, d2, e2⟩ := removeSegmentAt_spec sim k B c hcB hBf
  -- the case of a seed that the first pass has invalidated
  have inval : Zeroed F c →
      (∀ p, (removeSegmentAt sim k A c).done_map.pix p = true →
        A.done_map.pix p = true ∨ Zeroed F p) →
      (removeSegmentAt sim k B c).depthData = F ∧
      (∀ p, (removeSegmentAt sim k B c).done_map.pix p = true →
        (removeSegmentAt sim k A c).done_map.pix p = true) ∧
      (∀ p, (removeSegmentAt sim k A c).done_map.pix p = true →
        (removeSegmentAt sim k B c).done_map.pix p = false → Zeroed F p) := by
    intro hz hz3
    have hzB : Zeroed B.depthData c := H1 ▸ hz
    have hall : ∀ q ∈ L2, q = c := fun q hq => ((r2 q).1 hq).eq_of_invalid hzB.not_pos
    refine ⟨?_, ?_, ?_⟩
    · rw [e2, invalidateSegment_of_zeroed L2 _ (fun q hq => hall q hq ▸ hzB), ite_self]
      exact H1
    · intro p hp
      rcases (d2 p).1 hp with hp | hp
      · exact (f3 p (H2 p hp)).1
      · rw [hall p hp]
        exact f2
    · intro p hp hpB
      rcases hz3 p hp with h | h
      · refine H3 p h ?_
        by_contra hn
        have := (d2 p).2 (Or.inl (by simpa using hn))
        rw [hpB] at this
        cases this
      · exact h
  by_cases hA : A.done_map.pix c = true
  · refine inval (H3 c hA hBf) (fun p hp => Or.inl ?_)
    rw [removeSegmentAt_of_done sim k A c hA] at hp
    exact hp
  have hAf : A.done_map.pix c = false := by simpa using hA
  obtain ⟨L1, n1, r1, b1, d1, e1⟩ := removeSegmentAt_spec sim k A c hc hAf
  have hcL1 : c ∈ L1 := (r1 c).2 Relation.ReflTransGen.refl
  have hagree : ∀ q ∈ L1, AgreeAt F (removeSegmentAt sim k A c).depthData q :=
    fun q hq => g3 q ((d1 q).2 (Or.inr hq))
  by_cases hk : L1.length < k
  · have hzL : ∀ q ∈ L1, Zeroed F q := by
      intro q hq
      refine Zeroed.zeroed_of_agree ?_ g1 (hagree q hq)
      rw [e1, if_pos hk]
      exact (invalidateSegment_spec L1 A.depthData).2.1 q hq
    refine inval (hzL c hcL1) (fun p hp => ?_)
    rcases (d1 p).1 hp with h | h
    · exact Or.inl h
    · exact Or.inr (hzL p h)
  · have hAdd : (removeSegmentAt sim k A c).depthData = A.depthData := by
      rw [e1, if_neg hk]
    rw [hAdd] at g1 g4 hagree
    have hiff : ∀ q, q ∈ L1 ↔ q ∈ L2 := by
      intro q
      rw [r1 q, r2 q, H1]
      refine segReach_transfer sim A.depthData.depthMap F.depthMap A.done_map B.done_map c
        g1.1 g1.2.1 H2 (fun p h1 h2 => (H3 p h1 h2).not_pos) (fun p => ?_)
        (fun q hq => (hagree q ((r1 q).2 hq)).1) q
      rcases g4 p with h | h
      · exact Or.inl h.1
      · exact Or.inr h.not_pos
    have hlen : L1.length ≤ L2.length :=
      (List.subperm_of_subset n1 (fun q hq => (hiff q).1 hq)).length_le
    refine ⟨?_, ?_, ?_⟩
    · rw [e2, if_neg (by omega)]
      exact H1
    · intro p hp
      rcases (d2 p).1 hp with hp | hp
      · exact (f3 p (H2 p hp)).1
      · exact (d1 p).2 (Or.inr ((hiff p).2 hp))
    · intro p hp hpB
      have hpB0 : B.done_map.pix p = false := by
        by_contra hn
        have := (d2 p).2 (Or.inl (by simpa using hn))
        rw [hpB] at this
        cases this
      rcases (d1 p).1 hp with hp | hp
      · exact H3 p hp hpB0
      · have := (d2 p).2 (Or.inr ((hiff p).1 hp))
        rw [hpB] at this
        cases this

/-- Simulation of a second pass by the first: when the second pass runs on the final maps of
the first pass and has marked no more than the first pass, with every pixel marked only by the
first pass already invalidated, the second pass leaves the maps as they are. -/
theorem second_pass_fixed (sim : Depth → Depth → Bool) (k : Nat) (seeds : List ImageRef)
    (A B : SpeckleState) (hseeds : ∀ s ∈ seeds, inImage A.depthData.depthMap s)
    (H1 : B.depthData = (seeds.foldl (removeSegmentAt sim k) A).depthData)
    (H2 : ∀ p, B.done_map.pix p = true → A.done_map.pix p = true)
    (H3 : ∀ p, A.done_map.pix p = true → B.done_map.pix p = false →
      Zeroed (seeds.foldl (removeSegmentAt sim k) A).depthData p) :
    (seeds.foldl (removeSegmentAt sim k) B).depthData =
      (seeds.foldl (removeSegmentAt sim k) A).depthData := by
  induction seeds generalizing A B with
  | nil => exact H1
  | cons c cs ih =>
    simp only [List.foldl_cons] at H1 H3 ⊢
    have hc : inImage A.depthData.depthMap c := hseeds c (List.mem_cons_self _ _)
    obtain ⟨f1, -, -, -⟩ := removeSegmentAt_frame sim k A c hc
    have hcs : ∀ s ∈ cs, inImage (removeSegmentAt sim k A c).depthData.depthMap s :=
      fun s hs => (inImage_congr f1.1 f1.2.1 s).2 (hseeds s (List.mem_cons_of_mem _ hs))
    obtain ⟨g1, -, g3, g4⟩ := foldl_removeSegmentAt_frame sim k cs _ hcs
    obtain ⟨s1, s2, s3⟩ := removeSegmentAt_sim sim k A B c _ hc H1 H2 H3 g1
      (fun p hp => (g3 p hp).2) g4
    exact ih (removeSegmentAt sim k A c) (removeSegmentAt sim k B c) hcs s1 s2 s3

theorem mem_neighbors4_symm {a b : ImageRef} (h : b ∈ neighbors4 a) : a ∈ neighbors4 b := by
  cases a with
  | mk ax ay =>
    cases b with
    | mk bx b_y =>
      simp only [neighbors4, List.mem_cons, List.mem_singleton, List.not_mem_nil, or_false,
        ImageRef.mk.injEq] at h ⊢
      omega

theorem Joined.joined_symm {sim : Depth → Depth → Bool} (hsym : ∀ a b, sim a b = sim b a)
    {M : TImage Depth} {a b : ImageRef} (h : Joined sim M a b) : Joined sim M b a :=
  ⟨h.2.1, h.1, h.2.2.2.1, h.2.2.1, mem_neighbors4_symm h.2.2.2.2.1,
    (hsym _ _).trans h.2.2.2.2.2⟩

theorem Connected.connected_symm {sim : Depth → Depth → Bool} (hsym : ∀ a b, sim a b = sim b a)
    {M : TImage Depth} {a b : ImageRef} (h : Connected sim M a b) : Connected sim M b a := by
  induction h with
  | refl => exact Relation.ReflTransGen.refl
  | tail _ hbc ih => exact Relation.ReflTransGen.head (hbc.joined_symm hsym) ih

/-- While the invariant holds, the flood fill from an unmarked seed reaches exactly the
component of the seed in the input map. -/
theorem CompInv.segReach_iff {sim : Depth → Depth → Bool} (hsym : ∀ a b, sim a b = sim b a)
    {k : Nat} {dd0 : DepthData} {A : SpeckleState} (hinv : CompInv sim k dd0 A)
    {c : ImageRef} (hc : inImage dd0.depthMap c) (hdc : A.done_map.pix c = false)
    (q : ImageRef) :
    SegReach sim A.depthData.depthMap A.done_map c q ↔ Connected sim dd0.depthMap c q := by
  constructor
  · intro h
    have key : Connected sim dd0.depthMap c q ∧ inImage dd0.depthMap q ∧
        A.done_map.pix q = false := by
      induction h with
      | refl => exact ⟨Relation.ReflTransGen.refl, hc, hdc⟩
      | tail hab hbc ih =>
        rename_i a b
        obtain ⟨c1, c2, c3, c4, c5, c6⟩ := hbc
        have ea := (hinv.fresh a ih.2.2).1
        have eb := (hinv.fresh b c4).1
        have hb : inImage dd0.depthMap b :=
          (inImage_congr hinv.shape.1 hinv.shape.2.1 b).1 c3
        rw [ea, eb] at c6
        rw [ea] at c1
        rw [eb] at c5
        exact ⟨Relation.ReflTransGen.tail ih.1 ⟨ih.2.1, hb, c1, c5, c2, c6⟩, hb, c4⟩
    exact key.1
  · intro h
    have key : SegReach sim A.depthData.depthMap A.done_map c q ∧
        A.done_map.pix q = false := by
      induction h with
      | refl => exact ⟨Relation.ReflTransGen.refl, hdc⟩
      | tail hab hbc ih =>
        rename_i a b
        have hdb : A.done_map.pix b = false := by
          by_contra hn
          have := hinv.whole b a (hbc.joined_symm hsym) (by simpa using hn)
          rw [ih.2] at this
          cases this
        obtain ⟨c1, c2, c3, c4, c5, c6⟩ := hbc
        have ea := (hinv.fresh a ih.2).1
        have eb := (hinv.fresh b hdb).1
        refine ⟨Relation.ReflTransGen.tail ih.1
          ⟨?_, c5, (inImage_congr hinv.shape.1 hinv.shape.2.1 b).2 c2, hdb, ?_, ?_⟩, hdb⟩
        · rw [ea]; exact c3
        · rw [eb]; exact c4
        · rw [ea, eb]; exact c6
    exact key.1

theorem CompInv.comp_step {sim : Depth → Depth → Bool} (hsym : ∀ a b, sim a b = sim b a)
    {k : Nat} {dd0 : DepthData} {A : SpeckleState} (hinv : CompInv sim k dd0 A)
    {c : ImageRef} (hc : inImage dd0.depthMap c) :
    CompInv sim k dd0 (removeSegmentAt sim k A c) := by
  by_cases hd : A.done_map.pix c = true
  · rw [removeSegmentAt_of_done sim k A c hd]
    exact hinv
  have hdc : A.done_map.pix c = false := by simpa using hd
  have hcA : inImage A.depthData.depthMap c :=
    (inImage_congr hinv.shape.1 hinv.shape.2.1 c).2 hc
  obtain ⟨f1, -, f3, -⟩ := removeSegmentAt_frame sim k A c hcA
  obtain ⟨L, n1, r1, b1, d1, e1⟩ := removeSegmentAt_spec sim k A c hcA hdc
  have hL : ∀ q, q ∈ L ↔ Connected sim dd0.depthMap c q :=
    fun q => (r1 q).trans (hinv.segReach_iff hsym hc hdc q)
  obtain ⟨i1, i2, i3⟩ := invalidateSegment_spec L A.depthData
  have hfalse : ∀ p, (removeSegmentAt sim k A c).done_map.pix p = false →
      A.done_map.pix p = false ∧ p ∉ L := by
    intro p hp
    constructor
    · by_contra hn
      have := (d1 p).2 (Or.inl (by simpa using hn))
      rw [hp] at this
      cases this
    · intro hm
      have := (d1 p).2 (Or.inr hm)
      rw [hp] at this
      cases this
  refine ⟨f1.shape_trans hinv.shape, ?_, ?_, ?_⟩
  · intro p hp
    obtain ⟨h1, h2⟩ := hfalse p hp
    refine AgreeAt.agree_trans ?_ (hinv.fresh p h1)
    rw [e1]
    split_ifs
    · exact i3 p h2
    · exact AgreeAt.agree_refl _ p
  · intro p q hj hp
    rcases (d1 p).1 hp with hp | hp
    · exact (d1 q).2 (Or.inl (hinv.whole p q hj hp))
    · exact (d1 q).2 (Or.inr ((hL q).2 (Relation.ReflTransGen.tail ((hL p).1 hp) hj)))
  · intro p hp hpin
    by_cases hpA : A.done_map.pix p = true
    · obtain ⟨Lp, m1, m2, m3, m4⟩ := hinv.settled p hpA hpin
      have hag := (f3 p hpA).2
      exact ⟨Lp, m1, m2, fun h => (m3 h).zeroed_of_agree f1 hag, fun h => hag.agree_trans (m4 h)⟩
    · have hpf : A.done_map.pix p = false := by simpa using hpA
      have hpL : p ∈ L := by
        rcases (d1 p).1 hp with h | h
        · exact absurd h hpA
        · exact h
      have hcp := (hL p).1 hpL
      refine ⟨L, n1, fun q => (hL q).trans ⟨fun h => (hcp.connected_symm hsym).trans h,
        fun h => hcp.trans h⟩, ?_, ?_⟩
      · intro hk
        rw [e1, if_pos hk]
        exact i2 p hpL
      · intro hk
        rw [e1, if_neg (by omega)]
        exact hinv.fresh p hpf

theorem CompInv.foldl {sim : Depth → Depth → Bool} (hsym : ∀ a b, sim a b = sim b a)
    {k : Nat} {dd0 : DepthData} (seeds : List ImageRef)
    (hseeds : ∀ s ∈ seeds, inImage dd0.depthMap s) {A : SpeckleState}
    (hinv : CompInv sim k dd0 A) :
    CompInv sim k dd0 (seeds.foldl (removeSegmentAt sim k) A) := by
  induction seeds generalizing A with
  | nil => exact hinv
  | cons c cs ih =>
    exact ih (fun s hs => hseeds s (List.mem_cons_of_mem _ hs))
      (hinv.comp_step hsym (hseeds c (List.mem_cons_self _ _)))

/-- Components of `RemoveSmallSegments` on `dd`, for a symmetric similarity: every pixel of
the image has a duplicate-free list `L` of the pixels of its component; the pixel is
invalidated when `L` is shorter than `nSpeckleSize` and untouched otherwise. -/
theorem RemoveSmallSegments_components (sim3 : Depth → Depth → ℚ → Bool) (thr : ℚ) (k : Nat)
    (dd : DepthData)
    (hsym : ∀ d0 d1, sim3 d0 d1 (thr * (7/10)) = sim3 d1 d0 (thr * (7/10)))
    (p : ImageRef) (hp : inImage dd.depthMap p) :
    ∃ L : List ImageRef, L.Nodup ∧
      (∀ q, q ∈ L ↔ Connected (fun d0 d1 => sim3 d0 d1 (thr * (7/10))) dd.depthMap p q) ∧
      (L.length < k → Zeroed (RemoveSmallSegments sim3 thr k dd) p) ∧
      (k ≤ L.length → AgreeAt (RemoveSmallSegments sim3 thr k dd) dd p) := by
  have hseeds : ∀ s ∈ colMajor dd.depthMap.cols dd.depthMap.rows, inImage dd.depthMap s :=
    fun s hs => (mem_colMajor _ _ s).1 hs
  have hinv0 : CompInv (fun d0 d1 => sim3 d0 d1 (thr * (7/10))) k dd
      { depthData := dd, done_map := ⟨dd.depthMap.cols, dd.depthMap.rows, fun _ => false⟩ } :=
    ⟨SameShape.shape_refl dd, fun q _ => AgreeAt.agree_refl dd q, fun _ _ _ h => Bool.noConfusion h,
      fun _ h => Bool.noConfusion h⟩
  have hinv := CompInv.foldl hsym _ hseeds hinv0
  obtain ⟨-, g2, -, -⟩ := foldl_removeSegmentAt_frame (fun d0 d1 => sim3 d0 d1 (thr * (7/10)))
    k (colMajor dd.depthMap.cols dd.depthMap.rows)
    { depthData := dd, done_map := ⟨dd.depthMap.cols, dd.depthMap.rows, fun _ => false⟩ } hseeds
  exact hinv.settled p (g2 p ((mem_colMajor _ _ p).2 hp)) hp

/-! ## `RemoveSmallSegments`: statements -/


theorem IsDepthSimilar_symm (d0 d1 t : ℚ) : IsDepthSimilar d0 d1 t = IsDepthSimilar d1 d0 t := by
  simp only [IsDepthSimilar, abs_sub_comm d0 d1, min_comm d0 d1]

theorem removeSegmentAt_all (sim : Depth → Depth → Bool) (k : Nat) (A : SpeckleState)
    (c : ImageRef) (hk : A.depthData.depthMap.cols * A.depthData.depthMap.rows < k)
    (hc : inImage A.depthData.depthMap c)
    (hz : ∀ p, A.done_map.pix p = true → Zeroed A.depthData p) :
    ∀ p, (removeSegmentAt sim k A c).done_map.pix p = true →
      Zeroed (removeSegmentAt sim k A c).depthData p := by
  by_cases hd : A.done_map.pix c = true
  · rw [removeSegmentAt_of_done sim k A c hd]
    exact hz
  have hdc : A.done_map.pix c = false := by simpa using hd
  obtain ⟨f1, -, f3, -⟩ := removeSegmentAt_frame sim k A c hc
  obtain ⟨L, n1, -, b1, d1, e1⟩ := removeSegmentAt_spec sim k A c hc hdc
  have hlen : L.length < k :=
    lt_of_le_of_lt (length_le_of_nodup_inImage _ L n1 (fun q hq => (b1 q hq).1)) hk
  intro p hp
  rcases (d1 p).1 hp with h | h
  · exact (hz p h).zeroed_of_agree f1 (f3 p h).2
  · rw [e1, if_pos hlen]
    exact (invalidateSegment_spec L A.depthData).2.1 p h

theorem foldl_removeSegmentAt_all (sim : Depth → Depth → Bool) (k : Nat)
    (seeds : List ImageRef) (A : SpeckleState)
    (hk : A.depthData.depthMap.cols * A.depthData.depthMap.rows < k)
    (hseeds : ∀ s ∈ seeds, inImage A.depthData.depthMap s)
    (hz : ∀ p, A.done_map.pix p = true → Zeroed A.depthData p) :
    ∀ p, (seeds.foldl (removeSegmentAt sim k) A).done_map.pix p = true →
      Zeroed (seeds.foldl (removeSegmentAt sim k) A).depthData p := by
  induction seeds generalizing A with
  | nil => exact hz
  | cons c cs ih =>
    have hc := hseeds c (List.mem_cons_self _ _)
    obtain ⟨f1, -, -, -⟩ := removeSegmentAt_frame sim k A c hc
    simp only [List.foldl_cons]
    refine ih (removeSegmentAt sim k A c) ?_ ?_ (removeSegmentAt_all sim k A c hk hc hz)
    · rw [f1.1, f1.2.1]
      exact hk
    · exact fun s hs => (inImage_congr f1.1 f1.2.1 s).2 (hseeds s (List.mem_cons_of_mem _ hs))

theorem foldl_removeSegmentAt_keep (sim : Depth → Depth → Bool) (seeds : List ImageRef)
    (A : SpeckleState) (hseeds : ∀ s ∈ seeds, inImage A.depthData.depthMap s) :
    (seeds.foldl (removeSegmentAt sim 1) A).depthData = A.depthData := by
  induction seeds generalizing A with
  | nil => rfl
  | cons c cs ih =>
    have hc := hseeds c (List.mem_cons_self _ _)
    have hstep : (removeSegmentAt sim 1 A c).depthData = A.depthData := by
      by_cases hd : A.done_map.pix c = true
      · rw [removeSegmentAt_of_done sim 1 A c hd]
      · obtain ⟨L, -, r1, -, -, e1⟩ := removeSegmentAt_spec sim 1 A c hc (by simpa using hd)
        have hpos : 0 < L.length :=
          List.length_pos_of_mem ((r1 c).2 Relation.ReflTransGen.refl)
        rw [e1, if_neg (by omega)]
    simp only [List.foldl_cons]
    rw [ih (removeSegmentAt sim 1 A c) (fun s hs => by
      rw [hstep]; exact hseeds s (List.mem_cons_of_mem _ hs)), hstep]

/-- C1: `RemoveSmallSegments` is idempotent. For every depth data (depth, normal and
confidence map), every speckle size, every threshold and every similarity predicate, applying
the routine twice gives exactly the maps of applying it once. -/
theorem RemoveSmallSegments_idempotent (IsDepthSimilar : Depth → Depth → ℚ → Bool)
    (fDepthDiffThreshold : ℚ) (nSpeckleSize : Nat) (depthData : DepthData) :
    RemoveSmallSegments IsDepthSimilar fDepthDiffThreshold nSpeckleSize
        (RemoveSmallSegments IsDepthSimilar fDepthDiffThreshold nSpeckleSize depthData) =
      RemoveSmallSegments IsDepthSimilar fDepthDiffThreshold nSpeckleSize depthData := by
  have hseeds : ∀ s ∈ colMajor depthData.depthMap.cols depthData.depthMap.rows,
      inImage depthData.depthMap s := fun s hs => (mem_colMajor _ _ s).1 hs
  obtain ⟨g1, -, -, -⟩ := foldl_removeSegmentAt_frame
    (fun d0 d1 => IsDepthSimilar d0 d1 (fDepthDiffThreshold * (7/10))) nSpeckleSize
    (colMajor depthData.depthMap.cols depthData.depthMap.rows)
    { depthData := depthData
      done_map := ⟨depthData.depthMap.cols, depthData.depthMap.rows, fun _ => false⟩ } hseeds
  have hc : (RemoveSmallSegments IsDepthSimilar fDepthDiffThreshold nSpeckleSize
      depthData).depthMap.cols = depthData.depthMap.cols := g1.1
  have hr : (RemoveSmallSegments IsDepthSimilar fDepthDiffThreshold nSpeckleSize
      depthData).depthMap.rows = depthData.depthMap.rows := g1.2.1
  have e : RemoveSmallSegments IsDepthSimilar fDepthDiffThreshold nSpeckleSize
      (RemoveSmallSegments IsDepthSimilar fDepthDiffThreshold nSpeckleSize depthData) =
      ((colMajor
        (RemoveSmallSegments IsDepthSimilar fDepthDiffThreshold nSpeckleSize
          depthData).depthMap.cols
        (RemoveSmallSegments IsDepthSimilar fDepthDiffThreshold nSpeckleSize
          depthData).depthMap.rows).foldl
        (removeSegmentAt (fun d0 d1 => IsDepthSimilar d0 d1 (fDepthDiffThreshold * (7/10)))
          nSpeckleSize)
        { depthData := RemoveSmallSegments IsDepthSimilar fDepthDiffThreshold nSpeckleSize
            depthData
          done_map := ⟨(RemoveSmallSegments IsDepthSimilar fDepthDiffThreshold nSpeckleSize
              depthData).depthMap.cols,
            (RemoveSmallSegments IsDepthSimilar fDepthDiffThreshold nSpeckleSize
              depthData).depthMap.rows, fun _ => false⟩ }).depthData := rfl
  rw [e, hc, hr]
  exact second_pass_fixed _ nSpeckleSize _
    { depthData := depthData
      done_map := ⟨depthData.depthMap.cols, depthData.depthMap.rows, fun _ => false⟩ }
    { depthData := RemoveSmallSegments IsDepthSimilar fDepthDiffThreshold nSpeckleSize depthData
      done_map := ⟨depthData.depthMap.cols, depthData.depthMap.rows, fun _ => false⟩ }
    hseeds rfl (fun _ h => Bool.noConfusion h) (fun _ h => Bool.noConfusion h)

/-- C2: for a symmetric similarity predicate, `RemoveSmallSegments` invalidates (depth 0, and
normal 0 and confidence 0 in the maps that are allocated) every pixel `p` of the image whose
4-connected component of valid, adjacent, depth-similar pixels has fewer than `nSpeckleSize`
pixels: the component is contained in a list `C` shorter than `nSpeckleSize`. -/
theorem RemoveSmallSegments_removes_small (IsDepthSimilar : Depth → Depth → ℚ → Bool)
    (fDepthDiffThreshold : ℚ) (nSpeckleSize : Nat) (depthData : DepthData)
    (hsym : ∀ d0 d1, IsDepthSimilar d0 d1 (fDepthDiffThreshold * (7/10)) =
      IsDepthSimilar d1 d0 (fDepthDiffThreshold * (7/10)))
    (p : ImageRef) (hp : inImage depthData.depthMap p) (C : List ImageRef)
    (hC : ∀ q, Connected (fun d0 d1 => IsDepthSimilar d0 d1 (fDepthDiffThreshold * (7/10)))
      depthData.depthMap p q → q ∈ C)
    (hlen : C.length < nSpeckleSize) :
    Zeroed (RemoveSmallSegments IsDepthSimilar fDepthDiffThreshold nSpeckleSize depthData) p := by
  obtain ⟨L, n1, m1, z1, -⟩ := RemoveSmallSegments_components IsDepthSimilar
    fDepthDiffThreshold nSpeckleSize depthData hsym p hp
  have hle : L.length ≤ C.length :=
    (List.subperm_of_subset n1 (fun q hq => hC q ((m1 q).1 hq))).length_le
  exact z1 (by omega)

theorem blockImage_connected (t : ℚ) (p q : ImageRef)
    (hp : p ∈ [(⟨0, 0⟩ : ImageRef), ⟨1, 0⟩, ⟨0, 1⟩, ⟨1, 1⟩])
    (h : Connected (fun d0 d1 => IsDepthSimilar d0 d1 t) blockImage.depthMap p q) :
    q ∈ [(⟨0, 0⟩ : ImageRef), ⟨1, 0⟩, ⟨0, 1⟩, ⟨1, 1⟩] := by
  induction h with
  | refl => exact hp
  | tail _ hbc _ =>
    have hv := hbc.2.2.2.1
    by_contra hn
    simp only [blockImage, mkDepthData, if_neg hn] at hv
    exact absurd hv (lt_irrefl 0)

/-- Instance of `RemoveSmallSegments_removes_small` (scenario 3 of the specification): the
only valid pixels of `blockImage` form one region of 4 pixels; with `nSpeckleSize = 5` all four
are invalidated. -/
theorem RemoveSmallSegments_removes_small_witness :
    Zeroed (RemoveSmallSegments IsDepthSimilar 1 5 blockImage) ⟨0, 0⟩ ∧
    Zeroed (RemoveSmallSegments IsDepthSimilar 1 5 blockImage) ⟨1, 0⟩ ∧
    Zeroed (RemoveSmallSegments IsDepthSimilar 1 5 blockImage) ⟨0, 1⟩ ∧
    Zeroed (RemoveSmallSegments IsDepthSimilar 1 5 blockImage) ⟨1, 1⟩ := by
  have key : ∀ p ∈ [(⟨0, 0⟩ : ImageRef), ⟨1, 0⟩, ⟨0, 1⟩, ⟨1, 1⟩],
      Zeroed (RemoveSmallSegments IsDepthSimilar 1 5 blockImage) p :=
    fun p hp => RemoveSmallSegments_removes_small IsDepthSimilar 1 5 blockImage
      (fun d0 d1 => IsDepthSimilar_symm d0 d1 _) p
      (by
        simp only [List.mem_cons, List.mem_singleton, List.not_mem_nil, or_false] at hp
        rcases hp with h | h | h | h <;> subst h <;> simp [inImage, blockImage, mkDepthData])
      [⟨0, 0⟩, ⟨1, 0⟩, ⟨0, 1⟩, ⟨1, 1⟩] (fun q hq => blockImage_connected _ p q hp hq)
      (by decide)
  exact ⟨key _ (by simp), key _ (by simp), key _ (by simp), key _ (by simp)⟩

/-- C3: for a symmetric similarity predicate, `RemoveSmallSegments` leaves depth, normal and
confidence unchanged at every pixel `p` of the image whose component has at least
`nSpeckleSize` pixels (a duplicate-free list `T` of pixels connected to `p` of that length);
and with `nSpeckleSize = 1` the output equals the input, for every input and every
similarity predicate. -/
theorem RemoveSmallSegments_keeps_large (IsDepthSimilar : Depth → Depth → ℚ → Bool)
    (fDepthDiffThreshold : ℚ) (depthData : DepthData) :
    (∀ (nSpeckleSize : Nat) (p : ImageRef) (T : List ImageRef),
      (∀ d0 d1, IsDepthSimilar d0 d1 (fDepthDiffThreshold * (7/10)) =
        IsDepthSimilar d1 d0 (fDepthDiffThreshold * (7/10))) →
      inImage depthData.depthMap p → T.Nodup →
      (∀ q ∈ T, Connected (fun d0 d1 => IsDepthSimilar d0 d1 (fDepthDiffThreshold * (7/10)))
        depthData.depthMap p q) →
      nSpeckleSize ≤ T.length →
      AgreeAt (RemoveSmallSegments IsDepthSimilar fDepthDiffThreshold nSpeckleSize depthData)
        depthData p) ∧
    RemoveSmallSegments IsDepthSimilar fDepthDiffThreshold 1 depthData = depthData := by
  constructor
  · intro k p T hsym hp hT hconn hlen
    obtain ⟨L, -, m1, -, a1⟩ := RemoveSmallSegments_components IsDepthSimilar
      fDepthDiffThreshold k depthData hsym p hp
    have hle : T.length ≤ L.length :=
      (List.subperm_of_subset hT (fun q hq => (m1 q).2 (hconn q hq))).length_le
    exact a1 (by omega)
  · exact foldl_removeSegmentAt_keep _ _ _ (fun s hs => (mem_colMajor _ _ s).1 hs)

/-- Instance of `RemoveSmallSegments_keeps_large`: in `blockImage` the pixels `(0,0)` and
`(1,0)` are joined, so with `nSpeckleSize = 2` the pixel `(0,0)` keeps its values. -/
theorem RemoveSmallSegments_keeps_large_witness :
    AgreeAt (RemoveSmallSegments IsDepthSimilar 1 2 blockImage) blockImage ⟨0, 0⟩ :=
  (RemoveSmallSegments_keeps_large IsDepthSimilar 1 blockImage).1 2 ⟨0, 0⟩ [⟨0, 0⟩, ⟨1, 0⟩]
    (fun d0 d1 => IsDepthSimilar_symm d0 d1 _)
    (by simp [inImage, blockImage, mkDepthData])
    (by decide)
    (by
      intro q hq
      rcases List.mem_cons.1 hq with h | h
      · rw [h]
        exact Relation.ReflTransGen.refl
      · rw [List.mem_singleton.1 h]
        refine Relation.ReflTransGen.single ⟨?_, ?_, ?_, ?_, ?_, ?_⟩
        · simp [inImage, blockImage, mkDepthData]
        · simp [inImage, blockImage, mkDepthData]
        · simp [blockImage, mkDepthData]
        · simp [blockImage, mkDepthData]
        · simp [neighbors4]
        · simp [blockImage, mkDepthData, IsDepthSimilar]
          norm_num)
    (by decide)

/-- C4: when `nSpeckleSize` exceeds the number of pixels of the depth-map, every pixel of the
image is invalidated by `RemoveSmallSegments` (depth 0, and normal and confidence 0 in the maps
that are allocated), for every input and every similarity predicate. -/
theorem RemoveSmallSegments_removes_all (IsDepthSimilar : Depth → Depth → ℚ → Bool)
    (fDepthDiffThreshold : ℚ) (nSpeckleSize : Nat) (depthData : DepthData)
    (hk : depthData.depthMap.cols * depthData.depthMap.rows < nSpeckleSize)
    (p : ImageRef) (hp : inImage depthData.depthMap p) :
    (RemoveSmallSegments IsDepthSimilar fDepthDiffThreshold nSpeckleSize depthData).depthMap.pix
        p = 0 ∧
    Zeroed (RemoveSmallSegments IsDepthSimilar fDepthDiffThreshold nSpeckleSize depthData) p := by
  have hseeds : ∀ s ∈ colMajor depthData.depthMap.cols depthData.depthMap.rows,
      inImage depthData.depthMap s := fun s hs => (mem_colMajor _ _ s).1 hs
  obtain ⟨-, g2, -, -⟩ := foldl_removeSegmentAt_frame
    (fun d0 d1 => IsDepthSimilar d0 d1 (fDepthDiffThreshold * (7/10))) nSpeckleSize
    (colMajor depthData.depthMap.cols depthData.depthMap.rows)
    { depthData := depthData
      done_map := ⟨depthData.depthMap.cols, depthData.depthMap.rows, fun _ => false⟩ } hseeds
  have hz := foldl_removeSegmentAt_all
    (fun d0 d1 => IsDepthSimilar d0 d1 (fDepthDiffThreshold * (7/10))) nSpeckleSize
    (colMajor depthData.depthMap.cols depthData.depthMap.rows)
    { depthData := depthData
      done_map := ⟨depthData.depthMap.cols, depthData.depthMap.rows, fun _ => false⟩ }
    hk hseeds (fun _ h => Bool.noConfusion h) p (g2 p ((mem_colMajor _ _ p).2 hp))
  exact ⟨hz.1, hz⟩

/-- Instance of `RemoveSmallSegments_removes_all`: `blockImage` has 9 pixels; with
`nSpeckleSize = 10` the valid pixel `(1,1)` is invalidated. -/
theorem RemoveSmallSegments_removes_all_witness :
    (RemoveSmallSegments IsDepthSimilar 1 10 blockImage).depthMap.pix ⟨1, 1⟩ = 0 ∧
    Zeroed (RemoveSmallSegments IsDepthSimilar 1 10 blockImage) ⟨1, 1⟩ :=
  RemoveSmallSegments_removes_all IsDepthSimilar 1 10 blockImage (by decide) ⟨1, 1⟩
    (by simp [inImage, blockImage, mkDepthData])

/-! ## `GapInterpolation`: the scan of a line and the passes -/


theorem Point2f.add_smul_succ (a b : Point2f) (j : ℚ) :
    (a.add b).add (b.smul (j + 1)) = a.add (b.smul (j + 1 + 1)) := by
  simp only [Point2f.add, Point2f.smul, Point2f.mk.injEq]
  constructor <;> ring

theorem Point2f.smul_one (b : Point2f) : b.smul ((0 : ℚ) + 1) = b := by
  simp [Point2f.smul]

theorem FilledAt.filled_of_agree {N2D : Normal → Point2f} {D2N : Point2f → Normal}
    {pixel : Nat → ImageRef} {dd0 dd dd' : DepthData} {s e i : Nat}
    (h : FilledAt N2D D2N pixel dd0 dd s e i) (ha : AgreeAt dd' dd (pixel i)) :
    FilledAt N2D D2N pixel dd0 dd' s e i :=
  ⟨ha.1.trans h.1, ha.2.1.trans h.2.1, ha.2.2.trans h.2.2⟩

/-- The interpolation loop writes the positions `u_curr ≤ j < u_curr + n` of the line and
nothing else; the `j`-th written depth is `d + (j+1)·diff`. -/
theorem gapFill_spec (D2N : Point2f → Normal) (pixel : Nat → ImageRef)
    (hinj : Function.Injective pixel) (diff c : ℚ) (dirDiff : Point2f) (n u_curr : Nat)
    (d : Depth) (dir1 : Point2f) (dd : DepthData) :
    SameShape (gapFill D2N pixel diff c dirDiff n u_curr d dir1 dd) dd ∧
    (∀ p, (∀ j, u_curr ≤ j → j < u_curr + n → p ≠ pixel j) →
      AgreeAt (gapFill D2N pixel diff c dirDiff n u_curr d dir1 dd) dd p) ∧
    (∀ j, j < n →
      (gapFill D2N pixel diff c dirDiff n u_curr d dir1 dd).depthMap.pix (pixel (u_curr + j)) =
        d + ((j : ℚ) + 1) * diff ∧
      (gapFill D2N pixel diff c dirDiff n u_curr d dir1 dd).normalMap.pix (pixel (u_curr + j)) =
        (if dd.normalMap.empty then dd.normalMap.pix (pixel (u_curr + j))
         else D2N (dir1.add (dirDiff.smul ((j : ℚ) + 1)))) ∧
      (gapFill D2N pixel diff c dirDiff n u_curr d dir1 dd).confMap.pix (pixel (u_curr + j)) =
        (if dd.confMap.empty then dd.confMap.pix (pixel (u_curr + j)) else c)) := by
  induction n generalizing u_curr d dir1 dd with
  | zero =>
    exact ⟨SameShape.shape_refl dd, fun p _ => AgreeAt.agree_refl dd p, fun j hj => absurd hj (Nat.not_lt_zero j)⟩
  | succ n ih =>
    -- the data after the first write
    obtain ⟨dd1, hdd1⟩ : ∃ dd1 : DepthData, dd1 =
        { dd with
          depthMap := dd.depthMap.set (pixel u_curr) (d + diff)
          normalMap := if dd.normalMap.empty then dd.normalMap
            else dd.normalMap.set (pixel u_curr) (D2N (dir1.add dirDiff))
          confMap := if dd.confMap.empty then dd.confMap
            else dd.confMap.set (pixel u_curr) c } := ⟨_, rfl⟩
    have hunf : gapFill D2N pixel diff c dirDiff (n + 1) u_curr d dir1 dd =
        gapFill D2N pixel diff c dirDiff n (u_curr + 1) (d + diff) (dir1.add dirDiff) dd1 := by
      rw [hdd1]
      rfl
    have hs1 : SameShape dd1 dd := by
      rw [hdd1]
      refine ⟨rfl, rfl, ?_, ?_, ?_, ?_, rfl, rfl⟩
      all_goals
        dsimp only
        split_ifs <;> rfl
    have hne1 : ∀ p, p ≠ pixel u_curr → AgreeAt dd1 dd p := by
      intro p hp
      rw [hdd1]
      refine ⟨TImage.set_pix_of_ne _ _ hp, ?_, ?_⟩
      · dsimp only
        split_ifs
        · rfl
        · exact TImage.set_pix_of_ne _ _ hp
      · dsimp only
        split_ifs
        · rfl
        · exact TImage.set_pix_of_ne _ _ hp
    have hat1 : dd1.depthMap.pix (pixel u_curr) = d + diff ∧
        dd1.normalMap.pix (pixel u_curr) =
          (if dd.normalMap.empty then dd.normalMap.pix (pixel u_curr)
           else D2N (dir1.add dirDiff)) ∧
        dd1.confMap.pix (pixel u_curr) =
          (if dd.confMap.empty then dd.confMap.pix (pixel u_curr) else c) := by
      rw [hdd1]
      refine ⟨TImage.set_pix_same _ _ _, ?_, ?_⟩
      · dsimp only
        split_ifs
        · rfl
        · exact TImage.set_pix_same _ _ _
      · dsimp only
        split_ifs
        · rfl
        · exact TImage.set_pix_same _ _ _
    obtain ⟨i1, i2, i3⟩ := ih (u_curr + 1) (d + diff) (dir1.add dirDiff) dd1
    rw [hunf]
    refine ⟨i1.shape_trans hs1, ?_, ?_⟩
    · intro p hp
      refine (i2 p (fun j h1 h2 => hp j (by omega) (by omega))).agree_trans (hne1 p ?_)
      exact hp u_curr (le_refl _) (by omega)
    · intro j hj
      cases j with
      | zero =>
        have hag := i2 (pixel u_curr) (fun j h1 _ e => by
          have := hinj e
          omega)
        simp only [Nat.add_zero, Nat.cast_zero, zero_add, one_mul]
        refine ⟨hag.1.trans hat1.1, hag.2.1.trans (hat1.2.1.trans ?_), hag.2.2.trans hat1.2.2⟩
        have : dirDiff.smul (1 : ℚ) = dirDiff := by simp [Point2f.smul]
        rw [this]
      | succ j =>
        obtain ⟨a1, a2, a3⟩ := i3 j (by omega)
        have hidx : u_curr + (j + 1) = u_curr + 1 + j := by omega
        have hag := hne1 (pixel (u_curr + 1 + j)) (fun e => by
          have := hinj e
          omega)
        rw [hidx, a1, a2, a3, hs1.normal_empty, hs1.conf_empty, hag.2.1, hag.2.2]
        refine ⟨?_, ?_, rfl⟩
        · push_cast
          ring
        · have : (dir1.add dirDiff).add (dirDiff.smul ((j : ℚ) + 1)) =
              dir1.add (dirDiff.smul (((j + 1 : Nat) : ℚ) + 1)) := by
            push_cast
            exact Point2f.add_smul_succ dir1 dirDiff j
          rw [this]

theorem GapInv.agree_ge {sim : Depth → Depth → Bool} {N2D : Normal → Point2f}
    {D2N : Point2f → Normal} {gap n : Nat} {pixel : Nat → ImageRef} {dd0 : DepthData}
    {u : Nat} {st : GapState} (h : GapInv sim N2D D2N gap n pixel dd0 u st)
    (hinj : Function.Injective pixel) (j : Nat) (hj : u - st.count ≤ j) :
    AgreeAt st.depthData dd0 (pixel j) := by
  rcases h.sound (pixel j) with ha | ⟨s, e, i, hp, hf, h1, h2, h3, -⟩
  · exact ha
  · have hji : j = i := hinj hp
    subst hji
    have := h.run e (by omega) h3
    exact absurd hf.2.2.2.2.2.1 (not_lt.2 this)

theorem GapInv.agree_valid {sim : Depth → Depth → Bool} {N2D : Normal → Point2f}
    {D2N : Point2f → Normal} {gap n : Nat} {pixel : Nat → ImageRef} {dd0 : DepthData}
    {u : Nat} {st : GapState} (h : GapInv sim N2D D2N gap n pixel dd0 u st)
    (hinj : Function.Injective pixel) (j : Nat) (hj : 0 < dd0.depthMap.pix (pixel j)) :
    AgreeAt st.depthData dd0 (pixel j) := by
  rcases h.sound (pixel j) with ha | ⟨s, e, i, hp, hf, h1, h2, -, -⟩
  · exact ha
  · have hji : j = i := hinj hp
    subst hji
    exact absurd hj (not_lt.2 (hf.2.2.2.2.2.2.1 j h1 h2))

/-- A fillable gap that ends at `u` starts where the counter says. -/
theorem GapInv.run_start {sim : Depth → Depth → Bool} {N2D : Normal → Point2f}
    {D2N : Point2f → Normal} {gap n : Nat} {pixel : Nat → ImageRef} {dd0 : DepthData}
    {u : Nat} {st : GapState} (h : GapInv sim N2D D2N gap n pixel dd0 u st) {s : Nat}
    (hf : FillableRun sim gap n pixel dd0 s u) : st.count < u ∧ s + st.count = u := by
  obtain ⟨f1, f2, -, -, f5, -, f7, -⟩ := hf
  have hcl := h.count_le
  have h1 : s - 1 < u - st.count := by
    by_contra hn
    have := h.run (s - 1) (by omega) (by omega)
    exact absurd f5 (not_lt.2 this)
  have hlt : st.count < u := by omega
  have h2 : ¬ s ≤ u - st.count - 1 := by
    intro hle
    have := f7 (u - st.count - 1) hle (by omega)
    exact absurd (h.bound hlt) (not_lt.2 this)
  exact ⟨hlt, by omega⟩

theorem GapInv.skip {sim : Depth → Depth → Bool} {N2D : Normal → Point2f}
    {D2N : Point2f → Normal} {gap n : Nat} {pixel : Nat → ImageRef} {dd0 : DepthData}
    {u : Nat} {st : GapState} (h : GapInv sim N2D D2N gap n pixel dd0 u st)
    (hu : dd0.depthMap.pix (pixel u) ≤ 0) :
    GapInv sim N2D D2N gap n pixel dd0 (u + 1) { st with count := st.count + 1 } := by
  have hcl := h.count_le
  refine ⟨h.shape, Nat.succ_le_succ hcl, ?_, ?_, ?_, ?_⟩
  · intro j h1 h2
    show dd0.depthMap.pix (pixel j) ≤ 0
    have h1' : u + 1 - (st.count + 1) ≤ j := h1
    by_cases hj : j = u
    · rw [hj]; exact hu
    · exact h.run j (by omega) (by omega)
  · intro hlt
    have hlt' : st.count + 1 < u + 1 := hlt
    have e : u + 1 - (st.count + 1) - 1 = u - st.count - 1 := by omega
    show 0 < dd0.depthMap.pix (pixel (u + 1 - (st.count + 1) - 1))
    rw [e]
    exact h.bound (by omega)
  · intro p
    rcases h.sound p with ha | ⟨s, e, i, hp, hf, h1, h2, h3, h4⟩
    · exact Or.inl ha
    · exact Or.inr ⟨s, e, i, hp, hf, h1, h2, by omega, h4⟩
  · intro s e hf he i h1 h2
    by_cases heu : e = u
    · rw [heu] at hf
      exact absurd hf.2.2.2.2.2.1 (not_lt.2 hu)
    · exact h.complete s e hf (by omega) i h1 h2

theorem GapInv.reset {sim : Depth → Depth → Bool} {N2D : Normal → Point2f}
    {D2N : Point2f → Normal} {gap n : Nat} {pixel : Nat → ImageRef} {dd0 : DepthData}
    {u : Nat} {st : GapState} (h : GapInv sim N2D D2N gap n pixel dd0 u st)
    (hu : 0 < dd0.depthMap.pix (pixel u))
    (hno : ∀ s, ¬ FillableRun sim gap n pixel dd0 s u) (st' : GapState)
    (hdd : st'.depthData = st.depthData) (hc : st'.count = 0) :
    GapInv sim N2D D2N gap n pixel dd0 (u + 1) st' := by
  refine ⟨hdd ▸ h.shape, by omega, ?_, ?_, ?_, ?_⟩
  · intro j h1 h2
    rw [hc] at h1
    omega
  · intro _
    rw [hc]
    exact hu
  · intro p
    rw [hdd]
    rcases h.sound p with ha | ⟨s, e, i, hp, hf, h1, h2, h3, h4⟩
    · exact Or.inl ha
    · exact Or.inr ⟨s, e, i, hp, hf, h1, h2, by omega, h4⟩
  · intro s e hf he i h1 h2
    rw [hdd]
    by_cases heu : e = u
    · rw [heu] at hf
      exact absurd hf (hno s)
    · exact h.complete s e hf (by omega) i h1 h2

/-- One step of the scan of a line keeps the invariant. -/
theorem GapInv.gap_step {sim : Depth → Depth → Bool} {N2D : Normal → Point2f}
    {D2N : Point2f → Normal} {gap n : Nat} {pixel : Nat → ImageRef} {dd0 : DepthData}
    {u : Nat} {st : GapState} (h : GapInv sim N2D D2N gap n pixel dd0 u st)
    (hinj : Function.Injective pixel) (hu : u < n) :
    GapInv sim N2D D2N gap n pixel dd0 (u + 1) (gapStep sim N2D D2N gap pixel st u) := by
  have hagu := h.agree_ge hinj u (Nat.sub_le _ _)
  by_cases h1 : st.depthData.depthMap.pix (pixel u) ≤ 0
  · simp only [gapStep, if_pos h1]
    exact h.skip (hagu.1 ▸ h1)
  have hpos : 0 < dd0.depthMap.pix (pixel u) := hagu.1 ▸ not_le.1 h1
  by_cases h2 : st.count = 0
  · simp only [gapStep, if_neg h1, if_pos h2]
    refine h.reset hpos (fun s hf => ?_) st rfl h2
    have := (h.run_start hf).2
    have := hf.2.1
    omega
  by_cases h3 : st.count ≤ gap ∧ u > st.count
  swap
  · simp only [gapStep, if_neg h1, if_neg h2, if_neg h3]
    refine h.reset hpos (fun s hf => h3 ?_) _ rfl rfl
    obtain ⟨r1, r2⟩ := h.run_start hf
    have := hf.2.2.2.1
    exact ⟨by omega, r1⟩
  have hagf := h.agree_valid hinj (u - st.count - 1) (h.bound h3.2)
  by_cases h4 : sim (st.depthData.depthMap.pix (pixel (u - st.count - 1)))
      (st.depthData.depthMap.pix (pixel u)) = true
  swap
  · simp only [gapStep, if_neg h1, if_neg h2, if_pos h3, if_neg h4]
    refine h.reset hpos (fun s hf => h4 ?_) _ rfl rfl
    obtain ⟨-, r2⟩ := h.run_start hf
    have hs : s = u - st.count := by omega
    rw [hagf.1, hagu.1, ← hs]
    exact hf.2.2.2.2.2.2.2
  -- the gap before `u` is filled
  simp only [gapStep, if_neg h1, if_neg h2, if_pos h3, if_pos h4]
  have hcl := h.count_le
  have hcpos : 0 < st.count := Nat.pos_of_ne_zero h2
  have hrun : FillableRun sim gap n pixel dd0 (u - st.count) u := by
    refine ⟨by omega, by omega, hu, by omega, h.bound h3.2, hpos,
      fun j a b => h.run j a b, ?_⟩
    rw [← hagf.1, ← hagu.1]
    exact h4
  obtain ⟨g1, g2, g3⟩ := gapFill_spec D2N pixel hinj
    ((st.depthData.depthMap.pix (pixel u) -
      st.depthData.depthMap.pix (pixel (u - st.count - 1))) / ((st.count : ℚ) + 1))
    (if st.depthData.confMap.empty then 0
      else min (st.depthData.confMap.pix (pixel (u - st.count - 1)))
        (st.depthData.confMap.pix (pixel u)))
    (((N2D (st.depthData.normalMap.pix (pixel u))).sub
      (N2D (st.depthData.normalMap.pix (pixel (u - st.count - 1))))).div ((st.count : ℚ) + 1))
    st.count (u - st.count) (st.depthData.depthMap.pix (pixel (u - st.count - 1)))
    (N2D (st.depthData.normalMap.pix (pixel (u - st.count - 1)))) st.depthData
  have hfilled : ∀ i, u - st.count ≤ i → i < u → FilledAt N2D D2N pixel dd0
      (gapFill D2N pixel
        ((st.depthData.depthMap.pix (pixel u) -
          st.depthData.depthMap.pix (pixel (u - st.count - 1))) / ((st.count : ℚ) + 1))
        (if st.depthData.confMap.empty then 0
          else min (st.depthData.confMap.pix (pixel (u - st.count - 1)))
            (st.depthData.confMap.pix (pixel u)))
        (((N2D (st.depthData.normalMap.pix (pixel u))).sub
          (N2D (st.depthData.normalMap.pix (pixel (u - st.count - 1))))).div
            ((st.count : ℚ) + 1))
        st.count (u - st.count) (st.depthData.depthMap.pix (pixel (u - st.count - 1)))
        (N2D (st.depthData.normalMap.pix (pixel (u - st.count - 1)))) st.depthData)
      (u - st.count) u i := by
    intro i hi1 hi2
    obtain ⟨j, hj⟩ : ∃ j, j = i - (u - st.count) := ⟨_, rfl⟩
    have hi : u - st.count + j = i := by omega
    obtain ⟨a1, a2, a3⟩ := g3 j (by omega)
    rw [hi] at a1 a2 a3
    have hagi := h.agree_ge hinj i hi1
    have hjq : (j : ℚ) = (i : ℚ) - ((u - st.count : Nat) : ℚ) := by
      rw [← hi]
      push_cast
      ring
    have hcq : (st.count : ℚ) = (u : ℚ) - ((u - st.count : Nat) : ℚ) := by
      rw [Nat.cast_sub hcl]
      ring
    refine ⟨?_, ?_, ?_⟩
    · rw [a1, hjq, hcq, hagf.1, hagu.1]
    · rw [a2, hjq, hcq, hagf.2.1, hagu.2.1, h.shape.normal_empty, hagi.2.1]
    · rw [a3, hagf.2.2, hagu.2.2, h.shape.conf_empty, hagi.2.2]
      split_ifs <;> rfl
  refine ⟨g1.shape_trans h.shape, Nat.zero_le _, ?_, fun _ => hpos, ?_, ?_⟩
  · intro j a b
    have a' : u + 1 - 0 ≤ j := a
    omega
  · intro p
    by_cases hp : ∃ i, u - st.count ≤ i ∧ i < u ∧ p = pixel i
    · obtain ⟨i, i1, i2, i3⟩ := hp
      exact Or.inr ⟨u - st.count, u, i, i3, hrun, i1, i2, Nat.lt_succ_self u, hfilled i i1 i2⟩
    · have hag := g2 p (fun j a b e => hp ⟨j, a, by omega, e⟩)
      rcases h.sound p with ha | ⟨s, e, i, e1, hf, e2, e3, e4, e5⟩
      · exact Or.inl (hag.agree_trans ha)
      · exact Or.inr ⟨s, e, i, e1, hf, e2, e3, by omega, e5.filled_of_agree (e1 ▸ hag)⟩
  · intro s e hf he i i1 i2
    by_cases heu : e = u
    · subst heu
      obtain ⟨-, r2⟩ := h.run_start hf
      have hs : s = e - st.count := by omega
      subst hs
      exact hfilled i i1 i2
    · have hold := h.complete s e hf (by omega) i i1 i2
      refine hold.filled_of_agree (g2 (pixel i) (fun j a b e1 => ?_))
      have hij : i = j := hinj e1
      have := h.run e (by omega) (by omega)
      exact absurd hf.2.2.2.2.2.1 (not_lt.2 this)

theorem foldl_gapStep_inv (sim : Depth → Depth → Bool) (N2D : Normal → Point2f)
    (D2N : Point2f → Normal) (gap n : Nat) (pixel : Nat → ImageRef)
    (hinj : Function.Injective pixel) (dd0 : DepthData) (k : Nat) (hk : k ≤ n) :
    GapInv sim N2D D2N gap n pixel dd0 k
      ((List.range k).foldl (gapStep sim N2D D2N gap pixel) ⟨dd0, 0⟩) := by
  induction k with
  | zero =>
    refine ⟨SameShape.shape_refl dd0, le_refl _, fun j _ h => absurd h (Nat.not_lt_zero j),
      fun h => absurd h (Nat.lt_irrefl 0), fun p => Or.inl (AgreeAt.agree_refl dd0 p),
      fun s e _ h => absurd h (Nat.not_lt_zero e)⟩
  | succ k ih =>
    rw [List.range_succ, List.foldl_append]
    exact (ih (by omega)).gap_step hinj (by omega)

/-- The scan of one line: every pixel is untouched or lies in a fillable gap of the input and
holds the interpolated values; and every fillable gap of the input is filled. -/
theorem gapLine_spec (sim : Depth → Depth → Bool) (N2D : Normal → Point2f)
    (D2N : Point2f → Normal) (gap n : Nat) (pixel : Nat → ImageRef)
    (hinj : Function.Injective pixel) (dd0 : DepthData) :
    SameShape (gapLine sim N2D D2N gap n pixel dd0) dd0 ∧
    (∀ p, AgreeAt (gapLine sim N2D D2N gap n pixel dd0) dd0 p ∨
      ∃ s e i, p = pixel i ∧ FillableRun sim gap n pixel dd0 s e ∧ s ≤ i ∧ i < e ∧
        FilledAt N2D D2N pixel dd0 (gapLine sim N2D D2N gap n pixel dd0) s e i) ∧
    (∀ s e, FillableRun sim gap n pixel dd0 s e → ∀ i, s ≤ i → i < e →
      FilledAt N2D D2N pixel dd0 (gapLine sim N2D D2N gap n pixel dd0) s e i) := by
  have h := foldl_gapStep_inv sim N2D D2N gap n pixel hinj dd0 n (le_refl n)
  refine ⟨h.shape, ?_, ?_⟩
  · intro p
    rcases h.sound p with ha | ⟨s, e, i, e1, hf, e2, e3, -, e5⟩
    · exact Or.inl ha
    · exact Or.inr ⟨s, e, i, e1, hf, e2, e3, e5⟩
  · intro s e hf i i1 i2
    exact h.complete s e hf hf.2.2.1 i i1 i2

theorem FillableRun.congr {sim : Depth → Depth → Bool} {gap n : Nat} {pixel : Nat → ImageRef}
    {dd dd' : DepthData} {s e : Nat} (h : FillableRun sim gap n pixel dd s e)
    (hag : ∀ i, dd'.depthMap.pix (pixel i) = dd.depthMap.pix (pixel i)) :
    FillableRun sim gap n pixel dd' s e := by
  obtain ⟨h1, h2, h3, h4, h5, h6, h7, h8⟩ := h
  refine ⟨h1, h2, h3, h4, ?_, ?_, ?_, ?_⟩
  · rw [hag]; exact h5
  · rw [hag]; exact h6
  · intro j a b
    rw [hag]
    exact h7 j a b
  · rw [hag, hag]; exact h8

theorem FilledAt.congr_left {N2D : Normal → Point2f} {D2N : Point2f → Normal}
    {pixel : Nat → ImageRef} {dd0 dd0' dd : DepthData} {s e i : Nat}
    (h : FilledAt N2D D2N pixel dd0 dd s e i) (hs : SameShape dd0' dd0)
    (hag : ∀ j, AgreeAt dd0' dd0 (pixel j)) : FilledAt N2D D2N pixel dd0' dd s e i := by
  obtain ⟨h1, h2, h3⟩ := h
  refine ⟨?_, ?_, ?_⟩
  · rw [(hag (s - 1)).1, (hag e).1]; exact h1
  · rw [(hag (s - 1)).2.1, (hag e).2.1, (hag i).2.1, hs.normal_empty]; exact h2
  · rw [(hag (s - 1)).2.2, (hag e).2.2, (hag i).2.2, hs.conf_empty]; exact h3

/-- The depths written into a fillable gap are positive. -/
theorem FilledAt.pos {sim : Depth → Depth → Bool} {N2D : Normal → Point2f}
    {D2N : Point2f → Normal} {gap n : Nat} {pixel : Nat → ImageRef} {dd0 dd : DepthData}
    {s e i : Nat} (h : FilledAt N2D D2N pixel dd0 dd s e i)
    (hf : FillableRun sim gap n pixel dd0 s e) (h1 : s ≤ i) (h2 : i < e) :
    0 < dd.depthMap.pix (pixel i) := by
  rw [h.1]
  have ha := hf.2.2.2.2.1
  have hb := hf.2.2.2.2.2.1
  have ht : (0 : ℚ) < (i : ℚ) - s + 1 := by
    have : (s : ℚ) ≤ i := by exact_mod_cast h1
    linarith
  have hN : (0 : ℚ) < (e : ℚ) - i := by
    have : (i : ℚ) < e := by exact_mod_cast h2
    linarith
  have hden : (0 : ℚ) < (e : ℚ) - s + 1 := by linarith
  have e1 : dd0.depthMap.pix (pixel (s - 1)) + ((i : ℚ) - s + 1) *
      ((dd0.depthMap.pix (pixel e) - dd0.depthMap.pix (pixel (s - 1))) / ((e : ℚ) - s + 1)) =
      (dd0.depthMap.pix (pixel (s - 1)) * ((e : ℚ) - i) +
        ((i : ℚ) - s + 1) * dd0.depthMap.pix (pixel e)) / ((e : ℚ) - s + 1) := by
    field_simp
    ring
  rw [e1]
  exact div_pos (add_pos (mul_pos ha hN) (mul_pos ht hb)) hden

/-- One pass over `m` lines whose positions have pairwise different addresses: every pixel is
untouched or lies in a fillable gap of a line of the input and holds the interpolated values;
and every fillable gap of every line of the input is filled. -/
theorem gapPass_spec (sim : Depth → Depth → Bool) (N2D : Normal → Point2f)
    (D2N : Point2f → Normal) (gap n : Nat) (pixel : Nat → Nat → ImageRef)
    (hinj : ∀ l i l' i', pixel l i = pixel l' i' → l = l' ∧ i = i') (dd0 : DepthData)
    (m : Nat) :
    SameShape (gapPass sim N2D D2N gap m n pixel dd0) dd0 ∧
    (∀ p, AgreeAt (gapPass sim N2D D2N gap m n pixel dd0) dd0 p ∨
      ∃ l s e i, l < m ∧ p = pixel l i ∧ FillableRun sim gap n (pixel l) dd0 s e ∧ s ≤ i ∧
        i < e ∧ FilledAt N2D D2N (pixel l) dd0 (gapPass sim N2D D2N gap m n pixel dd0) s e i) ∧
    (∀ l, l < m → ∀ s e, FillableRun sim gap n (pixel l) dd0 s e → ∀ i, s ≤ i → i < e →
      FilledAt N2D D2N (pixel l) dd0 (gapPass sim N2D D2N gap m n pixel dd0) s e i) := by
  induction m with
  | zero =>
    exact ⟨SameShape.shape_refl dd0, fun p => Or.inl (AgreeAt.agree_refl dd0 p),
      fun l hl => absurd hl (Nat.not_lt_zero l)⟩
  | succ m ih =>
    obtain ⟨p1, p2, p3⟩ := ih
    have hunf : gapPass sim N2D D2N gap (m + 1) n pixel dd0 =
        gapLine sim N2D D2N gap n (pixel m) (gapPass sim N2D D2N gap m n pixel dd0) := by
      simp only [gapPass, List.range_succ, List.foldl_append, List.foldl_cons, List.foldl_nil]
    have hinjm : Function.Injective (pixel m) := fun i i' e => (hinj m i m i' e).2
    obtain ⟨q1, q2, q3⟩ := gapLine_spec sim N2D D2N gap n (pixel m) hinjm
      (gapPass sim N2D D2N gap m n pixel dd0)
    have hline : ∀ i, AgreeAt (gapPass sim N2D D2N gap m n pixel dd0) dd0 (pixel m i) := by
      intro i
      rcases p2 (pixel m i) with ha | ⟨l, s, e, i', hl, e1, -⟩
      · exact ha
      · have := (hinj m i l i' e1).1
        omega
    rw [hunf]
    refine ⟨q1.shape_trans p1, ?_, ?_⟩
    · intro p
      rcases q2 p with ha | ⟨s, e, i, e1, hf, e2, e3, e4⟩
      · rcases p2 p with hb | ⟨l, s, e, i, hl, e1, hf, e2, e3, e4⟩
        · exact Or.inl (ha.agree_trans hb)
        · exact Or.inr ⟨l, s, e, i, by omega, e1, hf, e2, e3, e4.filled_of_agree (e1 ▸ ha)⟩
      · exact Or.inr ⟨m, s, e, i, Nat.lt_succ_self m, e1,
          hf.congr (fun j => ((hline j).1).symm), e2, e3,
          e4.congr_left p1.shape_symm (fun j => (hline j).agree_symm)⟩
    · intro l hl s e hf i i1 i2
      by_cases hlm : l = m
      · subst hlm
        exact (q3 s e (hf.congr (fun j => (hline j).1)) i i1 i2).congr_left p1.shape_symm
          (fun j => (hline j).agree_symm)
      · refine (p3 l (by omega) s e hf i i1 i2).filled_of_agree ?_
        rcases q2 (pixel l i) with ha | ⟨s', e', i', e1, -⟩
        · exact ha
        · exact absurd (hinj l i m i' e1).1 hlm

/-! ## `GapInterpolation`: statements -/


/-- A pass leaves the valid pixels of its input untouched. -/
theorem gapPass_of_valid (sim : Depth → Depth → Bool) (N2D : Normal → Point2f)
    (D2N : Point2f → Normal) (gap n : Nat) (pixel : Nat → Nat → ImageRef)
    (hinj : ∀ l i l' i', pixel l i = pixel l' i' → l = l' ∧ i = i') (dd0 : DepthData)
    (m : Nat) (p : ImageRef) (hp : 0 < dd0.depthMap.pix p) :
    AgreeAt (gapPass sim N2D D2N gap m n pixel dd0) dd0 p := by
  rcases (gapPass_spec sim N2D D2N gap n pixel hinj dd0 m).2.1 p with
    ha | ⟨l, s, e, i, -, e1, hf, e2, e3, -⟩
  · exact ha
  · rw [e1] at hp
    exact absurd hp (not_lt.2 (hf.2.2.2.2.2.2.1 i e2 e3))

/-- A pass on an input without fillable gap changes nothing. -/
theorem gapPass_of_no_fillable (sim : Depth → Depth → Bool) (N2D : Normal → Point2f)
    (D2N : Point2f → Normal) (gap n : Nat) (pixel : Nat → Nat → ImageRef)
    (hinj : ∀ l i l' i', pixel l i = pixel l' i' → l = l' ∧ i = i') (dd0 : DepthData)
    (m : Nat) (hno : ∀ l, l < m → ∀ s e, ¬ FillableRun sim gap n (pixel l) dd0 s e) :
    gapPass sim N2D D2N gap m n pixel dd0 = dd0 := by
  obtain ⟨p1, p2, -⟩ := gapPass_spec sim N2D D2N gap n pixel hinj dd0 m
  refine DepthData.ext_of_agree _ _ p1 (fun p => ?_)
  rcases p2 p with ha | ⟨l, s, e, i, hl, -, hf, -⟩
  · exact ha
  · exact absurd hf (hno l hl s e)

/-- The output of a pass has no fillable gap left. -/
theorem gapPass_no_fillable (sim : Depth → Depth → Bool) (N2D : Normal → Point2f)
    (D2N : Point2f → Normal) (gap n : Nat) (pixel : Nat → Nat → ImageRef)
    (hinj : ∀ l i l' i', pixel l i = pixel l' i' → l = l' ∧ i = i') (dd0 : DepthData)
    (m l : Nat) (hl : l < m) (s e : Nat) :
    ¬ FillableRun sim gap n (pixel l) (gapPass sim N2D D2N gap m n pixel dd0) s e := by
  intro hf
  obtain ⟨-, p2, p3⟩ := gapPass_spec sim N2D D2N gap n pixel hinj dd0 m
  obtain ⟨f1, f2, f3, f4, f5, f6, f7, f8⟩ := hf
  -- a position of the line is untouched or lies in a filled gap of the same line
  have hsnd : ∀ j, AgreeAt (gapPass sim N2D D2N gap m n pixel dd0) dd0 (pixel l j) ∨
      ∃ s' e', FillableRun sim gap n (pixel l) dd0 s' e' ∧ s' ≤ j ∧ j < e' := by
    intro j
    rcases p2 (pixel l j) with ha | ⟨l', s', e', i', -, e1, hf', e2, e3, -⟩
    · exact Or.inl ha
    · obtain ⟨rfl, rfl⟩ := hinj l j l' i' e1
      exact Or.inr ⟨s', e', hf', e2, e3⟩
  have hpos : ∀ s' e', FillableRun sim gap n (pixel l) dd0 s' e' → ∀ j, s' ≤ j → j < e' →
      0 < (gapPass sim N2D D2N gap m n pixel dd0).depthMap.pix (pixel l j) :=
    fun s' e' hf' j j1 j2 => (p3 l hl s' e' hf' j j1 j2).pos hf' j1 j2
  have hA : ∀ j, s ≤ j → j < e →
      AgreeAt (gapPass sim N2D D2N gap m n pixel dd0) dd0 (pixel l j) := by
    intro j j1 j2
    rcases hsnd j with ha | ⟨s', e', hf', a1, a2⟩
    · exact ha
    · exact absurd (hpos s' e' hf' j a1 a2) (not_lt.2 (f7 j j1 j2))
  have hB : AgreeAt (gapPass sim N2D D2N gap m n pixel dd0) dd0 (pixel l e) := by
    rcases hsnd e with ha | ⟨s', e', hf', a1, a2⟩
    · exact ha
    · exfalso
      by_cases hse : s' ≤ e - 1
      · exact absurd (hpos s' e' hf' (e - 1) hse (by omega))
          (not_lt.2 (f7 (e - 1) (by omega) (by omega)))
      · have hs' : s' - 1 = e - 1 := by omega
        have h0 := hf'.2.2.2.2.1
        rw [hs', ← (hA (e - 1) (by omega) (by omega)).1] at h0
        exact absurd h0 (not_lt.2 (f7 (e - 1) (by omega) (by omega)))
  have hC : AgreeAt (gapPass sim N2D D2N gap m n pixel dd0) dd0 (pixel l (s - 1)) := by
    rcases hsnd (s - 1) with ha | ⟨s', e', hf', a1, a2⟩
    · exact ha
    · exfalso
      by_cases hse : s < e'
      · exact absurd (hpos s' e' hf' s (by omega) hse) (not_lt.2 (f7 s (le_refl s) f2))
      · have he' : e' = s := by omega
        have h0 := hf'.2.2.2.2.2.1
        rw [he', ← (hA s (le_refl s) f2).1] at h0
        exact absurd h0 (not_lt.2 (f7 s (le_refl s) f2))
  have hf0 : FillableRun sim gap n (pixel l) dd0 s e := by
    refine ⟨f1, f2, f3, f4, ?_, ?_, ?_, ?_⟩
    · rw [← hC.1]; exact f5
    · rw [← hB.1]; exact f6
    · intro j j1 j2
      rw [← (hA j j1 j2).1]
      exact f7 j j1 j2
    · rw [← hC.1, ← hB.1]; exact f8
  exact absurd (hpos s e hf0 s (le_refl s) f2) (not_lt.2 (f7 s (le_refl s) f2))

/-- Each pass of `GapInterpolation` is idempotent. -/
theorem gapPass_idempotent (sim : Depth → Depth → Bool) (N2D : Normal → Point2f)
    (D2N : Point2f → Normal) (gap n : Nat) (pixel : Nat → Nat → ImageRef)
    (hinj : ∀ l i l' i', pixel l i = pixel l' i' → l = l' ∧ i = i') (dd0 : DepthData)
    (m : Nat) :
    gapPass sim N2D D2N gap m n pixel (gapPass sim N2D D2N gap m n pixel dd0) =
      gapPass sim N2D D2N gap m n pixel dd0 :=
  gapPass_of_no_fillable sim N2D D2N gap n pixel hinj _ m
    (fun l hl s e => gapPass_no_fillable sim N2D D2N gap n pixel hinj dd0 m l hl s e)

theorem rowPixel_inj (l i l' i' : Nat) (h : rowPixel l i = rowPixel l' i') :
    l = l' ∧ i = i' := by
  simp only [rowPixel, ImageRef.mk.injEq, Nat.cast_inj] at h
  exact ⟨h.2, h.1⟩

theorem colPixel_inj (l i l' i' : Nat) (h : colPixel l i = colPixel l' i') :
    l = l' ∧ i = i' := by
  simp only [colPixel, ImageRef.mk.injEq, Nat.cast_inj] at h
  exact h

theorem gapRows_shape (S : Depth → Depth → ℚ → Bool) (N2D : Normal → Point2f)
    (D2N : Point2f → Normal) (t : ℚ) (gap : Nat) (dd : DepthData) :
    SameShape (gapRows S N2D D2N t gap dd) dd :=
  (gapPass_spec _ N2D D2N gap _ rowPixel rowPixel_inj dd _).1

theorem gapCols_shape (S : Depth → Depth → ℚ → Bool) (N2D : Normal → Point2f)
    (D2N : Point2f → Normal) (t : ℚ) (gap : Nat) (dd : DepthData) :
    SameShape (gapCols S N2D D2N t gap dd) dd :=
  (gapPass_spec _ N2D D2N gap _ colPixel colPixel_inj dd _).1

theorem gapRows_idempotent (S : Depth → Depth → ℚ → Bool) (N2D : Normal → Point2f)
    (D2N : Point2f → Normal) (t : ℚ) (gap : Nat) (dd : DepthData) :
    gapRows S N2D D2N t gap (gapRows S N2D D2N t gap dd) = gapRows S N2D D2N t gap dd := by
  have hs := gapRows_shape S N2D D2N t gap dd
  have e : gapRows S N2D D2N t gap (gapRows S N2D D2N t gap dd) =
      gapPass (fun d0 d1 => S d0 d1 (t * (5/2))) N2D D2N gap
        (gapRows S N2D D2N t gap dd).depthMap.rows (gapRows S N2D D2N t gap dd).depthMap.cols
        rowPixel (gapRows S N2D D2N t gap dd) := rfl
  rw [e, hs.1, hs.2.1]
  exact gapPass_idempotent _ N2D D2N gap _ rowPixel rowPixel_inj dd _

theorem gapCols_idempotent (S : Depth → Depth → ℚ → Bool) (N2D : Normal → Point2f)
    (D2N : Point2f → Normal) (t : ℚ) (gap : Nat) (dd : DepthData) :
    gapCols S N2D D2N t gap (gapCols S N2D D2N t gap dd) = gapCols S N2D D2N t gap dd := by
  have hs := gapCols_shape S N2D D2N t gap dd
  have e : gapCols S N2D D2N t gap (gapCols S N2D D2N t gap dd) =
      gapPass (fun d0 d1 => S d0 d1 (t * (5/2))) N2D D2N gap
        (gapCols S N2D D2N t gap dd).depthMap.cols (gapCols S N2D D2N t gap dd).depthMap.rows
        colPixel (gapCols S N2D D2N t gap dd) := rfl
  rw [e, hs.1, hs.2.1]
  exact gapPass_idempotent _ N2D D2N gap _ colPixel colPixel_inj dd _

/-- The row-wise pass changes nothing in `crossImage`: its only gaps touch the border. -/
theorem crossImage_rows :
    gapRows IsDepthSimilar exNormal2Dir exDir2Normal 100 1 crossImage = crossImage := by
  refine gapPass_of_no_fillable _ _ _ 1 _ rowPixel rowPixel_inj crossImage _ ?_
  intro l hl s e hf
  obtain ⟨f1, f2, f3, f4, f5, f6, -, -⟩ := hf
  have hl3 : l < 3 := hl
  have he3 : e < 3 := f3
  have hs : s = 1 := by omega
  have he : e = 2 := by omega
  subst hs
  subst he
  interval_cases l <;> simp [crossImage, ofRows, mkDepthData, rowPixel] at f5 f6

/-- Depths of `GapInterpolation` on `crossImage` in the middle row: the column-wise pass fills
the pixel `(0,1)` and leaves `(1,1)` invalid. -/
theorem crossImage_once :
    (GapInterpolation IsDepthSimilar exNormal2Dir exDir2Normal 100 1
      crossImage).depthMap.pix ⟨0, 1⟩ = 1 ∧
    (GapInterpolation IsDepthSimilar exNormal2Dir exDir2Normal 100 1
      crossImage).depthMap.pix ⟨1, 1⟩ = 0 ∧
    (GapInterpolation IsDepthSimilar exNormal2Dir exDir2Normal 100 1
      crossImage).depthMap.pix ⟨2, 1⟩ = 1 := by
  have e : GapInterpolation IsDepthSimilar exNormal2Dir exDir2Normal 100 1 crossImage =
      gapPass (fun d0 d1 => IsDepthSimilar d0 d1 (100 * (5/2))) exNormal2Dir exDir2Normal 1
        3 3 colPixel crossImage := by
    simp only [GapInterpolation, crossImage_rows]
    rfl
  obtain ⟨-, p2, p3⟩ := gapPass_spec (fun d0 d1 => IsDepthSimilar d0 d1 (100 * (5/2)))
    exNormal2Dir exDir2Normal 1 3 colPixel colPixel_inj crossImage 3
  rw [e]
  refine ⟨?_, ?_, ?_⟩
  · have hf : FillableRun (fun d0 d1 => IsDepthSimilar d0 d1 (100 * (5/2))) 1 3 (colPixel 0)
        crossImage 1 2 := by
      refine ⟨le_refl 1, by omega, by omega, by omega, ?_, ?_, ?_, ?_⟩
      · simp [crossImage, ofRows, mkDepthData, colPixel]
      · simp [crossImage, ofRows, mkDepthData, colPixel]
      · intro j j1 j2
        have : j = 1 := by omega
        subst this
        simp [crossImage, ofRows, mkDepthData, colPixel]
      · simp [crossImage, ofRows, mkDepthData, colPixel, IsDepthSimilar]
        norm_num
    have h1 := (p3 0 (by omega) 1 2 hf 1 (le_refl 1) (by omega)).1
    have hp : colPixel 0 1 = ⟨0, 1⟩ := by simp [colPixel]
    rw [hp] at h1
    rw [h1]
    simp [crossImage, ofRows, mkDepthData, colPixel]
  · rcases p2 ⟨1, 1⟩ with ha | ⟨l, s, e, i, hl, e1, hf, e2, e3, -⟩
    · rw [ha.1]
      simp [crossImage, ofRows, mkDepthData]
    · exfalso
      have hp : (⟨1, 1⟩ : ImageRef) = colPixel 1 1 := by simp [colPixel]
      rw [hp] at e1
      obtain ⟨rfl, rfl⟩ := colPixel_inj _ _ _ _ e1
      obtain ⟨f1, f2, f3, -, f5, -⟩ := hf
      have hs : s = 1 := by omega
      subst hs
      simp [crossImage, ofRows, mkDepthData, colPixel] at f5
  · have h1 := (gapPass_of_valid (fun d0 d1 => IsDepthSimilar d0 d1 (100 * (5/2)))
      exNormal2Dir exDir2Normal 1 3 colPixel colPixel_inj crossImage 3 ⟨2, 1⟩
      (by simp [crossImage, ofRows, mkDepthData])).1
    rw [h1]
    simp [crossImage, ofRows, mkDepthData]

/-- C5, as stated, fails: on the 3×3 depth-map `crossImage` with `nIpolGapSize = 1` the first
run fills `(0,1)` in the column-wise pass, which makes `(1,1)` a one-pixel gap of its row; the
second run fills it. So the second run changes the depth-map. -/
theorem GapInterpolation_not_idempotent :
    GapInterpolation IsDepthSimilar exNormal2Dir exDir2Normal 100 1
        (GapInterpolation IsDepthSimilar exNormal2Dir exDir2Normal 100 1 crossImage) ≠
      GapInterpolation IsDepthSimilar exNormal2Dir exDir2Normal 100 1 crossImage := by
  obtain ⟨v0, v1, v2⟩ := crossImage_once
  generalize hG : GapInterpolation IsDepthSimilar exNormal2Dir exDir2Normal 100 1 crossImage = G
    at v0 v1 v2
  have hsG : SameShape G crossImage := by
    rw [← hG]
    exact (gapCols_shape _ _ _ _ _ _).shape_trans (gapRows_shape _ _ _ _ _ _)
  have hc : G.depthMap.cols = 3 := hsG.1
  have hr : G.depthMap.rows = 3 := hsG.2.1
  intro heq
  have hval := congrArg (fun d => d.depthMap.pix ⟨1, 1⟩) heq
  simp only [v1] at hval
  -- the middle row of `G` has a fillable gap at column 1
  have hf : FillableRun (fun d0 d1 => IsDepthSimilar d0 d1 (100 * (5/2))) 1 3 (rowPixel 1)
      G 1 2 := by
    have q0 : rowPixel 1 0 = ⟨0, 1⟩ := by simp [rowPixel]
    have q1 : rowPixel 1 1 = ⟨1, 1⟩ := by simp [rowPixel]
    have q2 : rowPixel 1 2 = ⟨2, 1⟩ := by simp [rowPixel]
    refine ⟨le_refl 1, by omega, by omega, by omega, ?_, ?_, ?_, ?_⟩
    · rw [q0, v0]; exact zero_lt_one
    · rw [q2, v2]; exact zero_lt_one
    · intro j j1 j2
      have : j = 1 := by omega
      subst this
      rw [q1, v1]
    · rw [q0, q2, v0, v2]
      simp [IsDepthSimilar]
      norm_num
  have hrows : 0 < (gapRows IsDepthSimilar exNormal2Dir exDir2Normal 100 1 G).depthMap.pix
      (rowPixel 1 1) := by
    have e : gapRows IsDepthSimilar exNormal2Dir exDir2Normal 100 1 G =
        gapPass (fun d0 d1 => IsDepthSimilar d0 d1 (100 * (5/2))) exNormal2Dir exDir2Normal 1
          G.depthMap.rows G.depthMap.cols rowPixel G := rfl
    rw [e, hc, hr]
    exact ((gapPass_spec _ exNormal2Dir exDir2Normal 1 3 rowPixel rowPixel_inj G 3).2.2 1
      (by omega) 1 2 hf 1 (le_refl 1) (by omega)).pos hf (le_refl 1) (by omega)
  have q1 : rowPixel 1 1 = ⟨1, 1⟩ := by simp [rowPixel]
  rw [q1] at hrows
  have hcols : (gapCols IsDepthSimilar exNormal2Dir exDir2Normal 100 1
      (gapRows IsDepthSimilar exNormal2Dir exDir2Normal 100 1 G)).depthMap.pix ⟨1, 1⟩ =
      (gapRows IsDepthSimilar exNormal2Dir exDir2Normal 100 1 G).depthMap.pix ⟨1, 1⟩ :=
    (gapPass_of_valid (fun d0 d1 => IsDepthSimilar d0 d1 (100 * (5/2)))
      exNormal2Dir exDir2Normal 1
      (gapRows IsDepthSimilar exNormal2Dir exDir2Normal 100 1 G).depthMap.rows
      colPixel colPixel_inj
      (gapRows IsDepthSimilar exNormal2Dir exDir2Normal 100 1 G)
      (gapRows IsDepthSimilar exNormal2Dir exDir2Normal 100 1 G).depthMap.cols ⟨1, 1⟩ hrows).1
  have hval' : (gapCols IsDepthSimilar exNormal2Dir exDir2Normal 100 1
      (gapRows IsDepthSimilar exNormal2Dir exDir2Normal 100 1 G)).depthMap.pix ⟨1, 1⟩ = 0 :=
    hval
  rw [hcols] at hval'
  rw [hval'] at hrows
  exact lt_irrefl 0 hrows

/-- C5 (amended): each pass of `GapInterpolation` is idempotent. For every depth data, gap size,
threshold and helper functions, running the row-wise pass twice gives the maps of running it
once, and so does the column-wise pass; hence the whole routine run twice gives the result of
one run whenever the row-wise pass leaves that result unchanged. -/
theorem GapInterpolation_passes_idempotent (IsDepthSimilar : Depth → Depth → ℚ → Bool)
    (Normal2Dir : Normal → Point2f) (Dir2Normal : Point2f → Normal) (fDepthDiffThreshold : ℚ)
    (nIpolGapSize : Nat) (depthData : DepthData) :
    gapRows IsDepthSimilar Normal2Dir Dir2Normal fDepthDiffThreshold nIpolGapSize
        (gapRows IsDepthSimilar Normal2Dir Dir2Normal fDepthDiffThreshold nIpolGapSize
          depthData) =
      gapRows IsDepthSimilar Normal2Dir Dir2Normal fDepthDiffThreshold nIpolGapSize depthData ∧
    gapCols IsDepthSimilar Normal2Dir Dir2Normal fDepthDiffThreshold nIpolGapSize
        (gapCols IsDepthSimilar Normal2Dir Dir2Normal fDepthDiffThreshold nIpolGapSize
          depthData) =
      gapCols IsDepthSimilar Normal2Dir Dir2Normal fDepthDiffThreshold nIpolGapSize depthData ∧
    (gapRows IsDepthSimilar Normal2Dir Dir2Normal fDepthDiffThreshold nIpolGapSize
        (GapInterpolation IsDepthSimilar Normal2Dir Dir2Normal fDepthDiffThreshold nIpolGapSize
          depthData) =
      GapInterpolation IsDepthSimilar Normal2Dir Dir2Normal fDepthDiffThreshold nIpolGapSize
        depthData →
    GapInterpolation IsDepthSimilar Normal2Dir Dir2Normal fDepthDiffThreshold nIpolGapSize
        (GapInterpolation IsDepthSimilar Normal2Dir Dir2Normal fDepthDiffThreshold nIpolGapSize
          depthData) =
      GapInterpolation IsDepthSimilar Normal2Dir Dir2Normal fDepthDiffThreshold nIpolGapSize
        depthData) := by
  refine ⟨gapRows_idempotent _ _ _ _ _ _, gapCols_idempotent _ _ _ _ _ _, fun h => ?_⟩
  have e : GapInterpolation IsDepthSimilar Normal2Dir Dir2Normal fDepthDiffThreshold
      nIpolGapSize (GapInterpolation IsDepthSimilar Normal2Dir Dir2Normal fDepthDiffThreshold
        nIpolGapSize depthData) =
      gapCols IsDepthSimilar Normal2Dir Dir2Normal fDepthDiffThreshold nIpolGapSize
        (gapRows IsDepthSimilar Normal2Dir Dir2Normal fDepthDiffThreshold nIpolGapSize
          (GapInterpolation IsDepthSimilar Normal2Dir Dir2Normal fDepthDiffThreshold
            nIpolGapSize depthData)) := rfl
  rw [e, h]
  exact gapCols_idempotent _ _ _ _ _ _

/-- Instance of `GapInterpolation_passes_idempotent`: a one-pixel depth-map has no gap, the
row-wise pass leaves the result of the routine unchanged and the routine is idempotent on
it. -/
theorem GapInterpolation_passes_idempotent_witness :
    GapInterpolation IsDepthSimilar exNormal2Dir exDir2Normal 100 1
        (GapInterpolation IsDepthSimilar exNormal2Dir exDir2Normal 100 1 (onePixel 1 (1/2))) =
      GapInterpolation IsDepthSimilar exNormal2Dir exDir2Normal 100 1 (onePixel 1 (1/2)) := by
  refine (GapInterpolation_passes_idempotent IsDepthSimilar exNormal2Dir exDir2Normal 100 1
    (onePixel 1 (1/2))).2.2 ?_
  have hs : SameShape
      (GapInterpolation IsDepthSimilar exNormal2Dir exDir2Normal 100 1 (onePixel 1 (1/2)))
      (onePixel 1 (1/2)) :=
    (gapCols_shape _ _ _ _ _ _).shape_trans (gapRows_shape _ _ _ _ _ _)
  refine gapPass_of_no_fillable _ _ _ 1 _ rowPixel rowPixel_inj _ _ (fun l _ s e hf => ?_)
  have h3 := hf.2.2.1
  rw [hs.1] at h3
  have h1 := hf.1
  have h2 := hf.2.1
  have hc : (onePixel 1 (1/2)).depthMap.cols = 1 := rfl
  omega

/-- C6: in the row-wise pass of `GapInterpolation`, a run of `k` consecutive invalid pixels of
the row `v` (columns `s … s+k-1`, `1 ≤ k ≤ nIpolGapSize`), bounded on the left by a valid pixel
of depth `a` (column `s-1`) and on the right by a valid pixel of depth `b` (column `s+k`) with
`IsDepthSimilar(a, b)`, receives the depth `a + i·(b-a)/(k+1)` at its `i`-th pixel
(`i = 1 … k`) and, in an allocated confidence map, the smaller of the two bounding
confidences. -/
theorem gapRows_fills_gap (IsDepthSimilar : Depth → Depth → ℚ → Bool)
    (Normal2Dir : Normal → Point2f) (Dir2Normal : Point2f → Normal) (fDepthDiffThreshold : ℚ)
    (nIpolGapSize : Nat) (depthData : DepthData) (v s k : Nat)
    (hv : v < depthData.depthMap.rows) (hk : 1 ≤ k ∧ k ≤ nIpolGapSize) (hs : 1 ≤ s)
    (he : s + k < depthData.depthMap.cols)
    (ha : 0 < depthData.depthMap.pix (rowPixel v (s - 1)))
    (hb : 0 < depthData.depthMap.pix (rowPixel v (s + k)))
    (hrun : ∀ j, s ≤ j → j < s + k → depthData.depthMap.pix (rowPixel v j) ≤ 0)
    (hsim : IsDepthSimilar (depthData.depthMap.pix (rowPixel v (s - 1)))
      (depthData.depthMap.pix (rowPixel v (s + k))) (fDepthDiffThreshold * (5/2)) = true)
    (i : Nat) (hi : 1 ≤ i ∧ i ≤ k) :
    (gapRows IsDepthSimilar Normal2Dir Dir2Normal fDepthDiffThreshold nIpolGapSize
        depthData).depthMap.pix (rowPixel v (s + i - 1)) =
      depthData.depthMap.pix (rowPixel v (s - 1)) +
        (i : ℚ) * (depthData.depthMap.pix (rowPixel v (s + k)) -
          depthData.depthMap.pix (rowPixel v (s - 1))) / ((k : ℚ) + 1) ∧
    (depthData.confMap.empty = false →
      (gapRows IsDepthSimilar Normal2Dir Dir2Normal fDepthDiffThreshold nIpolGapSize
          depthData).confMap.pix (rowPixel v (s + i - 1)) =
        min (depthData.confMap.pix (rowPixel v (s - 1)))
          (depthData.confMap.pix (rowPixel v (s + k)))) := by
  have hf : FillableRun (fun d0 d1 => IsDepthSimilar d0 d1 (fDepthDiffThreshold * (5/2)))
      nIpolGapSize depthData.depthMap.cols (rowPixel v) depthData s (s + k) :=
    ⟨hs, by omega, he, by omega, ha, hb, hrun, hsim⟩
  obtain ⟨h1, -, h3⟩ := (gapPass_spec
    (fun d0 d1 => IsDepthSimilar d0 d1 (fDepthDiffThreshold * (5/2))) Normal2Dir Dir2Normal
    nIpolGapSize depthData.depthMap.cols rowPixel rowPixel_inj depthData
    depthData.depthMap.rows).2.2 v hv s (s + k) hf (s + i - 1) (by omega) (by omega)
  have hci : ((s + i - 1 : Nat) : ℚ) - (s : ℚ) + 1 = (i : ℚ) := by
    rw [Nat.cast_sub (by omega)]
    push_cast
    ring
  have hck : ((s + k : Nat) : ℚ) - (s : ℚ) + 1 = (k : ℚ) + 1 := by
    push_cast
    ring
  constructor
  · show (gapPass _ Normal2Dir Dir2Normal nIpolGapSize depthData.depthMap.rows
      depthData.depthMap.cols rowPixel depthData).depthMap.pix (rowPixel v (s + i - 1)) = _
    rw [h1, hci, hck]
    ring
  · intro hc
    show (gapPass _ Normal2Dir Dir2Normal nIpolGapSize depthData.depthMap.rows
      depthData.depthMap.cols rowPixel depthData).confMap.pix (rowPixel v (s + i - 1)) = _
    rw [h3, hc]
    rfl

/-- Instance of `gapRows_fills_gap` (scenario 4 of the specification): the row `[1, 0, 0, 1]`
with `nIpolGapSize = 2` becomes `[1, 1, 1, 1]`; the filled confidences are the bounding 1/2. -/
theorem gapRows_fills_gap_witness :
    ((gapRows IsDepthSimilar exNormal2Dir exDir2Normal 100 2
        (ofRows [[1, 0, 0, 1]])).depthMap.pix ⟨1, 0⟩ = 1 ∧
      (gapRows IsDepthSimilar exNormal2Dir exDir2Normal 100 2
        (ofRows [[1, 0, 0, 1]])).confMap.pix ⟨1, 0⟩ = 1/2) ∧
    ((gapRows IsDepthSimilar exNormal2Dir exDir2Normal 100 2
        (ofRows [[1, 0, 0, 1]])).depthMap.pix ⟨2, 0⟩ = 1 ∧
      (gapRows IsDepthSimilar exNormal2Dir exDir2Normal 100 2
        (ofRows [[1, 0, 0, 1]])).confMap.pix ⟨2, 0⟩ = 1/2) := by
  have key : ∀ i, 1 ≤ i ∧ i ≤ 2 →
      (gapRows IsDepthSimilar exNormal2Dir exDir2Normal 100 2
          (ofRows [[1, 0, 0, 1]])).depthMap.pix (rowPixel 0 (1 + i - 1)) = 1 ∧
      (gapRows IsDepthSimilar exNormal2Dir exDir2Normal 100 2
          (ofRows [[1, 0, 0, 1]])).confMap.pix (rowPixel 0 (1 + i - 1)) = 1/2 := by
    intro i hi
    obtain ⟨h1, h2⟩ := gapRows_fills_gap IsDepthSimilar exNormal2Dir exDir2Normal 100 2
      (ofRows [[1, 0, 0, 1]]) 0 1 2 (by simp [ofRows, mkDepthData]) (by omega) (le_refl 1)
      (by simp [ofRows, mkDepthData])
      (by simp [ofRows, mkDepthData, rowPixel])
      (by simp [ofRows, mkDepthData, rowPixel])
      (by
        intro j j1 j2
        have : j = 1 ∨ j = 2 := by omega
        rcases this with h | h <;> subst h <;> simp [ofRows, mkDepthData, rowPixel])
      (by
        simp [ofRows, mkDepthData, rowPixel, IsDepthSimilar]
        norm_num)
      i hi
    constructor
    · rw [h1]
      simp [ofRows, mkDepthData, rowPixel]
    · rw [h2 (by simp [ofRows, mkDepthData, TImage.empty])]
      simp [ofRows, mkDepthData, rowPixel]
  exact ⟨key 1 (by omega), key 2 (by omega)⟩

/-! ## `FuseDepthMaps` -/

theorem ite_ind {α : Type} (P : α → Prop) (c : Prop) [Decidable c] (a b : α)
    (ha : P a) (hb : P b) : P (if c then a else b) := by
  split_ifs
  · exact ha
  · exact hb

theorem setLast_length {α : Type} (l : List α) (a v : α) :
    (setLast (l ++ [a]) v).length = l.length + 1 := by
  simp [setLast]

theorem dropLast_append_singleton_length {α : Type} (l : List α) (a : α) :
    (l ++ [a]).dropLast.length = l.length := by
  simp

/-- One pixel step of the fusion keeps the three arrays of the point cloud equally long,
whether the candidate point is kept or discarded. -/
theorem fusePixel_lengths (env : FuseEnv) (bC bN bM : Bool) (idxImage : Nat) (st : FuseState)
    (x : ImageRef)
    (h : st.pointcloud.points.length = st.pointcloud.pointViews.length ∧
      st.pointcloud.points.length = st.pointcloud.pointWeights.length) :
    (fusePixel env bC bN bM idxImage st x).pointcloud.points.length =
      (fusePixel env bC bN bM idxImage st x).pointcloud.pointViews.length ∧
    (fusePixel env bC bN bM idxImage st x).pointcloud.points.length =
      (fusePixel env bC bN bM idxImage st x).pointcloud.pointWeights.length := by
  unfold fusePixel
  dsimp only
  refine ite_ind (fun s : FuseState =>
    s.pointcloud.points.length = s.pointcloud.pointViews.length ∧
    s.pointcloud.points.length = s.pointcloud.pointWeights.length) _ _ _ h ?_
  refine ite_ind (fun s : FuseState =>
    s.pointcloud.points.length = s.pointcloud.pointViews.length ∧
    s.pointcloud.points.length = s.pointcloud.pointWeights.length) _ _ _ h ?_
  refine ite_ind (fun s : FuseState =>
    s.pointcloud.points.length = s.pointcloud.pointViews.length ∧
    s.pointcloud.points.length = s.pointcloud.pointWeights.length) _ _ _ ?_ ?_
  · simp only [dropLast_append_singleton_length]
    exact h
  · simp only [setLast_length]
    omega

theorem foldl_fusePixel_lengths (env : FuseEnv) (bC bN bM : Bool) (idxImage : Nat)
    (xs : List ImageRef) (st : FuseState)
    (h : st.pointcloud.points.length = st.pointcloud.pointViews.length ∧
      st.pointcloud.points.length = st.pointcloud.pointWeights.length) :
    (xs.foldl (fusePixel env bC bN bM idxImage) st).pointcloud.points.length =
      (xs.foldl (fusePixel env bC bN bM idxImage) st).pointcloud.pointViews.length ∧
    (xs.foldl (fusePixel env bC bN bM idxImage) st).pointcloud.points.length =
      (xs.foldl (fusePixel env bC bN bM idxImage) st).pointcloud.pointWeights.length := by
  induction xs generalizing st with
  | nil => exact h
  | cons c cs ih => exact ih _ (fusePixel_lengths env bC bN bM idxImage st c h)

theorem fuseImage_lengths (env : FuseEnv) (bC bN bM : Bool) (st : FuseState) (idxImage : Nat)
    (h : st.pointcloud.points.length = st.pointcloud.pointViews.length ∧
      st.pointcloud.points.length = st.pointcloud.pointWeights.length) :
    (fuseImage env bC bN bM st idxImage).pointcloud.points.length =
      (fuseImage env bC bN bM st idxImage).pointcloud.pointViews.length ∧
    (fuseImage env bC bN bM st idxImage).pointcloud.points.length =
      (fuseImage env bC bN bM st idxImage).pointcloud.pointWeights.length := by
  simp only [fuseImage]
  exact foldl_fusePixel_lengths env bC bN bM idxImage _ _ h

theorem foldl_fuseImage_lengths (env : FuseEnv) (bC bN bM : Bool) (ids : List Nat)
    (st : FuseState)
    (h : st.pointcloud.points.length = st.pointcloud.pointViews.length ∧
      st.pointcloud.points.length = st.pointcloud.pointWeights.length) :
    (ids.foldl (fuseImage env bC bN bM) st).pointcloud.points.length =
      (ids.foldl (fuseImage env bC bN bM) st).pointcloud.pointViews.length ∧
    (ids.foldl (fuseImage env bC bN bM) st).pointcloud.points.length =
      (ids.foldl (fuseImage env bC bN bM) st).pointcloud.pointWeights.length := by
  induction ids generalizing st with
  | nil => exact h
  | cons c cs ih => exact ih _ (fuseImage_lengths env bC bN bM st c h)

/-- The final normal estimation only writes the array `normals`. -/
theorem estimateNormals_arrays (env : FuseEnv) (bN : Bool) (st : FuseState) :
    (estimateNormals env bN st).points = st.pointcloud.points ∧
    (estimateNormals env bN st).pointViews = st.pointcloud.pointViews ∧
    (estimateNormals env bN st).pointWeights = st.pointcloud.pointWeights := by
  simp only [estimateNormals]
  split_ifs <;> simp

/-- C10: after `FuseDepthMaps` started on an empty point cloud, `points`, `pointViews` and
`pointWeights` have the same length; and every pixel step `fusePixel` (candidate kept or
discarded) carries this equality from the state before the pixel to the state after it. -/
theorem FuseDepthMaps_lengths (env : FuseEnv) (arrDepthData : Nat → DepthData)
    (bEstimateColor bEstimateNormal : Bool) :
    ((FuseDepthMaps env arrDepthData {} bEstimateColor bEstimateNormal).1.points.length =
        (FuseDepthMaps env arrDepthData {} bEstimateColor bEstimateNormal).1.pointViews.length ∧
      (FuseDepthMaps env arrDepthData {} bEstimateColor bEstimateNormal).1.points.length =
        (FuseDepthMaps env arrDepthData {} bEstimateColor
          bEstimateNormal).1.pointWeights.length) ∧
    (∀ (bNormalMap : Bool) (idxImage : Nat) (st : FuseState) (x : ImageRef),
      (st.pointcloud.points.length = st.pointcloud.pointViews.length ∧
        st.pointcloud.points.length = st.pointcloud.pointWeights.length) →
      ((fusePixel env bEstimateColor bEstimateNormal bNormalMap idxImage st
          x).pointcloud.points.length =
        (fusePixel env bEstimateColor bEstimateNormal bNormalMap idxImage st
          x).pointcloud.pointViews.length ∧
       (fusePixel env bEstimateColor bEstimateNormal bNormalMap idxImage st
          x).pointcloud.points.length =
        (fusePixel env bEstimateColor bEstimateNormal bNormalMap idxImage st
          x).pointcloud.pointWeights.length)) := by
  refine ⟨?_, fun bM idxImage st x h => fusePixel_lengths env _ _ bM idxImage st x h⟩
  simp only [FuseDepthMaps]
  split
  · exact ⟨rfl, rfl⟩
  · rename_i connections bNormalMap _
    obtain ⟨e1, e2, e3⟩ := estimateNormals_arrays env (bEstimateNormal && bNormalMap)
      (fuseLoop env arrDepthData {} bEstimateColor bEstimateNormal bNormalMap connections)
    rw [e1, e2, e3]
    simp only [fuseLoop]
    refine foldl_fuseImage_lengths env _ _ _ _ _ ?_
    exact ⟨rfl, rfl⟩

/-- Instance of `FuseDepthMaps_lengths`: the first pixel step on the initial state of a
two-view scene with unit depths. -/
theorem FuseDepthMaps_lengths_witness :
    (fusePixel twoViewEnv false false false 0
        (fuseInit (fun _ => { onePixel 1 (1/2) with neighbors := [0, 1] }))
        ⟨0, 0⟩).pointcloud.points.length =
      (fusePixel twoViewEnv false false false 0
        (fuseInit (fun _ => { onePixel 1 (1/2) with neighbors := [0, 1] }))
        ⟨0, 0⟩).pointcloud.pointViews.length ∧
    (fusePixel twoViewEnv false false false 0
        (fuseInit (fun _ => { onePixel 1 (1/2) with neighbors := [0, 1] }))
        ⟨0, 0⟩).pointcloud.points.length =
      (fusePixel twoViewEnv false false false 0
        (fuseInit (fun _ => { onePixel 1 (1/2) with neighbors := [0, 1] }))
        ⟨0, 0⟩).pointcloud.pointWeights.length :=
  (FuseDepthMaps_lengths twoViewEnv (fun _ => onePixel 1 (1/2)) false false).2 false 0
    (fuseInit (fun _ => { onePixel 1 (1/2) with neighbors := [0, 1] })) ⟨0, 0⟩ ⟨rfl, rfl⟩

/-! ## `FuseDepthMaps`: the outcomes of the steps and the invariants of the loops -/

/-- The four outcomes of a pixel step, in terms of the observers `fuseAcc` gathers. -/
theorem fusePixel_eq (env : FuseEnv) (bC bN bM : Bool) (idxImage : Nat) (st : FuseState)
    (x : ImageRef) :
    fusePixel env bC bN bM idxImage st x =
      if (st.arrDepthData idxImage).depthMap.pix x = 0 then st
      else if (st.arrDepthIdx idxImage).pix x ≠ NO_ID then { st with nDepths := st.nDepths + 1 }
      else if (fuseAcc env bC bN bM idxImage st x).views.length <
          min env.nMinViewsFuse env.images.length then
        { st with
          nDepths := st.nDepths + 1
          arrDepthIdx := releaseClaims (fuseAcc env bC bN bM idxImage st x).arrDepthIdx
            (fuseAcc env bC bN bM idxImage st x).views
            (fuseAcc env bC bN bM idxImage st x).pointProjs }
      else
        { nDepths := st.nDepths + 1
          arrDepthIdx := (fuseAcc env bC bN bM idxImage st x).arrDepthIdx
          projs := st.projs ++ [(fuseAcc env bC bN bM idxImage st x).pointProjs]
          arrDepthData := invalidateDepths st.arrDepthData
            (fuseAcc env bC bN bM idxImage st x).invalidDepths
          pointcloud :=
            { points := st.pointcloud.points ++
                [(fuseAcc env bC bN bM idxImage st x).X.smul
                  (1 / (fuseAcc env bC bN bM idxImage st x).confidence)]
              pointViews := st.pointcloud.pointViews ++ [(fuseAcc env bC bN bM idxImage st x).views]
              pointWeights := st.pointcloud.pointWeights ++
                [(fuseAcc env bC bN bM idxImage st x).weights]
              colors := if bC then
                  st.pointcloud.colors ++ [env.toPixel8U
                    ((fuseAcc env bC bN bM idxImage st x).C.smul
                      (1 / (fuseAcc env bC bN bM idxImage st x).confidence))]
                else st.pointcloud.colors
              normals := if bN then
                  st.pointcloud.normals ++ [env.normalized
                    ((fuseAcc env bC bN bM idxImage st x).N.smul
                      (1 / (fuseAcc env bC bN bM idxImage st x).confidence))]
                else st.pointcloud.normals } } := by
  unfold fusePixel fuseAcc
  dsimp only
  simp only [setLast, List.dropLast_concat]

theorem mem_insertAt {α : Type} (l : List α) (i : Nat) (v a : α) :
    a ∈ insertAt l i v ↔ a = v ∨ a ∈ l := by
  have h : a ∈ l ↔ a ∈ l.take i ∨ a ∈ l.drop i := by
    rw [← List.mem_append, List.take_append_drop]
  simp only [insertAt, List.mem_append, List.mem_cons, h]
  tauto

theorem insertAt_insertSortIdx_cons (a : Nat) (t : List Nat) (v : Nat) :
    insertAt (a :: t) (insertSortIdx (a :: t) v) v =
      if a < v then a :: insertAt t (insertSortIdx t v) v else v :: a :: t := by
  by_cases h : a < v
  · simp [insertAt, insertSortIdx, List.takeWhile_cons, h]
  · simp [insertAt, insertSortIdx, List.takeWhile_cons, h]

/-- Inserting a new image at the position `InsertSort` returns keeps a strictly ascending
view list strictly ascending. -/
theorem insertSort_pairwise (l : List Nat) (v : Nat) (hl : l.Pairwise (fun a b => a < b))
    (hv : v ∉ l) : (insertAt l (insertSortIdx l v) v).Pairwise (fun a b => a < b) := by
  induction l with
  | nil => simp [insertAt, insertSortIdx]
  | cons a t ih =>
    rw [insertAt_insertSortIdx_cons]
    rw [List.pairwise_cons] at hl
    have hva : v ≠ a := fun e => hv (by simp [e])
    have hvt : v ∉ t := fun e => hv (List.mem_cons_of_mem _ e)
    split_ifs with h
    · rw [List.pairwise_cons]
      refine ⟨?_, ih hl.2 hvt⟩
      intro b hb
      rcases (mem_insertAt _ _ _ _).1 hb with e | e
      · rw [e]; exact h
      · exact hl.1 b e
    · have hlt : v < a := by omega
      rw [List.pairwise_cons, List.pairwise_cons]
      refine ⟨?_, hl⟩
      intro b hb
      rcases List.mem_cons.1 hb with e | e
      · rw [e]; exact hlt
      · exact lt_trans hlt (hl.1 b e)

/-- The three outcomes of the test of one neighbour image: nothing happens, the neighbour
is recorded as an observer (and its pixel claimed), or its pixel is queued for
invalidation. -/
theorem fuseNeighbor_cases (env : FuseEnv) (bC bN bM : Bool) (arrDepthData : Nat → DepthData)
    (point : Point3) (normal : Normal) (idxPoint : Nat) (acc : PointAcc) (B : Nat) :
    fuseNeighbor env bC bN bM arrDepthData point normal idxPoint acc B = acc ∨
    (0 < (env.ProjectPointP3 B point).z ∧
      (arrDepthData B).depthMap.isInside (projPixel env B point) = true ∧
      (arrDepthData B).depthMap.pix (projPixel env B point) ≠ 0 ∧
      (acc.arrDepthIdx B).pix (projPixel env B point) = NO_ID ∧
      ∃ X C N confidence,
        fuseNeighbor env bC bN bM arrDepthData point normal idxPoint acc B =
          { views := insertAt acc.views (insertSortIdx acc.views B) B
            weights := insertAt acc.weights (insertSortIdx acc.views B)
              (Conf2Weight ((arrDepthData B).confMap.pix (projPixel env B point))
                ((arrDepthData B).depthMap.pix (projPixel env B point)))
            pointProjs := insertAt acc.pointProjs (insertSortIdx acc.views B)
              (Proj.ofImageRef (projPixel env B point))
            arrDepthIdx := Function.update acc.arrDepthIdx B
              ((acc.arrDepthIdx B).set (projPixel env B point) idxPoint)
            X := X, C := C, N := N, confidence := confidence
            invalidDepths := acc.invalidDepths }) ∨
    ((arrDepthData B).depthMap.pix (projPixel env B point) ≠ 0 ∧
      (acc.arrDepthIdx B).pix (projPixel env B point) = NO_ID ∧
      fuseNeighbor env bC bN bM arrDepthData point normal idxPoint acc B =
        { acc with invalidDepths := acc.invalidDepths ++ [(B, projPixel env B point)] }) := by
  unfold projPixel
  generalize hr : fuseNeighbor env bC bN bM arrDepthData point normal idxPoint acc B = r
  unfold fuseNeighbor at hr
  dsimp only at hr
  generalize (⟨env.ROUND2INT ((env.ProjectPointP3 B point).x / (env.ProjectPointP3 B point).z),
    env.ROUND2INT ((env.ProjectPointP3 B point).y / (env.ProjectPointP3 B point).z)⟩ :
      ImageRef) = xB at hr ⊢
  generalize env.ProjectPointP3 B point = pt at hr ⊢
  generalize arrDepthData B = dB at hr ⊢
  split_ifs at hr
  all_goals first
    | exact Or.inl hr.symm
    | exact Or.inr (Or.inl ⟨not_le.1 (by assumption),
        by simpa using (by assumption : ¬(!dB.depthMap.isInside xB) = true),
        by assumption, not_not.1 (by assumption), _, _, _, _, hr.symm⟩)
    | exact Or.inr (Or.inr ⟨by assumption, not_not.1 (by assumption), hr.symm⟩)

/-- Induction along a loop with a guard `G` that every step carries backwards: when the
guard holds at the end it held all along, and the invariant `P` is carried forwards. -/
theorem foldl_guard_ind {σ α : Type} (f : σ → α → σ) (P G : σ → Prop)
    (hG : ∀ s a, G (f s a) → G s) (hstep : ∀ s a, G (f s a) → P s → P (f s a))
    (xs : List α) (s : σ) (h : G (xs.foldl f s)) : G s ∧ (P s → P (xs.foldl f s)) := by
  induction xs generalizing s with
  | nil => exact ⟨h, id⟩
  | cons c cs ih =>
    obtain ⟨h1, h2⟩ := ih (f s c) h
    exact ⟨hG s c h1, fun hP => h2 (hstep s c h1 hP)⟩

/-- An invariant of the pixel steps that does not read the claim grids is an invariant of
the whole loop over the images, under a guard that the pixel steps carry backwards. -/
theorem foldl_fuseImage_ind (env : FuseEnv) (bC bN bM : Bool) (P G : FuseState → Prop)
    (hGidx : ∀ (st : FuseState) idxs, G { st with arrDepthIdx := idxs } → G st)
    (hPidx : ∀ (st : FuseState) idxs, P st → P { st with arrDepthIdx := idxs })
    (hG : ∀ idxImage st x, G (fusePixel env bC bN bM idxImage st x) → G st)
    (hstep : ∀ idxImage st x, G st → P st → P (fusePixel env bC bN bM idxImage st x))
    (ids : List Nat) (st : FuseState) (h : G (ids.foldl (fuseImage env bC bN bM) st)) :
    G st ∧ (P st → P (ids.foldl (fuseImage env bC bN bM) st)) := by
  refine foldl_guard_ind (fuseImage env bC bN bM) P G ?_ ?_ ids st h
  · intro s i hs
    simp only [fuseImage] at hs
    exact hGidx _ _ (foldl_guard_ind _ P G (hG i)
      (fun t x ht hp => hstep i t x (hG i t x ht) hp) _ _ hs).1
  · intro s i hg hp
    simp only [fuseImage] at hg ⊢
    exact (foldl_guard_ind _ P G (hG i)
      (fun t x ht hp => hstep i t x (hG i t x ht) hp) _ _ hg).2 (hPidx _ _ hp)

/-- An invariant of the pixel steps that does not read the claim grids is an invariant of
the whole loop over the images. -/
theorem foldl_fuseImage_inv (env : FuseEnv) (bC bN bM : Bool) (P : FuseState → Prop)
    (hPidx : ∀ (st : FuseState) idxs, P st → P { st with arrDepthIdx := idxs })
    (hstep : ∀ idxImage st x, P st → P (fusePixel env bC bN bM idxImage st x))
    (ids : List Nat) (st : FuseState) (h : P st) :
    P (ids.foldl (fuseImage env bC bN bM) st) :=
  (foldl_fuseImage_ind env bC bN bM P (fun _ => True) (fun _ _ _ => trivial) hPidx
    (fun _ _ _ _ => trivial) (fun i s x _ hp => hstep i s x hp) ids st trivial).2 h

/-- The four outcomes of a pixel step: no depth, pixel already claimed, candidate
discarded, candidate kept. -/
theorem fusePixel_cases (env : FuseEnv) (bC bN bM : Bool) (idxImage : Nat) (st : FuseState)
    (x : ImageRef) :
    fusePixel env bC bN bM idxImage st x = st ∨
    fusePixel env bC bN bM idxImage st x = { st with nDepths := st.nDepths + 1 } ∨
    ((st.arrDepthData idxImage).depthMap.pix x ≠ 0 ∧
      (st.arrDepthIdx idxImage).pix x = NO_ID ∧
      (fuseAcc env bC bN bM idxImage st x).views.length <
        min env.nMinViewsFuse env.images.length ∧
      fusePixel env bC bN bM idxImage st x =
        { st with
          nDepths := st.nDepths + 1
          arrDepthIdx := releaseClaims (fuseAcc env bC bN bM idxImage st x).arrDepthIdx
            (fuseAcc env bC bN bM idxImage st x).views
            (fuseAcc env bC bN bM idxImage st x).pointProjs }) ∨
    ((st.arrDepthData idxImage).depthMap.pix x ≠ 0 ∧
      (st.arrDepthIdx idxImage).pix x = NO_ID ∧
      ¬ (fuseAcc env bC bN bM idxImage st x).views.length <
        min env.nMinViewsFuse env.images.length ∧
      ∃ point colors normals,
        fusePixel env bC bN bM idxImage st x =
          { nDepths := st.nDepths + 1
            arrDepthIdx := (fuseAcc env bC bN bM idxImage st x).arrDepthIdx
            projs := st.projs ++ [(fuseAcc env bC bN bM idxImage st x).pointProjs]
            arrDepthData := invalidateDepths st.arrDepthData
              (fuseAcc env bC bN bM idxImage st x).invalidDepths
            pointcloud :=
              { points := st.pointcloud.points ++ [point]
                pointViews := st.pointcloud.pointViews ++
                  [(fuseAcc env bC bN bM idxImage st x).views]
                pointWeights := st.pointcloud.pointWeights ++
                  [(fuseAcc env bC bN bM idxImage st x).weights]
                colors := colors
                normals := normals } }) := by
  rw [fusePixel_eq]
  by_cases h1 : (st.arrDepthData idxImage).depthMap.pix x = 0
  · rw [if_pos h1]; exact Or.inl rfl
  rw [if_neg h1]
  by_cases h2 : (st.arrDepthIdx idxImage).pix x ≠ NO_ID
  · rw [if_pos h2]; exact Or.inr (Or.inl rfl)
  rw [if_neg h2]
  by_cases h3 : (fuseAcc env bC bN bM idxImage st x).views.length <
      min env.nMinViewsFuse env.images.length
  · rw [if_pos h3]; exact Or.inr (Or.inr (Or.inl ⟨h1, not_not.1 h2, h3, rfl⟩))
  rw [if_neg h3]
  exact Or.inr (Or.inr (Or.inr ⟨h1, not_not.1 h2, h3, _, _, _, rfl⟩))

/-- A pixel step never shortens the point cloud. -/
theorem fusePixel_points_le (env : FuseEnv) (bC bN bM : Bool) (idxImage : Nat)
    (st : FuseState) (x : ImageRef) :
    st.pointcloud.points.length ≤
      (fusePixel env bC bN bM idxImage st x).pointcloud.points.length := by
  rcases fusePixel_cases env bC bN bM idxImage st x with e | e | ⟨_, _, _, e⟩ |
    ⟨_, _, _, _, _, _, e⟩
  all_goals (rw [e]; try simp)

/-- The view lists after a pixel step: those before it, and the observers gathered by
`fuseAcc` when the candidate is kept. -/
theorem fusePixel_views (env : FuseEnv) (bC bN bM : Bool) (idxImage : Nat)
    (st : FuseState) (x : ImageRef) :
    (fusePixel env bC bN bM idxImage st x).pointcloud.pointViews = st.pointcloud.pointViews ∨
    ((st.arrDepthData idxImage).depthMap.pix x ≠ 0 ∧
      (st.arrDepthIdx idxImage).pix x = NO_ID ∧
      ¬ (fuseAcc env bC bN bM idxImage st x).views.length <
        min env.nMinViewsFuse env.images.length ∧
      (fusePixel env bC bN bM idxImage st x).pointcloud.pointViews =
        st.pointcloud.pointViews ++ [(fuseAcc env bC bN bM idxImage st x).views]) := by
  rcases fusePixel_cases env bC bN bM idxImage st x with e | e | ⟨_, _, _, e⟩ |
    ⟨h1, h2, h3, _, _, _, e⟩
  · rw [e]; exact Or.inl rfl
  · rw [e]; exact Or.inl rfl
  · rw [e]; exact Or.inl rfl
  · rw [e]; exact Or.inr ⟨h1, h2, h3, rfl⟩

/-- Every view list stored by `FuseDepthMaps` has the required number of observers, when
the lists of the incoming cloud have. -/
theorem fuseLoop_min_views (env : FuseEnv) (arrDepthData : Nat → DepthData)
    (pointcloud : PointCloud) (bC bN bM : Bool) (connections : List (Nat × Nat))
    (h : ∀ v ∈ pointcloud.pointViews, min env.nMinViewsFuse env.images.length ≤ v.length) :
    ∀ v ∈ (fuseLoop env arrDepthData pointcloud bC bN bM connections).pointcloud.pointViews,
      min env.nMinViewsFuse env.images.length ≤ v.length := by
  unfold fuseLoop
  refine foldl_fuseImage_inv env bC _ bM
    (fun s => ∀ v ∈ s.pointcloud.pointViews,
      min env.nMinViewsFuse env.images.length ≤ v.length)
    (fun _ _ hp => hp) ?_ _ _ h
  intro i s x hp v hv
  rcases fusePixel_views env bC (bN && bM) bM i s x with e | ⟨_, _, h3, e⟩
  · rw [e] at hv; exact hp v hv
  · rw [e] at hv
    rcases List.mem_append.1 hv with hv | hv
    · exact hp v hv
    · rw [List.mem_singleton.1 hv]
      exact not_lt.1 h3

/-- C14: every point that `FuseDepthMaps` leaves in a cloud started empty has at least
`min(nMinViewsFuse, number of scene images)` views. -/
theorem FuseDepthMaps_min_views (env : FuseEnv) (arrDepthData : Nat → DepthData)
    (bEstimateColor bEstimateNormal : Bool) :
    ∀ v ∈ (FuseDepthMaps env arrDepthData {} bEstimateColor bEstimateNormal).1.pointViews,
      min env.nMinViewsFuse env.images.length ≤ v.length := by
  simp only [FuseDepthMaps]
  split
  · intro v hv
    exact absurd hv (List.not_mem_nil v)
  · rename_i connections bNormalMap _
    rw [(estimateNormals_arrays env (bEstimateNormal && bNormalMap) _).2.1]
    exact fuseLoop_min_views env arrDepthData {} _ _ _ _
      (fun v hv => absurd hv (List.not_mem_nil v))

/-- While one point gathers its observers, the views stay strictly ascending and every
observer has the pixel it sees the point through claimed. -/
theorem fuseNeighbor_sorted (env : FuseEnv) (bC bN bM : Bool) (arrDepthData : Nat → DepthData)
    (point : Point3) (normal : Normal) (idxPoint : Nat) (hid : idxPoint ≠ NO_ID)
    (acc : PointAcc) (B : Nat)
    (h : acc.views.Pairwise (fun a b => a < b) ∧
      ∀ V ∈ acc.views, 0 < (env.ProjectPointP3 V point).z →
        (acc.arrDepthIdx V).pix (projPixel env V point) ≠ NO_ID) :
    (fuseNeighbor env bC bN bM arrDepthData point normal idxPoint acc B).views.Pairwise
        (fun a b => a < b) ∧
      ∀ V ∈ (fuseNeighbor env bC bN bM arrDepthData point normal idxPoint acc B).views,
        0 < (env.ProjectPointP3 V point).z →
        ((fuseNeighbor env bC bN bM arrDepthData point normal idxPoint acc B).arrDepthIdx V).pix
          (projPixel env V point) ≠ NO_ID := by
  rcases fuseNeighbor_cases env bC bN bM arrDepthData point normal idxPoint acc B with
    e | ⟨hz, _, _, hgrid, X, C, N, conf, e⟩ | ⟨_, _, e⟩
  · rw [e]; exact h
  · rw [e]
    have hB : B ∉ acc.views := fun hB => h.2 B hB hz hgrid
    refine ⟨insertSort_pairwise _ _ h.1 hB, ?_⟩
    intro V hV hVz
    dsimp only
    by_cases hVB : V = B
    · subst hVB
      rw [Function.update_same, TImage.set_pix_same]
      exact hid
    · rw [Function.update_noteq hVB]
      rcases (mem_insertAt _ _ _ _).1 hV with e' | hV'
      · exact absurd e' hVB
      · exact h.2 V hV' hVz
  · rw [e]; exact h

theorem foldl_fuseNeighbor_sorted (env : FuseEnv) (bC bN bM : Bool)
    (arrDepthData : Nat → DepthData) (point : Point3) (normal : Normal) (idxPoint : Nat)
    (hid : idxPoint ≠ NO_ID) (neighbors : List Nat) (acc : PointAcc)
    (h : acc.views.Pairwise (fun a b => a < b) ∧
      ∀ V ∈ acc.views, 0 < (env.ProjectPointP3 V point).z →
        (acc.arrDepthIdx V).pix (projPixel env V point) ≠ NO_ID) :
    (neighbors.foldl (fuseNeighbor env bC bN bM arrDepthData point normal idxPoint)
      acc).views.Pairwise (fun a b => a < b) := by
  induction neighbors generalizing acc with
  | nil => exact h.1
  | cons c cs ih =>
    exact ih _ (fuseNeighbor_sorted env bC bN bM arrDepthData point normal idxPoint hid acc c h)

/-- The observers gathered for a candidate point are strictly ascending, whatever the
neighbour list, when the camera of the reference image projects the back-projection of a
pixel onto that pixel and the index of the point is not the sentinel. -/
theorem fuseAcc_sorted (env : FuseEnv) (bC bN bM : Bool) (idxImage : Nat) (st : FuseState)
    (x : ImageRef)
    (hrt : ∀ i x d, 0 < (env.ProjectPointP3 i (env.TransformPointI2W i x d)).z →
      projPixel env i (env.TransformPointI2W i x d) = x)
    (hlen : st.pointcloud.points.length < NO_ID) :
    (fuseAcc env bC bN bM idxImage st x).views.Pairwise (fun a b => a < b) := by
  have hid : st.pointcloud.points.length % 4294967296 ≠ NO_ID := by
    unfold NO_ID at hlen ⊢
    omega
  unfold fuseAcc
  dsimp only
  refine foldl_fuseNeighbor_sorted env bC bN bM _ _ _ _ hid _ _ ⟨List.pairwise_singleton _ _, ?_⟩
  intro V hV hz
  rw [List.mem_singleton.1 hV] at hz ⊢
  dsimp only
  rw [hrt _ _ _ hz, Function.update_same, TImage.set_pix_same]
  exact hid

/-- The view lists stay strictly ascending along the loops of the fusion, as long as the
cloud holds fewer points than the sentinel `NO_ID`. -/
theorem fuseLoop_sorted (env : FuseEnv) (arrDepthData : Nat → DepthData)
    (pointcloud : PointCloud) (bC bN bM : Bool) (connections : List (Nat × Nat))
    (hrt : ∀ i x d, 0 < (env.ProjectPointP3 i (env.TransformPointI2W i x d)).z →
      projPixel env i (env.TransformPointI2W i x d) = x)
    (h0 : ∀ v ∈ pointcloud.pointViews, v.Pairwise (fun a b => a < b))
    (hlen : (fuseLoop env arrDepthData pointcloud bC bN bM
      connections).pointcloud.points.length < NO_ID) :
    ∀ v ∈ (fuseLoop env arrDepthData pointcloud bC bN bM connections).pointcloud.pointViews,
      v.Pairwise (fun a b => a < b) := by
  unfold fuseLoop at hlen ⊢
  refine (foldl_fuseImage_ind env bC _ bM
    (fun s => ∀ v ∈ s.pointcloud.pointViews, v.Pairwise (fun a b => a < b))
    (fun s => s.pointcloud.points.length < NO_ID)
    (fun _ _ hg => hg) (fun _ _ hp => hp) ?_ ?_ _ _ hlen).2 h0
  · intro i s x hg
    exact lt_of_le_of_lt (fusePixel_points_le env bC _ bM i s x) hg
  · intro i s x hg hp v hv
    rcases fusePixel_views env bC (bN && bM) bM i s x with e | ⟨_, _, _, e⟩
    · rw [e] at hv; exact hp v hv
    · rw [e] at hv
      rcases List.mem_append.1 hv with hv | hv
      · exact hp v hv
      · rw [List.mem_singleton.1 hv]
        exact fuseAcc_sorted env bC _ bM i s x hrt hg

/-- Zeroing queued depths changes no map size, no confidence and no neighbour list, and
every depth is afterwards what it was or zero. -/
theorem invalidateDepths_spec (arrDepthData : Nat → DepthData) (l : List (Nat × ImageRef))
    (i : Nat) :
    (invalidateDepths arrDepthData l i).depthMap.rows = (arrDepthData i).depthMap.rows ∧
    (invalidateDepths arrDepthData l i).depthMap.cols = (arrDepthData i).depthMap.cols ∧
    (invalidateDepths arrDepthData l i).confMap = (arrDepthData i).confMap ∧
    (invalidateDepths arrDepthData l i).normalMap = (arrDepthData i).normalMap ∧
    (invalidateDepths arrDepthData l i).neighbors = (arrDepthData i).neighbors ∧
    (invalidateDepths arrDepthData l i).nImages = (arrDepthData i).nImages ∧
    ∀ p, (invalidateDepths arrDepthData l i).depthMap.pix p = (arrDepthData i).depthMap.pix p ∨
      (invalidateDepths arrDepthData l i).depthMap.pix p = 0 := by
  unfold invalidateDepths
  induction l generalizing arrDepthData with
  | nil => exact ⟨rfl, rfl, rfl, rfl, rfl, rfl, fun _ => Or.inl rfl⟩
  | cons c cs ih =>
    rw [List.foldl_cons]
    obtain ⟨h1, h2, h3, h4, h5, h6, h7⟩ := ih (Function.update arrDepthData c.1
      { arrDepthData c.1 with depthMap := (arrDepthData c.1).depthMap.set c.2 0 })
    rw [h1, h2, h3, h4, h5, h6]
    by_cases hi : i = c.1
    · subst hi
      rw [Function.update_same] at h7 ⊢
      refine ⟨rfl, rfl, rfl, rfl, rfl, rfl, fun p => ?_⟩
      rcases h7 p with e | e
      · rw [e]
        by_cases hp : p = c.2
        · rw [hp, TImage.set_pix_same]; exact Or.inr rfl
        · rw [TImage.set_pix_of_ne _ _ hp]; exact Or.inl rfl
      · exact Or.inr e
    · rw [Function.update_noteq hi] at h7 ⊢
      exact ⟨rfl, rfl, rfl, rfl, rfl, rfl, h7⟩

/-- A pixel step changes the depth data only by zeroing depths. -/
theorem fusePixel_depthData (env : FuseEnv) (bC bN bM : Bool) (idxImage : Nat)
    (st : FuseState) (x : ImageRef) (i : Nat) :
    ((fusePixel env bC bN bM idxImage st x).arrDepthData i).depthMap.rows =
      (st.arrDepthData i).depthMap.rows ∧
    ((fusePixel env bC bN bM idxImage st x).arrDepthData i).depthMap.cols =
      (st.arrDepthData i).depthMap.cols ∧
    ((fusePixel env bC bN bM idxImage st x).arrDepthData i).confMap =
      (st.arrDepthData i).confMap ∧
    ((fusePixel env bC bN bM idxImage st x).arrDepthData i).normalMap =
      (st.arrDepthData i).normalMap ∧
    ((fusePixel env bC bN bM idxImage st x).arrDepthData i).neighbors =
      (st.arrDepthData i).neighbors ∧
    ((fusePixel env bC bN bM idxImage st x).arrDepthData i).nImages =
      (st.arrDepthData i).nImages ∧
    ∀ p, ((fusePixel env bC bN bM idxImage st x).arrDepthData i).depthMap.pix p =
        (st.arrDepthData i).depthMap.pix p ∨
      ((fusePixel env bC bN bM idxImage st x).arrDepthData i).depthMap.pix p = 0 := by
  rcases fusePixel_cases env bC bN bM idxImage st x with e | e | ⟨_, _, _, e⟩ |
    ⟨_, _, _, _, _, _, e⟩
  · rw [e]; exact ⟨rfl, rfl, rfl, rfl, rfl, rfl, fun _ => Or.inl rfl⟩
  · rw [e]; exact ⟨rfl, rfl, rfl, rfl, rfl, rfl, fun _ => Or.inl rfl⟩
  · rw [e]; exact ⟨rfl, rfl, rfl, rfl, rfl, rfl, fun _ => Or.inl rfl⟩
  · rw [e]; exact invalidateDepths_spec _ _ _

/-- A pixel step appends at most one point. -/
theorem fusePixel_points_le_succ (env : FuseEnv) (bC bN bM : Bool) (idxImage : Nat)
    (st : FuseState) (x : ImageRef) :
    (fusePixel env bC bN bM idxImage st x).pointcloud.points.length ≤
      st.pointcloud.points.length + 1 := by
  rcases fusePixel_cases env bC bN bM idxImage st x with e | e | ⟨_, _, _, e⟩ |
    ⟨_, _, _, _, _, _, e⟩
  all_goals (rw [e]; try simp)

theorem length_rowMajor (rows cols : Nat) : (rowMajor rows cols).length = rows * cols := by
  simp [rowMajor, List.length_flatMap, Function.comp_def, List.map_const']

/-- The loop over the pixels of one image keeps the sizes of all depth-maps and appends at
most one point per pixel. -/
theorem foldl_fusePixel_bound (env : FuseEnv) (bC bN bM : Bool) (idxImage : Nat)
    (xs : List ImageRef) (st : FuseState) :
    (∀ i, ((xs.foldl (fusePixel env bC bN bM idxImage) st).arrDepthData i).depthMap.rows =
        (st.arrDepthData i).depthMap.rows ∧
      ((xs.foldl (fusePixel env bC bN bM idxImage) st).arrDepthData i).depthMap.cols =
        (st.arrDepthData i).depthMap.cols) ∧
    (xs.foldl (fusePixel env bC bN bM idxImage) st).pointcloud.points.length ≤
      st.pointcloud.points.length + xs.length := by
  induction xs generalizing st with
  | nil => exact ⟨fun _ => ⟨rfl, rfl⟩, le_refl _⟩
  | cons c cs ih =>
    obtain ⟨h1, h2⟩ := ih (fusePixel env bC bN bM idxImage st c)
    refine ⟨fun i => ?_, ?_⟩
    · obtain ⟨e1, e2, _⟩ := fusePixel_depthData env bC bN bM idxImage st c i
      rw [List.foldl_cons, (h1 i).1, (h1 i).2, e1, e2]
      exact ⟨rfl, rfl⟩
    · have h3 := fusePixel_points_le_succ env bC bN bM idxImage st c
      rw [List.foldl_cons, List.length_cons]
      omega

/-- The loop over the images keeps the sizes of all depth-maps and appends at most one
point per pixel of the images it visits. -/
theorem foldl_fuseImage_bound (env : FuseEnv) (bC bN bM : Bool) (ids : List Nat)
    (st : FuseState) :
    (∀ i, ((ids.foldl (fuseImage env bC bN bM) st).arrDepthData i).depthMap.rows =
        (st.arrDepthData i).depthMap.rows ∧
      ((ids.foldl (fuseImage env bC bN bM) st).arrDepthData i).depthMap.cols =
        (st.arrDepthData i).depthMap.cols) ∧
    (ids.foldl (fuseImage env bC bN bM) st).pointcloud.points.length ≤
      st.pointcloud.points.length +
        (ids.map (fun i => (st.arrDepthData i).depthMap.rows *
          (st.arrDepthData i).depthMap.cols)).sum := by
  induction ids generalizing st with
  | nil => exact ⟨fun _ => ⟨rfl, rfl⟩, le_refl _⟩
  | cons c cs ih =>
    obtain ⟨h1, h2⟩ := ih (fuseImage env bC bN bM st c)
    have hb : (∀ i, ((fuseImage env bC bN bM st c).arrDepthData i).depthMap.rows =
          (st.arrDepthData i).depthMap.rows ∧
        ((fuseImage env bC bN bM st c).arrDepthData i).depthMap.cols =
          (st.arrDepthData i).depthMap.cols) ∧
        (fuseImage env bC bN bM st c).pointcloud.points.length ≤
          st.pointcloud.points.length +
            (st.arrDepthData c).depthMap.rows * (st.arrDepthData c).depthMap.cols := by
      simp only [fuseImage]
      have := foldl_fusePixel_bound env bC bN bM c
        (rowMajor (st.arrDepthData c).depthMap.rows (st.arrDepthData c).depthMap.cols)
        { st with arrDepthIdx :=
          (if ((allocNeighborIdx st.arrDepthData st.arrDepthIdx
              (st.arrDepthData c).neighbors) c).empty = true then
            Function.update (allocNeighborIdx st.arrDepthData st.arrDepthIdx
              (st.arrDepthData c).neighbors) c
              (newDepthIndex (env.images.getD c ⟨0, 0, 0⟩).width
                (env.images.getD c ⟨0, 0, 0⟩).height)
          else allocNeighborIdx st.arrDepthData st.arrDepthIdx (st.arrDepthData c).neighbors) }
      rw [length_rowMajor] at this
      exact this
    refine ⟨fun i => ?_, ?_⟩
    · rw [List.foldl_cons, (h1 i).1, (h1 i).2]
      exact hb.1 i
    · rw [List.foldl_cons, List.map_cons, List.sum_cons]
      have e : (cs.map (fun i => ((fuseImage env bC bN bM st c).arrDepthData i).depthMap.rows *
          ((fuseImage env bC bN bM st c).arrDepthData i).depthMap.cols)) =
          (cs.map (fun i => (st.arrDepthData i).depthMap.rows *
            (st.arrDepthData i).depthMap.cols)) := by
        refine List.map_congr_left (fun i _ => ?_)
        rw [(hb.1 i).1, (hb.1 i).2]
      rw [e] at h2
      have := hb.2
      omega

/-- The cameras of the two-view examples project the back-projection of a pixel onto that
pixel. -/
theorem twoViewEnv_roundtrip (i : Nat) (x : ImageRef) (d : Depth)
    (h : 0 < (twoViewEnv.ProjectPointP3 i (twoViewEnv.TransformPointI2W i x d)).z) :
    projPixel twoViewEnv i (twoViewEnv.TransformPointI2W i x d) = x := by
  simp only [twoViewEnv] at h
  have hd : d ≠ 0 := ne_of_gt h
  have hf : ∀ z : Int, Int.floor ((z : ℚ) * d / d + 1 / 2) = z := by
    intro z
    rw [mul_div_assoc, div_self hd, mul_one, Int.floor_int_add]
    norm_num
  simp only [projPixel, twoViewEnv, hf]

theorem twoView_findConnections :
    findConnections twoViewEnv twoViewData = some ([(0, 1), (1, 1)], true) := by
  simp [findConnections, twoViewEnv, twoViewData, onePixel, DepthData.IsValid, TImage.empty,
    List.range_succ]

/-- The fusion of the two-view example yields at most two points. -/
theorem twoView_points_le (bC bN : Bool) :
    (FuseDepthMaps twoViewEnv twoViewData {} bC bN).1.points.length ≤ 2 := by
  simp only [FuseDepthMaps, twoView_findConnections]
  rw [(estimateNormals_arrays twoViewEnv _ _).1]
  unfold fuseLoop
  have h := (foldl_fuseImage_bound twoViewEnv bC (bN && true) true
    ((twoViewEnv.sortConnections [(0, 1), (1, 1)]).map Prod.fst)
    { pointcloud := {}
      arrDepthData := twoViewData
      arrDepthIdx := fun _ => ⟨0, 0, fun _ => NO_ID⟩
      projs := []
      nDepths := 0 }).2
  have e1 : (twoViewEnv.sortConnections [(0, 1), (1, 1)]).map Prod.fst = [0, 1] := rfl
  have e2 : (([0, 1] : List Nat).map (fun i => (twoViewData i).depthMap.rows *
      (twoViewData i).depthMap.cols)).sum = 2 := rfl
  rw [e1] at h ⊢
  rw [e2] at h
  exact h

/-- C11: after `FuseDepthMaps`, the view list of every fused point is strictly ascending,
whatever the neighbour lists are (they may name an image twice or name the reference image
itself), when the cameras project the back-projection of a pixel onto that pixel, the view
lists of the incoming cloud are strictly ascending and the cloud stays below `NO_ID`
points. -/
theorem FuseDepthMaps_views_ascending (env : FuseEnv) (arrDepthData : Nat → DepthData)
    (pointcloud : PointCloud) (bEstimateColor bEstimateNormal : Bool)
    (hrt : ∀ i x d, 0 < (env.ProjectPointP3 i (env.TransformPointI2W i x d)).z →
      projPixel env i (env.TransformPointI2W i x d) = x)
    (h0 : ∀ v ∈ pointcloud.pointViews, v.Pairwise (fun a b => a < b))
    (hlen : (FuseDepthMaps env arrDepthData pointcloud bEstimateColor
      bEstimateNormal).1.points.length < NO_ID) :
    ∀ v ∈ (FuseDepthMaps env arrDepthData pointcloud bEstimateColor
        bEstimateNormal).1.pointViews,
      v.Pairwise (fun a b => a < b) := by
  simp only [FuseDepthMaps] at hlen ⊢
  split at hlen
  · rename_i e
    simp only [e]
    exact h0
  · rename_i connections bNormalMap e
    simp only [e]
    rw [(estimateNormals_arrays env (bEstimateNormal && bNormalMap) _).1] at hlen
    rw [(estimateNormals_arrays env (bEstimateNormal && bNormalMap) _).2.1]
    exact fuseLoop_sorted env arrDepthData pointcloud _ _ _ _ hrt h0 hlen

/-- Instance of `FuseDepthMaps_views_ascending`: the two-view scene in which every
neighbour list is `[0, 1, 1]`. -/
theorem FuseDepthMaps_views_ascending_witness :
    (FuseDepthMaps twoViewEnv twoViewData {} false false).1.points.length < NO_ID ∧
    ∀ v ∈ (FuseDepthMaps twoViewEnv twoViewData {} false false).1.pointViews,
      v.Pairwise (fun a b => a < b) :=
  ⟨lt_of_le_of_lt (twoView_points_le false false) (by norm_num [NO_ID]),
    FuseDepthMaps_views_ascending twoViewEnv twoViewData {} false false twoViewEnv_roundtrip
      (fun v hv => absurd hv (List.not_mem_nil v))
      (lt_of_le_of_lt (twoView_points_le false false) (by norm_num [NO_ID]))⟩

/-- Inserting at the same position in two aligned lists keeps them aligned. -/
theorem forall₂_insertAt {α β : Type} (R : α → β → Prop) (l1 : List α) (l2 : List β)
    (i : Nat) (a : α) (b : β) (h : List.Forall₂ R l1 l2) (hab : R a b) :
    List.Forall₂ R (insertAt l1 i a) (insertAt l2 i b) := by
  unfold insertAt
  exact List.rel_append (List.forall₂_take i h) (List.Forall₂.cons hab (List.forall₂_drop i h))

/-- While one point gathers its observers, the weights stay aligned with the views: a
relation that holds between every neighbour and the weight of the pixel the point projects
to holds between the views and the weights position by position. -/
theorem foldl_fuseNeighbor_aligned (env : FuseEnv) (bC bN bM : Bool)
    (arrDepthData : Nat → DepthData) (point : Point3) (normal : Normal) (idxPoint : Nat)
    (R : Nat → ℚ → Prop)
    (hR : ∀ B, (arrDepthData B).depthMap.pix (projPixel env B point) ≠ 0 →
      R B (Conf2Weight ((arrDepthData B).confMap.pix (projPixel env B point))
        ((arrDepthData B).depthMap.pix (projPixel env B point))))
    (neighbors : List Nat) (acc : PointAcc) (h : List.Forall₂ R acc.views acc.weights) :
    List.Forall₂ R
      (neighbors.foldl (fuseNeighbor env bC bN bM arrDepthData point normal idxPoint) acc).views
      (neighbors.foldl (fuseNeighbor env bC bN bM arrDepthData point normal idxPoint)
        acc).weights := by
  induction neighbors generalizing acc with
  | nil => exact h
  | cons c cs ih =>
    refine ih _ ?_
    rcases fuseNeighbor_cases env bC bN bM arrDepthData point normal idxPoint acc c with
      e | ⟨_, _, hd, _, X, C, N, conf, e⟩ | ⟨_, _, e⟩
    · rw [e]; exact h
    · rw [e]; exact forall₂_insertAt R _ _ _ _ _ h (hR c hd)
    · rw [e]; exact h

/-- The weights gathered for the candidate point of a pixel are, position by position, the
`Conf2Weight` of the pixels through which the views observe the point. -/
theorem fuseAcc_observed (env : FuseEnv) (bC bN bM : Bool) (idxImage : Nat) (st : FuseState)
    (x : ImageRef) :
    List.Forall₂ (ObservedWeight env st.arrDepthData idxImage x)
      (fuseAcc env bC bN bM idxImage st x).views
      (fuseAcc env bC bN bM idxImage st x).weights := by
  unfold fuseAcc
  dsimp only
  refine foldl_fuseNeighbor_aligned env bC bN bM _ _ _ _ _ ?_ _ _ ?_
  · intro B _
    exact Or.inr rfl
  · exact List.Forall₂.cons (Or.inl ⟨rfl, rfl⟩) List.Forall₂.nil

/-- The weights gathered for the candidate point of a pixel of non-zero depth are weights
of pixels of non-zero depth of the original depth data, when the current depth data carries
the original confidences and, where a depth is not zero, the original depth. -/
theorem fuseAcc_weightOf (env : FuseEnv) (bC bN bM : Bool) (idxImage : Nat) (st : FuseState)
    (x : ImageRef) (dd0 : Nat → DepthData)
    (hd : ∀ B p, (st.arrDepthData B).depthMap.pix p = (dd0 B).depthMap.pix p ∨
      (st.arrDepthData B).depthMap.pix p = 0)
    (hc : ∀ B, (st.arrDepthData B).confMap = (dd0 B).confMap)
    (hx : (st.arrDepthData idxImage).depthMap.pix x ≠ 0) :
    List.Forall₂ (WeightOf dd0)
      (fuseAcc env bC bN bM idxImage st x).views
      (fuseAcc env bC bN bM idxImage st x).weights := by
  have key : ∀ B p, (st.arrDepthData B).depthMap.pix p ≠ 0 →
      WeightOf dd0 B (Conf2Weight ((st.arrDepthData B).confMap.pix p)
        ((st.arrDepthData B).depthMap.pix p)) := by
    intro B p hp
    have e : (st.arrDepthData B).depthMap.pix p = (dd0 B).depthMap.pix p :=
      (hd B p).resolve_right hp
    refine ⟨p, ?_, ?_⟩
    · rw [← e]; exact hp
    · rw [hc B, e]
  unfold fuseAcc
  dsimp only
  refine foldl_fuseNeighbor_aligned env bC bN bM _ _ _ _ _ ?_ _ _ ?_
  · intro B hB
    exact key B _ hB
  · exact List.Forall₂.cons (key idxImage x hx) List.Forall₂.nil

/-- Along the loops of the fusion the depth data keeps its confidences and changes depths
only to zero, and every stored weight list is aligned with its view list and holds weights
of pixels of non-zero depth of the original depth data. -/
theorem fuseLoop_aligned (env : FuseEnv) (arrDepthData : Nat → DepthData)
    (pointcloud : PointCloud) (bC bN bM : Bool) (connections : List (Nat × Nat))
    (h0 : List.Forall₂ (List.Forall₂ (WeightOf arrDepthData)) pointcloud.pointViews
      pointcloud.pointWeights) :
    List.Forall₂ (List.Forall₂ (WeightOf arrDepthData))
      (fuseLoop env arrDepthData pointcloud bC bN bM connections).pointcloud.pointViews
      (fuseLoop env arrDepthData pointcloud bC bN bM connections).pointcloud.pointWeights := by
  unfold fuseLoop
  refine (foldl_fuseImage_inv env bC _ bM
    (fun s => (∀ B p, (s.arrDepthData B).depthMap.pix p = (arrDepthData B).depthMap.pix p ∨
        (s.arrDepthData B).depthMap.pix p = 0) ∧
      (∀ B, (s.arrDepthData B).confMap = (arrDepthData B).confMap) ∧
      List.Forall₂ (List.Forall₂ (WeightOf arrDepthData)) s.pointcloud.pointViews
        s.pointcloud.pointWeights)
    (fun _ _ hp => hp) ?_ _ _ ⟨fun _ _ => Or.inl rfl, fun _ => rfl, h0⟩).2.2
  intro i s x ⟨hd, hc, hw⟩
  refine ⟨fun B p => ?_, fun B => ?_, ?_⟩
  · obtain ⟨_, _, _, _, _, _, h7⟩ := fusePixel_depthData env bC (bN && bM) bM i s x B
    rcases h7 p with e | e
    · rw [e]; exact hd B p
    · exact Or.inr e
  · rw [(fusePixel_depthData env bC (bN && bM) bM i s x B).2.2.1]
    exact hc B
  · rcases fusePixel_cases env bC (bN && bM) bM i s x with e | e | ⟨_, _, _, e⟩ |
      ⟨h1, _, _, _, _, _, e⟩
    · rw [e]; exact hw
    · rw [e]; exact hw
    · rw [e]; exact hw
    · rw [e]
      exact List.rel_append hw
        (List.Forall₂.cons (fuseAcc_weightOf env bC _ bM i s x arrDepthData hd hc h1)
          List.Forall₂.nil)

/-- `Conf2Weight` is strictly positive at every non-zero depth. -/
theorem conf2Weight_pos (conf : ℚ) (depth : Depth) (h : depth ≠ 0) :
    0 < Conf2Weight conf depth := by
  unfold Conf2Weight
  have h1 : (0 : ℚ) < max (1 - conf) (3/100) := lt_of_lt_of_le (by norm_num) (le_max_right _ _)
  have h2 : 0 < depth * depth := mul_self_pos.2 h
  rw [mul_assoc]
  exact one_div_pos.2 (mul_pos h1 h2)

/-- A neighbour whose projected pixel is already claimed is skipped. -/
theorem fuseNeighbor_of_claimed (env : FuseEnv) (bC bN bM : Bool)
    (arrDepthData : Nat → DepthData) (point : Point3) (normal : Normal) (idxPoint : Nat)
    (acc : PointAcc) (B : Nat)
    (h : (acc.arrDepthIdx B).pix (projPixel env B point) ≠ NO_ID) :
    fuseNeighbor env bC bN bM arrDepthData point normal idxPoint acc B = acc := by
  rcases fuseNeighbor_cases env bC bN bM arrDepthData point normal idxPoint acc B with
    e | ⟨_, _, _, hg, _⟩ | ⟨_, hg, _⟩
  · exact e
  · exact absurd hg h
  · exact absurd hg h

/-- A neighbour that sees the point at an unclaimed pixel of similar depth and compatible
normal becomes an observer. -/
theorem fuseNeighbor_of_similar (env : FuseEnv) (bC bN bM : Bool)
    (arrDepthData : Nat → DepthData) (point : Point3) (normal : Normal) (idxPoint : Nat)
    (acc : PointAcc) (B : Nat)
    (h1 : (arrDepthData B).IsEmpty = false)
    (h2 : 0 < (env.ProjectPointP3 B point).z)
    (h3 : (arrDepthData B).depthMap.isInside (projPixel env B point) = true)
    (h4 : (arrDepthData B).depthMap.pix (projPixel env B point) ≠ 0)
    (h5 : (acc.arrDepthIdx B).pix (projPixel env B point) = NO_ID)
    (h6 : env.IsDepthSimilar (env.ProjectPointP3 B point).z
      ((arrDepthData B).depthMap.pix (projPixel env B point)) env.fDepthDiffThreshold = true)
    (h7 : normal.dot (if bM then env.worldNormal B
        ((arrDepthData B).normalMap.pix (projPixel env B point)) else ⟨0, 0, -1⟩) >
      env.normalError) :
    (fuseNeighbor env bC bN bM arrDepthData point normal idxPoint acc B).views =
        insertAt acc.views (insertSortIdx acc.views B) B ∧
    (fuseNeighbor env bC bN bM arrDepthData point normal idxPoint acc B).weights =
        insertAt acc.weights (insertSortIdx acc.views B)
          (Conf2Weight ((arrDepthData B).confMap.pix (projPixel env B point))
            ((arrDepthData B).depthMap.pix (projPixel env B point))) ∧
    (fuseNeighbor env bC bN bM arrDepthData point normal idxPoint acc B).arrDepthIdx =
        Function.update acc.arrDepthIdx B
          ((acc.arrDepthIdx B).set (projPixel env B point) idxPoint) := by
  unfold projPixel at h3 h4 h5 h6 h7 ⊢
  unfold fuseNeighbor
  dsimp only
  rw [if_neg (by simp [h1]), if_neg (not_le.2 h2), if_neg (by simp [h3]), if_neg h4,
    if_neg (not_not.2 h5), if_pos ⟨h6, h7⟩]
  exact ⟨rfl, rfl, rfl⟩

/-- A pixel step that keeps its candidate appends the gathered views and weights. -/
theorem fusePixel_of_kept (env : FuseEnv) (bC bN bM : Bool) (idxImage : Nat) (st : FuseState)
    (x : ImageRef) (h1 : (st.arrDepthData idxImage).depthMap.pix x ≠ 0)
    (h2 : (st.arrDepthIdx idxImage).pix x = NO_ID)
    (h3 : ¬ (fuseAcc env bC bN bM idxImage st x).views.length <
      min env.nMinViewsFuse env.images.length) :
    (fusePixel env bC bN bM idxImage st x).pointcloud.pointViews =
      st.pointcloud.pointViews ++ [(fuseAcc env bC bN bM idxImage st x).views] ∧
    (fusePixel env bC bN bM idxImage st x).pointcloud.pointWeights =
      st.pointcloud.pointWeights ++ [(fuseAcc env bC bN bM idxImage st x).weights] ∧
    (fusePixel env bC bN bM idxImage st x).pointcloud.points.length =
      st.pointcloud.points.length + 1 := by
  rw [fusePixel_eq, if_neg h1, if_neg (not_not.2 h2), if_neg h3]
  simp

/-- The loops of the fusion only append to the array of view lists. -/
theorem foldl_fuseImage_views_mono (env : FuseEnv) (bC bN bM : Bool) (l : List (List Nat))
    (ids : List Nat) (st : FuseState) (h : l <+: st.pointcloud.pointViews) :
    l <+: (ids.foldl (fuseImage env bC bN bM) st).pointcloud.pointViews := by
  refine foldl_fuseImage_inv env bC bN bM (fun s => l <+: s.pointcloud.pointViews)
    (fun _ _ hp => hp) ?_ ids st h
  intro i s x hp
  rcases fusePixel_views env bC bN bM i s x with e | ⟨_, _, _, e⟩
  · rw [e]; exact hp
  · rw [e]; exact hp.trans (List.prefix_append _ _)

/-- Allocating claim grids leaves every grid without a claim when none had one. -/
theorem allocNeighborIdx_pix (arrDepthData : Nat → DepthData) (idxs : Nat → TImage Nat)
    (neighbors : List Nat) (h : ∀ i p, (idxs i).pix p = NO_ID) :
    ∀ i p, (allocNeighborIdx arrDepthData idxs neighbors i).pix p = NO_ID := by
  unfold allocNeighborIdx
  induction neighbors generalizing idxs with
  | nil => exact h
  | cons c cs ih =>
    rw [List.foldl_cons]
    refine ih _ ?_
    intro i p
    split_ifs
    · exact h i p
    · exact h i p
    · by_cases hi : i = c
      · rw [hi, Function.update_same]; rfl
      · rw [Function.update_noteq hi]; exact h i p

/-- The cameras of the two-view examples project the back-projection of a pixel at a
positive depth, from any image, onto the same pixel of any image. -/
theorem twoViewEnv_projPixel (B i : Nat) (x : ImageRef) (d : Depth) (hd : 0 < d) :
    projPixel twoViewEnv B (twoViewEnv.TransformPointI2W i x d) = x := by
  have hd' : d ≠ 0 := ne_of_gt hd
  have hf : ∀ z : Int, Int.floor ((z : ℚ) * d / d + 1 / 2) = z := by
    intro z
    rw [mul_div_assoc, div_self hd', mul_one, Int.floor_int_add]
    norm_num
  simp only [projPixel, twoViewEnv, hf]

/-- In the two-view examples the candidate point of pixel `(0,0)` of image 0 gathers the
views `[0, 1]` from the neighbour list `[0, 1, 1]`: the reference image and the second
naming of image 1 are skipped because their pixel is claimed. -/
theorem twoView_fuseAcc_views (bC bN bM : Bool) (st : FuseState)
    (hD : ∀ i, (st.arrDepthData i).depthMap = ⟨1, 1, fun _ => 1⟩ ∧
      (st.arrDepthData i).neighbors = [0, 1, 1])
    (hN : bM = true → ∀ i p, (st.arrDepthData i).normalMap.pix p = ⟨0, 0, -1⟩)
    (hG : ∀ i p, (st.arrDepthIdx i).pix p = NO_ID)
    (hP : st.pointcloud.points.length < NO_ID) :
    (fuseAcc twoViewEnv bC bN bM 0 st ⟨0, 0⟩).views = [0, 1] ∧
    (fuseAcc twoViewEnv bC bN bM 0 st ⟨0, 0⟩).weights =
      [Conf2Weight ((st.arrDepthData 0).confMap.pix ⟨0, 0⟩) 1,
        Conf2Weight ((st.arrDepthData 1).confMap.pix ⟨0, 0⟩) 1] := by
  have hid : st.pointcloud.points.length % 4294967296 ≠ NO_ID := by
    unfold NO_ID at hP ⊢
    omega
  have hpix : ∀ i p, (st.arrDepthData i).depthMap.pix p = 1 := fun i p => by rw [(hD i).1]
  have hproj : ∀ B, projPixel twoViewEnv B (twoViewEnv.TransformPointI2W 0 ⟨0, 0⟩ 1) = ⟨0, 0⟩ :=
    fun B => twoViewEnv_projPixel B 0 ⟨0, 0⟩ 1 one_pos
  unfold fuseAcc
  dsimp only
  rw [(hD 0).2, hpix, List.foldl_cons, List.foldl_cons, List.foldl_cons, List.foldl_nil]
  generalize hacc0 : ({ views := [0]
                        weights := [Conf2Weight ((st.arrDepthData 0).confMap.pix ⟨0, 0⟩) 1]
                        pointProjs := [Proj.ofImageRef ⟨0, 0⟩]
                        X := (twoViewEnv.TransformPointI2W 0 ⟨0, 0⟩ 1).smul
                          (Conf2Weight ((st.arrDepthData 0).confMap.pix ⟨0, 0⟩) 1)
                        C := (twoViewEnv.color 0 ⟨0, 0⟩).smul
                          (Conf2Weight ((st.arrDepthData 0).confMap.pix ⟨0, 0⟩) 1)
                        N := Point3.smul (if bM = true then
                            twoViewEnv.worldNormal 0 ((st.arrDepthData 0).normalMap.pix ⟨0, 0⟩)
                          else ⟨0, 0, -1⟩)
                          (Conf2Weight ((st.arrDepthData 0).confMap.pix ⟨0, 0⟩) 1)
                        confidence := Conf2Weight ((st.arrDepthData 0).confMap.pix ⟨0, 0⟩) 1
                        invalidDepths := []
                        arrDepthIdx := Function.update st.arrDepthIdx 0
                          ((st.arrDepthIdx 0).set ⟨0, 0⟩
                            (st.pointcloud.points.length % 4294967296)) } : PointAcc) = acc0
  have hv0 : acc0.views = [0] := by rw [← hacc0]
  have hw0 : acc0.weights = [Conf2Weight ((st.arrDepthData 0).confMap.pix ⟨0, 0⟩) 1] := by
    rw [← hacc0]
  have hg0 : acc0.arrDepthIdx = Function.update st.arrDepthIdx 0
      ((st.arrDepthIdx 0).set ⟨0, 0⟩ (st.pointcloud.points.length % 4294967296)) := by
    rw [← hacc0]
  have hc0 : fuseNeighbor twoViewEnv bC bN bM st.arrDepthData
      (twoViewEnv.TransformPointI2W 0 ⟨0, 0⟩ 1)
      (if bM = true then twoViewEnv.worldNormal 0 ((st.arrDepthData 0).normalMap.pix ⟨0, 0⟩)
        else ⟨0, 0, -1⟩)
      (st.pointcloud.points.length % 4294967296) acc0 0 = acc0 := by
    refine fuseNeighbor_of_claimed _ _ _ _ _ _ _ _ _ _ ?_
    rw [hproj, hg0, Function.update_same, TImage.set_pix_same]
    exact hid
  rw [hc0]
  obtain ⟨e1, e2, e3⟩ := fuseNeighbor_of_similar twoViewEnv bC bN bM st.arrDepthData
    (twoViewEnv.TransformPointI2W 0 ⟨0, 0⟩ 1)
    (if bM = true then twoViewEnv.worldNormal 0 ((st.arrDepthData 0).normalMap.pix ⟨0, 0⟩)
      else ⟨0, 0, -1⟩)
    (st.pointcloud.points.length % 4294967296) acc0 1
    (by simp [DepthData.IsEmpty, TImage.empty, (hD 1).1])
    (by simp [twoViewEnv])
    (by rw [hproj]; simp [TImage.isInside, (hD 1).1])
    (by rw [hpix]; exact one_ne_zero)
    (by rw [hproj, hg0, Function.update_noteq (by decide)]; exact hG 1 _)
    (by rw [hpix]; simp [twoViewEnv, IsDepthSimilar])
    (by
      cases bM
      · simp [twoViewEnv, Point3.dot]; norm_num
      · simp [twoViewEnv, Point3.dot, hN rfl]; norm_num)
  rw [fuseNeighbor_of_claimed _ _ _ _ _ _ _ _ _ _ (by
    rw [e3, hproj, Function.update_same, TImage.set_pix_same]
    exact hid)]
  rw [e1, e2, hv0, hw0, hproj, hpix]
  exact ⟨rfl, rfl⟩

/-- The view and weight lists after a pixel step: those before it, and the observers and
weights gathered by `fuseAcc` when the candidate is kept. -/
theorem fusePixel_arrays (env : FuseEnv) (bC bN bM : Bool) (idxImage : Nat)
    (st : FuseState) (x : ImageRef) :
    ((fusePixel env bC bN bM idxImage st x).pointcloud.pointViews = st.pointcloud.pointViews ∧
      (fusePixel env bC bN bM idxImage st x).pointcloud.pointWeights =
        st.pointcloud.pointWeights) ∨
    ((fusePixel env bC bN bM idxImage st x).pointcloud.pointViews =
        st.pointcloud.pointViews ++ [(fuseAcc env bC bN bM idxImage st x).views] ∧
      (fusePixel env bC bN bM idxImage st x).pointcloud.pointWeights =
        st.pointcloud.pointWeights ++ [(fuseAcc env bC bN bM idxImage st x).weights]) := by
  rcases fusePixel_cases env bC bN bM idxImage st x with e | e | ⟨_, _, _, e⟩ |
    ⟨h1, h2, h3, _, _, _, e⟩
  · rw [e]; exact Or.inl ⟨rfl, rfl⟩
  · rw [e]; exact Or.inl ⟨rfl, rfl⟩
  · rw [e]; exact Or.inl ⟨rfl, rfl⟩
  · rw [e]; exact Or.inr ⟨rfl, rfl⟩

/-- The loops of the fusion only append to the array of weight lists. -/
theorem foldl_fuseImage_weights_mono (env : FuseEnv) (bC bN bM : Bool) (l : List (List ℚ))
    (ids : List Nat) (st : FuseState) (h : l <+: st.pointcloud.pointWeights) :
    l <+: (ids.foldl (fuseImage env bC bN bM) st).pointcloud.pointWeights := by
  refine foldl_fuseImage_inv env bC bN bM (fun s => l <+: s.pointcloud.pointWeights)
    (fun _ _ hp => hp) ?_ ids st h
  intro i s x hp
  rcases fusePixel_arrays env bC bN bM i s x with ⟨_, e⟩ | ⟨_, e⟩
  · rw [e]; exact hp
  · rw [e]; exact hp.trans (List.prefix_append _ _)

/-- In the two-view examples the pixel step of pixel `(0,0)` of image 0, on a state with an
empty cloud and no claim, stores a point with the views `[0, 1]` and their weights. -/
theorem twoView_fusePixel_first (bC bN bM : Bool) (st : FuseState)
    (hD : ∀ i, (st.arrDepthData i).depthMap = ⟨1, 1, fun _ => 1⟩ ∧
      (st.arrDepthData i).neighbors = [0, 1, 1])
    (hN : bM = true → ∀ i p, (st.arrDepthData i).normalMap.pix p = ⟨0, 0, -1⟩)
    (hG : ∀ i p, (st.arrDepthIdx i).pix p = NO_ID)
    (hP : st.pointcloud.pointViews = [] ∧ st.pointcloud.points = [] ∧
      st.pointcloud.pointWeights = []) :
    (fusePixel twoViewEnv bC bN bM 0 st ⟨0, 0⟩).pointcloud.pointViews = [[0, 1]] ∧
    (fusePixel twoViewEnv bC bN bM 0 st ⟨0, 0⟩).pointcloud.pointWeights =
      [[Conf2Weight ((st.arrDepthData 0).confMap.pix ⟨0, 0⟩) 1,
        Conf2Weight ((st.arrDepthData 1).confMap.pix ⟨0, 0⟩) 1]] := by
  have hv := twoView_fuseAcc_views bC bN bM st hD hN hG (by rw [hP.2.1]; norm_num [NO_ID])
  have hk := fusePixel_of_kept twoViewEnv bC bN bM 0 st ⟨0, 0⟩
    (by rw [(hD 0).1]; exact one_ne_zero) (hG 0 ⟨0, 0⟩)
    (by rw [hv.1]; simp [twoViewEnv])
  rw [hk.1, hk.2.1, hv.1, hv.2, hP.1, hP.2.2]
  exact ⟨rfl, rfl⟩

/-- In the two-view examples the fusion loop stores the point of pixel `(0,0)` of image 0
with the views `[0, 1]` as its first point. -/
theorem twoView_fuseLoop_first (bC bN bM : Bool) (D : Nat → DepthData)
    (hD : ∀ i, (D i).depthMap = ⟨1, 1, fun _ => 1⟩ ∧ (D i).neighbors = [0, 1, 1])
    (hN : bM = true → ∀ i p, (D i).normalMap.pix p = ⟨0, 0, -1⟩) :
    [[0, 1]] <+:
      (fuseLoop twoViewEnv D {} bC bN bM [(0, 1), (1, 1)]).pointcloud.pointViews ∧
    [[Conf2Weight ((D 0).confMap.pix ⟨0, 0⟩) 1, Conf2Weight ((D 1).confMap.pix ⟨0, 0⟩) 1]] <+:
      (fuseLoop twoViewEnv D {} bC bN bM [(0, 1), (1, 1)]).pointcloud.pointWeights := by
  unfold fuseLoop
  have e1 : (twoViewEnv.sortConnections [(0, 1), (1, 1)]).map Prod.fst = [0, 1] := rfl
  rw [e1, List.foldl_cons]
  have key : (fuseImage twoViewEnv bC (bN && bM) bM
      { pointcloud := {}
        arrDepthData := D
        arrDepthIdx := fun _ => ⟨0, 0, fun _ => NO_ID⟩
        projs := []
        nDepths := 0 } 0).pointcloud.pointViews = [[0, 1]] ∧
      (fuseImage twoViewEnv bC (bN && bM) bM
      { pointcloud := {}
        arrDepthData := D
        arrDepthIdx := fun _ => ⟨0, 0, fun _ => NO_ID⟩
        projs := []
        nDepths := 0 } 0).pointcloud.pointWeights =
        [[Conf2Weight ((D 0).confMap.pix ⟨0, 0⟩) 1,
          Conf2Weight ((D 1).confMap.pix ⟨0, 0⟩) 1]] := by
    simp only [fuseImage]
    rw [(hD 0).1]
    have e2 : rowMajor 1 1 = [⟨0, 0⟩] := rfl
    rw [e2, List.foldl_cons, List.foldl_nil]
    refine twoView_fusePixel_first bC (bN && bM) bM _ hD hN ?_ ⟨rfl, rfl, rfl⟩
    intro i p
    have ha := allocNeighborIdx_pix D (fun _ => ⟨0, 0, fun _ => NO_ID⟩) (D 0).neighbors
      (fun _ _ => rfl)
    dsimp only
    split_ifs
    · by_cases hi : i = 0
      · rw [hi, Function.update_same]; rfl
      · rw [Function.update_noteq hi]; exact ha i p
    · exact ha i p
  refine ⟨foldl_fuseImage_views_mono twoViewEnv bC _ bM _ _ _ ?_,
    foldl_fuseImage_weights_mono twoViewEnv bC _ bM _ _ _ ?_⟩
  · rw [key.1]
  · rw [key.2]

/-- The fusion of the two-view example stores a point with the views `[0, 1]` and the
weights `[2, 2]`. -/
theorem twoView_mem (bC bN : Bool) :
    [0, 1] ∈ (FuseDepthMaps twoViewEnv twoViewData {} bC bN).1.pointViews ∧
    [2, 2] ∈ (FuseDepthMaps twoViewEnv twoViewData {} bC bN).1.pointWeights := by
  simp only [FuseDepthMaps, twoView_findConnections]
  rw [(estimateNormals_arrays twoViewEnv _ _).2.1, (estimateNormals_arrays twoViewEnv _ _).2.2]
  have h := twoView_fuseLoop_first bC bN true twoViewData (fun _ => ⟨rfl, rfl⟩)
    (fun _ _ _ => rfl)
  have e : Conf2Weight ((twoViewData 0).confMap.pix ⟨0, 0⟩) 1 = 2 := by
    simp only [twoViewData, onePixel, Conf2Weight]
    norm_num
  have e' : Conf2Weight ((twoViewData 1).confMap.pix ⟨0, 0⟩) 1 = 2 := e
  rw [e, e'] at h
  exact ⟨h.1.subset (List.mem_singleton.2 rfl), h.2.subset (List.mem_singleton.2 rfl)⟩

theorem forall₂_mem_right {α β : Type} (R : α → β → Prop) {l1 : List α} {l2 : List β}
    (h : List.Forall₂ R l1 l2) {b : β} (hb : b ∈ l2) : ∃ a ∈ l1, R a b := by
  induction h with
  | nil => exact absurd hb (List.not_mem_nil b)
  | cons hab _ ih =>
    rcases List.mem_cons.1 hb with e | hb'
    · rw [e]; exact ⟨_, List.mem_cons_self _ _, hab⟩
    · obtain ⟨a, ha, hr⟩ := ih hb'
      exact ⟨a, List.mem_cons_of_mem _ ha, hr⟩

/-- The weight and view lists of the cloud that `FuseDepthMaps` returns are aligned, each
weight being the `Conf2Weight` of a pixel of non-zero depth of its view. -/
theorem FuseDepthMaps_weightOf (env : FuseEnv) (arrDepthData : Nat → DepthData)
    (bC bN : Bool) :
    List.Forall₂ (List.Forall₂ (WeightOf arrDepthData))
      (FuseDepthMaps env arrDepthData {} bC bN).1.pointViews
      (FuseDepthMaps env arrDepthData {} bC bN).1.pointWeights := by
  simp only [FuseDepthMaps]
  split
  · exact List.Forall₂.nil
  · rename_i connections bNormalMap _
    rw [(estimateNormals_arrays env (bN && bNormalMap) _).2.1,
      (estimateNormals_arrays env (bN && bNormalMap) _).2.2]
    exact fuseLoop_aligned env arrDepthData {} _ _ _ _ List.Forall₂.nil

/-- C12: in the cloud that `FuseDepthMaps` returns (started empty), `pointWeights[i]` is as
long as `pointViews[i]` and its j-th entry is the `Conf2Weight(confidence, depth)` of a pixel
of the image `pointViews[i][j]`; and every pixel step either leaves the two arrays alone or
appends one view list and one weight list whose j-th weight is the `Conf2Weight` of the pixel
through which the j-th view observes the point (the reference pixel, or the pixel the point
projects to). -/
theorem FuseDepthMaps_weights_aligned (env : FuseEnv) (arrDepthData : Nat → DepthData)
    (bEstimateColor bEstimateNormal : Bool) :
    List.Forall₂
      (fun views weights => weights.length = views.length ∧
        List.Forall₂ (WeightOf arrDepthData) views weights)
      (FuseDepthMaps env arrDepthData {} bEstimateColor bEstimateNormal).1.pointViews
      (FuseDepthMaps env arrDepthData {} bEstimateColor bEstimateNormal).1.pointWeights ∧
    ∀ (bNormalMap : Bool) (idxImage : Nat) (st : FuseState) (x : ImageRef),
      ((fusePixel env bEstimateColor bEstimateNormal bNormalMap idxImage st
            x).pointcloud.pointViews = st.pointcloud.pointViews ∧
        (fusePixel env bEstimateColor bEstimateNormal bNormalMap idxImage st
            x).pointcloud.pointWeights = st.pointcloud.pointWeights) ∨
      ∃ views weights,
        (fusePixel env bEstimateColor bEstimateNormal bNormalMap idxImage st
            x).pointcloud.pointViews = st.pointcloud.pointViews ++ [views] ∧
        (fusePixel env bEstimateColor bEstimateNormal bNormalMap idxImage st
            x).pointcloud.pointWeights = st.pointcloud.pointWeights ++ [weights] ∧
        weights.length = views.length ∧
        List.Forall₂ (ObservedWeight env st.arrDepthData idxImage x) views weights := by
  refine ⟨?_, ?_⟩
  · exact List.Forall₂.imp (fun _ _ h => ⟨h.length_eq.symm, h⟩)
      (FuseDepthMaps_weightOf env arrDepthData bEstimateColor bEstimateNormal)
  · intro bM idxImage st x
    rcases fusePixel_arrays env bEstimateColor bEstimateNormal bM idxImage st x with h | h
    · exact Or.inl h
    · exact Or.inr ⟨_, _, h.1, h.2,
        (fuseAcc_observed env bEstimateColor bEstimateNormal bM idxImage st x).length_eq.symm,
        fuseAcc_observed env bEstimateColor bEstimateNormal bM idxImage st x⟩

/-- C13: `Conf2Weight(conf, depth) = 1/(max(1-conf, 0.03)·depth²)`, it is strictly positive
for every confidence and every non-zero depth, and every weight stored by `FuseDepthMaps`
(started on an empty cloud) is strictly positive. -/
theorem Conf2Weight_positive :
    (∀ (conf : ℚ) (depth : Depth),
      Conf2Weight conf depth = 1 / (max (1 - conf) (3/100) * depth ^ 2)) ∧
    (∀ (conf : ℚ) (depth : Depth), depth ≠ 0 → 0 < Conf2Weight conf depth) ∧
    (∀ (env : FuseEnv) (arrDepthData : Nat → DepthData) (bEstimateColor bEstimateNormal : Bool),
      ∀ weights ∈
        (FuseDepthMaps env arrDepthData {} bEstimateColor bEstimateNormal).1.pointWeights,
      ∀ w ∈ weights, 0 < w) := by
  refine ⟨?_, conf2Weight_pos, ?_⟩
  · intro conf depth
    unfold Conf2Weight
    rw [mul_assoc, pow_two]
  · intro env arrDepthData bC bN weights hws w hw
    obtain ⟨views, _, hvw⟩ := forall₂_mem_right _
      (FuseDepthMaps_weightOf env arrDepthData bC bN) hws
    obtain ⟨B, _, p, hp, e⟩ := forall₂_mem_right _ hvw hw
    rw [e]
    exact conf2Weight_pos _ _ hp

/-- Instance of `Conf2Weight_positive`: the weight of confidence 1/2 at depth 1, and the
weights `[2, 2]` stored by the fusion of the two-view example. -/
theorem Conf2Weight_positive_witness :
    ((1 : ℚ) ≠ 0 ∧ 0 < Conf2Weight (1/2) 1) ∧
    ([2, 2] ∈ (FuseDepthMaps twoViewEnv twoViewData {} false false).1.pointWeights ∧
      (2 : ℚ) ∈ [(2 : ℚ), 2] ∧ (0 : ℚ) < 2) :=
  ⟨⟨one_ne_zero, Conf2Weight_positive.2.1 (1/2) 1 one_ne_zero⟩,
    (twoView_mem false false).2, List.mem_cons_self _ _,
    Conf2Weight_positive.2.2 twoViewEnv twoViewData false false [2, 2]
      (twoView_mem false false).2 2 (List.mem_cons_self _ _)⟩

/-- Instance of `FuseDepthMaps_min_views`: the point with the views `[0, 1]` that the
fusion of the two-view example stores. -/
theorem FuseDepthMaps_min_views_witness :
    [0, 1] ∈ (FuseDepthMaps twoViewEnv twoViewData {} false false).1.pointViews ∧
    min twoViewEnv.nMinViewsFuse twoViewEnv.images.length ≤ [0, 1].length :=
  ⟨(twoView_mem false false).1,
    FuseDepthMaps_min_views twoViewEnv twoViewData false false [0, 1]
      (twoView_mem false false).1⟩

/-! ## `MergeDepthMaps` -/

theorem mem_rowMajor (rows cols : Nat) (q : ImageRef) :
    q ∈ rowMajor rows cols ↔
      0 ≤ q.x ∧ 0 ≤ q.y ∧ q.x < (cols : Int) ∧ q.y < (rows : Int) := by
  simp only [rowMajor, List.mem_flatMap, List.mem_map, List.mem_range]
  constructor
  · rintro ⟨u, hu, v, hv, rfl⟩
    simp only
    omega
  · rintro ⟨h1, h2, h3, h4⟩
    refine ⟨q.y.toNat, by omega, q.x.toNat, by omega, ?_⟩
    cases q with
    | mk x y =>
      simp only at h1 h2 h3 h4 ⊢
      rw [Int.toNat_of_nonneg h1, Int.toNat_of_nonneg h2]

/-- The pixels the loops visit are inside the map. -/
theorem isInside_of_mem_rowMajor {α : Type} (img : TImage α) (q : ImageRef)
    (h : q ∈ rowMajor img.rows img.cols) : img.isInside q = true := by
  obtain ⟨h1, h2, h3, h4⟩ := (mem_rowMajor _ _ q).1 h
  simp [TImage.isInside, h1, h2, h3, h4]

/-- The pixel loop of `MergeDepthMaps` over the pixels `xs` of image `idxImage` appends one
point and one view list per pixel of non-zero depth, in the order of `xs`, and does not
touch `pointWeights`. -/
theorem foldl_mergePixel (env : FuseEnv) (bC bN : Bool) (idxImage : Nat) (dd : DepthData)
    (xs : List ImageRef) (pc : PointCloud) :
    (xs.foldl (mergePixel env bC bN idxImage dd) pc).points =
      pc.points ++ (xs.filter (fun x => decide (dd.depthMap.pix x ≠ 0))).map
        (fun x => env.TransformPointI2W idxImage x (dd.depthMap.pix x)) ∧
    (xs.foldl (mergePixel env bC bN idxImage dd) pc).pointViews =
      pc.pointViews ++ (xs.filter (fun x => decide (dd.depthMap.pix x ≠ 0))).map
        (fun _ => [idxImage]) ∧
    (xs.foldl (mergePixel env bC bN idxImage dd) pc).pointWeights = pc.pointWeights := by
  induction xs generalizing pc with
  | nil => simp
  | cons c cs ih =>
    rw [List.foldl_cons]
    obtain ⟨h1, h2, h3⟩ := ih (mergePixel env bC bN idxImage dd pc c)
    rw [h1, h2, h3]
    by_cases hc : dd.depthMap.pix c = 0
    · simp [mergePixel, hc]
    · simp [mergePixel, hc]

/-- One image step of `MergeDepthMaps`, in a run that has not returned and can load the
depth-map of every valid image. -/
theorem mergeImage_spec (env : FuseEnv) (arrDepthData : Nat → DepthData) (bC bN : Bool)
    (st : MergeState) (i : Nat) (hst : st.returned = false)
    (hload : (arrDepthData i).IsValid = true → env.IncRef i ≠ 0) :
    (mergeImage env arrDepthData bC bN st i).returned = false ∧
    (mergeImage env arrDepthData bC bN st i).pointcloud.points =
      st.pointcloud.points ++ (mergedOfImage env arrDepthData i).map Prod.fst ∧
    (mergeImage env arrDepthData bC bN st i).pointcloud.pointViews =
      st.pointcloud.pointViews ++ (mergedOfImage env arrDepthData i).map Prod.snd := by
  unfold mergeImage mergedOfImage
  rw [if_neg (by simp [hst])]
  dsimp only
  by_cases hv : (arrDepthData i).IsValid = true
  · rw [if_neg (by simp [hv]), if_neg (hload hv), if_pos hv]
    obtain ⟨h1, h2, _⟩ := foldl_mergePixel env bC bN i (arrDepthData i)
      (rowMajor (arrDepthData i).depthMap.rows (arrDepthData i).depthMap.cols) st.pointcloud
    refine ⟨hst, ?_, ?_⟩
    · rw [h1, List.map_map]; rfl
    · rw [h2, List.map_map]; rfl
  · rw [if_pos (by simp [hv]), if_neg hv]
    simp [hst]

/-- The image loop of `MergeDepthMaps` over the images `ids`, in a run that can load the
depth-map of every valid image. -/
theorem foldl_mergeImage_spec (env : FuseEnv) (arrDepthData : Nat → DepthData) (bC bN : Bool)
    (ids : List Nat) (st : MergeState) (hst : st.returned = false)
    (hload : ∀ i ∈ ids, (arrDepthData i).IsValid = true → env.IncRef i ≠ 0) :
    (ids.foldl (mergeImage env arrDepthData bC bN) st).pointcloud.points =
      st.pointcloud.points ++ (ids.flatMap (mergedOfImage env arrDepthData)).map Prod.fst ∧
    (ids.foldl (mergeImage env arrDepthData bC bN) st).pointcloud.pointViews =
      st.pointcloud.pointViews ++
        (ids.flatMap (mergedOfImage env arrDepthData)).map Prod.snd := by
  induction ids generalizing st with
  | nil => simp
  | cons c cs ih =>
    obtain ⟨h0, h1, h2⟩ := mergeImage_spec env arrDepthData bC bN st c hst
      (hload c (List.mem_cons_self _ _))
    obtain ⟨h3, h4⟩ := ih (mergeImage env arrDepthData bC bN st c) h0
      (fun i hi => hload i (List.mem_cons_of_mem _ hi))
    rw [List.foldl_cons, h3, h4, h1, h2]
    simp

/-- C17: when the depth-map of every valid image can be loaded, `MergeDepthMaps` appends
exactly one point per pixel of non-zero depth of every valid image, the images in
increasing index order and the pixels of an image in row-major order, and the `pointViews`
entry of each appended point is the one-element list of the index of its image. -/
theorem MergeDepthMaps_spec (env : FuseEnv) (arrDepthData : Nat → DepthData)
    (pointcloud : PointCloud) (bEstimateColor bEstimateNormal : Bool)
    (hload : ∀ i, i < env.images.length → (arrDepthData i).IsValid = true →
      env.IncRef i ≠ 0) :
    (MergeDepthMaps env arrDepthData pointcloud bEstimateColor bEstimateNormal).points =
      pointcloud.points ++ (mergedOfScene env arrDepthData).map Prod.fst ∧
    (MergeDepthMaps env arrDepthData pointcloud bEstimateColor bEstimateNormal).pointViews =
      pointcloud.pointViews ++ (mergedOfScene env arrDepthData).map Prod.snd := by
  unfold MergeDepthMaps mergedOfScene
  exact foldl_mergeImage_spec env arrDepthData bEstimateColor bEstimateNormal _ _ rfl
    (fun i hi => hload i (List.mem_range.1 hi))

/-- `MergeDepthMaps` keeps `points` and `pointViews` equally long and never writes
`pointWeights`, whatever the depth maps are and whether or not they can be loaded. -/
theorem foldl_mergeImage_inv (env : FuseEnv) (arrDepthData : Nat → DepthData) (bC bN : Bool)
    (ids : List Nat) (st : MergeState) :
    ((ids.foldl (mergeImage env arrDepthData bC bN) st).pointcloud.points.length +
        st.pointcloud.pointViews.length =
      (ids.foldl (mergeImage env arrDepthData bC bN) st).pointcloud.pointViews.length +
        st.pointcloud.points.length) ∧
    (ids.foldl (mergeImage env arrDepthData bC bN) st).pointcloud.pointWeights =
      st.pointcloud.pointWeights := by
  induction ids generalizing st with
  | nil => exact ⟨Nat.add_comm _ _, rfl⟩
  | cons c cs ih =>
    obtain ⟨h1, h2⟩ := ih (mergeImage env arrDepthData bC bN st c)
    have key : ((mergeImage env arrDepthData bC bN st c).pointcloud.points.length +
          st.pointcloud.pointViews.length =
        (mergeImage env arrDepthData bC bN st c).pointcloud.pointViews.length +
          st.pointcloud.points.length) ∧
        (mergeImage env arrDepthData bC bN st c).pointcloud.pointWeights =
          st.pointcloud.pointWeights := by
      unfold mergeImage
      dsimp only
      split_ifs
      · exact ⟨Nat.add_comm _ _, rfl⟩
      · exact ⟨Nat.add_comm _ _, rfl⟩
      · exact ⟨Nat.add_comm _ _, rfl⟩
      · obtain ⟨e1, e2, e3⟩ := foldl_mergePixel env bC bN c (arrDepthData c)
          (rowMajor (arrDepthData c).depthMap.rows (arrDepthData c).depthMap.cols)
          st.pointcloud
        dsimp only
        rw [e1, e2, e3]
        refine ⟨?_, rfl⟩
        simp only [List.length_append, List.length_map]
        omega
    rw [List.foldl_cons, h2, key.2]
    exact ⟨by omega, rfl⟩

/-- The points that the specification lists for the two-view example. -/
theorem twoView_mergedOfScene :
    mergedOfScene twoViewEnv twoViewData = [(⟨0, 0, 1⟩, [0]), (⟨0, 0, 1⟩, [1])] := by
  have e : rowMajor 1 1 = [⟨0, 0⟩] := rfl
  simp [mergedOfScene, mergedOfImage, twoViewEnv, twoViewData, onePixel, DepthData.IsValid,
    List.range_succ, e]

/-- Instance of `MergeDepthMaps_spec`: the two-view example, from an empty cloud. -/
theorem MergeDepthMaps_spec_witness :
    (MergeDepthMaps twoViewEnv twoViewData {} false false).points =
      [⟨0, 0, 1⟩, ⟨0, 0, 1⟩] ∧
    (MergeDepthMaps twoViewEnv twoViewData {} false false).pointViews = [[0], [1]] := by
  have h := MergeDepthMaps_spec twoViewEnv twoViewData {} false false
    (fun _ _ _ => Nat.one_ne_zero)
  rw [twoView_mergedOfScene] at h
  exact h

/-- C18 fails as stated: from the empty cloud (three arrays of length 0) `MergeDepthMaps`
on the two-view example yields two points and two view lists but no weight list. -/
theorem MergeDepthMaps_weights_shorter :
    (({} : PointCloud).points.length = ({} : PointCloud).pointViews.length ∧
      ({} : PointCloud).points.length = ({} : PointCloud).pointWeights.length) ∧
    (MergeDepthMaps twoViewEnv twoViewData {} false false).points.length = 2 ∧
    (MergeDepthMaps twoViewEnv twoViewData {} false false).pointViews.length = 2 ∧
    (MergeDepthMaps twoViewEnv twoViewData {} false false).pointWeights.length = 0 := by
  have h := foldl_mergeImage_spec twoViewEnv twoViewData false false
    (List.range twoViewEnv.images.length) { pointcloud := {}, returned := false } rfl
    (fun _ _ _ => Nat.one_ne_zero)
  have hw := (foldl_mergeImage_inv twoViewEnv twoViewData false false
    (List.range twoViewEnv.images.length) { pointcloud := {}, returned := false }).2
  have e : (List.range twoViewEnv.images.length).flatMap (mergedOfImage twoViewEnv twoViewData) =
      [(⟨0, 0, 1⟩, [0]), (⟨0, 0, 1⟩, [1])] := twoView_mergedOfScene
  rw [e] at h
  refine ⟨⟨rfl, rfl⟩, ?_, ?_, ?_⟩
  · unfold MergeDepthMaps
    rw [h.1]
    rfl
  · unfold MergeDepthMaps
    rw [h.2]
    rfl
  · unfold MergeDepthMaps
    rw [hw]
    rfl

/-- C18, amended: `MergeDepthMaps` keeps `points` and `pointViews` equally long, for every
set of depth maps, and never writes `pointWeights`. -/
theorem MergeDepthMaps_lengths (env : FuseEnv) (arrDepthData : Nat → DepthData)
    (pointcloud : PointCloud) (bEstimateColor bEstimateNormal : Bool)
    (h : pointcloud.points.length = pointcloud.pointViews.length) :
    (MergeDepthMaps env arrDepthData pointcloud bEstimateColor bEstimateNormal).points.length =
      (MergeDepthMaps env arrDepthData pointcloud bEstimateColor
        bEstimateNormal).pointViews.length ∧
    (MergeDepthMaps env arrDepthData pointcloud bEstimateColor bEstimateNormal).pointWeights =
      pointcloud.pointWeights := by
  obtain ⟨h1, h2⟩ := foldl_mergeImage_inv env arrDepthData bEstimateColor bEstimateNormal
    (List.range env.images.length) { pointcloud := pointcloud, returned := false }
  unfold MergeDepthMaps
  refine ⟨?_, h2⟩
  dsimp only at h1
  omega

/-- Instance of `MergeDepthMaps_lengths`: the two-view example, from an empty cloud. -/
theorem MergeDepthMaps_lengths_witness :
    ({} : PointCloud).points.length = ({} : PointCloud).pointViews.length ∧
    (MergeDepthMaps twoViewEnv twoViewData {} false false).points.length =
      (MergeDepthMaps twoViewEnv twoViewData {} false false).pointViews.length ∧
    (MergeDepthMaps twoViewEnv twoViewData {} false false).pointWeights = [] :=
  ⟨rfl, MergeDepthMaps_lengths twoViewEnv twoViewData {} false false rfl⟩

/-! ## Depth-maps that are entirely zero -/

/-- A pixel of zero depth is skipped by the fusion. -/
theorem fusePixel_of_zero (env : FuseEnv) (bC bN bM : Bool) (idxImage : Nat) (st : FuseState)
    (x : ImageRef) (h : (st.arrDepthData idxImage).depthMap.pix x = 0) :
    fusePixel env bC bN bM idxImage st x = st := by
  rw [fusePixel_eq, if_pos h]

/-- The connections that `findConnections` collects are valid images of the scene. -/
theorem findConnections_mem (env : FuseEnv) (arrDepthData : Nat → DepthData)
    (connections : List (Nat × Nat)) (bNormalMap : Bool)
    (h : findConnections env arrDepthData = some (connections, bNormalMap)) :
    ∀ c ∈ connections, c.1 < env.images.length ∧ (arrDepthData c.1).IsValid = true := by
  unfold findConnections at h
  have key : ∀ (l : List Nat) (acc : List (Nat × Nat)) (b : Bool) (conns : List (Nat × Nat))
      (b' : Bool),
      l.foldl (fun r i =>
        match r with
        | none => none
        | some (connections, bNormalMap) =>
          if !(arrDepthData i).IsValid then some (connections, bNormalMap)
          else if env.IncRef i = 0 then none
          else some (connections ++ [(i, (env.images.getD i ⟨0, 0, 0⟩).nNeighbors)],
            if (arrDepthData i).normalMap.empty then false else bNormalMap))
        (some (acc, b)) = some (conns, b') →
      ∀ c ∈ conns, c ∈ acc ∨ (c.1 ∈ l ∧ (arrDepthData c.1).IsValid = true) := by
    intro l
    induction l with
    | nil =>
      intro acc b conns b' hf c hc
      simp only [List.foldl_nil, Option.some.injEq, Prod.mk.injEq] at hf
      rw [← hf.1] at hc
      exact Or.inl hc
    | cons i is ih =>
      intro acc b conns b' hf c hc
      rw [List.foldl_cons] at hf
      dsimp only at hf
      by_cases hv : (arrDepthData i).IsValid = true
      · rw [if_neg (by simp [hv])] at hf
        by_cases hl : env.IncRef i = 0
        · rw [if_pos hl] at hf
          have hn : ∀ (l : List Nat), l.foldl (fun r i =>
              match r with
              | none => none
              | some (connections, bNormalMap) =>
                if !(arrDepthData i).IsValid then some (connections, bNormalMap)
                else if env.IncRef i = 0 then none
                else some (connections ++ [(i, (env.images.getD i ⟨0, 0, 0⟩).nNeighbors)],
                  if (arrDepthData i).normalMap.empty then false else bNormalMap))
              (none : Option (List (Nat × Nat) × Bool)) = none := by
            intro l
            induction l with
            | nil => rfl
            | cons _ _ ih' => rw [List.foldl_cons]; exact ih'
          rw [hn] at hf
          exact absurd hf (by simp)
        · rw [if_neg hl] at hf
          rcases ih _ _ _ _ hf c hc with h1 | ⟨h1, h2⟩
          · rcases List.mem_append.1 h1 with h1 | h1
            · exact Or.inl h1
            · rw [List.mem_singleton.1 h1]
              exact Or.inr ⟨List.mem_cons_self _ _, hv⟩
          · exact Or.inr ⟨List.mem_cons_of_mem _ h1, h2⟩
      · rw [if_pos (by simp [hv])] at hf
        rcases ih _ _ _ _ hf c hc with h1 | ⟨h1, h2⟩
        · exact Or.inl h1
        · exact Or.inr ⟨List.mem_cons_of_mem _ h1, h2⟩
  intro c hc
  rcases key _ _ _ _ _ h c hc with h1 | ⟨h1, h2⟩
  · exact absurd h1 (List.not_mem_nil c)
  · exact ⟨List.mem_range.1 h1, h2⟩

/-- The fusion loop over images whose depth-maps are entirely zero leaves the cloud and the
depth data as they are. -/
theorem foldl_fuseImage_of_zero (env : FuseEnv) (bC bN bM : Bool)
    (arrDepthData : Nat → DepthData) (ids : List Nat) (st : FuseState)
    (hst : st.arrDepthData = arrDepthData)
    (hz : ∀ i ∈ ids, ∀ p, (arrDepthData i).depthMap.isInside p = true →
      (arrDepthData i).depthMap.pix p = 0) :
    (ids.foldl (fuseImage env bC bN bM) st).pointcloud = st.pointcloud ∧
    (ids.foldl (fuseImage env bC bN bM) st).arrDepthData = arrDepthData := by
  induction ids generalizing st with
  | nil => exact ⟨rfl, hst⟩
  | cons c cs ih =>
    have key : ∀ (xs : List ImageRef) (s : FuseState), s.arrDepthData = arrDepthData →
        (∀ x ∈ xs, (arrDepthData c).depthMap.isInside x = true) →
        xs.foldl (fusePixel env bC bN bM c) s = s := by
      intro xs
      induction xs with
      | nil => intro s _ _; rfl
      | cons x xs ihx =>
        intro s hs hx
        rw [List.foldl_cons, fusePixel_of_zero env bC bN bM c s x (by
          rw [hs]
          exact hz c (List.mem_cons_self _ _) x (hx x (List.mem_cons_self _ _)))]
        exact ihx s hs (fun y hy => hx y (List.mem_cons_of_mem _ hy))
    have hc : (fuseImage env bC bN bM st c).pointcloud = st.pointcloud ∧
        (fuseImage env bC bN bM st c).arrDepthData = arrDepthData := by
      simp only [fuseImage]
      rw [hst]
      rw [key _ _ rfl (fun x hx => isInside_of_mem_rowMajor _ x hx)]
      exact ⟨rfl, rfl⟩
    obtain ⟨h1, h2⟩ := ih (fuseImage env bC bN bM st c) hc.2
      (fun i hi => hz i (List.mem_cons_of_mem _ hi))
    rw [List.foldl_cons, h1, h2, hc.1]
    exact ⟨rfl, rfl⟩

/-- The image loop of `MergeDepthMaps` over images whose depth-maps are entirely zero leaves
the cloud as it is. -/
theorem foldl_mergeImage_of_zero (env : FuseEnv) (arrDepthData : Nat → DepthData)
    (bC bN : Bool) (ids : List Nat) (st : MergeState)
    (hz : ∀ i ∈ ids, (arrDepthData i).IsValid = true → ∀ p,
      (arrDepthData i).depthMap.isInside p = true → (arrDepthData i).depthMap.pix p = 0) :
    (ids.foldl (mergeImage env arrDepthData bC bN) st).pointcloud = st.pointcloud := by
  induction ids generalizing st with
  | nil => rfl
  | cons c cs ih =>
    have key : ∀ (xs : List ImageRef) (pc : PointCloud),
        (∀ x ∈ xs, (arrDepthData c).depthMap.pix x = 0) →
        xs.foldl (mergePixel env bC bN c (arrDepthData c)) pc = pc := by
      intro xs
      induction xs with
      | nil => intro pc _; rfl
      | cons x xs ihx =>
        intro pc hx
        have e : mergePixel env bC bN c (arrDepthData c) pc x = pc := by
          unfold mergePixel
          dsimp only
          rw [if_pos (hx x (List.mem_cons_self _ _))]
        rw [List.foldl_cons, e]
        exact ihx pc (fun y hy => hx y (List.mem_cons_of_mem _ hy))
    have hc : (mergeImage env arrDepthData bC bN st c).pointcloud = st.pointcloud := by
      unfold mergeImage
      dsimp only
      split_ifs with h1 h2 h3
      · rfl
      · rfl
      · rfl
      · dsimp only
        refine key _ _ (fun x hx => ?_)
        exact hz c (List.mem_cons_self _ _) (by simpa using h2) x
          (isInside_of_mem_rowMajor _ x hx)
    rw [List.foldl_cons, ih _ (fun i hi => hz i (List.mem_cons_of_mem _ hi)), hc]

/-- C16: if every depth-map of every valid image is entirely zero, `MergeDepthMaps` and
`FuseDepthMaps` append no point: both leave the arrays of the cloud as they are, and from an
empty cloud both return an empty cloud (the sort of the connections is only assumed to
return elements of its input). -/
theorem no_points_of_zero_depth (env : FuseEnv) (arrDepthData : Nat → DepthData)
    (pointcloud : PointCloud) (bEstimateColor bEstimateNormal : Bool)
    (hsort : ∀ l, ∀ c ∈ env.sortConnections l, c ∈ l)
    (hz : ∀ i, i < env.images.length → (arrDepthData i).IsValid = true →
      ∀ p, (arrDepthData i).depthMap.isInside p = true → (arrDepthData i).depthMap.pix p = 0) :
    MergeDepthMaps env arrDepthData pointcloud bEstimateColor bEstimateNormal = pointcloud ∧
    ((FuseDepthMaps env arrDepthData pointcloud bEstimateColor bEstimateNormal).1.points =
        pointcloud.points ∧
      (FuseDepthMaps env arrDepthData pointcloud bEstimateColor bEstimateNormal).1.pointViews =
        pointcloud.pointViews ∧
      (FuseDepthMaps env arrDepthData pointcloud bEstimateColor
        bEstimateNormal).1.pointWeights = pointcloud.pointWeights) ∧
    (pointcloud.points = [] →
      (FuseDepthMaps env arrDepthData pointcloud bEstimateColor bEstimateNormal).1 =
        pointcloud) := by
  have hfuse : ∀ connections bNormalMap,
      findConnections env arrDepthData = some (connections, bNormalMap) →
      (fuseLoop env arrDepthData pointcloud bEstimateColor bEstimateNormal bNormalMap
        connections).pointcloud = pointcloud := by
    intro connections bNormalMap hf
    unfold fuseLoop
    refine (foldl_fuseImage_of_zero env _ _ _ arrDepthData _ _ rfl ?_).1
    intro i hi p hp
    obtain ⟨c, hc, rfl⟩ := List.mem_map.1 hi
    obtain ⟨h1, h2⟩ := findConnections_mem env arrDepthData connections bNormalMap hf c
      (hsort _ c hc)
    exact hz c.1 h1 h2 p hp
  refine ⟨?_, ?_, ?_⟩
  · unfold MergeDepthMaps
    exact foldl_mergeImage_of_zero env arrDepthData _ _ _ _
      (fun i hi => hz i (List.mem_range.1 hi))
  · simp only [FuseDepthMaps]
    split
    · exact ⟨rfl, rfl, rfl⟩
    · rename_i connections bNormalMap hf
      obtain ⟨e1, e2, e3⟩ := estimateNormals_arrays env (bEstimateNormal && bNormalMap)
        (fuseLoop env arrDepthData pointcloud bEstimateColor bEstimateNormal bNormalMap
          connections)
      rw [e1, e2, e3, hfuse connections bNormalMap hf]
      exact ⟨rfl, rfl, rfl⟩
  · intro hp
    simp only [FuseDepthMaps]
    split
    · rfl
    · rename_i connections bNormalMap hf
      simp only [estimateNormals]
      rw [hfuse connections bNormalMap hf, if_neg (by simp [hp])]

/-- Instance of `no_points_of_zero_depth`: the two-view scene with depth 0 at its pixels,
from an empty cloud. -/
theorem no_points_of_zero_depth_witness :
    MergeDepthMaps twoViewEnv (fun _ => onePixel 0 0) {} false false = {} ∧
    (FuseDepthMaps twoViewEnv (fun _ => onePixel 0 0) {} false false).1 = {} :=
  ⟨(no_points_of_zero_depth twoViewEnv (fun _ => onePixel 0 0) {} false false
      (fun _ _ hc => hc) (fun _ _ _ _ _ => rfl)).1,
    (no_points_of_zero_depth twoViewEnv (fun _ => onePixel 0 0) {} false false
      (fun _ _ hc => hc) (fun _ _ _ _ _ => rfl)).2.2 rfl⟩

/-! ## `FuseDepthMaps`: the final normal estimation -/

/-- A pixel step with `bEstimateNormal == false` leaves the array of normals alone. -/
theorem fusePixel_normals (env : FuseEnv) (bC bM : Bool) (idxImage : Nat) (st : FuseState)
    (x : ImageRef) :
    (fusePixel env bC false bM idxImage st x).pointcloud.normals = st.pointcloud.normals := by
  rw [fusePixel_eq]
  by_cases h1 : (st.arrDepthData idxImage).depthMap.pix x = 0
  · rw [if_pos h1]
  rw [if_neg h1]
  by_cases h2 : (st.arrDepthIdx idxImage).pix x ≠ NO_ID
  · rw [if_pos h2]
  rw [if_neg h2]
  by_cases h3 : (fuseAcc env bC false bM idxImage st x).views.length <
      min env.nMinViewsFuse env.images.length
  · rw [if_pos h3]
  rw [if_neg h3]
  rfl

/-- When a valid image of the scene has no normal map, `findConnections` reports that not
all normal maps are available. -/
theorem findConnections_no_normals (env : FuseEnv) (arrDepthData : Nat → DepthData)
    (connections : List (Nat × Nat)) (bNormalMap : Bool)
    (h : findConnections env arrDepthData = some (connections, bNormalMap))
    (i : Nat) (hi : i < env.images.length) (hv : (arrDepthData i).IsValid = true)
    (hn : (arrDepthData i).normalMap.empty = true) : bNormalMap = false := by
  unfold findConnections at h
  have key : ∀ (l : List Nat) (acc : List (Nat × Nat)) (b : Bool) (conns : List (Nat × Nat))
      (b' : Bool),
      l.foldl (fun r i =>
        match r with
        | none => none
        | some (connections, bNormalMap) =>
          if !(arrDepthData i).IsValid then some (connections, bNormalMap)
          else if env.IncRef i = 0 then none
          else some (connections ++ [(i, (env.images.getD i ⟨0, 0, 0⟩).nNeighbors)],
            if (arrDepthData i).normalMap.empty then false else bNormalMap))
        (some (acc, b)) = some (conns, b') →
      (b = false ∨ i ∈ l) → b' = false := by
    intro l
    induction l with
    | nil =>
      intro acc b conns b' hf hb
      simp only [List.foldl_nil, Option.some.injEq, Prod.mk.injEq] at hf
      rcases hb with hb | hb
      · rw [← hf.2]; exact hb
      · exact absurd hb (List.not_mem_nil i)
    | cons j js ih =>
      intro acc b conns b' hf hb
      rw [List.foldl_cons] at hf
      dsimp only at hf
      by_cases hvj : (arrDepthData j).IsValid = true
      · rw [if_neg (by simp [hvj])] at hf
        by_cases hl : env.IncRef j = 0
        · rw [if_pos hl] at hf
          have hnone : ∀ (l : List Nat), l.foldl (fun r i =>
              match r with
              | none => none
              | some (connections, bNormalMap) =>
                if !(arrDepthData i).IsValid then some (connections, bNormalMap)
                else if env.IncRef i = 0 then none
                else some (connections ++ [(i, (env.images.getD i ⟨0, 0, 0⟩).nNeighbors)],
                  if (arrDepthData i).normalMap.empty then false else bNormalMap))
              (none : Option (List (Nat × Nat) × Bool)) = none := by
            intro l
            induction l with
            | nil => rfl
            | cons _ _ ih' => rw [List.foldl_cons]; exact ih'
          rw [hnone] at hf
          exact absurd hf (by simp)
        · rw [if_neg hl] at hf
          refine ih _ _ _ _ hf ?_
          rcases hb with hb | hb
          · left
            rw [hb]
            split_ifs <;> rfl
          · rcases List.mem_cons.1 hb with e | hb'
            · left
              rw [← e, if_pos hn]
            · exact Or.inr hb'
      · rw [if_pos (by simp [hvj])] at hf
        refine ih _ _ _ _ hf ?_
        rcases hb with hb | hb
        · exact Or.inl hb
        · rcases List.mem_cons.1 hb with e | hb'
          · rw [e] at hv
            exact absurd hv hvj
          · exact Or.inr hb'
  exact key _ _ _ _ _ h (Or.inr (List.mem_range.2 hi))

/-- When a valid image of the scene has no normal map, `FuseDepthMaps` never writes the
array of normals, whether or not normals are requested. -/
theorem FuseDepthMaps_normals_untouched (env : FuseEnv) (arrDepthData : Nat → DepthData)
    (pointcloud : PointCloud) (bC bN : Bool)
    (i : Nat) (hi : i < env.images.length) (hv : (arrDepthData i).IsValid = true)
    (hn : (arrDepthData i).normalMap.empty = true) :
    (FuseDepthMaps env arrDepthData pointcloud bC bN).1.normals = pointcloud.normals := by
  simp only [FuseDepthMaps]
  split
  · rfl
  · rename_i connections bNormalMap hf
    have hb := findConnections_no_normals env arrDepthData connections bNormalMap hf i hi hv hn
    subst hb
    simp only [estimateNormals, Bool.and_false, Bool.false_eq_true, false_and, if_false]
    unfold fuseLoop
    simp only [Bool.and_false]
    exact foldl_fuseImage_inv env bC false false
      (fun s => s.pointcloud.normals = pointcloud.normals) (fun _ _ hp => hp)
      (fun idxImage s x hp => (fusePixel_normals env bC false idxImage s x).trans hp) _ _ rfl

/-- The cloud that `FuseDepthMaps` returns from an empty cloud has as many points as view
lists. -/
theorem FuseDepthMaps_points_views (env : FuseEnv) (arrDepthData : Nat → DepthData)
    (bC bN : Bool) :
    (FuseDepthMaps env arrDepthData {} bC bN).1.points.length =
      (FuseDepthMaps env arrDepthData {} bC bN).1.pointViews.length := by
  simp only [FuseDepthMaps]
  split
  · rfl
  · rename_i connections bNormalMap _
    obtain ⟨e1, e2, _⟩ := estimateNormals_arrays env (bN && bNormalMap)
      (fuseLoop env arrDepthData {} bC bN bNormalMap connections)
    rw [e1, e2]
    simp only [fuseLoop]
    exact (foldl_fuseImage_lengths env _ _ _ _ _ ⟨rfl, rfl⟩).1

theorem twoViewNoNormals_findConnections :
    findConnections twoViewEnv twoViewNoNormals = some ([(0, 1), (1, 1)], false) := by
  simp [findConnections, twoViewEnv, twoViewNoNormals, onePixel, DepthData.IsValid,
    TImage.empty, List.range_succ]

/-- C19 fails on the code: in the two-view example without normal maps, called with normals
requested, the fusion keeps a point (views `[0, 1]`) and the output carries no normal. -/
theorem FuseDepthMaps_no_normals :
    (twoViewNoNormals 0).IsValid = true ∧ (twoViewNoNormals 0).normalMap.empty = true ∧
    [0, 1] ∈ (FuseDepthMaps twoViewEnv twoViewNoNormals {} false true).1.pointViews ∧
    (FuseDepthMaps twoViewEnv twoViewNoNormals {} false true).1.points ≠ [] ∧
    (FuseDepthMaps twoViewEnv twoViewNoNormals {} false true).1.normals = [] := by
  have hmem : [0, 1] ∈ (FuseDepthMaps twoViewEnv twoViewNoNormals {} false true).1.pointViews := by
    simp only [FuseDepthMaps, twoViewNoNormals_findConnections]
    rw [(estimateNormals_arrays twoViewEnv _ _).2.1]
    exact (twoView_fuseLoop_first false true false twoViewNoNormals (fun _ => ⟨rfl, rfl⟩)
      (fun h => Bool.noConfusion h)).1.subset (List.mem_singleton.2 rfl)
  refine ⟨rfl, rfl, hmem, ?_, ?_⟩
  · intro hp
    have hl := FuseDepthMaps_points_views twoViewEnv twoViewNoNormals false true
    rw [hp] at hl
    have := List.length_pos_of_mem hmem
    rw [← hl] at this
    exact absurd this (by simp)
  · exact FuseDepthMaps_normals_untouched twoViewEnv twoViewNoNormals {} false true 0
      (by decide) rfl rfl

/-! ## `FilterDepthMap`: the first agreement test of the strict mode -/

/-- The counters of the loop over the projected maps count the valid and the good
neighbours. -/
theorem countViews_eq (sim : Depth → Depth → ℚ → Bool) (th : ℚ)
    (depthMaps : List (TImage Depth)) (depth : Depth) (x : ImageRef) (c : Nat × Nat) :
    countViews sim th depthMaps depth x c =
      (c.1 + goodNeighbors sim th depthMaps depth x, c.2 + validNeighbors depthMaps x) := by
  have key : ∀ (l : List (TImage Depth)) (c : Nat × Nat),
      l.foldl (fun (c : Nat × Nat) dm =>
        if dm.pix x > 0 then
          ((if sim depth (dm.pix x) th = true then c.1 + 1 else c.1), c.2 + 1)
        else c) c =
      (c.1 + (l.filter (fun dm => decide (0 < dm.pix x) && sim depth (dm.pix x) th)).length,
        c.2 + (l.filter (fun dm => decide (0 < dm.pix x))).length) := by
    intro l
    induction l with
    | nil => intro c; rfl
    | cons dm dms ih =>
      intro c
      rw [List.foldl_cons, ih]
      by_cases h1 : 0 < dm.pix x
      · by_cases h2 : sim depth (dm.pix x) th = true
        · simp [h1, h2, List.filter_cons]
          omega
        · simp [h1, h2, List.filter_cons]
          omega
      · simp [h1, List.filter_cons]
  unfold countViews goodNeighbors validNeighbors
  rw [key, List.filter_reverse, List.filter_reverse, List.length_reverse, List.length_reverse]

/-- C20, amended: in strict mode the first agreement test lets a reference pixel pass exactly
when `good ≥ min(nMinViewsFilter, nCalibratedImages - 1)` and
`good ≥ ⌊validNeighbors · 75 / 100⌋` (unsigned integer arithmetic), where `validNeighbors`
counts the projected neighbour maps with a positive depth at the pixel and `good` those of
them whose depth is similar within `fDepthDiffThreshold · 0.8`; a pixel of non-zero depth
that does not pass is written as depth 0 and confidence 0. -/
theorem strictFirstTest_iff (sim : Depth → Depth → ℚ → Bool) (fDepthDiffThreshold : ℚ)
    (nMinViewsFilter nCalibratedImages : Nat) (depthMaps : List (TImage Depth))
    (depthDataRef : DepthData) (xRef : ImageRef) :
    (strictFirstTest sim fDepthDiffThreshold (filterMinViews nMinViewsFilter nCalibratedImages)
        depthMaps (depthDataRef.depthMap.pix xRef) xRef = true ↔
      min nMinViewsFilter (nCalibratedImages - 1) ≤
          goodNeighbors sim (fDepthDiffThreshold * (8/10)) depthMaps
            (depthDataRef.depthMap.pix xRef) xRef ∧
        validNeighbors depthMaps xRef * 75 / 100 ≤
          goodNeighbors sim (fDepthDiffThreshold * (8/10)) depthMaps
            (depthDataRef.depthMap.pix xRef) xRef) ∧
    (depthDataRef.depthMap.pix xRef ≠ 0 →
      strictFirstTest sim fDepthDiffThreshold (filterMinViews nMinViewsFilter nCalibratedImages)
        depthMaps (depthDataRef.depthMap.pix xRef) xRef = false →
      filterPixelStrict sim fDepthDiffThreshold
        (filterMinViews nMinViewsFilter nCalibratedImages) depthMaps depthDataRef xRef =
          (0, 0)) := by
  refine ⟨?_, ?_⟩
  · unfold strictFirstTest filterMinViews
    dsimp only
    rw [countViews_eq]
    simp only [Nat.zero_add, Bool.not_eq_true', Bool.or_eq_false_iff, decide_eq_false_iff_not,
      not_lt]
  · intro h1 h2
    unfold filterPixelStrict
    dsimp only
    rw [if_neg h1, h2]
    rfl

/-- The counts of the example `threeMaps` at depth 1 with `fDepthDiffThreshold = 1/100`:
three valid neighbours, two of them good. -/
theorem threeMaps_counts :
    validNeighbors threeMaps ⟨0, 0⟩ = 3 ∧
    goodNeighbors IsDepthSimilar (1/100 * (8/10)) threeMaps 1 ⟨0, 0⟩ = 2 := by
  have h1 : IsDepthSimilar 1 1 (1/100 * (8/10)) = true := by
    simp only [IsDepthSimilar, decide_eq_true_eq]
    norm_num
  have h2 : IsDepthSimilar 1 2 (1/100 * (8/10)) = false := by
    simp only [IsDepthSimilar, decide_eq_false_iff_not, not_le]
    norm_num [abs_lt]
  refine ⟨?_, ?_⟩
  · simp [validNeighbors, threeMaps]
  · simp only [goodNeighbors, threeMaps, List.filter_cons, h1, h2]
    norm_num

/-- C20 fails as stated: (a) with three valid neighbours of which two are good, and
`nMinViewsFilter = 2`, the pixel passes the first test although `good/validNeighbors = 2/3`
is below 75%; (b) with two calibrated images and one good neighbour the pixel passes
although `good = 1` is below `nMinViewsFilter = 2`. -/
theorem strictFirstTest_not_spec :
    (strictFirstTest IsDepthSimilar (1/100) (filterMinViews 2 4) threeMaps
        ((onePixel 1 (1/2)).depthMap.pix ⟨0, 0⟩) ⟨0, 0⟩ = true ∧
      ¬ specFirstTest 2 (goodNeighbors IsDepthSimilar (1/100 * (8/10)) threeMaps 1 ⟨0, 0⟩)
        (validNeighbors threeMaps ⟨0, 0⟩)) ∧
    (strictFirstTest IsDepthSimilar (1/100) (filterMinViews 2 2) [⟨1, 1, fun _ => 1⟩]
        ((onePixel 1 (1/2)).depthMap.pix ⟨0, 0⟩) ⟨0, 0⟩ = true ∧
      ¬ specFirstTest 2
        (goodNeighbors IsDepthSimilar (1/100 * (8/10)) [⟨1, 1, fun _ => 1⟩] 1 ⟨0, 0⟩)
        (validNeighbors [⟨1, 1, fun _ => 1⟩] ⟨0, 0⟩)) := by
  have h1 : IsDepthSimilar 1 1 (1/100 * (8/10)) = true := by
    simp only [IsDepthSimilar, decide_eq_true_eq]
    norm_num
  have e1 : validNeighbors [(⟨1, 1, fun _ => 1⟩ : TImage Depth)] ⟨0, 0⟩ = 1 := by
    simp [validNeighbors]
  have e2 : goodNeighbors IsDepthSimilar (1/100 * (8/10)) [⟨1, 1, fun _ => 1⟩] 1 ⟨0, 0⟩ = 1 := by
    simp only [goodNeighbors, List.filter_cons, h1]
    norm_num
  have ed : (onePixel 1 (1/2)).depthMap.pix ⟨0, 0⟩ = 1 := rfl
  refine ⟨⟨?_, ?_⟩, ?_, ?_⟩
  · unfold strictFirstTest
    dsimp only
    rw [countViews_eq, ed, threeMaps_counts.1, threeMaps_counts.2]
    decide
  · rw [threeMaps_counts.1, threeMaps_counts.2]
    unfold specFirstTest
    norm_num
  · unfold strictFirstTest
    dsimp only
    rw [countViews_eq, ed, e1, e2]
    decide
  · rw [e1, e2]
    unfold specFirstTest
    norm_num

/-- Instance of `strictFirstTest_iff`: with three valid neighbours of which two are good and
`nMinViewsFilter = 3`, the pixel of depth 1 fails the first test and is zeroed. -/
theorem strictFirstTest_iff_witness :
    (onePixel 1 (1/2)).depthMap.pix ⟨0, 0⟩ ≠ 0 ∧
    strictFirstTest IsDepthSimilar (1/100) (filterMinViews 3 4) threeMaps
      ((onePixel 1 (1/2)).depthMap.pix ⟨0, 0⟩) ⟨0, 0⟩ = false ∧
    filterPixelStrict IsDepthSimilar (1/100) (filterMinViews 3 4) threeMaps
      (onePixel 1 (1/2)) ⟨0, 0⟩ = (0, 0) := by
  have ed : (onePixel 1 (1/2)).depthMap.pix ⟨0, 0⟩ = 1 := rfl
  have hd : (onePixel 1 (1/2)).depthMap.pix ⟨0, 0⟩ ≠ 0 := by
    rw [ed]; exact one_ne_zero
  have hf : strictFirstTest IsDepthSimilar (1/100) (filterMinViews 3 4) threeMaps
      ((onePixel 1 (1/2)).depthMap.pix ⟨0, 0⟩) ⟨0, 0⟩ = false := by
    unfold strictFirstTest
    dsimp only
    rw [countViews_eq, ed, threeMaps_counts.1, threeMaps_counts.2]
    decide
  exact ⟨hd, hf, (strictFirstTest_iff IsDepthSimilar (1/100) 3 4 threeMaps (onePixel 1 (1/2))
    ⟨0, 0⟩).2 hd hf⟩

/-! ## `FuseDepthMaps`: discarded candidates -/

/-- A pixel step that discards its candidate changes only the claim grids (through
`releaseClaims`) and the counter of depths. -/
theorem fusePixel_of_discarded (env : FuseEnv) (bC bN bM : Bool) (idxImage : Nat)
    (st : FuseState) (x : ImageRef) (h1 : (st.arrDepthData idxImage).depthMap.pix x ≠ 0)
    (h2 : (st.arrDepthIdx idxImage).pix x = NO_ID)
    (h3 : (fuseAcc env bC bN bM idxImage st x).views.length <
      min env.nMinViewsFuse env.images.length) :
    fusePixel env bC bN bM idxImage st x =
      { st with
        nDepths := st.nDepths + 1
        arrDepthIdx := releaseClaims (fuseAcc env bC bN bM idxImage st x).arrDepthIdx
          (fuseAcc env bC bN bM idxImage st x).views
          (fuseAcc env bC bN bM idxImage st x).pointProjs } := by
  rw [fusePixel_eq, if_neg h1, if_neg (not_not.2 h2), if_pos h3]

/-- Pixel coordinates that fit in 16 bits survive the packing into a `Proj`. -/
theorem Proj.getCoord_ofImageRef (p : ImageRef) (hx : 0 ≤ p.x ∧ p.x < 65536)
    (hy : 0 ≤ p.y ∧ p.y < 65536) : (Proj.ofImageRef p).GetCoord = p := by
  cases p with
  | mk x y =>
    simp only at hx hy
    simp only [Proj.ofImageRef, Proj.GetCoord, Int.emod_eq_of_lt hx.1 hx.2,
      Int.emod_eq_of_lt hy.1 hy.2, Int.toNat_of_nonneg hx.1, Int.toNat_of_nonneg hy.1]

/-- A pixel inside a map at most 65536 wide and high survives the packing into a `Proj`. -/
theorem Proj.getCoord_of_inside {α : Type} (img : TImage α) (p : ImageRef)
    (hd : img.cols ≤ 65536 ∧ img.rows ≤ 65536) (h : img.isInside p = true) :
    (Proj.ofImageRef p).GetCoord = p := by
  simp only [TImage.isInside, Bool.and_eq_true, decide_eq_true_eq] at h
  obtain ⟨⟨⟨h1, h2⟩, h3⟩, h4⟩ := h
  exact Proj.getCoord_ofImageRef p ⟨h1, by omega⟩ ⟨h2, by omega⟩

theorem mem_zip_insertAt {α β : Type} (l1 : List α) (l2 : List β) (i : Nat) (a : α) (b : β)
    (hl : l1.length = l2.length) (c : α × β) :
    c ∈ List.zip (insertAt l1 i a) (insertAt l2 i b) ↔ c = (a, b) ∨ c ∈ List.zip l1 l2 := by
  have ht : (l1.take i).length = (l2.take i).length := by
    simp only [List.length_take, hl]
  have e : List.zip l1 l2 = List.zip (l1.take i) (l2.take i) ++
      List.zip (l1.drop i) (l2.drop i) := by
    rw [← List.zip_append ht, List.take_append_drop, List.take_append_drop]
  unfold insertAt
  rw [List.zip_append ht, e, List.zip_cons_cons]
  simp only [List.mem_append, List.mem_cons]
  tauto

theorem insertAt_length {α : Type} (l : List α) (i : Nat) (a : α) :
    (insertAt l i a).length = l.length + 1 := by
  unfold insertAt
  rw [List.length_append, List.length_cons, List.length_take, List.length_drop]
  omega

/-- What `releaseClaims` leaves in the claim grids: the sentinel at the released pixels, the
old value elsewhere; the sizes of the grids do not change. -/
theorem releaseClaims_spec (L : List (Nat × Proj)) (idxs : Nat → TImage Nat) (B : Nat) :
    (L.foldl (fun idxs vp => Function.update idxs vp.1 ((idxs vp.1).set vp.2.GetCoord NO_ID))
        idxs B).cols = (idxs B).cols ∧
    (L.foldl (fun idxs vp => Function.update idxs vp.1 ((idxs vp.1).set vp.2.GetCoord NO_ID))
        idxs B).rows = (idxs B).rows ∧
    ∀ p, (L.foldl (fun idxs vp =>
        Function.update idxs vp.1 ((idxs vp.1).set vp.2.GetCoord NO_ID)) idxs B).pix p =
      if (∃ vp ∈ L, vp.1 = B ∧ vp.2.GetCoord = p) then NO_ID else (idxs B).pix p := by
  induction L generalizing idxs with
  | nil => exact ⟨rfl, rfl, fun p => by simp⟩
  | cons c cs ih =>
    rw [List.foldl_cons]
    obtain ⟨h1, h2, h3⟩ := ih (Function.update idxs c.1 ((idxs c.1).set c.2.GetCoord NO_ID))
    have hc : (Function.update idxs c.1 ((idxs c.1).set c.2.GetCoord NO_ID) B).cols =
        (idxs B).cols ∧
        (Function.update idxs c.1 ((idxs c.1).set c.2.GetCoord NO_ID) B).rows =
        (idxs B).rows := by
      by_cases hB : B = c.1
      · subst hB; rw [Function.update_same]; exact ⟨rfl, rfl⟩
      · rw [Function.update_noteq hB]; exact ⟨rfl, rfl⟩
    refine ⟨h1.trans hc.1, h2.trans hc.2, fun p => ?_⟩
    rw [h3 p]
    by_cases hcs : ∃ vp ∈ cs, vp.1 = B ∧ vp.2.GetCoord = p
    · rw [if_pos hcs, if_pos]
      obtain ⟨vp, hvp, hh⟩ := hcs
      exact ⟨vp, List.mem_cons_of_mem _ hvp, hh⟩
    · rw [if_neg hcs]
      by_cases hB : c.1 = B ∧ c.2.GetCoord = p
      · rw [if_pos ⟨c, List.mem_cons_self _ _, hB⟩, ← hB.1, Function.update_same, ← hB.2,
          TImage.set_pix_same]
      · rw [if_neg]
        · by_cases hB1 : B = c.1
          · have hp : p ≠ c.2.GetCoord := fun e => hB ⟨hB1.symm, e.symm⟩
            rw [hB1, Function.update_same, TImage.set_pix_of_ne _ _ hp]
          · rw [Function.update_noteq hB1]
        · rintro ⟨vp, hvp, hh⟩
          rcases List.mem_cons.1 hvp with e | hvp'
          · rw [e] at hh; exact hB hh
          · exact hcs ⟨vp, hvp', hh⟩

/-- While one point gathers its observers (depth-maps at most 65536 wide and high): the
views and the packed pixels stay aligned, the claim grids keep their sizes, every recorded
pixel was free in the grids `G0` before the point was started, and the grids differ from
`G0` only at recorded pixels. -/
theorem fuseNeighbor_claims (env : FuseEnv) (bC bN bM : Bool) (arrDepthData : Nat → DepthData)
    (point : Point3) (normal : Normal) (idxPoint : Nat) (G0 : Nat → TImage Nat)
    (hdims : ∀ B, (arrDepthData B).depthMap.cols ≤ 65536 ∧
      (arrDepthData B).depthMap.rows ≤ 65536)
    (acc : PointAcc) (B : Nat)
    (h : acc.views.length = acc.pointProjs.length ∧
      (∀ V, (acc.arrDepthIdx V).cols = (G0 V).cols ∧ (acc.arrDepthIdx V).rows = (G0 V).rows) ∧
      (∀ vp ∈ List.zip acc.views acc.pointProjs, (G0 vp.1).pix vp.2.GetCoord = NO_ID) ∧
      (∀ V p, (acc.arrDepthIdx V).pix p = (G0 V).pix p ∨
        ∃ vp ∈ List.zip acc.views acc.pointProjs, vp.1 = V ∧ vp.2.GetCoord = p)) :
    (fuseNeighbor env bC bN bM arrDepthData point normal idxPoint acc B).views.length =
      (fuseNeighbor env bC bN bM arrDepthData point normal idxPoint acc B).pointProjs.length ∧
    (∀ V, ((fuseNeighbor env bC bN bM arrDepthData point normal idxPoint acc B).arrDepthIdx
          V).cols = (G0 V).cols ∧
        ((fuseNeighbor env bC bN bM arrDepthData point normal idxPoint acc B).arrDepthIdx
          V).rows = (G0 V).rows) ∧
    (∀ vp ∈ List.zip
        (fuseNeighbor env bC bN bM arrDepthData point normal idxPoint acc B).views
        (fuseNeighbor env bC bN bM arrDepthData point normal idxPoint acc B).pointProjs,
      (G0 vp.1).pix vp.2.GetCoord = NO_ID) ∧
    (∀ V p,
      ((fuseNeighbor env bC bN bM arrDepthData point normal idxPoint acc B).arrDepthIdx V).pix
          p = (G0 V).pix p ∨
        ∃ vp ∈ List.zip
          (fuseNeighbor env bC bN bM arrDepthData point normal idxPoint acc B).views
          (fuseNeighbor env bC bN bM arrDepthData point normal idxPoint acc B).pointProjs,
          vp.1 = V ∧ vp.2.GetCoord = p) := by
  obtain ⟨hlen, hsz, hfree, hdiff⟩ := h
  rcases fuseNeighbor_cases env bC bN bM arrDepthData point normal idxPoint acc B with
    e | ⟨_, hin, _, hgrid, X, C, N, conf, e⟩ | ⟨_, _, e⟩
  · rw [e]; exact ⟨hlen, hsz, hfree, hdiff⟩
  · rw [e]
    dsimp only
    have hcoord : (Proj.ofImageRef (projPixel env B point)).GetCoord = projPixel env B point :=
      Proj.getCoord_of_inside _ _ (hdims B) hin
    have hG0 : (G0 B).pix (projPixel env B point) = NO_ID := by
      rcases hdiff B (projPixel env B point) with h1 | ⟨vp, hvp, h1, h2⟩
      · rw [← h1]; exact hgrid
      · have := hfree vp hvp
        rw [h1, h2] at this
        exact this
    refine ⟨?_, ?_, ?_, ?_⟩
    · rw [insertAt_length, insertAt_length, hlen]
    · intro V
      by_cases hV : V = B
      · subst hV
        rw [Function.update_same]
        exact hsz V
      · rw [Function.update_noteq hV]
        exact hsz V
    · intro vp hvp
      rcases (mem_zip_insertAt _ _ _ _ _ hlen vp).1 hvp with e' | hvp'
      · rw [e']
        dsimp only
        rw [hcoord]
        exact hG0
      · exact hfree vp hvp'
    · intro V p
      by_cases hVp : V = B ∧ p = projPixel env B point
      · right
        refine ⟨(B, Proj.ofImageRef (projPixel env B point)),
          (mem_zip_insertAt _ _ _ _ _ hlen _).2 (Or.inl rfl), hVp.1.symm, ?_⟩
        rw [hcoord, hVp.2]
      · have hsame : (Function.update acc.arrDepthIdx B
            ((acc.arrDepthIdx B).set (projPixel env B point) idxPoint) V).pix p =
            (acc.arrDepthIdx V).pix p := by
          by_cases hV : V = B
          · have hp : p ≠ projPixel env B point := fun e' => hVp ⟨hV, e'⟩
            rw [hV, Function.update_same, TImage.set_pix_of_ne _ _ hp]
          · rw [Function.update_noteq hV]
        rw [hsame]
        rcases hdiff V p with h1 | ⟨vp, hvp, h1⟩
        · exact Or.inl h1
        · exact Or.inr ⟨vp, (mem_zip_insertAt _ _ _ _ _ hlen _).2 (Or.inr hvp), h1⟩
  · rw [e]; exact ⟨hlen, hsz, hfree, hdiff⟩

/-- When the candidate point of a pixel is discarded, the pixel step leaves the cloud, the
depth data, the packed pixels and (for depth-maps at most 65536 wide and high) the claim
grids exactly as they were. -/
theorem fusePixel_discard_restores (env : FuseEnv) (bC bN bM : Bool) (idxImage : Nat)
    (st : FuseState) (x : ImageRef)
    (hdims : ∀ B, (st.arrDepthData B).depthMap.cols ≤ 65536 ∧
      (st.arrDepthData B).depthMap.rows ≤ 65536)
    (hx : (st.arrDepthData idxImage).depthMap.isInside x = true)
    (h1 : (st.arrDepthData idxImage).depthMap.pix x ≠ 0)
    (h2 : (st.arrDepthIdx idxImage).pix x = NO_ID)
    (h3 : (fuseAcc env bC bN bM idxImage st x).views.length <
      min env.nMinViewsFuse env.images.length) :
    (fusePixel env bC bN bM idxImage st x).pointcloud = st.pointcloud ∧
    (fusePixel env bC bN bM idxImage st x).arrDepthIdx = st.arrDepthIdx ∧
    (fusePixel env bC bN bM idxImage st x).arrDepthData = st.arrDepthData ∧
    (fusePixel env bC bN bM idxImage st x).projs = st.projs := by
  rw [fusePixel_of_discarded env bC bN bM idxImage st x h1 h2 h3]
  refine ⟨rfl, ?_, rfl, rfl⟩
  dsimp only
  have hcoord : (Proj.ofImageRef x).GetCoord = x :=
    Proj.getCoord_of_inside _ _ (hdims idxImage) hx
  have hinv : (fuseAcc env bC bN bM idxImage st x).views.length =
        (fuseAcc env bC bN bM idxImage st x).pointProjs.length ∧
      (∀ V, ((fuseAcc env bC bN bM idxImage st x).arrDepthIdx V).cols =
          (st.arrDepthIdx V).cols ∧
        ((fuseAcc env bC bN bM idxImage st x).arrDepthIdx V).rows = (st.arrDepthIdx V).rows) ∧
      (∀ vp ∈ List.zip (fuseAcc env bC bN bM idxImage st x).views
          (fuseAcc env bC bN bM idxImage st x).pointProjs,
        (st.arrDepthIdx vp.1).pix vp.2.GetCoord = NO_ID) ∧
      (∀ V p, ((fuseAcc env bC bN bM idxImage st x).arrDepthIdx V).pix p =
          (st.arrDepthIdx V).pix p ∨
        ∃ vp ∈ List.zip (fuseAcc env bC bN bM idxImage st x).views
          (fuseAcc env bC bN bM idxImage st x).pointProjs,
          vp.1 = V ∧ vp.2.GetCoord = p) := by
    unfold fuseAcc
    dsimp only
    generalize (st.arrDepthData idxImage).neighbors = neighbors
    have key : ∀ (neighbors : List Nat) (acc : PointAcc),
        (acc.views.length = acc.pointProjs.length ∧
          (∀ V, (acc.arrDepthIdx V).cols = (st.arrDepthIdx V).cols ∧
            (acc.arrDepthIdx V).rows = (st.arrDepthIdx V).rows) ∧
          (∀ vp ∈ List.zip acc.views acc.pointProjs,
            (st.arrDepthIdx vp.1).pix vp.2.GetCoord = NO_ID) ∧
          (∀ V p, (acc.arrDepthIdx V).pix p = (st.arrDepthIdx V).pix p ∨
            ∃ vp ∈ List.zip acc.views acc.pointProjs, vp.1 = V ∧ vp.2.GetCoord = p)) →
        ∀ (point : Point3) (normal : Normal) (idxPoint : Nat),
        ((neighbors.foldl (fuseNeighbor env bC bN bM st.arrDepthData point normal idxPoint)
            acc).views.length =
          (neighbors.foldl (fuseNeighbor env bC bN bM st.arrDepthData point normal idxPoint)
            acc).pointProjs.length ∧
          (∀ V, ((neighbors.foldl (fuseNeighbor env bC bN bM st.arrDepthData point normal
              idxPoint) acc).arrDepthIdx V).cols = (st.arrDepthIdx V).cols ∧
            ((neighbors.foldl (fuseNeighbor env bC bN bM st.arrDepthData point normal
              idxPoint) acc).arrDepthIdx V).rows = (st.arrDepthIdx V).rows) ∧
          (∀ vp ∈ List.zip
              (neighbors.foldl (fuseNeighbor env bC bN bM st.arrDepthData point normal
                idxPoint) acc).views
              (neighbors.foldl (fuseNeighbor env bC bN bM st.arrDepthData point normal
                idxPoint) acc).pointProjs,
            (st.arrDepthIdx vp.1).pix vp.2.GetCoord = NO_ID) ∧
          (∀ V p, ((neighbors.foldl (fuseNeighbor env bC bN bM st.arrDepthData point normal
              idxPoint) acc).arrDepthIdx V).pix p = (st.arrDepthIdx V).pix p ∨
            ∃ vp ∈ List.zip
              (neighbors.foldl (fuseNeighbor env bC bN bM st.arrDepthData point normal
                idxPoint) acc).views
              (neighbors.foldl (fuseNeighbor env bC bN bM st.arrDepthData point normal
                idxPoint) acc).pointProjs,
              vp.1 = V ∧ vp.2.GetCoord = p)) := by
      intro neighbors
      induction neighbors with
      | nil => intro acc h _ _ _; exact h
      | cons c cs ih =>
        intro acc h point normal idxPoint
        rw [List.foldl_cons]
        exact ih _ (fuseNeighbor_claims env bC bN bM st.arrDepthData point normal idxPoint
          st.arrDepthIdx hdims acc c h) point normal idxPoint
    refine key neighbors _ ⟨rfl, ?_, ?_, ?_⟩ _ _ _
    · intro V
      dsimp only
      by_cases hV : V = idxImage
      · subst hV; rw [Function.update_same]; exact ⟨rfl, rfl⟩
      · rw [Function.update_noteq hV]; exact ⟨rfl, rfl⟩
    · intro vp hvp
      dsimp only at hvp
      rw [List.zip_cons_cons, List.zip_nil_right, List.mem_singleton] at hvp
      rw [hvp]
      dsimp only
      rw [hcoord]
      exact h2
    · intro V p
      dsimp only
      by_cases hVp : V = idxImage ∧ p = x
      · right
        refine ⟨(idxImage, Proj.ofImageRef x), List.mem_singleton.2 rfl, hVp.1.symm, ?_⟩
        rw [hcoord, hVp.2]
      · left
        by_cases hV : V = idxImage
        · have hp : p ≠ x := fun e' => hVp ⟨hV, e'⟩
          rw [hV, Function.update_same, TImage.set_pix_of_ne _ _ hp]
        · rw [Function.update_noteq hV]
  obtain ⟨_, hsz, hfree, hdiff⟩ := hinv
  funext V
  obtain ⟨r1, r2, r3⟩ := releaseClaims_spec
    (List.zip (fuseAcc env bC bN bM idxImage st x).views
      (fuseAcc env bC bN bM idxImage st x).pointProjs)
    (fuseAcc env bC bN bM idxImage st x).arrDepthIdx V
  refine TImage.ext_pix _ _ ?_ ?_ ?_
  · exact r1.trans (hsz V).1
  · exact r2.trans (hsz V).2
  · intro p
    unfold releaseClaims
    rw [r3 p]
    split_ifs with hc
    · obtain ⟨vp, hvp, hV, hp⟩ := hc
      have := hfree vp hvp
      rw [hV, hp] at this
      exact this.symm
    · rcases hdiff V p with e | e
      · exact e
      · exact absurd e hc

/-- C15 fails on the code for pixels whose coordinates do not fit the 16-bit fields of
`Proj`: in a scene of images 65537 pixels wide, the candidate of the pixel `(65536, 0)`
gathers one observer of the two required and is discarded, yet the claim grid of image 0
still holds the index of the removed point at `(65536, 0)`, where it held the sentinel
before the pixel was processed (the release loop resets the pixel `(0, 0)` instead). -/
theorem fusePixel_discard_wide :
    (wideState.arrDepthData 0).depthMap.isInside ⟨65536, 0⟩ = true ∧
    (wideState.arrDepthData 0).depthMap.pix ⟨65536, 0⟩ ≠ 0 ∧
    (fuseAcc wideEnv false false false 0 wideState ⟨65536, 0⟩).views.length <
      min wideEnv.nMinViewsFuse wideEnv.images.length ∧
    (wideState.arrDepthIdx 0).pix ⟨65536, 0⟩ = NO_ID ∧
    ((fusePixel wideEnv false false false 0 wideState ⟨65536, 0⟩).arrDepthIdx 0).pix
      ⟨65536, 0⟩ = 0 := by
  have hacc : (fuseAcc wideEnv false false false 0 wideState ⟨65536, 0⟩).views = [0] ∧
      (fuseAcc wideEnv false false false 0 wideState ⟨65536, 0⟩).pointProjs =
        [Proj.ofImageRef ⟨65536, 0⟩] ∧
      (fuseAcc wideEnv false false false 0 wideState ⟨65536, 0⟩).arrDepthIdx =
        Function.update wideState.arrDepthIdx 0
          ((wideState.arrDepthIdx 0).set ⟨65536, 0⟩ 0) := ⟨rfl, rfl, rfl⟩
  have hd : (wideState.arrDepthData 0).depthMap.pix ⟨65536, 0⟩ ≠ 0 := by
    show (1 : ℚ) ≠ 0
    exact one_ne_zero
  have hlt : (fuseAcc wideEnv false false false 0 wideState ⟨65536, 0⟩).views.length <
      min wideEnv.nMinViewsFuse wideEnv.images.length := by
    rw [hacc.1]
    decide
  refine ⟨by simp [wideState, wideData, TImage.isInside], hd, hlt, rfl, ?_⟩
  rw [fusePixel_of_discarded _ _ _ _ _ _ _ hd rfl hlt]
  dsimp only
  rw [hacc.1, hacc.2.1, hacc.2.2]
  have hp : Proj.ofImageRef ⟨65536, 0⟩ = ⟨0, 0⟩ := by decide
  rw [hp]
  simp [releaseClaims, Proj.GetCoord, TImage.set, Function.update]

/-! ## `GapInterpolation`: what a run may change -/

/-- A pixel whose depth a pass changes lies in a run of invalid pixels of its line that
starts after the first position and is bounded on the left by a valid pixel. -/
theorem gapPass_changed (sim : Depth → Depth → Bool) (N2D : Normal → Point2f)
    (D2N : Point2f → Normal) (gap n : Nat) (pixel : Nat → Nat → ImageRef)
    (hinj : ∀ l i l' i', pixel l i = pixel l' i' → l = l' ∧ i = i') (dd0 : DepthData)
    (m : Nat) (p : ImageRef)
    (h : (gapPass sim N2D D2N gap m n pixel dd0).depthMap.pix p ≠ dd0.depthMap.pix p) :
    ∃ l s e i, l < m ∧ p = pixel l i ∧ 1 ≤ s ∧ s ≤ i ∧ i < e ∧ e < n ∧
      0 < dd0.depthMap.pix (pixel l (s - 1)) ∧
      (∀ j, s ≤ j → j < e → dd0.depthMap.pix (pixel l j) ≤ 0) := by
  rcases (gapPass_spec sim N2D D2N gap n pixel hinj dd0 m).2.1 p with ha | ⟨l, s, e, i, hl, hp,
    hf, hsi, hie, _⟩
  · exact absurd ha.1 h
  · exact ⟨l, s, e, i, hl, hp, hf.1, hsi, hie, hf.2.2.1, hf.2.2.2.2.1, hf.2.2.2.2.2.2.1⟩

/-- A pass never fills a run of invalid pixels that touches the first position of its
line. -/
theorem gapPass_first (sim : Depth → Depth → Bool) (N2D : Normal → Point2f)
    (D2N : Point2f → Normal) (gap n : Nat) (pixel : Nat → Nat → ImageRef)
    (hinj : ∀ l i l' i', pixel l i = pixel l' i' → l = l' ∧ i = i') (dd0 : DepthData)
    (m l i : Nat) (hrun : ∀ j, j ≤ i → dd0.depthMap.pix (pixel l j) ≤ 0) :
    (gapPass sim N2D D2N gap m n pixel dd0).depthMap.pix (pixel l i) =
      dd0.depthMap.pix (pixel l i) := by
  by_contra h
  obtain ⟨l', s, e, i', _, hp, hs, hsi, _, _, hpos, _⟩ :=
    gapPass_changed sim N2D D2N gap n pixel hinj dd0 m (pixel l i) h
  obtain ⟨e1, e2⟩ := hinj _ _ _ _ hp
  subst e1
  subst e2
  have := hrun (s - 1) (by omega)
  exact absurd hpos (not_lt.2 this)

/-- C29: `GapInterpolation` never changes the depth of a pixel that is valid (depth > 0) on
input; every pixel whose depth the row-wise (column-wise) pass changes lies in a run of
invalid pixels of its row (column) whose left (upper) bounding position `s - 1` is inside
the image and holds a valid depth; and a run of invalid pixels that touches the first column
(first row) is never filled by the row-wise (column-wise) pass. The column-wise pass works
on the output of the row-wise pass. -/
theorem GapInterpolation_frame (S : Depth → Depth → ℚ → Bool) (N2D : Normal → Point2f)
    (D2N : Point2f → Normal) (t : ℚ) (gap : Nat) (dd : DepthData) :
    (∀ p, 0 < dd.depthMap.pix p →
      (GapInterpolation S N2D D2N t gap dd).depthMap.pix p = dd.depthMap.pix p) ∧
    (∀ p, (gapRows S N2D D2N t gap dd).depthMap.pix p ≠ dd.depthMap.pix p →
      ∃ v s e i, v < dd.depthMap.rows ∧ p = rowPixel v i ∧ 1 ≤ s ∧ s ≤ i ∧ i < e ∧
        e < dd.depthMap.cols ∧ 0 < dd.depthMap.pix (rowPixel v (s - 1)) ∧
        ∀ j, s ≤ j → j < e → dd.depthMap.pix (rowPixel v j) ≤ 0) ∧
    (∀ p, (GapInterpolation S N2D D2N t gap dd).depthMap.pix p ≠
        (gapRows S N2D D2N t gap dd).depthMap.pix p →
      ∃ u s e i, u < dd.depthMap.cols ∧ p = colPixel u i ∧ 1 ≤ s ∧ s ≤ i ∧ i < e ∧
        e < dd.depthMap.rows ∧ 0 < (gapRows S N2D D2N t gap dd).depthMap.pix (colPixel u (s - 1)) ∧
        ∀ j, s ≤ j → j < e → (gapRows S N2D D2N t gap dd).depthMap.pix (colPixel u j) ≤ 0) ∧
    (∀ v i, (∀ j, j ≤ i → dd.depthMap.pix (rowPixel v j) ≤ 0) →
      (gapRows S N2D D2N t gap dd).depthMap.pix (rowPixel v i) =
        dd.depthMap.pix (rowPixel v i)) ∧
    (∀ u i, (∀ j, j ≤ i → (gapRows S N2D D2N t gap dd).depthMap.pix (colPixel u j) ≤ 0) →
      (GapInterpolation S N2D D2N t gap dd).depthMap.pix (colPixel u i) =
        (gapRows S N2D D2N t gap dd).depthMap.pix (colPixel u i)) := by
  have hs := gapRows_shape S N2D D2N t gap dd
  have eG : GapInterpolation S N2D D2N t gap dd =
      gapPass (fun d0 d1 => S d0 d1 (t * (5/2))) N2D D2N gap dd.depthMap.cols
        dd.depthMap.rows colPixel (gapRows S N2D D2N t gap dd) := by
    have e0 : GapInterpolation S N2D D2N t gap dd =
        gapPass (fun d0 d1 => S d0 d1 (t * (5/2))) N2D D2N gap
          (gapRows S N2D D2N t gap dd).depthMap.cols (gapRows S N2D D2N t gap dd).depthMap.rows
          colPixel (gapRows S N2D D2N t gap dd) := rfl
    rw [e0, hs.1, hs.2.1]
  have eR : gapRows S N2D D2N t gap dd =
      gapPass (fun d0 d1 => S d0 d1 (t * (5/2))) N2D D2N gap dd.depthMap.rows
        dd.depthMap.cols rowPixel dd := rfl
  refine ⟨?_, ?_, ?_, ?_, ?_⟩
  · intro p hp
    have h1 : (gapRows S N2D D2N t gap dd).depthMap.pix p = dd.depthMap.pix p := by
      rw [eR]
      exact (gapPass_of_valid _ N2D D2N gap _ rowPixel rowPixel_inj dd _ p hp).1
    rw [eG, ← h1]
    refine (gapPass_of_valid _ N2D D2N gap _ colPixel colPixel_inj _ _ p ?_).1
    rw [h1]
    exact hp
  · intro p hp
    rw [eR] at hp
    exact gapPass_changed _ N2D D2N gap _ rowPixel rowPixel_inj dd _ p hp
  · intro p hp
    rw [eG] at hp
    exact gapPass_changed _ N2D D2N gap _ colPixel colPixel_inj _ _ p hp
  · intro v i hrun
    rw [eR]
    exact gapPass_first _ N2D D2N gap _ rowPixel rowPixel_inj dd _ v i hrun
  · intro u i hrun
    rw [eG]
    exact gapPass_first _ N2D D2N gap _ colPixel colPixel_inj _ _ u i hrun

/-- Instance of `GapInterpolation_frame`: the valid pixel `(0,0)` of `crossImage` keeps its
depth. -/
theorem GapInterpolation_frame_witness :
    0 < crossImage.depthMap.pix ⟨0, 0⟩ ∧
    (GapInterpolation IsDepthSimilar exNormal2Dir exDir2Normal 100 1
      crossImage).depthMap.pix ⟨0, 0⟩ = crossImage.depthMap.pix ⟨0, 0⟩ :=
  ⟨by simp [crossImage, ofRows, mkDepthData],
    (GapInterpolation_frame IsDepthSimilar exNormal2Dir exDir2Normal 100 1 crossImage).1 ⟨0, 0⟩
      (by simp [crossImage, ofRows, mkDepthData])⟩



/-! ## `FilterDepthMap`: the adjusting mode -/

/-- Every neighbour with a non-zero depth counts as a positive or as a negative view. -/
theorem adjustView_count (env : FilterEnv) (arrDepthData : Nat → DepthData) (idxRef : Nat)
    (depth : Depth) (xRef : ImageRef) (acc : AdjustAcc) (v : ProjView) (d : Depth) :
    (adjustView env arrDepthData idxRef depth xRef acc v d).nPosViews +
      (adjustView env arrDepthData idxRef depth xRef acc v d).nNegViews =
      acc.nPosViews + acc.nNegViews + 1 := by
  unfold adjustView
  split_ifs <;> simp only <;> omega

/-- The number of valid neighbours does not depend on the visiting order. -/
theorem adjustValid_reverse (views : List ProjView) (xRef : ImageRef) :
    adjustValid views.reverse xRef = adjustValid views xRef := by
  unfold adjustValid
  rw [List.filter_reverse, List.length_reverse]

/-- The neighbour loop of the adjusting mode, started with enough maps to reach the bound:
it jumps to `DiscardDepth` exactly when too few maps are valid, and otherwise it ends with
the sums over all valid maps. -/
theorem adjustLoop_spec (env : FilterEnv) (arrDepthData : Nat → DepthData) (idxRef : Nat)
    (nMinViews : Nat) (depth : Depth) (xRef : ImageRef) (l : List ProjView) :
    ∀ acc : AdjustAcc, nMinViews ≤ acc.nPosViews + acc.nNegViews + l.length →
      (acc.nPosViews + acc.nNegViews + adjustValid l xRef < nMinViews →
        adjustLoop env arrDepthData idxRef nMinViews depth xRef l acc = none) ∧
      (nMinViews ≤ acc.nPosViews + acc.nNegViews + adjustValid l xRef →
        ∃ acc', adjustLoop env arrDepthData idxRef nMinViews depth xRef l acc = some acc' ∧
          acc'.nPosViews + acc'.nNegViews =
            acc.nPosViews + acc.nNegViews + adjustValid l xRef ∧
          acc' = l.foldl
            (fun acc v =>
              if v.depthMap.pix xRef = 0 then acc
              else adjustView env arrDepthData idxRef depth xRef acc v (v.depthMap.pix xRef))
            acc) := by
  induction l with
  | nil =>
    intro acc h
    simp only [List.length_nil, Nat.add_zero] at h
    refine ⟨fun h' => ?_, fun _ => ⟨acc, rfl, ?_, rfl⟩⟩
    · simp only [adjustValid, List.filter_nil, List.length_nil, Nat.add_zero] at h'
      omega
    · simp [adjustValid]
  | cons v rest ih =>
    intro acc h
    simp only [List.length_cons] at h
    by_cases hd : v.depthMap.pix xRef = 0
    · have hv : adjustValid (v :: rest) xRef = adjustValid rest xRef := by
        simp [adjustValid, hd]
      have hle : adjustValid rest xRef ≤ rest.length := List.length_filter_le _ _
      rw [hv]
      by_cases hlt : acc.nPosViews + acc.nNegViews + rest.length < nMinViews
      · refine ⟨fun _ => ?_, fun h' => ?_⟩
        · simp only [adjustLoop, hd, if_true, hlt]
        · omega
      · have e : adjustLoop env arrDepthData idxRef nMinViews depth xRef (v :: rest) acc =
            adjustLoop env arrDepthData idxRef nMinViews depth xRef rest acc := by
          simp only [adjustLoop, hd, if_true, hlt, if_false]
        rw [e]
        simp only [List.foldl_cons, hd, if_true]
        exact ih acc (by omega)
    · have hv : adjustValid (v :: rest) xRef = adjustValid rest xRef + 1 := by
        simp [adjustValid, hd]
      have e : adjustLoop env arrDepthData idxRef nMinViews depth xRef (v :: rest) acc =
          adjustLoop env arrDepthData idxRef nMinViews depth xRef rest
            (adjustView env arrDepthData idxRef depth xRef acc v (v.depthMap.pix xRef)) := by
        simp only [adjustLoop, hd, if_false]
      have hc := adjustView_count env arrDepthData idxRef depth xRef acc v (v.depthMap.pix xRef)
      rw [e, hv]
      simp only [List.foldl_cons, hd, if_false]
      have := ih (adjustView env arrDepthData idxRef depth xRef acc v (v.depthMap.pix xRef))
        (by omega)
      rw [hc] at this
      refine ⟨fun h' => this.1 (by omega), fun h' => ?_⟩
      obtain ⟨acc', h1, h2, h3⟩ := this.2 (by omega)
      exact ⟨acc', h1, by omega, h3⟩

/-- C28: in the adjusting mode, given the entry check `N ≥ nMinViews`, whenever the neighbour
loop of a pixel completes without jumping to `DiscardDepth` the asserted bound
`nPosViews + nNegViews ≥ nMinViews` holds, and the loop jumps to `DiscardDepth` exactly
when fewer than `nMinViews` projected neighbour maps are valid (non-zero) at the pixel. -/
theorem adjustLoop_min_views (env : FilterEnv) (arrDepthData : Nat → DepthData) (idxRef : Nat)
    (nMinViews : Nat) (depth : Depth) (xRef : ImageRef) (views : List ProjView)
    (posConf : ℚ) (hN : nMinViews ≤ views.length) :
    (∀ acc, adjustLoop env arrDepthData idxRef nMinViews depth xRef views.reverse
        { posConf := posConf, negConf := 0, avgDepth := depth * posConf, nPosViews := 0,
          nNegViews := 0 } = some acc →
      nMinViews ≤ acc.nPosViews + acc.nNegViews) ∧
    (adjustLoop env arrDepthData idxRef nMinViews depth xRef views.reverse
        { posConf := posConf, negConf := 0, avgDepth := depth * posConf, nPosViews := 0,
          nNegViews := 0 } = none ↔
      adjustValid views xRef < nMinViews) := by
  have key := adjustLoop_spec env arrDepthData idxRef nMinViews depth xRef views.reverse
    { posConf := posConf, negConf := 0, avgDepth := depth * posConf, nPosViews := 0,
      nNegViews := 0 } (by simpa using hN)
  rw [adjustValid_reverse] at key
  simp only [Nat.zero_add] at key
  by_cases hlt : adjustValid views xRef < nMinViews
  · have h0 := key.1 hlt
    refine ⟨fun acc h => ?_, fun _ => hlt, fun _ => h0⟩
    rw [h0] at h
    cases h
  · obtain ⟨acc', h1, h2, _⟩ := key.2 (by omega)
    refine ⟨fun acc h => ?_, fun h => ?_, fun h => absurd h hlt⟩
    · rw [h1] at h
      cases h
      omega
    · rw [h1] at h
      cases h

/-- Instance of `adjustLoop_min_views`: one valid neighbour map and the bound 1; the loop
completes with one counted view. -/
theorem adjustLoop_min_views_witness :
    1 ≤ [oneView 1 (1/2)].length ∧
    ∀ acc, adjustLoop (filterScene 1 1 2) (fun _ => onePixel 1 (1/2)) 0 1 1 ⟨0, 0⟩
        [oneView 1 (1/2)].reverse
        { posConf := 1/2, negConf := 0, avgDepth := 1 * (1/2), nPosViews := 0,
          nNegViews := 0 } = some acc →
      1 ≤ acc.nPosViews + acc.nNegViews :=
  ⟨by decide,
    (adjustLoop_min_views (filterScene 1 1 2) (fun _ => onePixel 1 (1/2)) 0 1 1 ⟨0, 0⟩
      [oneView 1 (1/2)] (1/2) (by decide)).1⟩

/-- C21 (amended): in the adjusting mode of `FilterDepthMap`, given the entry check
`N ≥ nMinViews`, a reference pixel with a non-zero depth is accepted exactly when at least
`nMinViews = min(nMinViewsFilter, nCalibratedImages-1)` projected neighbour maps are valid
at the pixel, `nPos ≥ min(nMinViewsFilterAdjust, nCalibratedImages-1)`, `posConf > negConf`
and `ISINSIDE(avgDepth/posConf, dMin, dMax)`; when accepted the output depth is
`avgDepth/posConf` and the output confidence `posConf − negConf`, otherwise both are 0. -/
theorem filterPixelAdjust_iff (env : FilterEnv) (arrDepthData : Nat → DepthData) (idxRef : Nat)
    (dMin dMax : Depth) (views : List ProjView) (depthDataRef : DepthData) (xRef : ImageRef)
    (hN : filterMinViews env.nMinViewsFilter env.nCalibratedImages ≤ views.length)
    (hd : depthDataRef.depthMap.pix xRef ≠ 0) :
    filterPixelAdjust env arrDepthData idxRef dMin dMax views depthDataRef xRef =
      if filterMinViews env.nMinViewsFilter env.nCalibratedImages ≤ adjustValid views xRef ∧
          filterMinViews env.nMinViewsFilterAdjust env.nCalibratedImages ≤
            (adjustTotals env arrDepthData idxRef views depthDataRef xRef).nPosViews ∧
          (adjustTotals env arrDepthData idxRef views depthDataRef xRef).posConf >
            (adjustTotals env arrDepthData idxRef views depthDataRef xRef).negConf ∧
          env.ISINSIDE
            ((adjustTotals env arrDepthData idxRef views depthDataRef xRef).avgDepth /
              (adjustTotals env arrDepthData idxRef views depthDataRef xRef).posConf)
            dMin dMax = true then
        ((adjustTotals env arrDepthData idxRef views depthDataRef xRef).avgDepth /
            (adjustTotals env arrDepthData idxRef views depthDataRef xRef).posConf,
          (adjustTotals env arrDepthData idxRef views depthDataRef xRef).posConf -
            (adjustTotals env arrDepthData idxRef views depthDataRef xRef).negConf)
      else (0, 0) := by
  have key := adjustLoop_spec env arrDepthData idxRef
    (filterMinViews env.nMinViewsFilter env.nCalibratedImages) (depthDataRef.depthMap.pix xRef)
    xRef views.reverse
    { posConf := depthDataRef.confMap.pix xRef, negConf := 0,
      avgDepth := depthDataRef.depthMap.pix xRef * depthDataRef.confMap.pix xRef,
      nPosViews := 0, nNegViews := 0 } (by simpa using hN)
  rw [adjustValid_reverse] at key
  simp only [Nat.zero_add] at key
  unfold filterPixelAdjust
  simp only [if_neg hd]
  by_cases hlt : adjustValid views xRef <
      filterMinViews env.nMinViewsFilter env.nCalibratedImages
  · rw [key.1 hlt]
    have : ¬ filterMinViews env.nMinViewsFilter env.nCalibratedImages ≤ adjustValid views xRef :=
      by omega
    simp only [this, false_and, if_false]
  · obtain ⟨acc', h1, _, h3⟩ := key.2 (by omega)
    rw [h1]
    have e : acc' = adjustTotals env arrDepthData idxRef views depthDataRef xRef := h3
    have : filterMinViews env.nMinViewsFilter env.nCalibratedImages ≤ adjustValid views xRef :=
      by omega
    simp only [this, true_and, e]

/-- Instance of `filterPixelAdjust_iff`: one similar neighbour map of a two-image scene. -/
theorem filterPixelAdjust_iff_witness :
    filterMinViews (filterScene 2 1 2).nMinViewsFilter (filterScene 2 1 2).nCalibratedImages ≤
      [oneView 1 (1/2)].length ∧
    (onePixel 1 (1/2)).depthMap.pix ⟨0, 0⟩ ≠ 0 ∧
    filterPixelAdjust (filterScene 2 1 2) (fun _ => onePixel 1 (1/2)) 0 0 10 [oneView 1 (1/2)]
      (onePixel 1 (1/2)) ⟨0, 0⟩ = (1, 1) := by
  have h1 : filterMinViews (filterScene 2 1 2).nMinViewsFilter
      (filterScene 2 1 2).nCalibratedImages ≤ [oneView 1 (1/2)].length := by decide
  have h2 : (onePixel 1 (1/2)).depthMap.pix ⟨0, 0⟩ ≠ 0 := by
    simp [onePixel]
  refine ⟨h1, h2, ?_⟩
  rw [filterPixelAdjust_iff (filterScene 2 1 2) (fun _ => onePixel 1 (1/2)) 0 0 10
    [oneView 1 (1/2)] (onePixel 1 (1/2)) ⟨0, 0⟩ h1 h2]
  have hs : IsDepthSimilar 1 1 (1/100 * (12/10)) = true := by
    simp only [IsDepthSimilar, decide_eq_true_eq]
    norm_num
  have ht : adjustTotals (filterScene 2 1 2) (fun _ => onePixel 1 (1/2)) 0 [oneView 1 (1/2)]
      (onePixel 1 (1/2)) ⟨0, 0⟩ =
      { posConf := 1, negConf := 0, avgDepth := 1, nPosViews := 1, nNegViews := 0 } := by
    simp only [adjustTotals, List.reverse_singleton, List.foldl_cons, List.foldl_nil, oneView,
      onePixel, adjustView, filterScene, hs]
    norm_num
  rw [ht]
  have hv : adjustValid [oneView 1 (1/2)] ⟨0, 0⟩ = 1 := by
    simp [adjustValid, oneView]
  rw [hv]
  simp only [filterScene, filterMinViews]
  norm_num

/-- Counterexample to C21 as stated. With `nMinViewsFilter = 2`, `nMinViewsFilterAdjust = 1`
and three calibrated images, a pixel with one similar and one invalid neighbour map meets
the three stated conditions but is discarded (too few valid maps); with
`nMinViewsFilterAdjust = 2` and two calibrated images, a pixel with one similar neighbour
map is accepted although `nPos = 1 < nMinViewsFilterAdjust`. -/
theorem filterPixelAdjust_not_spec :
    (filterMinViews 2 3 ≤ [oneView 1 (1/2), oneView 0 0].length ∧
      (onePixel 1 (1/2)).depthMap.pix ⟨0, 0⟩ ≠ 0 ∧
      specAdjustAccept (filterScene 2 1 3) 0 10
        (adjustTotals (filterScene 2 1 3) (fun _ => onePixel 1 (1/2)) 0
          [oneView 1 (1/2), oneView 0 0] (onePixel 1 (1/2)) ⟨0, 0⟩) ∧
      filterPixelAdjust (filterScene 2 1 3) (fun _ => onePixel 1 (1/2)) 0 0 10
        [oneView 1 (1/2), oneView 0 0] (onePixel 1 (1/2)) ⟨0, 0⟩ = (0, 0)) ∧
    (filterMinViews 1 2 ≤ [oneView 1 (1/2)].length ∧
      ¬ specAdjustAccept (filterScene 1 2 2) 0 10
        (adjustTotals (filterScene 1 2 2) (fun _ => onePixel 1 (1/2)) 0
          [oneView 1 (1/2)] (onePixel 1 (1/2)) ⟨0, 0⟩) ∧
      filterPixelAdjust (filterScene 1 2 2) (fun _ => onePixel 1 (1/2)) 0 0 10
        [oneView 1 (1/2)] (onePixel 1 (1/2)) ⟨0, 0⟩ = (1, 1)) := by
  have hs : IsDepthSimilar 1 1 (1/100 * (12/10)) = true := by
    simp only [IsDepthSimilar, decide_eq_true_eq]
    norm_num
  have ht : ∀ a b c : Nat, adjustTotals (filterScene a b c) (fun _ => onePixel 1 (1/2)) 0
      [oneView 1 (1/2)] (onePixel 1 (1/2)) ⟨0, 0⟩ =
      { posConf := 1, negConf := 0, avgDepth := 1, nPosViews := 1, nNegViews := 0 } := by
    intro a b c
    simp only [adjustTotals, List.reverse_singleton, List.foldl_cons, List.foldl_nil, oneView,
      onePixel, adjustView, filterScene, hs]
    norm_num
  have ht2 : adjustTotals (filterScene 2 1 3) (fun _ => onePixel 1 (1/2)) 0
      [oneView 1 (1/2), oneView 0 0] (onePixel 1 (1/2)) ⟨0, 0⟩ =
      { posConf := 1, negConf := 0, avgDepth := 1, nPosViews := 1, nNegViews := 0 } := by
    simp only [adjustTotals, List.reverse_cons, List.reverse_nil, List.nil_append,
      List.singleton_append, List.foldl_cons, List.foldl_nil, oneView,
      onePixel, adjustView, filterScene, hs]
    norm_num
  refine ⟨⟨by decide, by simp [onePixel], ?_, ?_⟩, by decide, ?_, ?_⟩
  · rw [ht2]
    simp only [specAdjustAccept, filterScene]
    norm_num
  · simp only [filterPixelAdjust, onePixel, List.reverse_cons, List.reverse_nil, List.nil_append,
      List.singleton_append, adjustLoop, oneView, filterScene, filterMinViews, List.length_cons,
      List.length_nil]
    norm_num
  · rw [ht]
    simp only [specAdjustAccept, filterScene]
    norm_num
  · simp only [filterPixelAdjust, onePixel, List.reverse_singleton, adjustLoop, oneView,
      filterScene, filterMinViews, adjustView, hs]
    norm_num

/-! ## `FilterDepthMap`: the reads of the second test of the strict mode -/

/-- The second test of the strict mode reads the projected maps at the coordinates
`secondTestCoords`. -/
theorem strictSecondTest_reads (sim : Depth → Depth → ℚ → Bool) (fDepthDiffThreshold : ℚ)
    (nMinViews : Nat) (depthMaps : List (TImage Depth)) (depth : Depth) (xRef : ImageRef) :
    strictSecondTest sim fDepthDiffThreshold nMinViews depthMaps depth xRef =
      !(decide (((secondTestCoords xRef).foldl
            (fun c x => countViews sim (fDepthDiffThreshold * (12/10)) depthMaps depth x c)
            (0, 0)).1 < nMinViews * (4 - 2)) ||
        decide (((secondTestCoords xRef).foldl
            (fun c x => countViews sim (fDepthDiffThreshold * (12/10)) depthMaps depth x c)
            (0, 0)).1 <
          ((secondTestCoords xRef).foldl
            (fun c x => countViews sim (fDepthDiffThreshold * (12/10)) depthMaps depth x c)
            (0, 0)).2 * 65 / 100)) := by
  unfold strictSecondTest secondTestCoords
  rw [List.foldl_map]

/-- C27 (failing input): the corner pixel `(0,0)` of a one-pixel reference image with one
projected neighbour map of the same depth passes the first test of the strict mode; the
second test then reads the map at `(-1,0)`, which is outside it (as is `(-1,y)` for every
map and every `y`), and the value found there decides the outcome: two maps that agree on
every pixel inside give different outputs. -/
theorem strictSecondTest_reads_outside :
    strictFirstTest IsDepthSimilar (1/100) 1 [⟨1, 1, fun _ => 1⟩] 1 ⟨0, 0⟩ = true ∧
    (⟨-1, 0⟩ : ImageRef) ∈ secondTestCoords ⟨0, 0⟩ ∧
    (∀ (dm : TImage Depth) (y : Int), (⟨-1, y⟩ : ImageRef) ∈ secondTestCoords ⟨0, y⟩ ∧
      dm.isInside ⟨-1, y⟩ = false) ∧
    (∀ q, (⟨1, 1, fun _ => 1⟩ : TImage Depth).isInside q = true →
      (⟨1, 1, fun _ => 1⟩ : TImage Depth).pix q =
        (⟨1, 1, fun p => if p = ⟨0, 0⟩ then 1 else 0⟩ : TImage Depth).pix q) ∧
    filterPixelStrict IsDepthSimilar (1/100) 1 [⟨1, 1, fun _ => 1⟩] (onePixel 1 (1/2)) ⟨0, 0⟩ =
      (1, 1/2) ∧
    filterPixelStrict IsDepthSimilar (1/100) 1 [⟨1, 1, fun p => if p = ⟨0, 0⟩ then 1 else 0⟩]
      (onePixel 1 (1/2)) ⟨0, 0⟩ = (0, 0) := by
  have hs : ∀ t : ℚ, 0 ≤ t → IsDepthSimilar 1 1 t = true := by
    intro t ht
    simp only [IsDepthSimilar, decide_eq_true_eq]
    simpa using ht
  have h8 : IsDepthSimilar 1 1 (1/100 * (8/10)) = true := hs _ (by norm_num)
  have h12 : IsDepthSimilar 1 1 (1/100 * (12/10)) = true := hs _ (by norm_num)
  refine ⟨?_, ?_, ?_, ?_, ?_, ?_⟩
  · simp only [strictFirstTest, countViews, List.reverse_singleton, List.foldl_cons,
      List.foldl_nil, h8]
    norm_num
  · simp [secondTestCoords, xDs]
  · intro dm y
    refine ⟨by simp [secondTestCoords, xDs], ?_⟩
    simp [TImage.isInside]
  · intro q hq
    simp only [TImage.isInside, Bool.and_eq_true, decide_eq_true_eq] at hq
    have : q = ⟨0, 0⟩ := by
      cases q with
      | mk x y =>
        simp only [Nat.cast_one] at hq
        congr <;> omega
    simp [this]
  · simp only [filterPixelStrict, strictFirstTest, strictSecondTest, xDs, countViews, onePixel,
      List.reverse_singleton, List.foldl_cons, List.foldl_nil, h8, h12]
    norm_num
  · simp only [filterPixelStrict, strictFirstTest, strictSecondTest, xDs, countViews, onePixel,
      List.reverse_singleton, List.foldl_cons, List.foldl_nil, h8, h12]
    norm_num

/-! ## `FilterDepthMap`: the projection of the neighbour maps -/

/-- The test `isInside` depends on the size of the image only. -/
theorem isInside_congr {α β : Type} (a : TImage α) (b : TImage β) (hc : a.cols = b.cols)
    (hr : a.rows = b.rows) (q : ImageRef) : a.isInside q = b.isInside q := by
  unfold TImage.isInside
  rw [hc, hr]

/-- One write of the projection: the depth-map keeps its size, and the pixel written holds
`z` unless it held a nearer non-zero depth. -/
theorem splatPixel_spec (bAdjust : Bool) (z : Depth) (c : ℚ) (st : ProjView) (r : ImageRef) :
    (splatPixel bAdjust z c st r).depthMap.cols = st.depthMap.cols ∧
    (splatPixel bAdjust z c st r).depthMap.rows = st.depthMap.rows ∧
    (splatPixel bAdjust z c st r).idxView = st.idxView ∧
    ∀ q, (splatPixel bAdjust z c st r).depthMap.pix q =
      if q = r ∧ st.depthMap.isInside q = true ∧
          ¬ (st.depthMap.pix q ≠ 0 ∧ st.depthMap.pix q < z) then z
      else st.depthMap.pix q := by
  unfold splatPixel
  by_cases h1 : st.depthMap.isInside r = true
  · have e1 : (!st.depthMap.isInside r) = false := by simp [h1]
    rw [e1]
    simp only [Bool.false_eq_true, if_false]
    by_cases h2 : st.depthMap.pix r ≠ 0 ∧ st.depthMap.pix r < z
    · rw [if_pos h2]
      refine ⟨rfl, rfl, rfl, fun q => ?_⟩
      by_cases hq : q = r
      · subst hq
        rw [if_neg (fun h => h.2.2 h2)]
      · rw [if_neg (fun h => hq h.1)]
    · rw [if_neg h2]
      refine ⟨rfl, rfl, rfl, fun q => ?_⟩
      simp only [TImage.set]
      by_cases hq : q = r
      · subst hq
        rw [Function.update_same, if_pos ⟨rfl, h1, h2⟩]
      · rw [Function.update_noteq hq, if_neg (fun h => hq h.1)]
  · have e1 : (!st.depthMap.isInside r) = true := by simpa using h1
    rw [e1, if_pos rfl]
    refine ⟨rfl, rfl, rfl, fun q => ?_⟩
    by_cases hq : q = r
    · subst hq
      rw [if_neg (fun h => h1 h.2.1)]
    · rw [if_neg (fun h => hq h.1)]

/-- The four writes of one neighbour pixel with the positive depth `z`. -/
theorem foldl_splatPixel (bAdjust : Bool) (z : Depth) (c : ℚ) (hz : 0 < z)
    (R : List ImageRef) : ∀ st : ProjView,
    (R.foldl (splatPixel bAdjust z c) st).depthMap.cols = st.depthMap.cols ∧
    (R.foldl (splatPixel bAdjust z c) st).depthMap.rows = st.depthMap.rows ∧
    (R.foldl (splatPixel bAdjust z c) st).idxView = st.idxView ∧
    ∀ q, (R.foldl (splatPixel bAdjust z c) st).depthMap.pix q =
      if q ∈ R ∧ st.depthMap.isInside q = true ∧
          ¬ (st.depthMap.pix q ≠ 0 ∧ st.depthMap.pix q < z) then z
      else st.depthMap.pix q := by
  induction R with
  | nil =>
    intro st
    simp
  | cons r rs ih =>
    intro st
    obtain ⟨a1, a2, a3, a4⟩ := splatPixel_spec bAdjust z c st r
    obtain ⟨b1, b2, b3, b4⟩ := ih (splatPixel bAdjust z c st r)
    rw [List.foldl_cons]
    refine ⟨b1.trans a1, b2.trans a2, b3.trans a3, fun q => ?_⟩
    rw [b4 q, a4 q, isInside_congr _ st.depthMap a1 a2 q]
    by_cases hq : q = r
    · subst hq
      by_cases hi : st.depthMap.isInside q = true
      · by_cases hn : st.depthMap.pix q ≠ 0 ∧ st.depthMap.pix q < z
        · simp [hi, hn]
        · have hz' : z ≠ 0 := ne_of_gt hz
          simp [hi, hn, hz']
      · simp [hi]
    · simp [hq]

/-- A neighbour pixel that writes nowhere at `q` leaves the description of `q` as it is. -/
theorem IsNearestZ_snoc_of_not (env : FilterEnv) (idxRef idxView : Nat) (depthData : DepthData)
    (xs : List ImageRef) (x q : ImageRef) (v : Depth)
    (hx : ¬ Contributes env idxRef idxView depthData x q)
    (h : IsNearestZ env idxRef idxView depthData xs q v) :
    IsNearestZ env idxRef idxView depthData (xs ++ [x]) q v := by
  rcases h with ⟨h1, h2⟩ | ⟨x0, hx0, hc, hv, hmin⟩
  · refine Or.inl ⟨fun x' hx' => ?_, h2⟩
    rcases List.mem_append.1 hx' with h | h
    · exact h1 x' h
    · rw [List.mem_singleton.1 h]
      exact hx
  · refine Or.inr ⟨x0, List.mem_append_left _ hx0, hc, hv, fun x' hx' hc' => ?_⟩
    rcases List.mem_append.1 hx' with h | h
    · exact hmin x' h hc'
    · rw [List.mem_singleton.1 h] at hc'
      exact absurd hc' hx

/-- The projection of a list of neighbour pixels: the maps keep the size of the reference
image, pixels outside hold 0, and every pixel inside holds the smallest `camX.z` of the
neighbour pixels that write at it, or 0 when there is none. -/
theorem projectOver_spec (env : FilterEnv) (bAdjust : Bool) (idxRef idxView : Nat)
    (cols rows : Nat) (depthData : DepthData) (xs : List ImageRef) :
    (projectOver env bAdjust idxRef idxView cols rows depthData xs).depthMap.cols = cols ∧
    (projectOver env bAdjust idxRef idxView cols rows depthData xs).depthMap.rows = rows ∧
    (projectOver env bAdjust idxRef idxView cols rows depthData xs).idxView = idxView ∧
    ∀ q,
      ((projectOver env bAdjust idxRef idxView cols rows depthData xs).depthMap.isInside q =
          false →
        (projectOver env bAdjust idxRef idxView cols rows depthData xs).depthMap.pix q = 0) ∧
      ((projectOver env bAdjust idxRef idxView cols rows depthData xs).depthMap.isInside q =
          true →
        IsNearestZ env idxRef idxView depthData xs q
          ((projectOver env bAdjust idxRef idxView cols rows depthData xs).depthMap.pix q)) := by
  induction xs using List.reverseRecOn with
  | nil =>
    refine ⟨rfl, rfl, rfl, fun q => ⟨fun _ => rfl, fun _ => Or.inl ⟨?_, rfl⟩⟩⟩
    intro x hx
    cases hx
  | append_singleton xs x ih =>
    have e : projectOver env bAdjust idxRef idxView cols rows depthData (xs ++ [x]) =
        projectPixel env bAdjust idxRef depthData
          (projectOver env bAdjust idxRef idxView cols rows depthData xs) x := by
      unfold projectOver
      rw [List.foldl_append]
      rfl
    rw [e]
    generalize projectOver env bAdjust idxRef idxView cols rows depthData xs = st at ih ⊢
    obtain ⟨i1, i2, i3, i4⟩ := ih
    unfold projectPixel
    rw [i3]
    by_cases hd : depthData.depthMap.pix x = 0
    · rw [if_pos hd]
      refine ⟨i1, i2, i3, fun q => ⟨(i4 q).1, fun hq => ?_⟩⟩
      exact IsNearestZ_snoc_of_not env idxRef idxView depthData xs x q _
        (fun hc => hc.1 hd) ((i4 q).2 hq)
    · rw [if_neg hd]
      by_cases hz : (camXOf env idxRef idxView depthData x).z ≤ 0
      · rw [if_pos hz]
        refine ⟨i1, i2, i3, fun q => ⟨(i4 q).1, fun hq => ?_⟩⟩
        exact IsNearestZ_snoc_of_not env idxRef idxView depthData xs x q _
          (fun hc => absurd hc.2.1 (not_lt.2 hz)) ((i4 q).2 hq)
      · rw [if_neg hz]
        have hz' : 0 < (camXOf env idxRef idxView depthData x).z := not_le.1 hz
        obtain ⟨f1, f2, f3, f4⟩ := foldl_splatPixel bAdjust
          (camXOf env idxRef idxView depthData x).z (depthData.confMap.pix x) hz'
          (xRefsOf env (env.TransformPointC2I idxRef (camXOf env idxRef idxView depthData x))) st
        refine ⟨f1.trans i1, f2.trans i2, f3.trans i3, fun q => ?_⟩
        rw [isInside_congr _ st.depthMap f1 f2 q, f4 q]
        constructor
        · intro hq
          rw [if_neg (fun h => by rw [hq] at h; exact Bool.noConfusion h.2.1)]
          exact (i4 q).1 hq
        · intro hq
          have hI := (i4 q).2 hq
          by_cases hm : q ∈ xRefsOf env
              (env.TransformPointC2I idxRef (camXOf env idxRef idxView depthData x))
          · have hc : Contributes env idxRef idxView depthData x q := ⟨hd, hz', hm⟩
            by_cases hn : st.depthMap.pix q ≠ 0 ∧
                st.depthMap.pix q < (camXOf env idxRef idxView depthData x).z
            · rw [if_neg (fun h => h.2.2 hn)]
              rcases hI with ⟨_, h2⟩ | ⟨x0, hx0, hc0, hv, hmin⟩
              · exact absurd h2 hn.1
              · refine Or.inr ⟨x0, List.mem_append_left _ hx0, hc0, hv, fun x' hx' hc' => ?_⟩
                rcases List.mem_append.1 hx' with h | h
                · exact hmin x' h hc'
                · rw [List.mem_singleton.1 h]
                  exact le_of_lt hn.2
            · rw [if_pos ⟨hm, hq, hn⟩]
              refine Or.inr ⟨x, List.mem_append_right _ (List.mem_singleton.2 rfl), hc, rfl,
                fun x' hx' hc' => ?_⟩
              rcases List.mem_append.1 hx' with h | h
              · rcases hI with ⟨h1, _⟩ | ⟨x0, hx0, hc0, hv, hmin⟩
                · exact absurd hc' (h1 x' h)
                · have hpos : st.depthMap.pix q ≠ 0 := by
                    rw [hv]
                    exact ne_of_gt hc0.2.1
                  have hge : (camXOf env idxRef idxView depthData x).z ≤ st.depthMap.pix q := by
                    by_contra hlt
                    exact hn ⟨hpos, not_le.1 hlt⟩
                  exact le_trans hge (hmin x' h hc')
              · rw [List.mem_singleton.1 h]
          · rw [if_neg (fun h => hm h.1)]
            exact IsNearestZ_snoc_of_not env idxRef idxView depthData xs x q _
              (fun hc => hm hc.2.2) hI

/-- The value described by `IsNearestZ` is unique and does not depend on the order of the
neighbour pixels. -/
theorem IsNearestZ_unique (env : FilterEnv) (idxRef idxView : Nat) (depthData : DepthData)
    (xs ys : List ImageRef) (hp : ∀ x, x ∈ xs ↔ x ∈ ys) (q : ImageRef) (v w : Depth)
    (hv : IsNearestZ env idxRef idxView depthData xs q v)
    (hw : IsNearestZ env idxRef idxView depthData ys q w) : v = w := by
  rcases hv with ⟨h1, h2⟩ | ⟨x0, hx0, hc0, hv0, hmin0⟩
  · rcases hw with ⟨_, k2⟩ | ⟨y0, hy0, kc0, _, _⟩
    · rw [h2, k2]
    · exact absurd kc0 (h1 y0 ((hp y0).2 hy0))
  · rcases hw with ⟨k1, _⟩ | ⟨y0, hy0, kc0, kv0, kmin0⟩
    · exact absurd hc0 (k1 x0 ((hp x0).1 hx0))
    · apply le_antisymm
      · rw [kv0]
        exact hmin0 y0 ((hp y0).2 hy0) kc0
      · rw [hv0]
        exact kmin0 x0 ((hp x0).1 hx0) hc0

/-- C22: after a neighbour depth-map is projected into the reference frame, every pixel of
the projected map holds the minimum camera-space `z` over the neighbour pixels with a
non-zero depth and a positive reference-camera `z` whose four surrounding integer pixels
(floor/ceil of the projection) include it, and 0 if there is none; the projected depth-map
is the same for every visiting order of the neighbour pixels. -/
theorem projectDepthMap_nearest (env : FilterEnv) (bAdjust : Bool) (idxRef idxView : Nat)
    (cols rows : Nat) (depthData : DepthData) :
    (∀ q, (projectDepthMap env bAdjust idxRef idxView cols rows depthData).depthMap.isInside q
        = true →
      IsNearestZ env idxRef idxView depthData
        (rowMajor depthData.depthMap.rows depthData.depthMap.cols) q
        ((projectDepthMap env bAdjust idxRef idxView cols rows depthData).depthMap.pix q)) ∧
    (∀ xs : List ImageRef,
      xs.Perm (rowMajor depthData.depthMap.rows depthData.depthMap.cols) →
      (projectOver env bAdjust idxRef idxView cols rows depthData xs).depthMap =
        (projectDepthMap env bAdjust idxRef idxView cols rows depthData).depthMap) := by
  refine ⟨fun q hq => ((projectOver_spec env bAdjust idxRef idxView cols rows depthData
    _).2.2.2 q).2 hq, fun xs hp => ?_⟩
  obtain ⟨a1, a2, _, a4⟩ := projectOver_spec env bAdjust idxRef idxView cols rows depthData xs
  obtain ⟨b1, b2, _, b4⟩ := projectOver_spec env bAdjust idxRef idxView cols rows depthData
    (rowMajor depthData.depthMap.rows depthData.depthMap.cols)
  unfold projectDepthMap
  generalize projectOver env bAdjust idxRef idxView cols rows depthData xs = s1 at a1 a2 a4 ⊢
  generalize projectOver env bAdjust idxRef idxView cols rows depthData
    (rowMajor depthData.depthMap.rows depthData.depthMap.cols) = s2 at b1 b2 b4 ⊢
  have hpix : s1.depthMap.pix = s2.depthMap.pix := by
    funext q
    have hi := isInside_congr s1.depthMap s2.depthMap (a1.trans b1.symm) (a2.trans b2.symm) q
    cases hq : s1.depthMap.isInside q with
    | false =>
      rw [(a4 q).1 hq, (b4 q).1 (hi ▸ hq)]
    | true =>
      exact IsNearestZ_unique env idxRef idxView depthData xs _ (fun x => hp.mem_iff) q _ _
        ((a4 q).2 hq) ((b4 q).2 (hi ▸ hq))
  cases hs1 : s1.depthMap with
  | mk c1 r1 p1 =>
    cases hs2 : s2.depthMap with
    | mk c2 r2 p2 =>
      rw [hs1] at a1 a2 hpix
      rw [hs2] at b1 b2 hpix
      simp only at a1 a2 b1 b2 hpix
      rw [a1, a2, b1, b2, hpix]

/-- Instance of `projectDepthMap_nearest`: the pixel `(0,0)` of the projection of a
one-pixel neighbour map into a one-pixel reference image. -/
theorem projectDepthMap_nearest_witness :
    (projectDepthMap (filterScene 1 1 2) true 0 1 1 1 (onePixel 1 (1/2))).depthMap.isInside
      ⟨0, 0⟩ = true ∧
    IsNearestZ (filterScene 1 1 2) 0 1 (onePixel 1 (1/2))
      (rowMajor (onePixel 1 (1/2)).depthMap.rows (onePixel 1 (1/2)).depthMap.cols) ⟨0, 0⟩
      ((projectDepthMap (filterScene 1 1 2) true 0 1 1 1 (onePixel 1 (1/2))).depthMap.pix
        ⟨0, 0⟩) :=
  have h : (projectDepthMap (filterScene 1 1 2) true 0 1 1 1
      (onePixel 1 (1/2))).depthMap.isInside ⟨0, 0⟩ = true := by
    have hs := projectOver_spec (filterScene 1 1 2) true 0 1 1 1 (onePixel 1 (1/2))
      (rowMajor (onePixel 1 (1/2)).depthMap.rows (onePixel 1 (1/2)).depthMap.cols)
    unfold projectDepthMap TImage.isInside
    rw [hs.1, hs.2.1]
    decide
  ⟨h, (projectDepthMap_nearest (filterScene 1 1 2) true 0 1 1 1 (onePixel 1 (1/2))).1 ⟨0, 0⟩ h⟩

/-! ## `InitViews`: the target views -/

/-- Without a bound on the number of views, the loop of `InitViews` over neighbours ranked
by descending score takes exactly the neighbours that reach the bound. -/
theorem initTargets_eq_filter (fMinScore : ℚ) (l : List ViewScore)
    (hs : l.Pairwise (fun a b => b.score ≤ a.score)) :
    ∀ targets, initTargets fMinScore 0 l targets =
      targets ++ l.filter (fun n => decide (fMinScore ≤ n.score)) := by
  induction l with
  | nil =>
    intro targets
    simp [initTargets]
  | cons n rest ih =>
    intro targets
    rw [List.pairwise_cons] at hs
    by_cases h : n.score < fMinScore
    · have hn : ∀ m ∈ n :: rest, ¬ (decide (fMinScore ≤ m.score) = true) := by
        intro m hm
        rw [decide_eq_true_eq, not_le]
        rcases List.mem_cons.1 hm with e | e
        · rw [e]
          exact h
        · exact lt_of_le_of_lt (hs.1 m e) h
      rw [List.filter_eq_nil_iff.2 hn]
      simp [initTargets, h]
    · have hge : fMinScore ≤ n.score := not_lt.1 h
      have e : initTargets fMinScore 0 (n :: rest) targets =
          initTargets fMinScore 0 rest (targets ++ [n]) := by
        simp [initTargets, h]
      rw [e, ih hs.2, List.filter_cons_of_pos (by simpa using hge)]
      simp

/-- C23 (amended): in `InitViews` with `idxNeighbor = NO_ID`, `numNeighbors = 0` and the
neighbours ranked by descending score, the target views in slots `1..k` are exactly the
neighbours with `score ≥ max(neighbors[0].score * (fViewMinScoreRatio * 0.1), fViewMinScore)`,
in rank order, and the routine returns `false` when there is none; a single neighbour whose
score equals the floor `fViewMinScore` is selected when
`fViewMinScore * (fViewMinScoreRatio * 0.1) ≤ fViewMinScore`. -/
theorem InitViews_targets (fViewMinScoreRatio fViewMinScore : ℚ) (neighbors : List ViewScore)
    (hs : neighbors.Pairwise (fun a b => b.score ≤ a.score)) :
    selectTargets fViewMinScoreRatio fViewMinScore neighbors NO_ID 0 =
      neighbors.filter (fun n => decide
        (max ((neighbors.headD ⟨0, 0⟩).score * (fViewMinScoreRatio * (1/10))) fViewMinScore ≤
          n.score)) ∧
    (InitViews fViewMinScoreRatio fViewMinScore neighbors NO_ID 0 =
      if selectTargets fViewMinScoreRatio fViewMinScore neighbors NO_ID 0 = [] then none
      else some (selectTargets fViewMinScoreRatio fViewMinScore neighbors NO_ID 0)) ∧
    (∀ n : ViewScore, neighbors = [n] → n.score = fViewMinScore →
      fViewMinScore * (fViewMinScoreRatio * (1/10)) ≤ fViewMinScore →
      InitViews fViewMinScoreRatio fViewMinScore neighbors NO_ID 0 = some [n]) := by
  have h1 : selectTargets fViewMinScoreRatio fViewMinScore neighbors NO_ID 0 =
      neighbors.filter (fun n => decide
        (max ((neighbors.headD ⟨0, 0⟩).score * (fViewMinScoreRatio * (1/10))) fViewMinScore ≤
          n.score)) := by
    unfold selectTargets
    rw [if_neg (by simp), initTargets_eq_filter _ _ hs, List.nil_append]
    rfl
  have h2 : InitViews fViewMinScoreRatio fViewMinScore neighbors NO_ID 0 =
      if selectTargets fViewMinScoreRatio fViewMinScore neighbors NO_ID 0 = [] then none
      else some (selectTargets fViewMinScoreRatio fViewMinScore neighbors NO_ID 0) := by
    unfold InitViews
    cases selectTargets fViewMinScoreRatio fViewMinScore neighbors NO_ID 0 with
    | nil => simp
    | cons a l => simp
  refine ⟨h1, h2, fun n hn hsc hle => ?_⟩
  rw [h2, h1, hn]
  have : max (([n].headD ⟨0, 0⟩).score * (fViewMinScoreRatio * (1/10))) fViewMinScore ≤
      n.score := by
    rw [List.headD_cons, hsc]
    exact max_le hle le_rfl
  have e : List.filter (fun m : ViewScore => decide
      (max (([n].headD ⟨0, 0⟩).score * (fViewMinScoreRatio * (1/10))) fViewMinScore ≤
        m.score)) [n] = [n] :=
    List.filter_eq_self.2 (fun m hm => by
      rw [List.mem_singleton.1 hm]
      exact decide_eq_true this)
  rw [e, if_neg (List.cons_ne_nil _ _)]

/-- Instance of `InitViews_targets`: two neighbours with the scores 10 and 2, the ratio
3/10 and the floor 2; both are selected. -/
theorem InitViews_targets_witness :
    ([⟨1, 10⟩, ⟨2, 2⟩] : List ViewScore).Pairwise (fun a b => b.score ≤ a.score) ∧
    selectTargets (3/10) 2 [⟨1, 10⟩, ⟨2, 2⟩] NO_ID 0 = [⟨1, 10⟩, ⟨2, 2⟩] := by
  have hs : ([⟨1, 10⟩, ⟨2, 2⟩] : List ViewScore).Pairwise (fun a b => b.score ≤ a.score) := by
    simp
    norm_num
  refine ⟨hs, ?_⟩
  rw [(InitViews_targets (3/10) 2 [⟨1, 10⟩, ⟨2, 2⟩] hs).1]
  simp only [List.headD_cons, List.filter_cons, List.filter_nil]
  norm_num

/-- Counterexample to C23 as stated: with the neighbour scores 10 and 2 (descending), the
ratio 3/10 and the floor 2, the routine selects both neighbours, but only the first has a
score of at least `max(10 * 3/10, 2) = 3`. -/
theorem InitViews_targets_not_spec :
    ([⟨1, 10⟩, ⟨2, 2⟩] : List ViewScore).Pairwise (fun a b => b.score ≤ a.score) ∧
    InitViews (3/10) 2 [⟨1, 10⟩, ⟨2, 2⟩] NO_ID 0 = some [⟨1, 10⟩, ⟨2, 2⟩] ∧
    ([⟨1, 10⟩, ⟨2, 2⟩] : List ViewScore).filter
      (fun n => decide (specMinScore (3/10) 2 [⟨1, 10⟩, ⟨2, 2⟩] ≤ n.score)) = [⟨1, 10⟩] := by
  refine ⟨?_, ?_, ?_⟩
  · simp
    norm_num
  · simp only [InitViews, selectTargets, initMinScore, initTargets, List.headD_cons]
    norm_num
  · simp only [specMinScore, List.headD_cons, List.filter_cons, List.filter_nil]
    norm_num

/-! ## `PointCloudFilter`: two points on one ray -/

/-- The visibility accounting of two points `F` and `B` seen by the same camera, each
visible in the cone of either, `F` nearer than `B`: the query of `F` adds the view count of
`B` to `B`, and the query of `B` subtracts its view count from `F`. -/
theorem pointVisibility_two (env : CloudEnv) (v : Nat) (F B : Point3)
    (hFF : env.Classify v F F = some (env.distance v F))
    (hFB : env.Classify v F B = some (env.distance v B))
    (hBF : env.Classify v B F = some (env.distance v F))
    (hBB : env.Classify v B B = some (env.distance v B))
    (hlt : env.distance v F < env.distance v B)
    (hsF : env.IsDepthSimilar (env.distance v F) (env.distance v F) (1/100) = true)
    (hsB : env.IsDepthSimilar (env.distance v B) (env.distance v B) (1/100) = true)
    (hnFB : env.IsDepthSimilar (env.distance v F) (env.distance v B) (1/100) = false)
    (hnBF : env.IsDepthSimilar (env.distance v B) (env.distance v F) (1/100) = false)
    (hcF : env.Collect v F = [0, 1]) (hcB : env.Collect v B = [0, 1]) :
    pointVisibility env { points := [F, B], pointViews := [[v], [v]] } 0 = -1 ∧
    pointVisibility env { points := [F, B], pointViews := [[v], [v]] } 1 = 1 := by
  have hnot : ¬ env.distance v F > env.distance v B := not_lt.2 (le_of_lt hlt)
  have c1 : ∀ (w : Int) (vis : Nat → Int),
      collectPoint env { points := [F, B], pointViews := [[v], [v]] } v F w vis 0 = vis := by
    intro w vis
    show (match env.Classify v F F with
      | some dist => _
      | none => _) = _
    rw [hFF]
    simp only [hsF, Bool.not_true, Bool.false_eq_true, if_false]
  have c2 : ∀ (w : Int) (vis : Nat → Int),
      collectPoint env { points := [F, B], pointViews := [[v], [v]] } v F w vis 1 =
        Function.update vis 1 (vis 1 + 1) := by
    intro w vis
    show (match env.Classify v F B with
      | some dist => _
      | none => _) = _
    rw [hFB]
    simp only [hnFB, Bool.not_false, if_true, gt_iff_lt, hlt]
    rfl
  have c3 : ∀ (w : Int) (vis : Nat → Int),
      collectPoint env { points := [F, B], pointViews := [[v], [v]] } v B w vis 0 =
        Function.update vis 0 (vis 0 - w) := by
    intro w vis
    show (match env.Classify v B F with
      | some dist => _
      | none => _) = _
    rw [hBF]
    simp only [hnBF, Bool.not_false, if_true, hnot, if_false]
  have c4 : ∀ (w : Int) (vis : Nat → Int),
      collectPoint env { points := [F, B], pointViews := [[v], [v]] } v B w vis 1 = vis := by
    intro w vis
    show (match env.Classify v B B with
      | some dist => _
      | none => _) = _
    rw [hBB]
    simp only [hsB, Bool.not_true, Bool.false_eq_true, if_false]
  have hv : pointVisibility env { points := [F, B], pointViews := [[v], [v]] } =
      Function.update (Function.update (fun _ => (0 : Int)) 1 (0 + 1)) 0 (0 - 1) := by
    show List.foldl _ _ [0, 1] = _
    simp only [List.foldl_cons, List.foldl_nil]
    show List.foldl _ (List.foldl _ _ (env.Collect v F)) (env.Collect v B) = _
    rw [hcF, hcB]
    simp only [List.foldl_cons, List.foldl_nil, List.getD_cons_zero, List.getD_cons_succ,
      List.length_singleton, Nat.cast_one]
    rw [c1, c2, c3, c4]
    rfl
  rw [hv]
  exact ⟨by simp, by simp⟩

/-- C24 (amended): `PointCloudFilter` with `thRemove = 0` on a cloud of two points `F` and
`B` seen by the same camera `v` and lying in the same view cone (each is classified visible,
at its distance, in the cone of either), `F` nearer than `B` and not depth-similar within
1%, ends with `visibility[F] = -1` and `visibility[B] = 1`: it removes the front point `F`
and keeps the behind point `B`. -/
theorem PointCloudFilter_two_points (env : CloudEnv) (v : Nat) (F B : Point3)
    (hFF : env.Classify v F F = some (env.distance v F))
    (hFB : env.Classify v F B = some (env.distance v B))
    (hBF : env.Classify v B F = some (env.distance v F))
    (hBB : env.Classify v B B = some (env.distance v B))
    (hlt : env.distance v F < env.distance v B)
    (hsF : env.IsDepthSimilar (env.distance v F) (env.distance v F) (1/100) = true)
    (hsB : env.IsDepthSimilar (env.distance v B) (env.distance v B) (1/100) = true)
    (hnFB : env.IsDepthSimilar (env.distance v F) (env.distance v B) (1/100) = false)
    (hnBF : env.IsDepthSimilar (env.distance v B) (env.distance v F) (1/100) = false)
    (hcF : env.Collect v F = [0, 1]) (hcB : env.Collect v B = [0, 1]) :
    pointVisibility env { points := [F, B], pointViews := [[v], [v]] } 0 = -1 ∧
    pointVisibility env { points := [F, B], pointViews := [[v], [v]] } 1 = 1 ∧
    PointCloudFilter env { points := [F, B], pointViews := [[v], [v]] } 0 = [1] := by
  obtain ⟨h0, h1⟩ := pointVisibility_two env v F B hFF hFB hBF hBB hlt hsF hsB hnFB hnBF hcF hcB
  refine ⟨h0, h1, ?_⟩
  show List.filter _ [0, 1] = _
  simp only [List.filter_cons, List.filter_nil, h0, h1]
  simp

/-- The premises of the two-point scenario hold for the points `(0,0,1)` and `(0,0,2)` on
the axis of the camera of `axisCloudEnv`. -/
theorem axisCloud_premises :
    axisCloudEnv.Classify 0 ⟨0, 0, 1⟩ ⟨0, 0, 1⟩ = some (axisCloudEnv.distance 0 ⟨0, 0, 1⟩) ∧
    axisCloudEnv.Classify 0 ⟨0, 0, 1⟩ ⟨0, 0, 2⟩ = some (axisCloudEnv.distance 0 ⟨0, 0, 2⟩) ∧
    axisCloudEnv.Classify 0 ⟨0, 0, 2⟩ ⟨0, 0, 1⟩ = some (axisCloudEnv.distance 0 ⟨0, 0, 1⟩) ∧
    axisCloudEnv.Classify 0 ⟨0, 0, 2⟩ ⟨0, 0, 2⟩ = some (axisCloudEnv.distance 0 ⟨0, 0, 2⟩) ∧
    axisCloudEnv.distance 0 ⟨0, 0, 1⟩ < axisCloudEnv.distance 0 ⟨0, 0, 2⟩ ∧
    axisCloudEnv.IsDepthSimilar (axisCloudEnv.distance 0 ⟨0, 0, 1⟩)
      (axisCloudEnv.distance 0 ⟨0, 0, 1⟩) (1/100) = true ∧
    axisCloudEnv.IsDepthSimilar (axisCloudEnv.distance 0 ⟨0, 0, 2⟩)
      (axisCloudEnv.distance 0 ⟨0, 0, 2⟩) (1/100) = true ∧
    axisCloudEnv.IsDepthSimilar (axisCloudEnv.distance 0 ⟨0, 0, 1⟩)
      (axisCloudEnv.distance 0 ⟨0, 0, 2⟩) (1/100) = false ∧
    axisCloudEnv.IsDepthSimilar (axisCloudEnv.distance 0 ⟨0, 0, 2⟩)
      (axisCloudEnv.distance 0 ⟨0, 0, 1⟩) (1/100) = false ∧
    axisCloudEnv.Collect 0 ⟨0, 0, 1⟩ = [0, 1] ∧ axisCloudEnv.Collect 0 ⟨0, 0, 2⟩ = [0, 1] := by
  refine ⟨?_, ?_, ?_, ?_, ?_, ?_, ?_, ?_, ?_, rfl, rfl⟩
  · simp [axisCloudEnv]
  · simp [axisCloudEnv]
  · simp [axisCloudEnv]
  · simp [axisCloudEnv]
  · simp only [axisCloudEnv]
    norm_num
  · simp only [axisCloudEnv, IsDepthSimilar, decide_eq_true_eq]
    norm_num
  · simp only [axisCloudEnv, IsDepthSimilar, decide_eq_true_eq]
    norm_num
  · simp only [axisCloudEnv, IsDepthSimilar, decide_eq_false_iff_not]
    norm_num
  · simp only [axisCloudEnv, IsDepthSimilar, decide_eq_false_iff_not]
    norm_num

/-- Instance of `PointCloudFilter_two_points`: the points `(0,0,1)` and `(0,0,2)` on the
axis of a camera at the origin; only the behind point (index 1) is kept. -/
theorem PointCloudFilter_two_points_witness :
    axisCloudEnv.distance 0 ⟨0, 0, 1⟩ < axisCloudEnv.distance 0 ⟨0, 0, 2⟩ ∧
    PointCloudFilter axisCloudEnv { points := [⟨0, 0, 1⟩, ⟨0, 0, 2⟩], pointViews := [[0], [0]] }
      0 = [1] :=
  ⟨axisCloud_premises.2.2.2.2.1,
    (PointCloudFilter_two_points axisCloudEnv 0 ⟨0, 0, 1⟩ ⟨0, 0, 2⟩ axisCloud_premises.1
      axisCloud_premises.2.1 axisCloud_premises.2.2.1 axisCloud_premises.2.2.2.1
      axisCloud_premises.2.2.2.2.1 axisCloud_premises.2.2.2.2.2.1
      axisCloud_premises.2.2.2.2.2.2.1 axisCloud_premises.2.2.2.2.2.2.2.1
      axisCloud_premises.2.2.2.2.2.2.2.2.1 axisCloud_premises.2.2.2.2.2.2.2.2.2.1
      axisCloud_premises.2.2.2.2.2.2.2.2.2.2).2.2⟩

/-- Counterexample to C24 as stated: for the cloud of the points `(0,0,1)` (index 0, in
front) and `(0,0,2)` (index 1, behind) on the axis of a camera at the origin that sees both,
each visible in the cone of the other and not depth-similar within 1%, `PointCloudFilter`
with `thRemove = 0` removes the front point and keeps the behind point. -/
theorem PointCloudFilter_removes_front :
    axisCloudEnv.Classify 0 ⟨0, 0, 1⟩ ⟨0, 0, 2⟩ = some 2 ∧
    axisCloudEnv.Classify 0 ⟨0, 0, 2⟩ ⟨0, 0, 1⟩ = some 1 ∧
    IsDepthSimilar 1 2 (1/100) = false ∧
    pointVisibility axisCloudEnv axisCloud 0 = -1 ∧
    pointVisibility axisCloudEnv axisCloud 1 = 1 ∧
    0 ∉ PointCloudFilter axisCloudEnv axisCloud 0 ∧
    1 ∈ PointCloudFilter axisCloudEnv axisCloud 0 := by
  obtain ⟨h0, h1⟩ := pointVisibility_two axisCloudEnv 0 ⟨0, 0, 1⟩ ⟨0, 0, 2⟩ axisCloud_premises.1
      axisCloud_premises.2.1 axisCloud_premises.2.2.1 axisCloud_premises.2.2.2.1
      axisCloud_premises.2.2.2.2.1 axisCloud_premises.2.2.2.2.2.1
      axisCloud_premises.2.2.2.2.2.2.1 axisCloud_premises.2.2.2.2.2.2.2.1
      axisCloud_premises.2.2.2.2.2.2.2.2.1 axisCloud_premises.2.2.2.2.2.2.2.2.2.1
      axisCloud_premises.2.2.2.2.2.2.2.2.2.2
  have hk : PointCloudFilter axisCloudEnv axisCloud 0 = [1] := by
    show List.filter _ [0, 1] = _
    simp only [List.filter_cons, List.filter_nil]
    rw [show pointVisibility axisCloudEnv axisCloud 0 = -1 from h0,
      show pointVisibility axisCloudEnv axisCloud 1 = 1 from h1]
    simp
  refine ⟨?_, ?_, ?_, h0, h1, ?_, ?_⟩
  · simp [axisCloudEnv]
  · simp [axisCloudEnv]
  · simp only [IsDepthSimilar, decide_eq_false_iff_not]
    norm_num
  · rw [hk]
    simp
  · rw [hk]
    simp



/-! ## `DenseReconstructionEstimate`: the run of a single worker -/

/-- One iteration of the loop that does not end the routine. -/
theorem DenseReconstructionEstimate_step (env : EstimateEnv) (fuel : Nat)
    (st st' : EstimateState) (evt : Event) (rest : List Event) (hev : st.events = evt :: rest)
    (h : handleEvent env { st with events := rest, handled := st.handled ++ [evt] } evt =
      Sum.inl st') :
    DenseReconstructionEstimate env (fuel + 1) st = DenseReconstructionEstimate env fuel st' := by
  rw [DenseReconstructionEstimate]
  split
  · next h0 => rw [hev] at h0; cases h0
  · next e r h0 =>
    rw [hev] at h0
    cases h0
    rw [h]

/-- The iteration of the loop that ends the routine. -/
theorem DenseReconstructionEstimate_last (env : EstimateEnv) (fuel : Nat)
    (st : EstimateState) (out : Outcome) (evt : Event) (rest : List Event)
    (hev : st.events = evt :: rest)
    (h : handleEvent env { st with events := rest, handled := st.handled ++ [evt] } evt =
      Sum.inr out) :
    DenseReconstructionEstimate env (fuel + 1) st = some out := by
  rw [DenseReconstructionEstimate]
  split
  · next h0 => rw [hev] at h0; cases h0
  · next e r h0 =>
    rw [hev] at h0
    cases h0
    rw [h]

/-- The handler of `EVT_ESTIMATEDEPTHMAP`. -/
theorem handleEvent_estimate (env : EstimateEnv) (st : EstimateState) (i : Nat) :
    handleEvent env st (Event.EstimateDepthMap i) =
      Sum.inl ⟨(if env.OPTIMIZE then Event.OptimizeDepthMap i else Event.SaveDepthMap i) ::
          (st.events ++ [Event.ProcessImage (st.idxImage + 1)]), st.idxImage + 1,
        Function.update st.arrDepthData (env.images.getD i 0)
          (env.Estimate (env.images.getD i 0) st.arrDepthData), st.dmap, st.geo, st.handled⟩ :=
  rfl

/-- The handler of `EVT_OPTIMIZEDEPTHMAP`. -/
theorem handleEvent_optimize (env : EstimateEnv) (st : EstimateState) (i : Nat) :
    handleEvent env st (Event.OptimizeDepthMap i) =
      Sum.inl ⟨Event.SaveDepthMap i :: st.events, st.idxImage,
        Function.update st.arrDepthData (env.images.getD i 0)
          (optimizeDepthMap env (st.arrDepthData (env.images.getD i 0))), st.dmap, st.geo,
        st.handled⟩ :=
  rfl

/-- The handler of `EVT_SAVEDEPTHMAP`. -/
theorem handleEvent_save (env : EstimateEnv) (st : EstimateState) (i : Nat) :
    handleEvent env st (Event.SaveDepthMap i) =
      Sum.inl ⟨st.events, st.idxImage,
        Function.update st.arrDepthData (env.images.getD i 0)
          (env.Release (st.arrDepthData (env.images.getD i 0))),
        (if !(st.arrDepthData (env.images.getD i 0)).depthMap.empty &&
            decide (env.nEstimationGeometricIter < 0) then
          Function.update st.dmap (env.images.getD i 0)
            (some (some (st.arrDepthData (env.images.getD i 0))))
        else st.dmap),
        (if !(st.arrDepthData (env.images.getD i 0)).depthMap.empty &&
            !decide (env.nEstimationGeometricIter < 0) then
          Function.update st.geo (env.images.getD i 0)
            (some (some (st.arrDepthData (env.images.getD i 0))))
        else st.geo), st.handled⟩ :=
  rfl

/-- Saving a depth-map leaves every file loadable and touches only the file of the image. -/
theorem save_dmap_spec (dmap : Nat → Option DMapFile) (idx : Nat) (b : Bool) (dd : DepthData)
    (hload : ∀ j, dmap j ≠ some none) :
    (∀ j, (if b then Function.update dmap idx (some (some dd)) else dmap) j ≠ some none) ∧
    (∀ j, j ≠ idx → (if b then Function.update dmap idx (some (some dd)) else dmap) j = dmap j) ∧
    (if b then Function.update dmap idx (some (some dd)) else dmap) idx =
      if b then some (some dd) else dmap idx := by
  cases b with
  | false => exact ⟨hload, fun _ _ => rfl, rfl⟩
  | true =>
    refine ⟨fun j => ?_, fun j hj => ?_, ?_⟩
    · by_cases hj : j = idx
      · subst hj
        simp
      · simp only [if_true, Function.update_noteq hj]
        exact hload j
    · simp only [if_true, Function.update_noteq hj]
    · simp

/-- The handling of one image by a single worker: from a queue that holds `ProcessImage(i)`
for an image `i` of the list, when every file on disk loads, at most four iterations of the
loop lead to a queue that holds `ProcessImage(i+1)`. -/
theorem estimate_block (env : EstimateEnv) (st : EstimateState) (i : Nat)
    (hi : i < env.images.length) (hev : st.events = [Event.ProcessImage i])
    (hidx : st.idxImage = i) (hload : ∀ idx, st.dmap idx ≠ some none) :
    ∃ k st', 1 ≤ k ∧ k ≤ 4 ∧
      (∀ fuel, DenseReconstructionEstimate env (fuel + k) st =
        DenseReconstructionEstimate env fuel st') ∧
      BlockStep env i st st' := by
  have hnot : ¬ i ≥ env.images.length := by omega
  cases st with
  | mk events idxImage arr dmap geo handled =>
  simp only at hev hidx hload
  subst hev
  subst hidx
  unfold BlockStep
  generalize hidx : env.images.getD idxImage 0 = idx
  have hc : ∀ ev h, depthmapComputed env ⟨ev, idxImage, arr, dmap, geo, h⟩ idx =
      depthmapComputed env ⟨[], idxImage, arr, dmap, geo, handled⟩ idx := fun _ _ => rfl
  generalize hcv : depthmapComputed env ⟨[], idxImage, arr, dmap, geo, handled⟩ idx = c at hc
  generalize hrv : env.InitViews idx (!c)
    (if c = true then -1 else if env.nEstimationGeometricIter ≥ 0 then 1 else 0) (arr idx) = r
  have hP : handleEvent env ⟨[], idxImage, arr, dmap, geo, handled ++ [Event.ProcessImage idxImage]⟩
      (Event.ProcessImage idxImage) =
      if !r.1 then
        Sum.inl ⟨[] ++ [Event.ProcessImage (idxImage + 1)], idxImage + 1,
          Function.update arr idx r.2, dmap, geo, handled ++ [Event.ProcessImage idxImage]⟩
      else if c then
        if env.OPTIMIZE then
          match loadDepthData ((dmap idx).getD none) r.2 with
          | none => Sum.inr (Outcome.exited
              ⟨[], idxImage, Function.update arr idx r.2, dmap, geo,
                handled ++ [Event.ProcessImage idxImage]⟩)
          | some depthData =>
            Sum.inl ⟨(Event.OptimizeDepthMap idxImage :: []) ++
                [Event.ProcessImage (idxImage + 1)], idxImage + 1,
              Function.update arr idx depthData, dmap, geo,
              handled ++ [Event.ProcessImage idxImage]⟩
        else
          Sum.inl ⟨[] ++ [Event.ProcessImage (idxImage + 1)], idxImage + 1,
            Function.update arr idx r.2, dmap, geo, handled ++ [Event.ProcessImage idxImage]⟩
      else
        Sum.inl ⟨Event.EstimateDepthMap idxImage :: [], idxImage,
          Function.update arr idx r.2, dmap, geo, handled ++ [Event.ProcessImage idxImage]⟩ := by
    rw [← hrv, ← hc [] (handled ++ [Event.ProcessImage idxImage]), ← hidx]
    simp only [handleEvent, if_neg hnot]
  cases hr1 : r.1 with
  | false =>
    -- `InitViews` fails: the next image is requested
    rw [hr1] at hP
    simp only [Bool.not_false, if_true] at hP
    refine ⟨1, _, le_refl 1, by omega, fun fuel =>
      DenseReconstructionEstimate_step env fuel _ _ _ _ rfl hP, rfl, rfl,
      ⟨[Event.ProcessImage idxImage], by simp [blockEvents], rfl⟩, hload, fun j hj =>
        ⟨rfl, Function.update_noteq hj _ _⟩, fun hcomp => ?_⟩
    have hct : c = true := (hc _ _).symm.trans hcomp
    subst hct
    simp only [restartFile, hidx]
    simp only [Bool.not_true, if_true] at hrv
    rw [hrv, hr1]
    rfl
  | true =>
    rw [hr1] at hP
    simp only [Bool.not_true, Bool.false_eq_true, if_false] at hP
    cases c with
    | true =>
      simp only [if_true] at hP
      simp only [Bool.not_true, if_true] at hrv
      cases hopt : env.OPTIMIZE with
      | false =>
        -- the depth-map exists and is not optimized
        rw [hopt] at hP
        simp only [Bool.false_eq_true, if_false] at hP
        refine ⟨1, _, le_refl 1, by omega, fun fuel =>
          DenseReconstructionEstimate_step env fuel _ _ _ _ rfl hP, rfl, rfl,
          ⟨[Event.ProcessImage idxImage], by simp [blockEvents], rfl⟩, hload, fun j hj =>
            ⟨rfl, Function.update_noteq hj _ _⟩, fun _ => ?_⟩
        simp only [restartFile, hidx]
        rw [hopt, Bool.and_false]
        rfl
      | true =>
        -- the depth-map exists: it is loaded, optimized and saved
        rw [hopt] at hP
        simp only [if_true] at hP
        have hsome : (dmap idx).isSome = true := by
          have := hcv
          simp only [depthmapComputed, Bool.and_eq_true] at this
          exact this.2
        obtain ⟨f, hf⟩ := Option.isSome_iff_exists.1 hsome
        cases f with
        | none => exact absurd hf (hload idx)
        | some d =>
          have hg : env.nEstimationGeometricIter < 0 := by
            have := hcv
            simp only [depthmapComputed, Bool.and_eq_true, decide_eq_true_eq] at this
            exact this.1.2
          have hl : loadDepthData ((dmap idx).getD none) r.2 =
              some ⟨d.depthMap, d.normalMap, d.confMap, r.2.neighbors, r.2.nImages⟩ := by
            rw [hf]
            rfl
          rw [hl] at hP
          simp only at hP
          generalize hdd : (⟨d.depthMap, d.normalMap, d.confMap, r.2.neighbors,
            r.2.nImages⟩ : DepthData) = dd at hP hl
          obtain ⟨s1, s2, s3⟩ := save_dmap_spec dmap idx
            (!(optimizeDepthMap env dd).depthMap.empty &&
              decide (env.nEstimationGeometricIter < 0)) (optimizeDepthMap env dd) hload
          refine ⟨3, ⟨[Event.ProcessImage (idxImage + 1)], idxImage + 1,
            Function.update (Function.update (Function.update arr idx dd) idx
              (optimizeDepthMap env dd)) idx (env.Release (optimizeDepthMap env dd)),
            (if !(optimizeDepthMap env dd).depthMap.empty &&
                decide (env.nEstimationGeometricIter < 0) then
              Function.update dmap idx (some (some (optimizeDepthMap env dd))) else dmap),
            (if !(optimizeDepthMap env dd).depthMap.empty &&
                !decide (env.nEstimationGeometricIter < 0) then
              Function.update geo idx (some (some (optimizeDepthMap env dd))) else geo),
            handled ++ [Event.ProcessImage idxImage] ++ [Event.OptimizeDepthMap idxImage] ++
              [Event.SaveDepthMap idxImage]⟩, by omega, by omega, fun fuel => ?_, rfl, rfl,
            ⟨[Event.ProcessImage idxImage, Event.OptimizeDepthMap idxImage,
              Event.SaveDepthMap idxImage], by simp [blockEvents], by simp⟩, s1,
            fun j hj => ⟨s2 j hj, ?_⟩, fun _ => ?_⟩
          · rw [DenseReconstructionEstimate_step env (fuel + 2) _ _ _ _ rfl hP,
              DenseReconstructionEstimate_step env (fuel + 1) _ _ _ _ rfl
                (handleEvent_optimize env _ idxImage),
              DenseReconstructionEstimate_step env fuel _ _ _ _ rfl
                (handleEvent_save env _ idxImage)]
            rw [hidx]
            simp only [Function.update_same]
            rfl
          · simp only [Function.update_noteq hj]
          · refine Eq.trans s3 ?_
            simp only [restartFile, hidx]
            rw [hrv, hr1, hopt, hl]
            simp only [Bool.and_self, if_true, decide_eq_true hg, Bool.and_true]
            cases (optimizeDepthMap env dd).depthMap.empty <;> simp
    | false =>
      -- the depth-map is estimated, optimized when asked, and saved
      simp only [Bool.false_eq_true, if_false] at hP
      have hcf : depthmapComputed env ⟨[Event.ProcessImage idxImage], idxImage, arr, dmap, geo,
          handled⟩ idx ≠ true := by
        rw [hc]
        simp
      generalize hdd : env.Estimate idx (Function.update arr idx r.2) = dd
      cases hopt : env.OPTIMIZE with
      | false =>
        obtain ⟨s1, s2, _⟩ := save_dmap_spec dmap idx
          (!dd.depthMap.empty && decide (env.nEstimationGeometricIter < 0)) dd hload
        refine ⟨3, ⟨[Event.ProcessImage (idxImage + 1)], idxImage + 1,
          Function.update (Function.update (Function.update arr idx r.2) idx dd) idx
            (env.Release dd),
          (if !dd.depthMap.empty && decide (env.nEstimationGeometricIter < 0) then
            Function.update dmap idx (some (some dd)) else dmap),
          (if !dd.depthMap.empty && !decide (env.nEstimationGeometricIter < 0) then
            Function.update geo idx (some (some dd)) else geo),
          handled ++ [Event.ProcessImage idxImage] ++ [Event.EstimateDepthMap idxImage] ++
            [Event.SaveDepthMap idxImage]⟩, by omega, by omega, fun fuel => ?_, rfl, rfl,
          ⟨[Event.ProcessImage idxImage, Event.EstimateDepthMap idxImage,
            Event.SaveDepthMap idxImage], by simp [blockEvents, hopt], by simp⟩, s1,
          fun j hj => ⟨s2 j hj, ?_⟩, fun h => absurd h hcf⟩
        · rw [DenseReconstructionEstimate_step env (fuel + 2) _ _ _ _ rfl hP,
            DenseReconstructionEstimate_step env (fuel + 1) _ _ _ _ rfl
              (handleEvent_estimate env _ idxImage)]
          simp only [hopt, Bool.false_eq_true, if_false]
          rw [DenseReconstructionEstimate_step env fuel _ _ _ _ rfl
              (handleEvent_save env _ idxImage)]
          simp only [hidx, hdd, Function.update_same, List.nil_append]
        · simp only [Function.update_noteq hj]
      | true =>
        obtain ⟨s1, s2, _⟩ := save_dmap_spec dmap idx
          (!(optimizeDepthMap env dd).depthMap.empty &&
            decide (env.nEstimationGeometricIter < 0)) (optimizeDepthMap env dd) hload
        refine ⟨4, ⟨[Event.ProcessImage (idxImage + 1)], idxImage + 1,
          Function.update (Function.update (Function.update (Function.update arr idx r.2) idx dd)
            idx (optimizeDepthMap env dd)) idx (env.Release (optimizeDepthMap env dd)),
          (if !(optimizeDepthMap env dd).depthMap.empty &&
              decide (env.nEstimationGeometricIter < 0) then
            Function.update dmap idx (some (some (optimizeDepthMap env dd))) else dmap),
          (if !(optimizeDepthMap env dd).depthMap.empty &&
              !decide (env.nEstimationGeometricIter < 0) then
            Function.update geo idx (some (some (optimizeDepthMap env dd))) else geo),
          handled ++ [Event.ProcessImage idxImage] ++ [Event.EstimateDepthMap idxImage] ++
            [Event.OptimizeDepthMap idxImage] ++ [Event.SaveDepthMap idxImage]⟩,
          by omega, by omega, fun fuel => ?_, rfl, rfl,
          ⟨[Event.ProcessImage idxImage, Event.EstimateDepthMap idxImage,
            Event.OptimizeDepthMap idxImage, Event.SaveDepthMap idxImage],
            by simp [blockEvents, hopt], by simp⟩, s1,
          fun j hj => ⟨s2 j hj, ?_⟩, fun h => absurd h hcf⟩
        · rw [DenseReconstructionEstimate_step env (fuel + 3) _ _ _ _ rfl hP,
            DenseReconstructionEstimate_step env (fuel + 2) _ _ _ _ rfl
              (handleEvent_estimate env _ idxImage)]
          simp only [hopt, if_true]
          rw [DenseReconstructionEstimate_step env (fuel + 1) _ _ _ _ rfl
              (handleEvent_optimize env _ idxImage),
            DenseReconstructionEstimate_step env fuel _ _ _ _ rfl
              (handleEvent_save env _ idxImage)]
          simp only [hidx, hdd, Function.update_same, List.nil_append]
        · simp only [Function.update_noteq hj]

/-- The run of a single worker from a queue that holds `ProcessImage(i)` with `n` images
left, when every file on disk loads: the images are handled one after the other, and the
routine returns on `ProcessImage(N)` within `4 n + 1` iterations of the loop. -/
theorem estimate_run (env : EstimateEnv) (n : Nat) :
    ∀ (i : Nat) (st : EstimateState), i + n = env.images.length →
      st.events = [Event.ProcessImage i] → st.idxImage = i →
      (∀ idx, st.dmap idx ≠ some none) →
      ∃ k sN out, k ≤ 4 * n + 1 ∧ BlockSteps env i n st sN ∧
        (∀ fuel, k ≤ fuel →
          DenseReconstructionEstimate env fuel st = some (Outcome.returned out)) ∧
        out.handled = sN.handled ++ [Event.ProcessImage env.images.length] ∧
        out.dmap = sN.dmap := by
  induction n with
  | zero =>
    intro i st hin hev hidx _
    have hi : i = env.images.length := by omega
    subst hi
    have hP : handleEvent env
        { st with events := [],
                  handled := st.handled ++ [Event.ProcessImage env.images.length] }
        (Event.ProcessImage env.images.length) =
        Sum.inr (Outcome.returned
          (if env.nMaxThreads > 1 then
            { st with events := [] ++ [Event.Close],
                      handled := st.handled ++ [Event.ProcessImage env.images.length] }
          else
            { st with events := [],
                      handled := st.handled ++ [Event.ProcessImage env.images.length] })) := by
      simp only [handleEvent, ge_iff_le, le_refl, if_true]
    refine ⟨1, st,
      (if env.nMaxThreads > 1 then
        { st with events := [] ++ [Event.Close],
                  handled := st.handled ++ [Event.ProcessImage env.images.length] }
      else
        { st with events := [],
                  handled := st.handled ++ [Event.ProcessImage env.images.length] }),
      by omega, rfl, fun fuel hf => ?_, ?_, ?_⟩
    · obtain ⟨f, rfl⟩ : ∃ f, fuel = f + 1 := ⟨fuel - 1, by omega⟩
      exact DenseReconstructionEstimate_last env f st _ _ _ hev hP
    · split_ifs <;> rfl
    · split_ifs <;> rfl
  | succ n ih =>
    intro i st hin hev hidx hload
    obtain ⟨k1, mid, _, hk1, hrun1, hblock⟩ := estimate_block env st i (by omega) hev hidx hload
    obtain ⟨k2, sN, out, hk2, hsteps, hrun2, hlog, hd⟩ :=
      ih (i + 1) mid (by omega) hblock.1 hblock.2.1 hblock.2.2.2.1
    refine ⟨k2 + k1, sN, out, by omega, ⟨mid, hblock, hsteps⟩, fun fuel hf => ?_, hlog, hd⟩
    obtain ⟨f, rfl⟩ : ∃ f, fuel = f + k1 := ⟨fuel - k1, by omega⟩
    rw [hrun1 f]
    exact hrun2 f (by omega)

/-- The log of the handling of `n` images is a sequence of blocks. -/
theorem BlockSteps_trace (env : EstimateEnv) (n : Nat) :
    ∀ (i : Nat) (st sN : EstimateState), BlockSteps env i n st sN →
      ∃ l, TraceBlocks env.OPTIMIZE i n l ∧ sN.handled = st.handled ++ l := by
  induction n with
  | zero =>
    intro i st sN h
    refine ⟨[], rfl, ?_⟩
    rw [show sN = st from h, List.append_nil]
  | succ n ih =>
    intro i st sN h
    obtain ⟨mid, hb, hs⟩ := h
    obtain ⟨b, hbm, hbl⟩ := hb.2.2.1
    obtain ⟨l, hl, hlog⟩ := ih (i + 1) mid sN hs
    refine ⟨b ++ l, ⟨b, l, hbm, rfl, hl⟩, ?_⟩
    rw [hlog, hbl, List.append_assoc]

/-- Every block starts with its `ProcessImage` event and holds no other one. -/
theorem blockEvents_head (OPTIMIZE : Bool) (i : Nat) (b : List Event)
    (hb : b ∈ blockEvents OPTIMIZE i) :
    (∃ t, b = Event.ProcessImage i :: t) ∧
    b.filter Event.isProcessImage = [Event.ProcessImage i] := by
  simp only [blockEvents, List.mem_cons, List.mem_singleton, List.not_mem_nil, or_false] at hb
  rcases hb with h | h | h
  · subst h
    exact ⟨⟨_, rfl⟩, rfl⟩
  · subst h
    exact ⟨⟨_, rfl⟩, rfl⟩
  · subst h
    cases OPTIMIZE <;> exact ⟨⟨_, rfl⟩, rfl⟩

/-- A sequence of blocks followed by the next `ProcessImage` event starts with the
`ProcessImage` event of its first image. -/
theorem TraceBlocks_head (OPTIMIZE : Bool) (n : Nat) :
    ∀ (i : Nat) (l : List Event), TraceBlocks OPTIMIZE i n l →
      ∃ t, l ++ [Event.ProcessImage (i + n)] = Event.ProcessImage i :: t := by
  cases n with
  | zero =>
    intro i l h
    rw [show l = [] from h]
    exact ⟨[], rfl⟩
  | succ n =>
    intro i l h
    obtain ⟨b, rest, hb, hl, _⟩ := h
    obtain ⟨t, ht⟩ := (blockEvents_head OPTIMIZE i b hb).1
    rw [hl, ht]
    exact ⟨_, rfl⟩

/-- The `ProcessImage` events of a sequence of blocks followed by the next `ProcessImage`
event are those of the images `i`, ..., `i + n`, in this order. -/
theorem TraceBlocks_process (OPTIMIZE : Bool) (n : Nat) :
    ∀ (i : Nat) (l : List Event), TraceBlocks OPTIMIZE i n l →
      (l ++ [Event.ProcessImage (i + n)]).filter Event.isProcessImage =
        (List.range' i (n + 1)).map Event.ProcessImage := by
  induction n with
  | zero =>
    intro i l h
    rw [show l = [] from h]
    rfl
  | succ n ih =>
    intro i l h
    obtain ⟨b, rest, hb, hl, hr⟩ := h
    have := ih (i + 1) rest hr
    rw [hl, List.append_assoc, List.filter_append, (blockEvents_head OPTIMIZE i b hb).2,
      show i + (n + 1) = i + 1 + n by omega, this, List.range'_succ i (n + 1)]
    rfl

/-- In a sequence of blocks followed by the next `ProcessImage` event, an estimated image
`j` has its events in a row: `ProcessImage(j)`, `EstimateDepthMap(j)`, `OptimizeDepthMap(j)`
when the bit `OPTIMIZE` is set, `SaveDepthMap(j)`, `ProcessImage(j+1)`. -/
theorem TraceBlocks_estimated (OPTIMIZE : Bool) (n : Nat) :
    ∀ (i : Nat) (l : List Event), TraceBlocks OPTIMIZE i n l →
      ∀ j, Event.EstimateDepthMap j ∈ l ++ [Event.ProcessImage (i + n)] →
        ([Event.ProcessImage j, Event.EstimateDepthMap j] ++
          (if OPTIMIZE then [Event.OptimizeDepthMap j] else []) ++
          [Event.SaveDepthMap j, Event.ProcessImage (j + 1)]) <:+:
          (l ++ [Event.ProcessImage (i + n)]) := by
  induction n with
  | zero =>
    intro i l h j hj
    rw [show l = [] from h] at hj
    simp at hj
  | succ n ih =>
    intro i l h j hj
    obtain ⟨b, rest, hb, hl, hr⟩ := h
    obtain ⟨t, ht⟩ := TraceBlocks_head OPTIMIZE n (i + 1) rest hr
    have hsplit : l ++ [Event.ProcessImage (i + (n + 1))] =
        b ++ (rest ++ [Event.ProcessImage (i + 1 + n)]) := by
      rw [hl, List.append_assoc, show i + (n + 1) = i + 1 + n by omega]
    rw [hsplit] at hj ⊢
    rcases List.mem_append.1 hj with hjb | hjr
    · simp only [blockEvents, List.mem_cons, List.mem_singleton, List.not_mem_nil,
        or_false] at hb
      rcases hb with h1 | h1 | h1
      · subst h1
        simp at hjb
      · subst h1
        simp at hjb
      · subst h1
        have hji : j = i := by
          cases OPTIMIZE <;> simp at hjb <;> exact hjb
        subst hji
        rw [ht]
        refine ⟨[], t, ?_⟩
        cases OPTIMIZE <;> simp
    · obtain ⟨u, v, huv⟩ := ih (i + 1) rest hr j hjr
      exact ⟨b ++ u, v, by rw [← huv]; simp [List.append_assoc]⟩

/-- C25 (amended): run with a single worker on `N` images from the initial queue
`[ProcessImage(0)]`, when every depth-map file on disk loads (a file that does not load makes
the routine call `exit`), `DenseReconstructionEstimate` terminates within `4 N + 1`
iterations for every outcome of `InitViews` and of the pre-computed-map check; it returns;
the `ProcessImage` events it handles are `ProcessImage(0)`, ..., `ProcessImage(N)`, each
once and in this order; the last event it handles is `ProcessImage(N)`; and for every image
`j` that is estimated it handles `ProcessImage(j)`, `EstimateDepthMap(j)`,
`OptimizeDepthMap(j)` if the bit `OPTIMIZE` is set, `SaveDepthMap(j)` and
`ProcessImage(j+1)` one right after the other. -/
theorem DenseReconstructionEstimate_trace (env : EstimateEnv) (st : EstimateState)
    (hev : st.events = [Event.ProcessImage 0]) (hidx : st.idxImage = 0)
    (hlog : st.handled = []) (hload : ∀ idx, st.dmap idx ≠ some none) :
    ∃ k out, k ≤ 4 * env.images.length + 1 ∧
      (∀ fuel, k ≤ fuel →
        DenseReconstructionEstimate env fuel st = some (Outcome.returned out)) ∧
      out.handled.filter Event.isProcessImage =
        (List.range (env.images.length + 1)).map Event.ProcessImage ∧
      out.handled.getLast? = some (Event.ProcessImage env.images.length) ∧
      ∀ j, Event.EstimateDepthMap j ∈ out.handled →
        ([Event.ProcessImage j, Event.EstimateDepthMap j] ++
          (if env.OPTIMIZE then [Event.OptimizeDepthMap j] else []) ++
          [Event.SaveDepthMap j, Event.ProcessImage (j + 1)]) <:+: out.handled := by
  obtain ⟨k, sN, out, hk, hsteps, hrun, hout, _⟩ :=
    estimate_run env env.images.length 0 st (by omega) hev hidx hload
  obtain ⟨l, hl, hlogN⟩ := BlockSteps_trace env env.images.length 0 st sN hsteps
  rw [hlog, List.nil_append] at hlogN
  rw [hlogN] at hout
  refine ⟨k, out, hk, hrun, ?_, ?_, ?_⟩
  · rw [hout, List.range_eq_range']
    have := TraceBlocks_process env.OPTIMIZE env.images.length 0 l hl
    rw [Nat.zero_add] at this
    exact this
  · rw [hout, List.getLast?_concat]
  · intro j hj
    rw [hout] at hj ⊢
    have := TraceBlocks_estimated env.OPTIMIZE env.images.length 0 l hl j
    rw [Nat.zero_add] at this
    exact this hj

/-- Instance of `DenseReconstructionEstimate_trace`: one image without a depth-map file,
with the bits `OPTIMIZE` and `FILL_GAPS` set. -/
theorem DenseReconstructionEstimate_trace_witness :
    (restartState none crossImage).events = [Event.ProcessImage 0] ∧
    (∀ idx, (restartState none crossImage).dmap idx ≠ some none) ∧
    ∃ k out, k ≤ 4 * (restartEnv true false true).images.length + 1 ∧
      (∀ fuel, k ≤ fuel →
        DenseReconstructionEstimate (restartEnv true false true) fuel
          (restartState none crossImage) = some (Outcome.returned out)) ∧
      out.handled.filter Event.isProcessImage =
        (List.range ((restartEnv true false true).images.length + 1)).map
          Event.ProcessImage ∧
      out.handled.getLast? =
        some (Event.ProcessImage (restartEnv true false true).images.length) ∧
      ∀ j, Event.EstimateDepthMap j ∈ out.handled →
        ([Event.ProcessImage j, Event.EstimateDepthMap j] ++
          (if (restartEnv true false true).OPTIMIZE then [Event.OptimizeDepthMap j] else []) ++
          [Event.SaveDepthMap j, Event.ProcessImage (j + 1)]) <:+: out.handled :=
  ⟨rfl, fun _ h => Option.noConfusion h,
    DenseReconstructionEstimate_trace (restartEnv true false true)
      (restartState none crossImage) rfl rfl rfl (fun _ h => Option.noConfusion h)⟩

/-- Counterexample to C25 as stated: with one image whose depth-map file exists but does not
load, and the bit `OPTIMIZE` set, the routine calls `exit` while it handles
`ProcessImage(0)`; it never returns and never handles `ProcessImage(1)`. -/
theorem DenseReconstructionEstimate_exits :
    (∀ fuel out, DenseReconstructionEstimate (restartEnv true false true) fuel
        (restartState (some none) crossImage) ≠ some (Outcome.returned out)) ∧
    (∀ fuel, DenseReconstructionEstimate (restartEnv true false true) (fuel + 1)
        (restartState (some none) crossImage) =
      some (Outcome.exited
        { events := []
          idxImage := 0
          arrDepthData := Function.update (fun _ => crossImage) 0 crossImage
          dmap := fun _ => some none
          geo := fun _ => none
          handled := [Event.ProcessImage 0] })) := by
  have h : ∀ fuel, DenseReconstructionEstimate (restartEnv true false true) (fuel + 1)
      (restartState (some none) crossImage) =
      some (Outcome.exited
        { events := []
          idxImage := 0
          arrDepthData := Function.update (fun _ => crossImage) 0 crossImage
          dmap := fun _ => some none
          geo := fun _ => none
          handled := [Event.ProcessImage 0] }) := by
    intro fuel
    refine DenseReconstructionEstimate_last _ fuel _ _ (Event.ProcessImage 0) [] rfl ?_
    simp [handleEvent, restartEnv, restartState, depthmapComputed, loadDepthData]
  refine ⟨fun fuel out => ?_, h⟩
  cases fuel with
  | zero =>
    intro h0
    simp [DenseReconstructionEstimate] at h0
  | succ f =>
    rw [h f]
    intro h0
    cases h0

/-- The handling of images other than the image `idx` leaves the file and the depth data of
`idx` as they are. -/
theorem BlockSteps_frame (env : EstimateEnv) (n : Nat) :
    ∀ (i : Nat) (st sN : EstimateState), BlockSteps env i n st sN →
      ∀ idx, (∀ m, i ≤ m → m < i + n → env.images.getD m 0 ≠ idx) →
        sN.dmap idx = st.dmap idx ∧ sN.arrDepthData idx = st.arrDepthData idx := by
  induction n with
  | zero =>
    intro i st sN h idx _
    rw [show sN = st from h]
    exact ⟨rfl, rfl⟩
  | succ n ih =>
    intro i st sN h idx hne
    obtain ⟨mid, hb, hs⟩ := h
    obtain ⟨h1, h2⟩ := hb.2.2.2.2.1 idx (hne i (le_refl i) (by omega)).symm
    obtain ⟨h3, h4⟩ := ih (i + 1) mid sN hs idx (fun m hm1 hm2 => hne m (by omega) (by omega))
    exact ⟨h3.trans h1, h4.trans h2⟩

/-- The handling of `n` images splits at each of them. -/
theorem BlockSteps_split (env : EstimateEnv) (n : Nat) :
    ∀ (i : Nat) (st sN : EstimateState), BlockSteps env i n st sN →
      ∀ j, i ≤ j → j < i + n →
        ∃ a b, BlockSteps env i (j - i) st a ∧ BlockStep env j a b ∧
          BlockSteps env (j + 1) (i + n - (j + 1)) b sN := by
  induction n with
  | zero =>
    intro i st sN _ j h1 h2
    omega
  | succ n ih =>
    intro i st sN h j h1 h2
    obtain ⟨mid, hb, hs⟩ := h
    by_cases hji : j = i
    · subst hji
      refine ⟨st, mid, ?_, hb, ?_⟩
      · rw [Nat.sub_self]
        rfl
      · rw [show j + (n + 1) - (j + 1) = n by omega]
        exact hs
    · obtain ⟨a, b, ha, hab, hbs⟩ := ih (i + 1) mid sN hs j (by omega) (by omega)
      refine ⟨a, b, ?_, hab, ?_⟩
      · rw [show j - i = (j - (i + 1)) + 1 by omega]
        exact ⟨mid, hb, ha⟩
      · rw [show i + (n + 1) - (j + 1) = i + 1 + n - (j + 1) by omega]
        exact hbs

/-- Restart on an existing depth-map: run with a single worker on a list of distinct images
from the initial queue `[ProcessImage(0)]`, when every file on disk loads, the routine
returns, and the file `dmap` of an image whose file existed is `restartFile` at the end. -/
theorem restart_run (env : EstimateEnv) (st : EstimateState) (j : Nat)
    (hj : j < env.images.length) (hnodup : env.images.Nodup)
    (hev : st.events = [Event.ProcessImage 0]) (hidx : st.idxImage = 0)
    (hload : ∀ idx, st.dmap idx ≠ some none)
    (hcomp : depthmapComputed env st (env.images.getD j 0) = true) :
    ∃ k out, k ≤ 4 * env.images.length + 1 ∧
      (∀ fuel, k ≤ fuel →
        DenseReconstructionEstimate env fuel st = some (Outcome.returned out)) ∧
      out.dmap (env.images.getD j 0) = restartFile env st j := by
  obtain ⟨k, sN, out, hk, hsteps, hrun, _, hd⟩ :=
    estimate_run env env.images.length 0 st (by omega) hev hidx hload
  obtain ⟨a, b, ha, hab, hbs⟩ :=
    BlockSteps_split env env.images.length 0 st sN hsteps j (Nat.zero_le j) (by omega)
  have hne : ∀ m, m < env.images.length → m ≠ j →
      env.images.getD m 0 ≠ env.images.getD j 0 := by
    intro m hm hmj heq
    rw [List.getD_eq_getElem _ _ hm, List.getD_eq_getElem _ _ hj] at heq
    exact hmj ((hnodup.getElem_inj_iff).1 heq)
  obtain ⟨a1, a2⟩ := BlockSteps_frame env (j - 0) 0 st a ha (env.images.getD j 0)
    (fun m _ hm => hne m (by omega) (by omega))
  obtain ⟨b1, _⟩ := BlockSteps_frame env _ (j + 1) b sN hbs (env.images.getD j 0)
    (fun m hm1 hm2 => hne m (by omega) (by omega))
  have hca : depthmapComputed env a (env.images.getD j 0) = true := by
    rw [← hcomp]
    simp only [depthmapComputed, a1]
  have hfile : restartFile env a j = restartFile env st j := by
    simp only [restartFile, a1, a2]
  refine ⟨k, out, hk, hrun, ?_⟩
  rw [hd, b1, hab.2.2.2.2.2 hca, hfile]

/-- C26 (amended): when the estimate phase is run (single worker, distinct images, every
file on disk loads) on an image whose `.dmap` already exists, in PatchMatch mode without
geometric iteration, the routine returns and the file `dmap` of the image is, at the end:
the file before the run when the bit `OPTIMIZE` is clear or `InitViews` fails, and else the
loaded maps after `RemoveSmallSegments` (if `REMOVE_SPECKLES`) and `GapInterpolation` (if
`FILL_GAPS`), unless the resulting depth-map is empty; so the file is the one before the
run whenever those maps are a fixed point of the enabled filters. -/
theorem restart_dmap (env : EstimateEnv) (st : EstimateState) (j : Nat) (d : DepthData)
    (hj : j < env.images.length) (hnodup : env.images.Nodup)
    (hev : st.events = [Event.ProcessImage 0]) (hidx : st.idxImage = 0)
    (hload : ∀ idx, st.dmap idx ≠ some none)
    (hmode : env.nFusionMode ≥ 0) (hgeo : env.nEstimationGeometricIter < 0)
    (hfile : st.dmap (env.images.getD j 0) = some (some d)) :
    ∃ k out, k ≤ 4 * env.images.length + 1 ∧
      (∀ fuel, k ≤ fuel →
        DenseReconstructionEstimate env fuel st = some (Outcome.returned out)) ∧
      out.dmap (env.images.getD j 0) =
        (if (env.InitViews (env.images.getD j 0) false (-1)
              (st.arrDepthData (env.images.getD j 0))).1 = true ∧ env.OPTIMIZE = true ∧
            (optimizeDepthMap env
              ⟨d.depthMap, d.normalMap, d.confMap,
                (env.InitViews (env.images.getD j 0) false (-1)
                  (st.arrDepthData (env.images.getD j 0))).2.neighbors,
                (env.InitViews (env.images.getD j 0) false (-1)
                  (st.arrDepthData (env.images.getD j 0))).2.nImages⟩).depthMap.empty = false
          then
            some (some (optimizeDepthMap env
              ⟨d.depthMap, d.normalMap, d.confMap,
                (env.InitViews (env.images.getD j 0) false (-1)
                  (st.arrDepthData (env.images.getD j 0))).2.neighbors,
                (env.InitViews (env.images.getD j 0) false (-1)
                  (st.arrDepthData (env.images.getD j 0))).2.nImages⟩))
          else st.dmap (env.images.getD j 0)) ∧
      (env.OPTIMIZE = false → out.dmap (env.images.getD j 0) = some (some d)) ∧
      (optimizeDepthMap env
          ⟨d.depthMap, d.normalMap, d.confMap,
            (env.InitViews (env.images.getD j 0) false (-1)
              (st.arrDepthData (env.images.getD j 0))).2.neighbors,
            (env.InitViews (env.images.getD j 0) false (-1)
              (st.arrDepthData (env.images.getD j 0))).2.nImages⟩ = d →
        out.dmap (env.images.getD j 0) = some (some d)) := by
  have hcomp : depthmapComputed env st (env.images.getD j 0) = true := by
    unfold depthmapComputed
    rw [hfile, decide_eq_true hmode, decide_eq_true hgeo]
    rfl
  obtain ⟨k, out, hk, hrun, hout⟩ := restart_run env st j hj hnodup hev hidx hload hcomp
  generalize hidx' : env.images.getD j 0 = idx at hfile hout ⊢
  have hr : restartFile env st j =
      (if (env.InitViews idx false (-1) (st.arrDepthData idx)).1 = true ∧ env.OPTIMIZE = true ∧
          (optimizeDepthMap env
            ⟨d.depthMap, d.normalMap, d.confMap,
              (env.InitViews idx false (-1) (st.arrDepthData idx)).2.neighbors,
              (env.InitViews idx false (-1) (st.arrDepthData idx)).2.nImages⟩).depthMap.empty =
            false
        then
          some (some (optimizeDepthMap env
            ⟨d.depthMap, d.normalMap, d.confMap,
              (env.InitViews idx false (-1) (st.arrDepthData idx)).2.neighbors,
              (env.InitViews idx false (-1) (st.arrDepthData idx)).2.nImages⟩))
        else st.dmap idx) := by
    simp only [restartFile, hidx', hfile, loadDepthData, Option.getD_some, Option.map_some']
    generalize env.InitViews idx false (-1) (st.arrDepthData idx) = r
    cases r.1 <;> cases env.OPTIMIZE <;> simp
    cases (optimizeDepthMap env
      ⟨d.depthMap, d.normalMap, d.confMap, r.2.neighbors, r.2.nImages⟩).depthMap.empty <;> simp
  rw [hr] at hout
  refine ⟨k, out, hk, hrun, hout, fun hopt => ?_, fun hfix => ?_⟩
  · rw [hout, if_neg (fun h => by rw [hopt] at h; exact Bool.noConfusion h.2.1), hfile]
  · rw [hout]
    split_ifs
    · rw [hfix]
    · exact hfile

/-- Instance of `restart_dmap`: with the bit `OPTIMIZE` clear the file of the single image
is the one before the run. -/
theorem restart_dmap_witness :
    (restartState (some (some crossImage)) crossImage).dmap
      ((restartEnv false false false).images.getD 0 0) = some (some crossImage) ∧
    ∃ k out, k ≤ 4 * (restartEnv false false false).images.length + 1 ∧
      (∀ fuel, k ≤ fuel →
        DenseReconstructionEstimate (restartEnv false false false) fuel
          (restartState (some (some crossImage)) crossImage) = some (Outcome.returned out)) ∧
      out.dmap ((restartEnv false false false).images.getD 0 0) = some (some crossImage) := by
  obtain ⟨k, out, hk, hrun, _, h2, _⟩ := restart_dmap (restartEnv false false false)
    (restartState (some (some crossImage)) crossImage) 0 crossImage (by decide)
    (by simp [restartEnv]) rfl rfl (fun _ h => by simp [restartState] at h) (by decide)
    (by decide) rfl
  exact ⟨rfl, k, out, hk, hrun, h2 rfl⟩

/-- A second run of `GapInterpolation` on `crossImage` fills the pixel `(1,1)`, which the
first run leaves invalid; the depth-map keeps its size. -/
theorem crossFilled_refilled :
    crossFilled.depthMap.pix ⟨1, 1⟩ = 0 ∧
    0 < (GapInterpolation IsDepthSimilar exNormal2Dir exDir2Normal 100 1
      crossFilled).depthMap.pix ⟨1, 1⟩ ∧
    (GapInterpolation IsDepthSimilar exNormal2Dir exDir2Normal 100 1
      crossFilled).depthMap.empty = false := by
  obtain ⟨v0, v1, v2⟩ := crossImage_once
  have hsG : SameShape crossFilled crossImage :=
    (gapCols_shape _ _ _ _ _ _).shape_trans (gapRows_shape _ _ _ _ _ _)
  have hsGG : SameShape (GapInterpolation IsDepthSimilar exNormal2Dir exDir2Normal 100 1
      crossFilled) crossFilled :=
    (gapCols_shape _ _ _ _ _ _).shape_trans (gapRows_shape _ _ _ _ _ _)
  change crossFilled.depthMap.pix ⟨0, 1⟩ = 1 at v0
  change crossFilled.depthMap.pix ⟨1, 1⟩ = 0 at v1
  change crossFilled.depthMap.pix ⟨2, 1⟩ = 1 at v2
  generalize crossFilled = G at v0 v1 v2 hsG hsGG ⊢
  have hc : G.depthMap.cols = 3 := hsG.1
  have hr : G.depthMap.rows = 3 := hsG.2.1
  have q0 : rowPixel 1 0 = ⟨0, 1⟩ := by simp [rowPixel]
  have q1 : rowPixel 1 1 = ⟨1, 1⟩ := by simp [rowPixel]
  have q2 : rowPixel 1 2 = ⟨2, 1⟩ := by simp [rowPixel]
  have hf : FillableRun (fun d0 d1 => IsDepthSimilar d0 d1 (100 * (5/2))) 1 3 (rowPixel 1)
      G 1 2 := by
    refine ⟨le_refl 1, by omega, by omega, by omega, ?_, ?_, ?_, ?_⟩
    · rw [q0, v0]
      exact zero_lt_one
    · rw [q2, v2]
      exact zero_lt_one
    · intro j j1 j2
      have : j = 1 := by omega
      subst this
      rw [q1, v1]
    · rw [q0, q2, v0, v2]
      simp only [IsDepthSimilar, decide_eq_true_eq]
      norm_num
  have hrows : 0 < (gapRows IsDepthSimilar exNormal2Dir exDir2Normal 100 1 G).depthMap.pix
      (rowPixel 1 1) := by
    have e : gapRows IsDepthSimilar exNormal2Dir exDir2Normal 100 1 G =
        gapPass (fun d0 d1 => IsDepthSimilar d0 d1 (100 * (5/2))) exNormal2Dir exDir2Normal 1
          G.depthMap.rows G.depthMap.cols rowPixel G := rfl
    rw [e, hc, hr]
    exact ((gapPass_spec _ exNormal2Dir exDir2Normal 1 3 rowPixel rowPixel_inj G 3).2.2 1
      (by omega) 1 2 hf 1 (le_refl 1) (by omega)).pos hf (le_refl 1) (by omega)
  rw [q1] at hrows
  have hcols : (gapCols IsDepthSimilar exNormal2Dir exDir2Normal 100 1
      (gapRows IsDepthSimilar exNormal2Dir exDir2Normal 100 1 G)).depthMap.pix ⟨1, 1⟩ =
      (gapRows IsDepthSimilar exNormal2Dir exDir2Normal 100 1 G).depthMap.pix ⟨1, 1⟩ :=
    (gapPass_of_valid (fun d0 d1 => IsDepthSimilar d0 d1 (100 * (5/2)))
      exNormal2Dir exDir2Normal 1
      (gapRows IsDepthSimilar exNormal2Dir exDir2Normal 100 1 G).depthMap.rows
      colPixel colPixel_inj
      (gapRows IsDepthSimilar exNormal2Dir exDir2Normal 100 1 G)
      (gapRows IsDepthSimilar exNormal2Dir exDir2Normal 100 1 G).depthMap.cols ⟨1, 1⟩ hrows).1
  refine ⟨v1, ?_, ?_⟩
  · show 0 < (gapCols IsDepthSimilar exNormal2Dir exDir2Normal 100 1
      (gapRows IsDepthSimilar exNormal2Dir exDir2Normal 100 1 G)).depthMap.pix ⟨1, 1⟩
    rw [hcols]
    exact hrows
  · unfold TImage.empty
    rw [hsGG.1, hsGG.2.1, hc, hr]
    rfl

/-- Counterexample to C26 as stated: with the bits `OPTIMIZE` and `FILL_GAPS` set, the
estimate phase run on one image whose `.dmap` holds the maps that `GapInterpolation` made of
`crossImage` returns with a file whose depth-map differs from the one before the run at the
pixel `(1,1)`. -/
theorem restart_changes_dmap :
    (restartState (some (some crossFilled)) crossFilled).dmap 0 = some (some crossFilled) ∧
    ∃ out d,
      (∀ fuel, 5 ≤ fuel →
        DenseReconstructionEstimate (restartEnv true false true) fuel
          (restartState (some (some crossFilled)) crossFilled) = some (Outcome.returned out)) ∧
      out.dmap 0 = some (some d) ∧
      d.depthMap.pix ⟨1, 1⟩ ≠ crossFilled.depthMap.pix ⟨1, 1⟩ := by
  obtain ⟨k, out, hk, hrun, hout⟩ := restart_run (restartEnv true false true)
    (restartState (some (some crossFilled)) crossFilled) 0 (by decide)
    (by simp [restartEnv]) rfl rfl (fun _ h => by simp [restartState] at h) rfl
  obtain ⟨w1, w2, w3⟩ := crossFilled_refilled
  have hfile : restartFile (restartEnv true false true)
      (restartState (some (some crossFilled)) crossFilled) 0 =
      if (GapInterpolation IsDepthSimilar exNormal2Dir exDir2Normal 100 1
          crossFilled).depthMap.empty then some (some crossFilled)
      else some (some (GapInterpolation IsDepthSimilar exNormal2Dir exDir2Normal 100 1
          crossFilled)) := rfl
  rw [w3] at hfile
  refine ⟨rfl, out, _, fun fuel hf => hrun fuel (le_trans hk hf), hout.trans hfile, ?_⟩
  rw [w1]
  exact ne_of_gt w2

/-! ## `FuseDepthMaps`: the claim grids -/

/-- C30 fails on the code for pixels whose coordinates do not fit the 16-bit fields of
`Proj`: in a scene of images 65537 pixels wide, after the reference pixel `(65536, 0)` of
image 0 is processed (its candidate is discarded), the cloud is empty, yet the claim grid of
image 0 holds at `(65536, 0)` the value 0, which is neither the sentinel `NO_ID` nor the
index of an existing point. -/
theorem fusePixel_claim_dangling :
    (fusePixel wideEnv false false false 0 wideState ⟨65536, 0⟩).pointcloud.points = [] ∧
    ((fusePixel wideEnv false false false 0 wideState ⟨65536, 0⟩).arrDepthIdx 0).pix
      ⟨65536, 0⟩ ≠ NO_ID ∧
    ¬ ((fusePixel wideEnv false false false 0 wideState ⟨65536, 0⟩).arrDepthIdx 0).pix
        ⟨65536, 0⟩ <
      (fusePixel wideEnv false false false 0 wideState ⟨65536, 0⟩).pointcloud.points.length := by
  have hacc : (fuseAcc wideEnv false false false 0 wideState ⟨65536, 0⟩).views = [0] ∧
      (fuseAcc wideEnv false false false 0 wideState ⟨65536, 0⟩).pointProjs =
        [Proj.ofImageRef ⟨65536, 0⟩] ∧
      (fuseAcc wideEnv false false false 0 wideState ⟨65536, 0⟩).arrDepthIdx =
        Function.update wideState.arrDepthIdx 0
          ((wideState.arrDepthIdx 0).set ⟨65536, 0⟩ 0) := ⟨rfl, rfl, rfl⟩
  have hd : (wideState.arrDepthData 0).depthMap.pix ⟨65536, 0⟩ ≠ 0 := by
    show (1 : ℚ) ≠ 0
    exact one_ne_zero
  have hlt : (fuseAcc wideEnv false false false 0 wideState ⟨65536, 0⟩).views.length <
      min wideEnv.nMinViewsFuse wideEnv.images.length := by
    rw [hacc.1]
    decide
  have hgrid : ((fusePixel wideEnv false false false 0 wideState ⟨65536, 0⟩).arrDepthIdx 0).pix
      ⟨65536, 0⟩ = 0 := by
    rw [fusePixel_of_discarded _ _ _ _ _ _ _ hd rfl hlt]
    dsimp only
    rw [hacc.1, hacc.2.1, hacc.2.2]
    have hp : Proj.ofImageRef ⟨65536, 0⟩ = ⟨0, 0⟩ := by decide
    rw [hp]
    simp [releaseClaims, Proj.GetCoord, TImage.set, Function.update]
  have hpts : (fusePixel wideEnv false false false 0 wideState ⟨65536, 0⟩).pointcloud.points =
      [] := by
    rw [fusePixel_of_discarded _ _ _ _ _ _ _ hd rfl hlt]
    rfl
  refine ⟨hpts, ?_, ?_⟩
  · rw [hgrid]
    unfold NO_ID
    omega
  · rw [hgrid, hpts]
    simp

end MVS
